import Mathlib

/-!
# WSDB storage engine: buffer pool, replacers, page and table handles

A shallow embedding of `storage/buffer/buffer_pool_manager.cpp`,
`storage/buffer/replacer/lru_replacer.cpp`, `storage/buffer/replacer/lru_k_replacer.cpp`,
`storage/buffer/replacer/lru_k_replacer.h`, `system/handle/page_handle.cpp` and
`system/handle/table_handle.cpp`.

Conventions of the embedding.
* Every public operation runs under `std::scoped_lock`, so an operation is one atomic
  state transformer `state → result × state`.
* A C++ exception is a result value; the state returned with it is the state at the
  point of the `throw` (nothing is rolled back).
* `std::unordered_map` is an association list with pairwise distinct keys, listed in
  iteration order; `operator[]` on a missing key appends.
* A `Page*` handed to a caller is represented by the index of the frame that owns the page.
* Pointers into the bytes of a page (`bitmap_`, `slots_mem_`, field pointers) are offsets
  into the byte list of the page, and `memcpy` is a splice of that list.
* A page handle holds a copy of its page; a method of the table handle puts the copy back
  into the frame before its next call on the pool.
-/

namespace wsdb

/-! ## Basic types -/

abbrev file_id_t := Int

abbrev page_id_t := Int

/-- Frame ids are indices into `frames_`; the only negative value in the source, the
initial `selected_frame = -1` of `LRUKReplacer::Victim`, is represented by `none`. -/
abbrev frame_id_t := Nat

abbrev timestamp_t := Nat

/-- The value of `std::numeric_limits<unsigned long long>::max()`. -/
def ULL_MAX : Nat := 2 ^ 64 - 1

/-- Modelled from the spec: `timestamp_t` is declared outside the given sources; timestamps
are `size_t` counters (`cur_ts_`), so `std::numeric_limits<timestamp_t>::max()` is taken
to be the largest 64-bit value. -/
def TIMESTAMP_MAX : Nat := 2 ^ 64 - 1

/-- Modelled from the spec: the sentinel of an absent file identity ("identity (invalid
when free)"); the constant is declared outside the given sources. -/
def INVALID_FILE_ID : file_id_t := -1

/-- Modelled from the spec: the sentinel of an absent page identity ("`INVALID_RID`
sentinel (page_id = -1)"). -/
def INVALID_PAGE_ID : page_id_t := -1

/-- The key type `fid_pid_t` of `page_frame_lookup_`. -/
structure fid_pid_t where
  fid : file_id_t
  pid : page_id_t
deriving DecidableEq, Repr

/-- The identity of a frame that holds no page. -/
def INVALID_FID_PID : fid_pid_t := ⟨INVALID_FILE_ID, INVALID_PAGE_ID⟩

/-- The two exceptions that can leave the buffer pool: `WSDB_THROW(WSDB_NO_FREE_FRAME, ..)`
in `GetAvailableFrame` and `std::runtime_error("History is empty")` in
`LRUKNode::FetchOldestTimestamp`. -/
inductive Exn where
  | WSDB_NO_FREE_FRAME
  | runtime_error
deriving DecidableEq, Repr

deriving instance DecidableEq for Except

/-! ## `std::unordered_map` as an association list -/

/-- The call `m.find(key)`: the mapped value, `none` for `m.end()`. -/
def umap_find {κ ν : Type} [DecidableEq κ] (m : List (κ × ν)) (key : κ) : Option ν :=
  (m.find? (fun e => decide (e.1 = key))).map Prod.snd

/-- The call `m.erase(key)` (and `m.erase(it)` for the iterator of `key`). -/
def umap_erase {κ ν : Type} [DecidableEq κ] (m : List (κ × ν)) (key : κ) : List (κ × ν) :=
  m.filter (fun e => decide (e.1 ≠ key))

/-- The assignment `m[key] = v`: overwrite in place, or append a new entry. -/
def umap_assign {κ ν : Type} [DecidableEq κ] (m : List (κ × ν)) (key : κ) (v : ν) :
    List (κ × ν) :=
  if (umap_find m key).isSome then m.map (fun e => if e.1 = key then (key, v) else e)
  else m ++ [(key, v)]

/-- The access `m[key]` used as an lvalue or rvalue: a missing key is inserted with the
value-initialised `dflt`. -/
def umap_touch {κ ν : Type} [DecidableEq κ] (m : List (κ × ν)) (key : κ) (dflt : ν) :
    List (κ × ν) :=
  if (umap_find m key).isSome then m else m ++ [(key, dflt)]

/-! ## Disk manager, page, frame -/

/-- One disk access, recorded in the order it is issued. -/
inductive DiskOp where
  | read (fid : file_id_t) (pid : page_id_t)
  | write (fid : file_id_t) (pid : page_id_t)
deriving DecidableEq, Repr

/-- Modelled from the spec: the disk manager is an external collaborator whose class is
outside the given sources; it is "a map from (file_id, page_id) to a block" with the two
operations `ReadPage` and `WritePage`. `log` records the accesses issued so far. -/
structure DiskManager where
  blocks : fid_pid_t → List Nat
  log : List DiskOp

/-- Modelled from the spec: `ReadPage(file_id, page_id, out_buffer)` returns the block
stored for the identity. -/
def DiskManager.ReadPage (d : DiskManager) (fid : file_id_t) (pid : page_id_t) :
    List Nat × DiskManager :=
  (d.blocks ⟨fid, pid⟩, { d with log := d.log ++ [DiskOp.read fid pid] })

/-- Modelled from the spec: `WritePage(file_id, page_id, buffer)` stores the block for the
identity. -/
def DiskManager.WritePage (d : DiskManager) (fid : file_id_t) (pid : page_id_t)
    (data : List Nat) : DiskManager :=
  { blocks := fun key => if key = ⟨fid, pid⟩ then data else d.blocks key,
    log := d.log ++ [DiskOp.write fid pid] }

/-- Modelled from the spec: `Page` (class outside the given sources), "fixed-size buffer"
with its `(file_id, page_id)` identity; only what the buffer pool reads and writes. -/
structure Page where
  fid_ : file_id_t
  pid_ : page_id_t
  data_ : List Nat
deriving DecidableEq, Repr

/-- Modelled from the spec: `Frame` (class outside the given sources): "wraps one Page;
fields `pin_count` (≥0 ..), `dirty` flag, `(file_id, page_id)` identity (invalid when
free)". -/
structure Frame where
  page_ : Page
  pin_count_ : Nat
  is_dirty_ : Bool
deriving DecidableEq, Repr

/-- Modelled from the spec: a frame as created at pool construction, holding no page. -/
def Frame.fresh (page_size : Nat) : Frame :=
  { page_ := ⟨INVALID_FILE_ID, INVALID_PAGE_ID, List.replicate page_size 0⟩,
    pin_count_ := 0, is_dirty_ := false }

instance : Inhabited Frame := ⟨Frame.fresh 0⟩

/-- Modelled from the spec: the accessor `Frame::GetPinCount`. -/
def Frame.GetPinCount (f : Frame) : Nat := f.pin_count_

/-- Modelled from the spec: the accessor `Frame::IsDirty`. -/
def Frame.IsDirty (f : Frame) : Bool := f.is_dirty_

/-- Modelled from the spec: the setter `Frame::SetDirty`. -/
def Frame.SetDirty (f : Frame) (d : Bool) : Frame := { f with is_dirty_ := d }

/-- Modelled from the spec: `Frame::Pin` ("increments the frame's pin count"). -/
def Frame.Pin (f : Frame) : Frame := { f with pin_count_ := f.pin_count_ + 1 }

/-- Modelled from the spec: `Frame::Unpin` ("decrements pin count"); the only call site
guards it with `GetPinCount() > 0`. -/
def Frame.Unpin (f : Frame) : Frame := { f with pin_count_ := f.pin_count_ - 1 }

/-- Modelled from the spec: `Frame::Reset` ("resets the frame to an unused state"): no
pins, clean, invalid identity, zeroed buffer of the same size. -/
def Frame.Reset (f : Frame) : Frame :=
  { page_ := ⟨INVALID_FILE_ID, INVALID_PAGE_ID, List.replicate f.page_.data_.length 0⟩,
    pin_count_ := 0, is_dirty_ := false }

/-- Modelled from the spec: the identity `(GetFileId(), GetPageId())` of the page in a
frame. -/
def Frame.ident (f : Frame) : fid_pid_t := ⟨f.page_.fid_, f.page_.pid_⟩

/-- Modelled from the spec: the call `frame.GetPage()->SetFilePageId(fid, pid)`, which
sets the identity of the page. -/
def Frame.SetFilePageId (f : Frame) (fid : file_id_t) (pid : page_id_t) : Frame :=
  { f with page_ := { f.page_ with fid_ := fid, pid_ := pid } }

/-- Modelled from the spec: storing bytes into the buffer `frame.GetPage()->GetData()`. -/
def Frame.SetData (f : Frame) (data : List Nat) : Frame :=
  { f with page_ := { f.page_ with data_ := data } }

/-! ## LRU replacer (`lru_replacer.cpp`) -/

/-- State of `LRUReplacer`. `lru_list_` holds `(frame_id, evictable)` from head to tail.
`lru_hash_` (frame id to list iterator) is an index of the list: `Pin`, `Unpin` and
`Victim` insert and erase a frame in both together, so a frame id is a key of
`lru_hash_` exactly when the list has an entry for it, and that entry is the one the
iterator designates. -/
structure LRUReplacer where
  lru_list_ : List (frame_id_t × Bool)
  cur_size_ : Nat
  max_size_ : Nat
deriving DecidableEq, Repr

/-- The constructor `LRUReplacer::LRUReplacer()`. -/
def LRUReplacer.new (BUFFER_POOL_SIZE : Nat) : LRUReplacer :=
  { lru_list_ := [], cur_size_ := 0, max_size_ := BUFFER_POOL_SIZE }

/-- The method `LRUReplacer::Victim`: `none` is `return false`. The first loop of the
source only stores into `*frame_id` and is overwritten by the second. -/
def LRUReplacer.Victim (r : LRUReplacer) : Option frame_id_t × LRUReplacer :=
  if r.cur_size_ = 0 ∨ r.lru_list_ = [] then (none, r)
  else
    match r.lru_list_.find? (fun e => e.2) with
    | some e =>
      (some e.1,
        { r with
          lru_list_ := r.lru_list_.eraseP (fun e => e.2),
          cur_size_ := if 0 < r.cur_size_ then r.cur_size_ - 1 else r.cur_size_ })
    | none => (none, r)

/-- The method `LRUReplacer::Pin`. -/
def LRUReplacer.Pin (r : LRUReplacer) (frame_id : frame_id_t) : LRUReplacer :=
  if (r.lru_list_.find? (fun e => decide (e.1 = frame_id))).isSome then
    { r with
      lru_list_ := r.lru_list_.eraseP (fun e => decide (e.1 = frame_id)) ++ [(frame_id, false)],
      cur_size_ := if 0 < r.cur_size_ then r.cur_size_ - 1 else r.cur_size_ }
  else
    { r with lru_list_ := r.lru_list_ ++ [(frame_id, false)] }

/-- The method `LRUReplacer::Unpin`. -/
def LRUReplacer.Unpin (r : LRUReplacer) (frame_id : frame_id_t) : LRUReplacer :=
  match r.lru_list_.find? (fun e => decide (e.1 = frame_id)) with
  | some entry =>
    if !entry.2 then
      { r with
        lru_list_ := r.lru_list_.map (fun e => if e.1 = frame_id then (e.1, true) else e),
        cur_size_ := r.cur_size_ + 1 }
    else r
  | none =>
    { r with lru_list_ := r.lru_list_ ++ [(frame_id, true)], cur_size_ := r.cur_size_ + 1 }

/-- The method `LRUReplacer::Size`. -/
def LRUReplacer.Size (r : LRUReplacer) : Nat := r.cur_size_

/-! ## LRU-K replacer (`lru_k_replacer.h`, `lru_k_replacer.cpp`) -/

/-- The class `LRUKReplacer::LRUKNode`; `fid_` is never read and is left out. -/
structure LRUKNode where
  history_ : List timestamp_t
  k : Nat
  is_evictable_ : Bool
deriving DecidableEq, Repr

/-- The default constructor `LRUKNode() = default`: `k{}` and `is_evictable_{}` are
value-initialised, the history is empty. It is what `node_store_[i]` inserts. -/
def LRUKNode.dflt : LRUKNode := { history_ := [], k := 0, is_evictable_ := false }

/-- The constructor `LRUKNode(fid, k)`. -/
def LRUKNode.new (k : Nat) : LRUKNode := { history_ := [], k := k, is_evictable_ := false }

/-- The loop `while (history_.size() > k) history_.erase(history_.begin())`. -/
def LRUKNode.trim (k : Nat) : List timestamp_t → List timestamp_t
  | [] => []
  | t :: rest => if (t :: rest).length > k then LRUKNode.trim k rest else t :: rest

/-- The method `LRUKNode::AddHistory`. -/
def LRUKNode.AddHistory (n : LRUKNode) (ts : timestamp_t) : LRUKNode :=
  { n with history_ := LRUKNode.trim n.k (n.history_ ++ [ts]) }

/-- The reverse loop of `GetBackwardKDistance` from `history_.rbegin()`, with its counter
`count`; `cur_ts - *it` is unsigned 64-bit arithmetic. -/
def LRUKNode.kthBack (k : Nat) (cur_ts : timestamp_t) : List timestamp_t → Nat → Nat
  | [], _ => ULL_MAX
  | t :: rest, count =>
    if count < k then
      if count + 1 = k then (cur_ts + 2 ^ 64 - t % 2 ^ 64) % 2 ^ 64
      else LRUKNode.kthBack k cur_ts rest (count + 1)
    else ULL_MAX

/-- The method `LRUKNode::GetBackwardKDistance`. -/
def LRUKNode.GetBackwardKDistance (n : LRUKNode) (cur_ts : timestamp_t) : Nat :=
  if n.history_.length < n.k then ULL_MAX
  else LRUKNode.kthBack n.k cur_ts n.history_.reverse 0

def LRUKNode.IsEvictable (n : LRUKNode) : Bool := n.is_evictable_

def LRUKNode.SetEvictable (n : LRUKNode) (set_evictable : Bool) : LRUKNode :=
  { n with is_evictable_ := set_evictable }

/-- The method `LRUKNode::FetchOldestTimestamp`; `none` is the `throw` on an empty history. -/
def LRUKNode.FetchOldestTimestamp (n : LRUKNode) : Option timestamp_t := n.history_.head?

/-- The method `LRUKNode::ResetTimestampHistory`. -/
def LRUKNode.ResetTimestampHistory (n : LRUKNode) : LRUKNode := { n with history_ := [] }

/-- State of `LRUKReplacer`. -/
structure LRUKReplacer where
  node_store_ : List (frame_id_t × LRUKNode)
  cur_ts_ : Nat
  cur_size_ : Nat
  max_size_ : Nat
  k_ : Nat
deriving DecidableEq, Repr

/-- The constructor `LRUKReplacer::LRUKReplacer(k)`. -/
def LRUKReplacer.new (BUFFER_POOL_SIZE : Nat) (k : Nat) : LRUKReplacer :=
  { node_store_ := [], cur_ts_ := 0, cur_size_ := 0, max_size_ := BUFFER_POOL_SIZE, k_ := k }

/-- The node that `node_store_[i]` designates once the access has been made. -/
def nodeAt (ns : List (frame_id_t × LRUKNode)) (i : frame_id_t) : LRUKNode :=
  (umap_find ns i).getD LRUKNode.dflt

/-- The local variables of `LRUKReplacer::Victim`, with the node store, which the two
loops extend through `node_store_[i]`. -/
structure VictimScan where
  node_store_ : List (frame_id_t × LRUKNode)
  max_dist : Nat
  selected_frame : Option frame_id_t
  earliest_ts : timestamp_t
  found_candidate : Bool
deriving DecidableEq, Repr

/-- One iteration of the first loop of `LRUKReplacer::Victim` (step 2). An exception
carries the node store as it is at the `throw`. -/
def LRUKReplacer.scanMax (cur_ts : Nat) (s : VictimScan) (i : frame_id_t) :
    Except (List (frame_id_t × LRUKNode)) VictimScan :=
  let ns := umap_touch s.node_store_ i LRUKNode.dflt
  let node := nodeAt ns i
  if node.IsEvictable then
    let dist := node.GetBackwardKDistance cur_ts
    if dist > s.max_dist then
      match node.FetchOldestTimestamp with
      | none => .error ns
      | some ts =>
        .ok { node_store_ := ns, max_dist := dist, selected_frame := some i,
              earliest_ts := ts, found_candidate := true }
    else if dist = s.max_dist then
      match node.FetchOldestTimestamp with
      | none => .error ns
      | some frame_timestamp =>
        if frame_timestamp < s.earliest_ts then
          .ok { s with node_store_ := ns, selected_frame := some i,
                       earliest_ts := frame_timestamp }
        else .ok { s with node_store_ := ns }
    else .ok { s with node_store_ := ns }
  else .ok { s with node_store_ := ns }

/-- One iteration of the second loop of `LRUKReplacer::Victim` (step 3). -/
def LRUKReplacer.scanInf (cur_ts : Nat) (s : VictimScan) (i : frame_id_t) :
    Except (List (frame_id_t × LRUKNode)) VictimScan :=
  let ns := umap_touch s.node_store_ i LRUKNode.dflt
  let node := nodeAt ns i
  if node.IsEvictable && decide (node.GetBackwardKDistance cur_ts = s.max_dist) then
    match node.FetchOldestTimestamp with
    | none => .error ns
    | some frame_timestamp =>
      if frame_timestamp < s.earliest_ts then
        .ok { s with node_store_ := ns, selected_frame := some i,
                     earliest_ts := frame_timestamp }
      else .ok { s with node_store_ := ns }
  else .ok { s with node_store_ := ns }

/-- A `for (i = 0; i < max_size_; ++i)` loop over the frame ids still to visit. -/
def LRUKReplacer.forFrames
    (body : VictimScan → frame_id_t → Except (List (frame_id_t × LRUKNode)) VictimScan) :
    List frame_id_t → VictimScan → Except (List (frame_id_t × LRUKNode)) VictimScan
  | [], s => .ok s
  | i :: rest, s =>
    match body s i with
    | .ok s1 => LRUKReplacer.forFrames body rest s1
    | .error ns => .error ns

/-- The method `LRUKReplacer::Victim`: `.ok none` is `return false`, `.ok (some f)` is
`return true` with `*frame_id = f`, `.error` is the `std::runtime_error` of
`FetchOldestTimestamp`. -/
def LRUKReplacer.Victim (r : LRUKReplacer) : Except Exn (Option frame_id_t) × LRUKReplacer :=
  if r.cur_size_ = 0 then (.ok none, r)
  else
    let s0 : VictimScan :=
      { node_store_ := r.node_store_, max_dist := 0, selected_frame := none,
        earliest_ts := TIMESTAMP_MAX, found_candidate := false }
    match LRUKReplacer.forFrames (LRUKReplacer.scanMax r.cur_ts_) (List.range r.max_size_) s0 with
    | .error ns => (.error Exn.runtime_error, { r with node_store_ := ns })
    | .ok s1 =>
      let step3 :=
        if s1.max_dist = ULL_MAX then
          LRUKReplacer.forFrames (LRUKReplacer.scanInf r.cur_ts_) (List.range r.max_size_) s1
        else .ok s1
      match step3 with
      | .error ns => (.error Exn.runtime_error, { r with node_store_ := ns })
      | .ok s2 =>
        match s2.found_candidate, s2.selected_frame with
        | true, some f =>
          let ns := umap_touch s2.node_store_ f LRUKNode.dflt
          let node := ((nodeAt ns f).ResetTimestampHistory).SetEvictable false
          (.ok (some f),
            { r with
              node_store_ := umap_assign ns f node,
              cur_size_ := if 0 < r.cur_size_ then r.cur_size_ - 1 else r.cur_size_ })
        | _, _ => (.ok none, { r with node_store_ := s2.node_store_ })

/-- The method `LRUKReplacer::Pin`. -/
def LRUKReplacer.Pin (r : LRUKReplacer) (frame_id : frame_id_t) : LRUKReplacer :=
  match umap_find r.node_store_ frame_id with
  | none =>
    { r with
      node_store_ := r.node_store_ ++ [(frame_id, (LRUKNode.new r.k_).AddHistory r.cur_ts_)],
      cur_ts_ := r.cur_ts_ + 1 }
  | some node0 =>
    let node := node0.AddHistory r.cur_ts_
    if node.IsEvictable then
      { r with
        node_store_ := umap_assign r.node_store_ frame_id (node.SetEvictable false),
        cur_size_ := if 0 < r.cur_size_ then r.cur_size_ - 1 else r.cur_size_,
        cur_ts_ := r.cur_ts_ + 1 }
    else
      { r with
        node_store_ := umap_assign r.node_store_ frame_id node,
        cur_ts_ := r.cur_ts_ + 1 }

/-- The method `LRUKReplacer::Unpin`. -/
def LRUKReplacer.Unpin (r : LRUKReplacer) (frame_id : frame_id_t) : LRUKReplacer :=
  match umap_find r.node_store_ frame_id with
  | some node =>
    if !node.IsEvictable then
      { r with
        node_store_ := umap_assign r.node_store_ frame_id (node.SetEvictable true),
        cur_size_ := r.cur_size_ + 1 }
    else r
  | none => r

/-- The method `LRUKReplacer::Size`. -/
def LRUKReplacer.Size (r : LRUKReplacer) : Nat := r.cur_size_

/-! ## The replacer interface -/

/-- The polymorphic `Replacer` held by the pool in `replacer_`. -/
inductive Replacer where
  | lru (r : LRUReplacer)
  | lruk (r : LRUKReplacer)
deriving DecidableEq, Repr

/-- The constant `REPLACER` of the configuration, which selects the variant. -/
inductive ReplacerKind where
  | LRUReplacer
  | LRUKReplacer
deriving DecidableEq, Repr

def Replacer.Victim : Replacer → Except Exn (Option frame_id_t) × Replacer
  | .lru r => (.ok (r.Victim).1, .lru (r.Victim).2)
  | .lruk r => ((r.Victim).1, .lruk (r.Victim).2)

def Replacer.Pin : Replacer → frame_id_t → Replacer
  | .lru r, f => .lru (r.Pin f)
  | .lruk r, f => .lruk (r.Pin f)

def Replacer.Unpin : Replacer → frame_id_t → Replacer
  | .lru r, f => .lru (r.Unpin f)
  | .lruk r, f => .lruk (r.Unpin f)

def Replacer.Size : Replacer → Nat
  | .lru r => r.Size
  | .lruk r => r.Size

/-! ## Buffer pool manager (`buffer_pool_manager.cpp`) -/

/-- State of `BufferPoolManager`, with the disk it writes to. -/
structure BufferPoolManager where
  disk_manager_ : DiskManager
  replacer_ : Replacer
  frames_ : List Frame
  free_list_ : List frame_id_t
  page_frame_lookup_ : List (fid_pid_t × frame_id_t)

/-- The constructor `BufferPoolManager::BufferPoolManager`. The configuration constants
`REPLACER`, `BUFFER_POOL_SIZE` and `PAGE_SIZE` are declared outside the given sources and
are parameters; `frames_` is the fixed array of `BUFFER_POOL_SIZE` frames, none of which
holds a page at construction, and `page_frame_lookup_` starts empty. -/
def BufferPoolManager.new (disk_manager : DiskManager) (REPLACER : ReplacerKind)
    (BUFFER_POOL_SIZE PAGE_SIZE replacer_lru_k : Nat) : BufferPoolManager :=
  { disk_manager_ := disk_manager,
    replacer_ :=
      match REPLACER with
      | .LRUReplacer => .lru (LRUReplacer.new BUFFER_POOL_SIZE)
      | .LRUKReplacer => .lruk (LRUKReplacer.new BUFFER_POOL_SIZE replacer_lru_k),
    frames_ := List.replicate BUFFER_POOL_SIZE (Frame.fresh PAGE_SIZE),
    free_list_ := List.range BUFFER_POOL_SIZE,
    page_frame_lookup_ := [] }

/-- The frame `frames_[frame_id]`. -/
def BufferPoolManager.frame (b : BufferPoolManager) (frame_id : frame_id_t) : Frame :=
  b.frames_.getD frame_id default

/-- The private method `BufferPoolManager::GetFrame`: the index of the frame, `none` for
`nullptr`. -/
def BufferPoolManager.GetFrame (b : BufferPoolManager) (fid : file_id_t) (pid : page_id_t) :
    Option frame_id_t :=
  umap_find b.page_frame_lookup_ ⟨fid, pid⟩

/-- The method `BufferPoolManager::GetAvailableFrame`. -/
def BufferPoolManager.GetAvailableFrame (b : BufferPoolManager) :
    Except Exn frame_id_t × BufferPoolManager :=
  match b.free_list_ with
  | frame_id :: rest => (.ok frame_id, { b with free_list_ := rest })
  | [] =>
    match b.replacer_.Victim with
    | (.ok (some victim_frame_id), r) =>
      match b.page_frame_lookup_.find? (fun entry => decide (entry.2 = victim_frame_id)) with
      | some entry =>
        let fr := b.frame victim_frame_id
        let disk :=
          if fr.IsDirty then b.disk_manager_.WritePage entry.1.fid entry.1.pid fr.page_.data_
          else b.disk_manager_
        (.ok victim_frame_id,
          { b with
            replacer_ := r, disk_manager_ := disk,
            page_frame_lookup_ := umap_erase b.page_frame_lookup_ entry.1 })
      | none => (.error Exn.WSDB_NO_FREE_FRAME, { b with replacer_ := r })
    | (.ok none, r) => (.error Exn.WSDB_NO_FREE_FRAME, { b with replacer_ := r })
    | (.error e, r) => (.error e, { b with replacer_ := r })

/-- The method `BufferPoolManager::UpdateFrame`. -/
def BufferPoolManager.UpdateFrame (b : BufferPoolManager) (frame_id : frame_id_t)
    (fid : file_id_t) (pid : page_id_t) : BufferPoolManager :=
  let fr := b.frame frame_id
  let prev_fid := fr.page_.fid_
  let prev_pid := fr.page_.pid_
  let disk1 :=
    if fr.IsDirty then b.disk_manager_.WritePage prev_fid prev_pid fr.page_.data_
    else b.disk_manager_
  let lookup1 := umap_erase b.page_frame_lookup_ ⟨prev_fid, prev_pid⟩
  let rd := disk1.ReadPage fid pid
  let fr1 := (((fr.Reset).SetData rd.1).SetFilePageId fid pid).Pin
  { disk_manager_ := rd.2,
    replacer_ := b.replacer_.Pin frame_id,
    frames_ := b.frames_.set frame_id fr1,
    free_list_ := b.free_list_,
    page_frame_lookup_ := umap_assign lookup1 ⟨fid, pid⟩ frame_id }

/-- The method `BufferPoolManager::FetchPage`. The result is the frame whose page is
returned, or the exception that leaves the call. -/
def BufferPoolManager.FetchPage (b : BufferPoolManager) (fid : file_id_t) (pid : page_id_t) :
    Except Exn frame_id_t × BufferPoolManager :=
  match umap_find b.page_frame_lookup_ ⟨fid, pid⟩ with
  | some frame_id =>
    (.ok frame_id,
      { b with
        frames_ := b.frames_.set frame_id (b.frame frame_id).Pin,
        replacer_ := b.replacer_.Pin frame_id })
  | none =>
    match b.GetAvailableFrame with
    | (.ok frame_id, b1) => (.ok frame_id, b1.UpdateFrame frame_id fid pid)
    | (.error e, b1) => (.error e, b1)

/-- The method `BufferPoolManager::UnpinPage`. -/
def BufferPoolManager.UnpinPage (b : BufferPoolManager) (fid : file_id_t) (pid : page_id_t)
    (is_dirty : Bool) : Bool × BufferPoolManager :=
  match b.GetFrame fid pid with
  | some frame_id =>
    if (b.frame frame_id).GetPinCount > 0 then
      let fr := (b.frame frame_id).Unpin
      if is_dirty then
        (true,
          { b with
            frames_ := b.frames_.set frame_id (fr.SetDirty true),
            disk_manager_ := b.disk_manager_.WritePage fid pid fr.page_.data_,
            replacer_ := b.replacer_.Unpin frame_id })
      else
        (true,
          { b with
            frames_ := b.frames_.set frame_id fr,
            replacer_ := b.replacer_.Unpin frame_id })
    else (false, b)
  | none => (false, b)

/-- The method `BufferPoolManager::DeletePage`. -/
def BufferPoolManager.DeletePage (b : BufferPoolManager) (fid : file_id_t) (pid : page_id_t) :
    Bool × BufferPoolManager :=
  match umap_find b.page_frame_lookup_ ⟨fid, pid⟩ with
  | none => (false, b)
  | some frame_id =>
    if (b.frame frame_id).GetPinCount > 0 then (false, b)
    else
      let fr := b.frame frame_id
      let disk :=
        if fr.IsDirty then b.disk_manager_.WritePage fid pid fr.page_.data_
        else b.disk_manager_
      (true,
        { disk_manager_ := disk,
          replacer_ := b.replacer_.Unpin frame_id,
          frames_ := b.frames_.set frame_id fr.Reset,
          free_list_ := b.free_list_ ++ [frame_id],
          page_frame_lookup_ := umap_erase b.page_frame_lookup_ ⟨fid, pid⟩ })

/-- The body of the loop of `DeleteAllPages` at the entry `entry` the iterator designates;
the accumulator is `all_pages_deleted` with the pool state. -/
def BufferPoolManager.DeleteAllPages_body (fid : file_id_t)
    (acc : Bool × BufferPoolManager) (entry : fid_pid_t × frame_id_t) :
    Bool × BufferPoolManager :=
  if entry.1.fid = fid then
    let fr := acc.2.frame entry.2
    if fr.GetPinCount > 0 then (false, acc.2)
    else
      let disk :=
        if fr.IsDirty then acc.2.disk_manager_.WritePage fid entry.1.pid fr.page_.data_
        else acc.2.disk_manager_
      (acc.1,
        { disk_manager_ := disk,
          replacer_ := acc.2.replacer_.Unpin entry.2,
          frames_ := acc.2.frames_.set entry.2 fr.Reset,
          free_list_ := acc.2.free_list_ ++ [entry.2],
          page_frame_lookup_ := umap_erase acc.2.page_frame_lookup_ entry.1 })
  else acc

/-- The method `BufferPoolManager::DeleteAllPages`: the loop visits the entries of
`page_frame_lookup_` in iteration order, erasing the visited entry or stepping over it. -/
def BufferPoolManager.DeleteAllPages (b : BufferPoolManager) (fid : file_id_t) :
    Bool × BufferPoolManager :=
  b.page_frame_lookup_.foldl (BufferPoolManager.DeleteAllPages_body fid) (true, b)

/-- The method `BufferPoolManager::FlushPage`. -/
def BufferPoolManager.FlushPage (b : BufferPoolManager) (fid : file_id_t) (pid : page_id_t) :
    Bool × BufferPoolManager :=
  match b.GetFrame fid pid with
  | some frame_id =>
    let fr := b.frame frame_id
    if fr.IsDirty then
      (true,
        { b with
          disk_manager_ := b.disk_manager_.WritePage fid pid fr.page_.data_,
          frames_ := b.frames_.set frame_id (fr.SetDirty false) })
    else (true, b)
  | none => (false, b)

/-- The body of the loop of `FlushAllPages`. -/
def BufferPoolManager.FlushAllPages_body (fid : file_id_t) (b : BufferPoolManager)
    (entry : fid_pid_t × frame_id_t) : BufferPoolManager :=
  if entry.1.fid = fid then
    let fr := b.frame entry.2
    if fr.IsDirty then
      { b with
        disk_manager_ := b.disk_manager_.WritePage fid entry.1.pid fr.page_.data_,
        frames_ := b.frames_.set entry.2 (fr.SetDirty false) }
    else b
  else b

/-- The method `BufferPoolManager::FlushAllPages`. -/
def BufferPoolManager.FlushAllPages (b : BufferPoolManager) (fid : file_id_t) :
    Bool × BufferPoolManager :=
  (true, b.page_frame_lookup_.foldl (BufferPoolManager.FlushAllPages_body fid) b)

/-- A caller that holds the `Page*` of frame `frame_id` stores `data` into the page. -/
def BufferPoolManager.writePageData (b : BufferPoolManager) (frame_id : frame_id_t)
    (data : List Nat) : BufferPoolManager :=
  { b with frames_ := b.frames_.set frame_id ((b.frame frame_id).SetData data) }

/-! ## Calls on the pool, reachable states -/

/-- One step of a client of the pool: a call of a public method, or a store into the
bytes of a page through a `Page*` obtained earlier. -/
inductive PoolOp where
  | FetchPage (fid : file_id_t) (pid : page_id_t)
  | UnpinPage (fid : file_id_t) (pid : page_id_t) (is_dirty : Bool)
  | DeletePage (fid : file_id_t) (pid : page_id_t)
  | DeleteAllPages (fid : file_id_t)
  | FlushPage (fid : file_id_t) (pid : page_id_t)
  | FlushAllPages (fid : file_id_t)
  | writePageData (frame_id : frame_id_t) (data : List Nat)
deriving DecidableEq, Repr

/-- The pool state after one step. -/
def PoolOp.run (b : BufferPoolManager) : PoolOp → BufferPoolManager
  | .FetchPage fid pid => (b.FetchPage fid pid).2
  | .UnpinPage fid pid is_dirty => (b.UnpinPage fid pid is_dirty).2
  | .DeletePage fid pid => (b.DeletePage fid pid).2
  | .DeleteAllPages fid => (b.DeleteAllPages fid).2
  | .FlushPage fid pid => (b.FlushPage fid pid).2
  | .FlushAllPages fid => (b.FlushAllPages fid).2
  | .writePageData frame_id data => b.writePageData frame_id data

/-- The pool state after a sequence of steps. -/
def runOps (b : BufferPoolManager) (ops : List PoolOp) : BufferPoolManager :=
  ops.foldl PoolOp.run b

/-- The pool states reachable from construction. -/
inductive Reachable : BufferPoolManager → Prop where
  | init (disk_manager : DiskManager) (REPLACER : ReplacerKind)
      (BUFFER_POOL_SIZE PAGE_SIZE replacer_lru_k : Nat) :
      Reachable
        (BufferPoolManager.new disk_manager REPLACER BUFFER_POOL_SIZE PAGE_SIZE replacer_lru_k)
  | step {b : BufferPoolManager} (op : PoolOp) (h : Reachable b) : Reachable (op.run b)

/-- The step stores into the bytes of the page `key`: it writes through the frame that
`page_frame_lookup_` holds for `key`. -/
def PoolOp.modifies (b : BufferPoolManager) (key : fid_pid_t) : PoolOp → Bool
  | .writePageData frame_id _ => decide (umap_find b.page_frame_lookup_ key = some frame_id)
  | _ => false

/-- The pool state after `FetchPage` has been called on each page of the list in turn. -/
def fetchAll (b : BufferPoolManager) (pages : List fid_pid_t) : BufferPoolManager :=
  pages.foldl (fun s p => (s.FetchPage p.fid p.pid).2) b

/-- Consistency of the lookup map, the frames and the free list: an entry of the map
names a frame that holds that page; a free frame is clean, holds no page and is in no
entry of the map; the free list and the keys of the map have no repetition. -/
def poolWF (frames : List Frame) (free : List frame_id_t)
    (lookup : List (fid_pid_t × frame_id_t)) : Prop :=
  (∀ e ∈ lookup, e.2 < frames.length ∧ (frames.getD e.2 default).ident = e.1) ∧
  (∀ f ∈ free, f < frames.length ∧ (frames.getD f default).ident = INVALID_FID_PID ∧
      (frames.getD f default).is_dirty_ = false ∧ ∀ e ∈ lookup, e.2 ≠ f) ∧
  free.Nodup ∧ (lookup.map Prod.fst).Nodup

/-- Consistency of a pool state. -/
def BufferPoolManager.WF (b : BufferPoolManager) : Prop :=
  poolWF b.frames_ b.free_list_ b.page_frame_lookup_

/-- The page `key` has the bytes `B` on disk and, when it is resident, in its frame. -/
def coherent (key : fid_pid_t) (B : List Nat) (blocks : fid_pid_t → List Nat)
    (frames : List Frame) (lookup : List (fid_pid_t × frame_id_t)) : Prop :=
  blocks key = B ∧
  ∀ f, umap_find lookup key = some f → (frames.getD f default).page_.data_ = B

/-- Coherence of the page `key` with the bytes `B` in a pool state. -/
def BufferPoolManager.coherent (b : BufferPoolManager) (key : fid_pid_t) (B : List Nat) :
    Prop :=
  wsdb.coherent key B b.disk_manager_.blocks b.frames_ b.page_frame_lookup_

/-- A disk on which every block is empty. -/
def blankDisk : DiskManager := { blocks := fun _ => [], log := [] }

/-- A pool of two frames in which page (0,0) has been fetched twice and unpinned once, and
page (0,1) has been fetched: the free list is empty and page (0,0) is still pinned once. -/
def pinnedVictimPool (REPLACER : ReplacerKind) : BufferPoolManager :=
  runOps (BufferPoolManager.new blankDisk REPLACER 2 1 2)
    [.FetchPage 0 0, .FetchPage 0 0, .UnpinPage 0 0 false, .FetchPage 0 1]

/-- A pool of one frame: page (0,0) is fetched, set to the bytes [7] and unpinned dirty;
then page (0,1) is fetched and unpinned, which evicts page (0,0). -/
def roundTripPool : BufferPoolManager :=
  runOps
    ((((BufferPoolManager.new blankDisk .LRUReplacer 1 1 2).FetchPage 0 0).2.writePageData 0
      [7]).UnpinPage 0 0 true).2
    [.FetchPage 0 1, .UnpinPage 0 1 false]

/-- A pool of three frames holding page (0,0) pinned, page (0,1) unpinned and dirty, and
page (1,0) pinned. -/
def mixedPool : BufferPoolManager :=
  runOps (BufferPoolManager.new blankDisk .LRUReplacer 3 1 2)
    [.FetchPage 0 0, .FetchPage 0 1, .UnpinPage 0 1 true, .FetchPage 1 0]

/-! ## Calls on a replacer -/

/-- One call on a replacer. -/
inductive ReplacerOp where
  | Pin (frame_id : frame_id_t)
  | Unpin (frame_id : frame_id_t)
  | Victim
deriving DecidableEq, Repr

/-- The LRU replacer after one call. -/
def LRUReplacer.step (r : LRUReplacer) : ReplacerOp → LRUReplacer
  | .Pin frame_id => r.Pin frame_id
  | .Unpin frame_id => r.Unpin frame_id
  | .Victim => r.Victim.2

/-- The LRU replacer after a sequence of calls. -/
def LRUReplacer.runOps (r : LRUReplacer) (ops : List ReplacerOp) : LRUReplacer :=
  ops.foldl LRUReplacer.step r

/-- The LRU-K replacer after one call. -/
def LRUKReplacer.step (r : LRUKReplacer) : ReplacerOp → LRUKReplacer
  | .Pin frame_id => r.Pin frame_id
  | .Unpin frame_id => r.Unpin frame_id
  | .Victim => r.Victim.2

/-- The LRU-K replacer after a sequence of calls. -/
def LRUKReplacer.runOps (r : LRUKReplacer) (ops : List ReplacerOp) : LRUKReplacer :=
  ops.foldl LRUKReplacer.step r

/-- The most recent `Pin` or `Unpin` call on frame `f` in the sequence is `Pin(f)`. -/
def lastCallIsPin (f : frame_id_t) (ops : List ReplacerOp) : Bool :=
  ops.foldl
    (fun acc op =>
      match op with
      | .Pin g => if g = f then true else acc
      | .Unpin g => if g = f then false else acc
      | .Victim => acc)
    false

/-- The frame is marked evictable in the LRU replacer: its list entry has the flag set. -/
def LRUReplacer.IsEvictable (r : LRUReplacer) (f : frame_id_t) : Bool :=
  r.lru_list_.any (fun e => decide (e.1 = f) && e.2)

/-- The number of list entries of the LRU replacer whose evictable flag is set. -/
def LRUReplacer.evictableCount (r : LRUReplacer) : Nat :=
  (r.lru_list_.filter (fun e => e.2)).length

/-- The frame is marked evictable in the LRU-K replacer. -/
def LRUKReplacer.IsEvictable (r : LRUKReplacer) (f : frame_id_t) : Bool :=
  (nodeAt r.node_store_ f).IsEvictable

/-- The number of frames in the node store of the LRU-K replacer whose evictable flag is
set. -/
def LRUKReplacer.evictableCount (r : LRUKReplacer) : Nat :=
  (r.node_store_.filter (fun e => e.2.is_evictable_)).length

/-- The results of three successive `Victim` calls on an LRU replacer. -/
def LRUReplacer.threeVictims (r : LRUReplacer) : List (Option frame_id_t) :=
  [r.Victim.1, r.Victim.2.Victim.1, r.Victim.2.Victim.2.Victim.1]

/-- Loop invariant of the two loops of `LRUKReplacer::Victim`. `N` is the node store at
entry, read as a function of the frame id, `cur` the current timestamp and `V` the frames
visited so far: the store still reads as `N`; `max_dist` bounds the distance of every
visited evictable frame; `earliest_ts` bounds the oldest timestamp of every visited
evictable frame at distance `max_dist`; the selected frame is a visited evictable frame at
distance `max_dist` whose oldest timestamp is `earliest_ts`. -/
def ScanInv (N : frame_id_t → LRUKNode) (cur : Nat) (V : frame_id_t → Prop)
    (s : VictimScan) : Prop :=
  (∀ j, nodeAt s.node_store_ j = N j) ∧
  (∀ i, V i → (N i).is_evictable_ = true → (N i).GetBackwardKDistance cur ≤ s.max_dist) ∧
  (∀ i, V i → (N i).is_evictable_ = true → (N i).GetBackwardKDistance cur = s.max_dist →
    ∃ o, (N i).history_.head? = some o ∧ s.earliest_ts ≤ o) ∧
  (∀ j, s.selected_frame = some j → V j ∧ (N j).is_evictable_ = true ∧
    (N j).GetBackwardKDistance cur = s.max_dist ∧
    (N j).history_.head? = some s.earliest_ts) ∧
  (s.found_candidate = true → s.selected_frame.isSome = true)

/-- The node store `ns` is `ns0` extended by value-initialised nodes: it reads the same at
every frame id, keeps keys distinct, and has as many evictable nodes. -/
def storeStable (ns0 ns : List (frame_id_t × LRUKNode)) : Prop :=
  (∀ j, nodeAt ns j = nodeAt ns0 j) ∧
  ((ns0.map Prod.fst).Nodup → (ns.map Prod.fst).Nodup) ∧
  (ns.filter (fun e => e.2.is_evictable_)).length =
    (ns0.filter (fun e => e.2.is_evictable_)).length

/-- The node store of the LRU-K replacer has distinct keys and `cur_size_` counts its
evictable nodes. -/
def LRUKReplacer.CountInv (r : LRUKReplacer) : Prop :=
  (r.node_store_.map Prod.fst).Nodup ∧ r.cur_size_ = r.evictableCount

/-- The replacer that the constructor of the pool creates for the configured variant. -/
def Replacer.new (REPLACER : ReplacerKind) (BUFFER_POOL_SIZE replacer_lru_k : Nat) :
    Replacer :=
  match REPLACER with
  | .LRUReplacer => .lru (LRUReplacer.new BUFFER_POOL_SIZE)
  | .LRUKReplacer => .lruk (LRUKReplacer.new BUFFER_POOL_SIZE replacer_lru_k)

/-- A replacer after one call. -/
def Replacer.step (r : Replacer) : ReplacerOp → Replacer
  | .Pin frame_id => r.Pin frame_id
  | .Unpin frame_id => r.Unpin frame_id
  | .Victim => r.Victim.2

/-- A replacer after a sequence of calls. -/
def Replacer.runOps (r : Replacer) (ops : List ReplacerOp) : Replacer :=
  ops.foldl Replacer.step r

/-- The frame is currently marked evictable in the replacer. -/
def Replacer.IsEvictable : Replacer → frame_id_t → Bool
  | .lru r, f => r.IsEvictable f
  | .lruk r, f => r.IsEvictable f

/-- The flag update of `lastCallIsPin` for one call. -/
def pinFlag (f : frame_id_t) (acc : Bool) : ReplacerOp → Bool
  | .Pin g => if g = f then true else acc
  | .Unpin g => if g = f then false else acc
  | .Victim => acc

/-- The histories of the LRU-K replacer, read per frame id: a node has the `k` of the
replacer, or is a value-initialised node (`k = 0`) with an empty history; a history holds
at most `k` timestamps, all of them earlier than the current timestamp; and a timestamp
is in the history of at most one frame. -/
def LRUKReplacer.HistInv (r : LRUKReplacer) : Prop :=
  ∀ j,
    ((nodeAt r.node_store_ j).k = r.k_ ∨
      ((nodeAt r.node_store_ j).k = 0 ∧ (nodeAt r.node_store_ j).history_ = [])) ∧
    (nodeAt r.node_store_ j).history_.length ≤ (nodeAt r.node_store_ j).k ∧
    (∀ t ∈ (nodeAt r.node_store_ j).history_, t < r.cur_ts_) ∧
    (∀ j', j' ≠ j → ∀ t ∈ (nodeAt r.node_store_ j).history_,
      t ∉ (nodeAt r.node_store_ j').history_)

/-- An LRU-K replacer with K = 2 for two frames: frame 0 has been referenced twice and
frame 1 once, and both are evictable. -/
def lrukMixedHistory : LRUKReplacer :=
  (LRUKReplacer.new 2 2).runOps [.Pin 0, .Pin 0, .Pin 1, .Unpin 0, .Unpin 1]

/-- An LRU-K replacer with K = 2 for three frames, each referenced once (so all at
infinite distance) and made evictable in the order 2, 0, 1. -/
def lrukAllInfinite : LRUKReplacer :=
  (LRUKReplacer.new 3 2).runOps [.Pin 0, .Pin 1, .Pin 2, .Unpin 2, .Unpin 0, .Unpin 1]

/-! ## Page handles (`page_handle.cpp`) and field offsets (`table_handle.cpp`) -/

/-- The copy `memcpy(mem + off, src, n)` of the `n` bytes `src` into a buffer. -/
def memWrite (mem : List Nat) (off : Nat) (src : List Nat) : List Nat :=
  mem.take off ++ src ++ mem.drop (off + src.length)

/-- The `n` bytes at `mem + off`, the source of a `memcpy(.., mem + off, n)`. -/
def memRead (mem : List Nat) (off n : Nat) : List Nat := (mem.drop off).take n

/-- Modelled from the spec: `BitMap::GetBit(bm, pos)` of the bit-vector utility ("fixed-length
bit array over a raw byte region; .. get/set a single bit"), whose class is outside the
given sources. `bm` is the offset of the bit array in the buffer; bit `pos` is taken to be
bit `pos % 8` of byte `pos / 8`. -/
def BitMap.GetBit (mem : List Nat) (bm pos : Nat) : Bool :=
  (mem.getD (bm + pos / 8) 0).testBit (pos % 8)

/-- Modelled from the spec: `BitMap::SetBit(bm, pos, value)` of the bit-vector utility. -/
def BitMap.SetBit (mem : List Nat) (bm pos : Nat) (value : Bool) : List Nat :=
  mem.set (bm + pos / 8)
    (if value then mem.getD (bm + pos / 8) 0 ||| 2 ^ (pos % 8)
     else mem.getD (bm + pos / 8) 0 &&& (255 - 2 ^ (pos % 8)))

/-- Modelled from the spec: the macro `BITMAP_SIZE` ("slot bitmap, size =
ceil(rec_per_page_/8)"), declared outside the given sources. -/
def BITMAP_SIZE (n : Nat) : Nat := (n + 7) / 8

/-- Modelled from the spec: `TableHeader` ("`rec_size_`, `nullmap_size_`, `bitmap_size_`,
`rec_per_page_`, `page_num_`, `rec_num_`, `first_free_page_`"), declared outside the given
sources. -/
structure TableHeader where
  rec_size_ : Nat
  nullmap_size_ : Nat
  bitmap_size_ : Nat
  rec_per_page_ : Nat
  page_num_ : Nat
  rec_num_ : Nat
  first_free_page_ : page_id_t
deriving DecidableEq, Repr

/-- Modelled from the spec: one field of a `RecordSchema` (declared outside the given
sources): the `field_.field_size_` and `field_.field_type_` that the page handles read; the
type is kept as its tag. -/
structure RTField where
  field_size_ : Nat
  field_type_ : Nat
deriving DecidableEq, Repr, Inhabited

/-- The failure of a `WSDB_ASSERT`. -/
inductive HandleExn where
  | assertion_failed
deriving DecidableEq, Repr

/-- The class `PageHandle`: the table header, the page, and the two pointers into the
bytes of the page, kept as offsets. -/
structure PageHandle where
  tab_hdr_ : TableHeader
  page_ : Page
  bitmap_ : Nat
  slots_mem_ : Nat
deriving DecidableEq, Repr

/-- The constructor `PageHandle::PageHandle`, with its assertion on the bitmap size. -/
def PageHandle.new (tab_hdr : TableHeader) (page : Page) (bit_map slots_mem : Nat) :
    Except HandleExn PageHandle :=
  if BITMAP_SIZE tab_hdr.rec_per_page_ = tab_hdr.bitmap_size_ then
    .ok { tab_hdr_ := tab_hdr, page_ := page, bitmap_ := bit_map, slots_mem_ := slots_mem }
  else .error HandleExn.assertion_failed

/-- The bit of a slot in the bitmap of the page, `BitMap::GetBit(GetBitmap(), slot_id)`. -/
def PageHandle.GetBit (h : PageHandle) (slot_id : Nat) : Bool :=
  BitMap.GetBit h.page_.data_ h.bitmap_ slot_id

/-- The handle after `BitMap::SetBit(GetBitmap(), slot_id, value)`, as the table handle
does after a write in insert mode. -/
def PageHandle.SetBit (h : PageHandle) (slot_id : Nat) (value : Bool) : PageHandle :=
  { h with page_ := { h.page_ with data_ := BitMap.SetBit h.page_.data_ h.bitmap_ slot_id value } }

/-- The constructor `NAryPageHandle::NAryPageHandle`; the constant `PAGE_HEADER_SIZE` is
declared outside the given sources and is a parameter. -/
def NAryPageHandle.new (PAGE_HEADER_SIZE : Nat) (tab_hdr : TableHeader) (page : Page) :
    Except HandleExn PageHandle :=
  PageHandle.new tab_hdr page PAGE_HEADER_SIZE (PAGE_HEADER_SIZE + tab_hdr.bitmap_size_)

/-- The method `NAryPageHandle::WriteSlot`: the outcome, and the handle with the page as
the call leaves it (at the failing assertion, when it raises). -/
def NAryPageHandle.WriteSlot (h : PageHandle) (slot_id : Nat) (null_map data : List Nat)
    (update : Bool) : Except HandleExn Unit × PageHandle :=
  if ¬ slot_id < h.tab_hdr_.rec_per_page_ then (.error HandleExn.assertion_failed, h)
  else if h.GetBit slot_id ≠ update then (.error HandleExn.assertion_failed, h)
  else
    let rec_full_size := h.tab_hdr_.nullmap_size_ + h.tab_hdr_.rec_size_
    let mem1 := memWrite h.page_.data_ (h.slots_mem_ + slot_id * rec_full_size)
      (memRead null_map 0 h.tab_hdr_.nullmap_size_)
    let mem2 := memWrite mem1 (h.slots_mem_ + slot_id * rec_full_size + h.tab_hdr_.nullmap_size_)
      (memRead data 0 h.tab_hdr_.rec_size_)
    (.ok (), { h with page_ := { h.page_ with data_ := mem2 } })

/-- The method `NAryPageHandle::ReadSlot`; `null_map` and `data` are the buffers of the
caller, returned with the bytes copied into them. -/
def NAryPageHandle.ReadSlot (h : PageHandle) (slot_id : Nat) (null_map data : List Nat) :
    Except HandleExn (List Nat × List Nat) :=
  if ¬ slot_id < h.tab_hdr_.rec_per_page_ then .error HandleExn.assertion_failed
  else if h.GetBit slot_id ≠ true then .error HandleExn.assertion_failed
  else
    let rec_full_size := h.tab_hdr_.nullmap_size_ + h.tab_hdr_.rec_size_
    .ok
      (memWrite null_map 0
          (memRead h.page_.data_ (h.slots_mem_ + slot_id * rec_full_size)
            h.tab_hdr_.nullmap_size_),
        memWrite data 0
          (memRead h.page_.data_
            (h.slots_mem_ + slot_id * rec_full_size + h.tab_hdr_.nullmap_size_)
            h.tab_hdr_.rec_size_))

/-- The class `PAXPageHandle`: a page handle with the schema and the field offsets. -/
structure PAXPageHandle extends PageHandle where
  schema_ : List RTField
  offsets_ : List Nat
deriving DecidableEq, Repr

/-- The constructor `PAXPageHandle::PAXPageHandle`. -/
def PAXPageHandle.new (PAGE_HEADER_SIZE : Nat) (tab_hdr : TableHeader) (page : Page)
    (schema : List RTField) (offsets : List Nat) : Except HandleExn PAXPageHandle :=
  match PageHandle.new tab_hdr page PAGE_HEADER_SIZE (PAGE_HEADER_SIZE + tab_hdr.bitmap_size_) with
  | .ok b => .ok { toPageHandle := b, schema_ := schema, offsets_ := offsets }
  | .error e => .error e

/-- The first loop of `PAXPageHandle::WriteSlot` and `ReadSlot`: the address of the slot in
the column of each field, from field index `i` on. -/
def PAXPageHandle.fieldPtrs (slots_mem : Nat) (offsets : List Nat) (slot_id : Nat) :
    Nat → List RTField → List Nat
  | _, [] => []
  | i, field :: rest =>
    (slots_mem + offsets.getD i 0 + slot_id * field.field_size_) ::
      PAXPageHandle.fieldPtrs slots_mem offsets slot_id (i + 1) rest

/-- The second loop of `PAXPageHandle::WriteSlot`: field `i` is copied from
`data + total_field_offset` to `field_ptrs[i]`. -/
def PAXPageHandle.writeFields (data : List Nat) :
    List Nat → List RTField → Nat → List Nat → List Nat
  | ptr :: ptrs, field :: rest, total_field_offset, mem =>
    PAXPageHandle.writeFields data ptrs rest (total_field_offset + field.field_size_)
      (memWrite mem ptr (memRead data total_field_offset field.field_size_))
  | _, _, _, mem => mem

/-- The second loop of `PAXPageHandle::ReadSlot`: field `i` is copied from `field_ptrs[i]`
to `data + total_field_offset`. -/
def PAXPageHandle.readFields (mem : List Nat) :
    List Nat → List RTField → Nat → List Nat → List Nat
  | ptr :: ptrs, field :: rest, total_field_offset, data =>
    PAXPageHandle.readFields mem ptrs rest (total_field_offset + field.field_size_)
      (memWrite data total_field_offset (memRead mem ptr field.field_size_))
  | _, _, _, data => data

/-- The method `PAXPageHandle::WriteSlot`: the outcome, and the handle with the page as
the call leaves it (at the failing assertion, when it raises). -/
def PAXPageHandle.WriteSlot (h : PAXPageHandle) (slot_id : Nat) (null_map data : List Nat)
    (update : Bool) : Except HandleExn Unit × PAXPageHandle :=
  if ¬ slot_id < h.tab_hdr_.rec_per_page_ then (.error HandleExn.assertion_failed, h)
  else if h.toPageHandle.GetBit slot_id ≠ update then (.error HandleExn.assertion_failed, h)
  else
    let mem1 := memWrite h.page_.data_ (h.slots_mem_ + slot_id * h.tab_hdr_.nullmap_size_)
      (memRead null_map 0 h.tab_hdr_.nullmap_size_)
    let field_ptrs := PAXPageHandle.fieldPtrs h.slots_mem_ h.offsets_ slot_id 0 h.schema_
    let mem2 := PAXPageHandle.writeFields data field_ptrs h.schema_ 0 mem1
    (.ok (), { h with page_ := { h.page_ with data_ := mem2 } })

/-- The method `PAXPageHandle::ReadSlot`; `null_map` and `data` are the buffers of the
caller, returned with the bytes copied into them. -/
def PAXPageHandle.ReadSlot (h : PAXPageHandle) (slot_id : Nat) (null_map data : List Nat) :
    Except HandleExn (List Nat × List Nat) :=
  if ¬ slot_id < h.tab_hdr_.rec_per_page_ then .error HandleExn.assertion_failed
  else if h.toPageHandle.GetBit slot_id ≠ true then .error HandleExn.assertion_failed
  else
    let field_ptrs := PAXPageHandle.fieldPtrs h.slots_mem_ h.offsets_ slot_id 0 h.schema_
    .ok
      (memWrite null_map 0
          (memRead h.page_.data_ (h.slots_mem_ + slot_id * h.tab_hdr_.nullmap_size_)
            h.tab_hdr_.nullmap_size_),
        PAXPageHandle.readFields h.page_.data_ field_ptrs h.schema_ 0 data)

/-- The loop of the constructor `TableHandle::TableHandle` that fills `field_offset_`,
from the running offset `offSet`. -/
def TableHandle.fieldOffsetLoop (rec_per_page : Nat) : List RTField → Nat → List Nat
  | [], _ => []
  | field :: rest, offSet =>
    offSet :: TableHandle.fieldOffsetLoop rec_per_page rest
      (offSet + field.field_size_ * rec_per_page)

/-- The vector `field_offset_` that the constructor `TableHandle::TableHandle` computes for
the decomposed layout. -/
def TableHandle.field_offset_ (tab_hdr : TableHeader) (schema : List RTField) : List Nat :=
  TableHandle.fieldOffsetLoop tab_hdr.rec_per_page_ schema
    (tab_hdr.nullmap_size_ * tab_hdr.rec_per_page_)

/-- A table header for records of one null-map byte and two data bytes, two per page. -/
def naryHeader : TableHeader :=
  { rec_size_ := 2, nullmap_size_ := 1, bitmap_size_ := 1, rec_per_page_ := 2,
    page_num_ := 1, rec_num_ := 1, first_free_page_ := 0 }

/-- A page of nine bytes: two header bytes, the bitmap byte with the bit of slot 0 set,
and the two slots. -/
def naryPage : Page := { fid_ := 0, pid_ := 0, data_ := [0, 0, 1, 0, 5, 6, 0, 0, 0] }

/-- The row-major handle over `naryPage`, with a page header of two bytes. -/
def naryHandle : PageHandle :=
  { tab_hdr_ := naryHeader, page_ := naryPage, bitmap_ := 2, slots_mem_ := 3 }

/-- The decomposed handle after `BitMap::SetBit(GetBitmap(), slot_id, value)`, as the table
handle does after a write in insert mode. -/
def PAXPageHandle.SetBit (h : PAXPageHandle) (slot_id : Nat) (value : Bool) : PAXPageHandle :=
  { h with toPageHandle := h.toPageHandle.SetBit slot_id value }

/-- A schema of a field of one byte followed by a field of two bytes. -/
def paxSchema : List RTField :=
  [{ field_size_ := 1, field_type_ := 0 }, { field_size_ := 2, field_type_ := 1 }]

/-- A table header for records of one null-map byte and three data bytes, two per page. -/
def paxHeader : TableHeader :=
  { rec_size_ := 3, nullmap_size_ := 1, bitmap_size_ := 1, rec_per_page_ := 2,
    page_num_ := 1, rec_num_ := 1, first_free_page_ := 0 }

/-- A page of eleven bytes: two header bytes, the bitmap byte with the bit of slot 0 set,
two null-map bytes, the column of the first field and the column of the second. -/
def paxPage : Page := { fid_ := 0, pid_ := 0, data_ := [0, 0, 1, 0, 0, 4, 0, 5, 6, 0, 0] }

/-- The decomposed handle over `paxPage`, with a page header of two bytes and the field
offsets of the table handle. -/
def paxHandle : PAXPageHandle :=
  { tab_hdr_ := paxHeader, page_ := paxPage, bitmap_ := 2, slots_mem_ := 3,
    schema_ := paxSchema, offsets_ := TableHandle.field_offset_ paxHeader paxSchema }

/-! ## Chunk reads (`PAXPageHandle::ReadChunk`) -/

/-- Modelled from the spec: a value made by `ValueFactory` (outside the given sources): the
"null marker" `CreateNullValue(type)`, or the "materialized value"
`CreateValue(type, data, size)`, kept as its type tag and the `size` bytes it is decoded
from. -/
inductive Value where
  | null (field_type : Nat)
  | value (field_type : Nat) (data : List Nat)
deriving DecidableEq, Repr

/-- The lambda `processField` of `PAXPageHandle::ReadChunk`: the array of the values of
one field, appended slot by slot. -/
def PAXPageHandle.processField (h : PAXPageHandle) (chunk_schema : List RTField)
    (field_idx : Nat) : List Value :=
  let field := chunk_schema.getD field_idx default
  let field_size := field.field_size_
  let field_offset := h.offsets_.getD field_idx 0
  (List.range h.tab_hdr_.rec_per_page_).foldl
    (fun array_value slot_id =>
      if ¬ BitMap.GetBit h.page_.data_ h.bitmap_ slot_id then array_value
      else
        let null_map_ptr := h.slots_mem_ + slot_id * h.tab_hdr_.nullmap_size_
        if BitMap.GetBit h.page_.data_ null_map_ptr field_idx then
          array_value ++ [Value.null field.field_type_]
        else
          let field_data := h.slots_mem_ + field_offset + slot_id * field_size
          array_value ++
            [Value.value field.field_type_ (memRead h.page_.data_ field_data field_size)])
    []

/-- The method `PAXPageHandle::ReadChunk`: the column arrays `col_arrs` of the chunk, one
per field of `chunk_schema`. -/
def PAXPageHandle.ReadChunk (h : PAXPageHandle) (chunk_schema : List RTField) :
    List (List Value) :=
  (List.range chunk_schema.length).map (fun field_idx => h.processField chunk_schema field_idx)

/-- Field `f` of a record of `schema` given by its null-map and its data bytes: the null
marker when bit `f` of the null-map is set, else the value of the bytes of the field, which
follow the bytes of the fields before it. -/
def Record.fieldValue (schema : List RTField) (f : Nat) (null_map data : List Nat) : Value :=
  if BitMap.GetBit null_map 0 f then Value.null (schema.getD f default).field_type_
  else
    Value.value (schema.getD f default).field_type_
      (memRead data ((schema.take f).map RTField.field_size_).sum
        (schema.getD f default).field_size_)

/-- The value of field `f` in the record that `ReadSlot` returns for a slot, `none` when
`ReadSlot` raises. -/
def PAXPageHandle.readSlotField (h : PAXPageHandle) (f slot_id : Nat)
    (null_map data : List Nat) : Option Value :=
  match h.ReadSlot slot_id null_map data with
  | .ok (nm, d) => some (Record.fieldValue h.schema_ f nm d)
  | .error _ => none

/-- The occupied slots of a page, in ascending order. -/
def PageHandle.occupiedSlots (h : PageHandle) : List Nat :=
  (List.range h.tab_hdr_.rec_per_page_).filter (fun slot_id => h.GetBit slot_id)

/-- A table header for records of one null-map byte and three data bytes, four per page. -/
def chunkHeader : TableHeader :=
  { rec_size_ := 3, nullmap_size_ := 1, bitmap_size_ := 1, rec_per_page_ := 4,
    page_num_ := 1, rec_num_ := 3, first_free_page_ := 0 }

/-- A page with slots 0, 1 and 3 occupied and slot 2 empty: two header bytes, the bitmap
byte, four null-map bytes (the second field of slot 1 is null), the column of the first
field and the column of the second. -/
def chunkPage : Page :=
  { fid_ := 0, pid_ := 0,
    data_ := [0, 0, 11, 0, 2, 0, 0, 10, 20, 30, 40, 11, 12, 21, 22, 31, 32, 41, 42] }

/-- The decomposed handle over `chunkPage` for the schema `paxSchema`. -/
def chunkHandle : PAXPageHandle :=
  { tab_hdr_ := chunkHeader, page_ := chunkPage, bitmap_ := 2, slots_mem_ := 3,
    schema_ := paxSchema, offsets_ := TableHandle.field_offset_ chunkHeader paxSchema }

/-! ## Table handle (`table_handle.cpp`) -/

/-- The value of a `size_t` variable after `++`. -/
def size_t_inc (n : Nat) : Nat := (n + 1) % 2 ^ 64

/-- The value of a `size_t` variable after `--`. -/
def size_t_dec (n : Nat) : Nat := (n + 2 ^ 64 - 1) % 2 ^ 64

/-- The conversion `static_cast<page_id_t>` of a `size_t` to the 32-bit signed page id. -/
def to_page_id_t (n : Nat) : page_id_t :=
  if n % 2 ^ 32 < 2 ^ 31 then ((n % 2 ^ 32 : Nat) : Int) else ((n % 2 ^ 32 : Nat) : Int) - 2 ^ 32

/-- The `w` bytes of an unsigned integer, least significant first. -/
def bytesOfNat : Nat → Nat → List Nat
  | 0, _ => []
  | w + 1, n => n % 256 :: bytesOfNat w (n / 256)

/-- The unsigned integer held in a run of bytes, least significant first. -/
def natOfBytes : List Nat → Nat
  | [] => 0
  | b :: rest => b % 256 + 256 * natOfBytes rest

/-- Modelled from the spec: the header of a page ("header fields `record_count`,
`next_free_page_id`") lies at the start of the buffer, before `PAGE_HEADER_SIZE`; the class
`Page` is outside the given sources. The link is taken to be the four bytes at offset 0. -/
def PAGE_NEXT_FREE_OFFSET : Nat := 0

/-- Modelled from the spec: the record count of the page header is taken to be the eight
bytes at offset 8. -/
def PAGE_RECORD_NUM_OFFSET : Nat := 8

/-- Modelled from the spec: the accessor `Page::GetRecordNum`. -/
def Page.GetRecordNum (p : Page) : Nat :=
  natOfBytes (memRead p.data_ PAGE_RECORD_NUM_OFFSET 8)

/-- Modelled from the spec: the setter `Page::SetRecordNum`. -/
def Page.SetRecordNum (p : Page) (record_num : Nat) : Page :=
  { p with data_ := memWrite p.data_ PAGE_RECORD_NUM_OFFSET (bytesOfNat 8 record_num) }

/-- Modelled from the spec: the accessor `Page::GetNextFreePageId`. -/
def Page.GetNextFreePageId (p : Page) : page_id_t :=
  to_page_id_t (natOfBytes (memRead p.data_ PAGE_NEXT_FREE_OFFSET 4))

/-- Modelled from the spec: the setter `Page::SetNextFreePageId`. -/
def Page.SetNextFreePageId (p : Page) (page_id : page_id_t) : Page :=
  { p with
    data_ := memWrite p.data_ PAGE_NEXT_FREE_OFFSET (bytesOfNat 4 (page_id % 2 ^ 32).toNat) }

/-- Modelled from the spec: the accessor `Page::GetPageId`. -/
def Page.GetPageId (p : Page) : page_id_t := p.pid_

/-- Modelled from the spec: `BitMap::FindFirst(bm, max_n, start, value)` of the bit-vector
utility ("find first bit with a given value"): the first position from `start` on, below
`max_n`, whose bit is `value`, and `max_n` when there is none. -/
def BitMap.FindFirst (mem : List Nat) (bm max_n start : Nat) (value : Bool) : Nat :=
  ((List.range max_n).find? (fun pos => decide (start ≤ pos) && (BitMap.GetBit mem bm pos == value))).getD
    max_n

/-- Modelled from the spec: `RID`, "`(page_id, slot_id)`"; a slot id is kept as the
`size_t` it is passed as. -/
structure RID where
  page_id_ : page_id_t
  slot_id_ : Nat
deriving DecidableEq, Repr

def RID.PageID (rid : RID) : page_id_t := rid.page_id_

def RID.SlotID (rid : RID) : Nat := rid.slot_id_

/-- Modelled from the spec: `Record`, "a null-map (one bit per field) plus packed field
bytes, addressed by RID when persisted"; the schema pointer is left out. -/
structure Record where
  nullmap_ : List Nat
  data_ : List Nat
  rid_ : RID
deriving DecidableEq, Repr

def Record.GetNullMap (r : Record) : List Nat := r.nullmap_

def Record.GetData (r : Record) : List Nat := r.data_

/-- The exceptions that can leave a method of `TableHandle`: the three it throws, an
exception of the buffer pool, a failed assertion of a page handle, and the
`WSDB_EXCEPTION_EMPTY` that the methods of the base class `PageHandle` throw. -/
inductive TableExn where
  | WSDB_PAGE_MISS
  | WSDB_RECORD_EXISTS
  | WSDB_RECORD_MISS
  | pool (e : Exn)
  | handle (e : HandleExn)
  | WSDB_EXCEPTION_EMPTY
deriving DecidableEq, Repr

inductive StorageModel where
  | NARY_MODEL
  | PAX_MODEL
deriving DecidableEq, Repr

/-- A `PageHandleUptr`: the object behind the pointer is one of the two page handles. -/
inductive PageHandleUptr where
  | nary (h : PageHandle)
  | pax (h : PAXPageHandle)
deriving DecidableEq, Repr

/-- The base object of the handle. -/
def PageHandleUptr.base : PageHandleUptr → PageHandle
  | .nary h => h
  | .pax h => h.toPageHandle

def PageHandleUptr.GetPage (u : PageHandleUptr) : Page := u.base.page_

/-- The handle once the page it points to has become `page` (a store through the `Page*`
that the handle shares with its caller). -/
def PageHandleUptr.setPage : PageHandleUptr → Page → PageHandleUptr
  | .nary h, page => .nary { h with page_ := page }
  | .pax h, page => .pax { h with page_ := page }

/-- The bit of a slot in the bitmap, `BitMap::GetBit(GetBitmap(), slot_id)`. -/
def PageHandleUptr.GetBit (u : PageHandleUptr) (slot_id : Nat) : Bool := u.base.GetBit slot_id

/-- The virtual call `WriteSlot`. -/
def PageHandleUptr.WriteSlot (u : PageHandleUptr) (slot_id : Nat) (null_map data : List Nat)
    (update : Bool) : Except HandleExn Unit × PageHandleUptr :=
  match u with
  | .nary h =>
    ((NAryPageHandle.WriteSlot h slot_id null_map data update).1,
      .nary (NAryPageHandle.WriteSlot h slot_id null_map data update).2)
  | .pax h =>
    ((PAXPageHandle.WriteSlot h slot_id null_map data update).1,
      .pax (PAXPageHandle.WriteSlot h slot_id null_map data update).2)

/-- The virtual call `ReadSlot`. -/
def PageHandleUptr.ReadSlot (u : PageHandleUptr) (slot_id : Nat) (null_map data : List Nat) :
    Except HandleExn (List Nat × List Nat) :=
  match u with
  | .nary h => NAryPageHandle.ReadSlot h slot_id null_map data
  | .pax h => PAXPageHandle.ReadSlot h slot_id null_map data

/-- State of `TableHandle`. The buffer pool behind `buffer_pool_manager_` is part of the
state. `field_offsets_` is the member `field_offset_`, whose name is taken by the function
that computes it. `PAGE_HEADER_SIZE` is the configuration constant, declared outside the
given sources and kept with the state. The member `disk_manager_` is not used by the
methods embedded here and is left out. -/
structure TableHandle where
  tab_hdr_ : TableHeader
  table_id_ : file_id_t
  buffer_pool_manager_ : BufferPoolManager
  schema_ : List RTField
  storage_model_ : StorageModel
  field_offsets_ : List Nat
  PAGE_HEADER_SIZE : Nat

/-- The constructor `TableHandle::TableHandle`. -/
def TableHandle.new (PAGE_HEADER_SIZE : Nat) (buffer_pool_manager : BufferPoolManager)
    (table_id : file_id_t) (hdr : TableHeader) (schema : List RTField)
    (storage_model : StorageModel) : TableHandle :=
  { tab_hdr_ := hdr, table_id_ := table_id, buffer_pool_manager_ := buffer_pool_manager,
    schema_ := schema, storage_model_ := storage_model,
    field_offsets_ :=
      match storage_model with
      | .PAX_MODEL => TableHandle.field_offset_ hdr schema
      | .NARY_MODEL => [],
    PAGE_HEADER_SIZE := PAGE_HEADER_SIZE }

/-- The method `TableHandle::WrapPageHandle`. The handle keeps `&tab_hdr_`; it reads only
the layout fields of the header, which no method changes. -/
def TableHandle.WrapPageHandle (t : TableHandle) (page : Page) :
    Except HandleExn PageHandleUptr :=
  match t.storage_model_ with
  | .NARY_MODEL =>
    match NAryPageHandle.new t.PAGE_HEADER_SIZE t.tab_hdr_ page with
    | .ok h => .ok (.nary h)
    | .error e => .error e
  | .PAX_MODEL =>
    match PAXPageHandle.new t.PAGE_HEADER_SIZE t.tab_hdr_ page t.schema_ t.field_offsets_ with
    | .ok h => .ok (.pax h)
    | .error e => .error e

/-- The bytes of the page of a handle reach the frame the page lives in: the stores of the
source go through the `Page*` and are made in the frame at once; the embedding makes them
on the copy held by the handle and puts the copy back before the next call on the pool. -/
def TableHandle.storePage (t : TableHandle) (frame_id : frame_id_t) (page : Page) :
    TableHandle :=
  { t with
    buffer_pool_manager_ := t.buffer_pool_manager_.writePageData frame_id page.data_ }

/-- The call `buffer_pool_manager_->UnpinPage(table_id_, page_id, is_dirty)`, whose result
the methods ignore. -/
def TableHandle.unpin (t : TableHandle) (page_id : page_id_t) (is_dirty : Bool) :
    TableHandle :=
  { t with
    buffer_pool_manager_ :=
      (t.buffer_pool_manager_.UnpinPage t.table_id_ page_id is_dirty).2 }

/-- The method `TableHandle::FetchPageHandle`: the frame of the fetched page with the
handle over it. -/
def TableHandle.FetchPageHandle (t : TableHandle) (page_id : page_id_t) :
    Except TableExn (frame_id_t × PageHandleUptr) × TableHandle :=
  match t.buffer_pool_manager_.FetchPage t.table_id_ page_id with
  | (.error e, b1) => (.error (.pool e), { t with buffer_pool_manager_ := b1 })
  | (.ok frame_id, b1) =>
    match t.WrapPageHandle (b1.frame frame_id).page_ with
    | .ok pg_hdl => (.ok (frame_id, pg_hdl), { t with buffer_pool_manager_ := b1 })
    | .error e => (.error (.handle e), { t with buffer_pool_manager_ := b1 })

/-- The method `TableHandle::CreateNewPageHandle`. -/
def TableHandle.CreateNewPageHandle (t : TableHandle) :
    Except TableExn (frame_id_t × PageHandleUptr) × TableHandle :=
  let page_id := to_page_id_t t.tab_hdr_.page_num_
  let t1 := { t with tab_hdr_ := { t.tab_hdr_ with page_num_ := size_t_inc t.tab_hdr_.page_num_ } }
  match t1.buffer_pool_manager_.FetchPage t1.table_id_ page_id with
  | (.error e, b1) => (.error (.pool e), { t1 with buffer_pool_manager_ := b1 })
  | (.ok frame_id, b1) =>
    let t2 := { t1 with buffer_pool_manager_ := b1 }
    match t2.WrapPageHandle (b1.frame frame_id).page_ with
    | .error e => (.error (.handle e), t2)
    | .ok pg_hdl =>
      let page := pg_hdl.GetPage.SetNextFreePageId t2.tab_hdr_.first_free_page_
      let t3 := t2.storePage frame_id page
      (.ok (frame_id, pg_hdl.setPage page),
        { t3 with tab_hdr_ := { t3.tab_hdr_ with first_free_page_ := page_id } })

/-- The method `TableHandle::CreatePageHandle`. -/
def TableHandle.CreatePageHandle (t : TableHandle) :
    Except TableExn (frame_id_t × PageHandleUptr) × TableHandle :=
  if t.tab_hdr_.first_free_page_ = INVALID_PAGE_ID then t.CreateNewPageHandle
  else t.FetchPageHandle t.tab_hdr_.first_free_page_

/-- The method `TableHandle::GetRecord`. The two buffers start zeroed
(`std::make_unique<char[]>(n)`). -/
def TableHandle.GetRecord (t : TableHandle) (rid : RID) : Except TableExn Record × TableHandle :=
  let nullmap := List.replicate t.tab_hdr_.nullmap_size_ 0
  let data := List.replicate t.tab_hdr_.rec_size_ 0
  match t.FetchPageHandle rid.PageID with
  | (.error e, t1) => (.error e, t1)
  | (.ok (_, page_handle), t1) =>
    if ¬ page_handle.GetBit rid.SlotID then
      (.error TableExn.WSDB_PAGE_MISS, t1.unpin rid.PageID false)
    else
      match page_handle.ReadSlot rid.SlotID nullmap data with
      | .error e => (.error (.handle e), t1)
      | .ok (nm, d) =>
        (.ok { nullmap_ := nm, data_ := d, rid_ := rid }, t1.unpin rid.PageID false)

/-- The method `TableHandle::InsertRecord(const Record&)`. -/
def TableHandle.InsertRecord (t : TableHandle) (record : Record) :
    Except TableExn RID × TableHandle :=
  match t.CreateNewPageHandle with
  | (.error e, t1) => (.error e, t1)
  | (.ok (frame_id, new_page_handle), t1) =>
    let empty_slot := BitMap.FindFirst new_page_handle.GetPage.data_ new_page_handle.base.bitmap_
      t1.tab_hdr_.rec_per_page_ 0 false
    match new_page_handle.WriteSlot empty_slot record.GetNullMap record.GetData false with
    | (.error e, _) => (.error (.handle e), t1)
    | (.ok _, h1) =>
      let page1 := { h1.GetPage with
        data_ := BitMap.SetBit h1.GetPage.data_ h1.base.bitmap_ empty_slot true }
      let hdr1 := { t1.tab_hdr_ with rec_num_ := size_t_inc t1.tab_hdr_.rec_num_ }
      let recordNum := page1.GetRecordNum
      let page2 := page1.SetRecordNum recordNum
      let recordNum1 := size_t_inc recordNum
      let hdr2 :=
        if recordNum1 = hdr1.rec_per_page_ then
          { hdr1 with first_free_page_ := page2.GetNextFreePageId }
        else hdr1
      let page3 :=
        if recordNum1 = hdr1.rec_per_page_ then page2.SetNextFreePageId INVALID_PAGE_ID
        else page2
      let t2 := ({ t1 with tab_hdr_ := hdr2 }).storePage frame_id page3
      (.ok { page_id_ := page3.GetPageId, slot_id_ := empty_slot },
        t2.unpin page3.GetPageId true)

/-- The method `TableHandle::InsertRecord(const RID&, const Record&)`, the overload that
inserts at a given RID. -/
def TableHandle.InsertRecordAt (t : TableHandle) (rid : RID) (record : Record) :
    Except TableExn Unit × TableHandle :=
  if rid.PageID = INVALID_PAGE_ID then (.error TableExn.WSDB_PAGE_MISS, t)
  else
    match t.FetchPageHandle rid.PageID with
    | (.error e, t1) => (.error e, t1)
    | (.ok (frame_id, new_page_handle), t1) =>
      if new_page_handle.GetBit rid.SlotID then
        (.error TableExn.WSDB_RECORD_EXISTS, t1.unpin rid.PageID false)
      else
        match new_page_handle.WriteSlot rid.SlotID record.GetNullMap record.GetData false with
        | (.error e, _) => (.error (.handle e), t1)
        | (.ok _, h1) =>
          let page1 := { h1.GetPage with
            data_ := BitMap.SetBit h1.GetPage.data_ h1.base.bitmap_ rid.SlotID true }
          let hdr1 := { t1.tab_hdr_ with rec_num_ := size_t_inc t1.tab_hdr_.rec_num_ }
          let recordNum := page1.GetRecordNum
          let page2 := page1.SetRecordNum recordNum
          let recordNum1 := size_t_inc recordNum
          let hdr2 :=
            if recordNum1 = hdr1.rec_per_page_ then
              { hdr1 with first_free_page_ := page2.GetNextFreePageId }
            else hdr1
          let page3 :=
            if recordNum1 = hdr1.rec_per_page_ then page2.SetNextFreePageId INVALID_PAGE_ID
            else page2
          let t2 := ({ t1 with tab_hdr_ := hdr2 }).storePage frame_id page3
          (.ok (), t2.unpin page3.GetPageId true)

/-- The method `TableHandle::DeleteRecord`. -/
def TableHandle.DeleteRecord (t : TableHandle) (rid : RID) : Except TableExn Unit × TableHandle :=
  match t.FetchPageHandle rid.PageID with
  | (.error e, t1) => (.error e, t1)
  | (.ok (frame_id, page_handle), t1) =>
    if ¬ page_handle.GetBit rid.SlotID then
      (.error TableExn.WSDB_RECORD_MISS, t1.unpin rid.PageID false)
    else
      let page1 := { page_handle.GetPage with
        data_ := BitMap.SetBit page_handle.GetPage.data_ page_handle.base.bitmap_ rid.SlotID
          false }
      let hdr1 := { t1.tab_hdr_ with rec_num_ := size_t_dec t1.tab_hdr_.rec_num_ }
      let recordNum := page1.GetRecordNum
      let page2 := page1.SetRecordNum recordNum
      let recordNum1 := size_t_dec recordNum
      let page3 :=
        if recordNum1 < hdr1.rec_per_page_ then page2.SetNextFreePageId hdr1.first_free_page_
        else page2
      let hdr2 :=
        if recordNum1 < hdr1.rec_per_page_ then { hdr1 with first_free_page_ := rid.PageID }
        else hdr1
      let t2 := ({ t1 with tab_hdr_ := hdr2 }).storePage frame_id page3
      (.ok (), t2.unpin rid.PageID true)

/-- The method `TableHandle::UpdateRecord`. -/
def TableHandle.UpdateRecord (t : TableHandle) (rid : RID) (record : Record) :
    Except TableExn Unit × TableHandle :=
  match t.FetchPageHandle rid.PageID with
  | (.error e, t1) => (.error e, t1)
  | (.ok (frame_id, page_handle), t1) =>
    if ¬ page_handle.GetBit rid.SlotID then
      (.error TableExn.WSDB_RECORD_MISS, t1.unpin rid.PageID false)
    else
      match page_handle.WriteSlot rid.SlotID record.GetNullMap record.GetData true with
      | (.error e, _) => (.error (.handle e), t1)
      | (.ok _, h1) => (.ok (), (t1.storePage frame_id h1.GetPage).unpin rid.PageID true)

/-- The page `page_id` of the table as the pool holds it: the page of its frame when it
is resident, else the block on disk. -/
def TableHandle.page (t : TableHandle) (page_id : page_id_t) : Page :=
  match t.buffer_pool_manager_.GetFrame t.table_id_ page_id with
  | some frame_id => (t.buffer_pool_manager_.frame frame_id).page_
  | none =>
    { fid_ := t.table_id_, pid_ := page_id,
      data_ := t.buffer_pool_manager_.disk_manager_.blocks ⟨t.table_id_, page_id⟩ }

/-- The pin count of the page `page_id` of the table: that of its frame, 0 when the page is
not resident. -/
def TableHandle.pinCount (t : TableHandle) (page_id : page_id_t) : Nat :=
  match t.buffer_pool_manager_.GetFrame t.table_id_ page_id with
  | some frame_id => (t.buffer_pool_manager_.frame frame_id).GetPinCount
  | none => 0

/-- The bit of slot `slot_id` in the bitmap of the page `page_id` of the table. -/
def TableHandle.slotOccupied (t : TableHandle) (rid : RID) : Bool :=
  BitMap.GetBit (t.page rid.PageID).data_ t.PAGE_HEADER_SIZE rid.SlotID

/-- A disk on which every block is `PAGE_SIZE` zero bytes. -/
def zeroDisk (PAGE_SIZE : Nat) : DiskManager :=
  { blocks := fun _ => List.replicate PAGE_SIZE 0, log := [] }

/-- A table header for records of one null-map byte and two data bytes, four per page; the
table has its header page only, no record and no page with room. -/
def demoHeader : TableHeader :=
  { rec_size_ := 2, nullmap_size_ := 1, bitmap_size_ := 1, rec_per_page_ := 4,
    page_num_ := 1, rec_num_ := 0, first_free_page_ := INVALID_PAGE_ID }

/-- A row-major table over `demoHeader`, with a page header of 16 bytes, on a fresh pool of
two frames of 32 bytes over a zeroed disk. -/
def demoTable : TableHandle :=
  TableHandle.new 16 (BufferPoolManager.new (zeroDisk 32) .LRUReplacer 2 32 2) 0 demoHeader
    [{ field_size_ := 2, field_type_ := 0 }] .NARY_MODEL

/-- A record of `demoTable`. -/
def demoRecord : Record :=
  { nullmap_ := [0], data_ := [7, 8], rid_ := { page_id_ := INVALID_PAGE_ID, slot_id_ := 0 } }

/-- The table `demoTable` after one `InsertRecord(record)`. -/
def demoTable1 : TableHandle := (demoTable.InsertRecord demoRecord).2

/-- The number of occupied slots in the bitmap of the page `page_id` of the table. -/
def TableHandle.occupiedCount (t : TableHandle) (page_id : page_id_t) : Nat :=
  ((List.range t.tab_hdr_.rec_per_page_).filter
    (fun slot_id => t.slotOccupied ⟨page_id, slot_id⟩)).length

/-- The table `demoTable1` after `InsertRecord(rid, record)` at slot 1 of page 1. -/
def demoTable2 : TableHandle := (demoTable1.InsertRecordAt ⟨1, 1⟩ demoRecord).2

/-- The table `demoTable2` after `InsertRecord(rid, record)` at slot 2 of page 1. -/
def demoTable3 : TableHandle := (demoTable2.InsertRecordAt ⟨1, 2⟩ demoRecord).2

/-- The table `demoTable3` after `InsertRecord(rid, record)` at slot 3 of page 1, the
insert that fills page 1. -/
def demoTable4 : TableHandle := (demoTable3.InsertRecordAt ⟨1, 3⟩ demoRecord).2

/-- A disk whose block (0, 1) is a full page of `demoHeader`: link -1, record count 4,
all four bits of the bitmap set; every other block is zeroed. -/
def fullPageDisk : DiskManager :=
  { blocks := fun key =>
      if key = ⟨0, 1⟩ then
        [255, 255, 255, 255, 0, 0, 0, 0, 4, 0, 0, 0, 0, 0, 0, 0, 15,
          0, 1, 2, 0, 3, 4, 0, 5, 6, 0, 7, 8, 0, 0, 0]
      else List.replicate 32 0,
    log := [] }

/-- A row-major table with one data page, page 1 of `fullPageDisk`, which is full and so
is not on the free-page list. -/
def fullTable : TableHandle :=
  TableHandle.new 16 (BufferPoolManager.new fullPageDisk .LRUReplacer 2 32 2) 0
    { demoHeader with page_num_ := 2, rec_num_ := 4 }
    [{ field_size_ := 2, field_type_ := 0 }] .NARY_MODEL

/-- The bytes of the page `(fid, pid)` as the pool holds it: those in its frame when it is
resident, else the block on disk. -/
def BufferPoolManager.pageData (b : BufferPoolManager) (fid : file_id_t) (pid : page_id_t) :
    List Nat :=
  match b.GetFrame fid pid with
  | some frame_id => (b.frame frame_id).page_.data_
  | none => b.disk_manager_.blocks ⟨fid, pid⟩

/-- The pin count of the page `(fid, pid)`: that of its frame, 0 when it is not resident. -/
def BufferPoolManager.pagePins (b : BufferPoolManager) (fid : file_id_t) (pid : page_id_t) :
    Nat :=
  match b.GetFrame fid pid with
  | some frame_id => (b.frame frame_id).GetPinCount
  | none => 0

/-- The table header, the bytes of the page `page_id` and the pin count of that page are
in `t1` what they are in `t`. -/
def TableHandle.sameAt (t t1 : TableHandle) (page_id : page_id_t) : Prop :=
  t1.tab_hdr_ = t.tab_hdr_ ∧ (t1.page page_id).data_ = (t.page page_id).data_ ∧
    t1.pinCount page_id = t.pinCount page_id

/-- The table after `n` calls of `GetRecord(rid)` in a row. -/
def TableHandle.getRecordTimes (t : TableHandle) (rid : RID) : Nat → TableHandle
  | 0 => t
  | n + 1 => ((TableHandle.getRecordTimes t rid n).GetRecord rid).2

/-! ## Sequences of slot operations on a page -/

/-- One operation on a slot of a page, as the table handle issues them: `WriteSlot` in
insert mode followed by setting the bit of the slot, `WriteSlot` in update mode, and
clearing the bit of the slot. -/
inductive SlotOp where
  | insert (slot_id : Nat) (null_map data : List Nat)
  | update (slot_id : Nat) (null_map data : List Nat)
  | clear (slot_id : Nat)
deriving DecidableEq, Repr

/-- The buffers of the operation have the sizes of the table header, and a bit that is
cleared is the bit of a slot of the page. -/
def SlotOp.valid (tab_hdr : TableHeader) : SlotOp → Bool
  | .insert _ null_map data =>
    decide (null_map.length = tab_hdr.nullmap_size_) && decide (data.length = tab_hdr.rec_size_)
  | .update _ null_map data =>
    decide (null_map.length = tab_hdr.nullmap_size_) && decide (data.length = tab_hdr.rec_size_)
  | .clear slot_id => decide (slot_id < tab_hdr.rec_per_page_)

/-- The row-major handle after one operation; the bit is set only after a `WriteSlot` that
returned, and a `WriteSlot` that raises leaves the page as it is. -/
def NAryPageHandle.step (h : PageHandle) : SlotOp → PageHandle
  | .insert slot_id null_map data =>
    match NAryPageHandle.WriteSlot h slot_id null_map data false with
    | (.ok _, h1) => h1.SetBit slot_id true
    | (.error _, h1) => h1
  | .update slot_id null_map data => (NAryPageHandle.WriteSlot h slot_id null_map data true).2
  | .clear slot_id => h.SetBit slot_id false

/-- The decomposed handle after one operation. -/
def PAXPageHandle.step (h : PAXPageHandle) : SlotOp → PAXPageHandle
  | .insert slot_id null_map data =>
    match PAXPageHandle.WriteSlot h slot_id null_map data false with
    | (.ok _, h1) => h1.SetBit slot_id true
    | (.error _, h1) => h1
  | .update slot_id null_map data => (PAXPageHandle.WriteSlot h slot_id null_map data true).2
  | .clear slot_id => h.SetBit slot_id false

/-- The records of the slots of a page as a sequence of operations defines them: an insert
into an empty slot and an update of an occupied slot store their record, a clear empties
the slot, and an insert or update that finds the slot in the wrong state does nothing. -/
def SlotOp.apply (rec_per_page : Nat) (A : Nat → Option (List Nat × List Nat)) :
    SlotOp → Nat → Option (List Nat × List Nat)
  | .insert slot_id null_map data =>
    if slot_id < rec_per_page ∧ A slot_id = none then
      Function.update A slot_id (some (null_map, data))
    else A
  | .update slot_id null_map data =>
    if slot_id < rec_per_page ∧ (A slot_id).isSome = true then
      Function.update A slot_id (some (null_map, data))
    else A
  | .clear slot_id => Function.update A slot_id none

/-- The bytes of a page after one operation, for a layout whose slot write is `W`. -/
def SlotOp.onBytes (rec_per_page bm : Nat)
    (W : List Nat → Nat → List Nat → List Nat → List Nat) (mem : List Nat) :
    SlotOp → List Nat
  | .insert slot_id null_map data =>
    if slot_id < rec_per_page ∧ BitMap.GetBit mem bm slot_id = false then
      BitMap.SetBit (W mem slot_id null_map data) bm slot_id true
    else mem
  | .update slot_id null_map data =>
    if slot_id < rec_per_page ∧ BitMap.GetBit mem bm slot_id = true then
      W mem slot_id null_map data
    else mem
  | .clear slot_id => BitMap.SetBit mem bm slot_id false

/-- The bitmap of the bytes `mem` marks the slots that hold a record in `A`, and each such
slot holds, in the sense of `holds`, its record. -/
def PageHolds (rec_per_page bm : Nat) (holds : List Nat → Nat → List Nat → List Nat → Prop)
    (mem : List Nat) (A : Nat → Option (List Nat × List Nat)) : Prop :=
  ∀ s, s < rec_per_page →
    BitMap.GetBit mem bm s = (A s).isSome ∧ ∀ nm d, A s = some (nm, d) → holds mem s nm d

/-- The two copies of `NAryPageHandle::WriteSlot`, on the bytes of the page. -/
def NAryPageHandle.slotWrite (tab_hdr : TableHeader) (sm : Nat) (mem : List Nat)
    (slot_id : Nat) (null_map data : List Nat) : List Nat :=
  memWrite
    (memWrite mem (sm + slot_id * (tab_hdr.nullmap_size_ + tab_hdr.rec_size_))
      (memRead null_map 0 tab_hdr.nullmap_size_))
    (sm + slot_id * (tab_hdr.nullmap_size_ + tab_hdr.rec_size_) + tab_hdr.nullmap_size_)
    (memRead data 0 tab_hdr.rec_size_)

/-- The bytes of a row-major page hold the record `(nm, d)` in slot `s`. -/
def NAryPageHandle.slotHolds (tab_hdr : TableHeader) (sm : Nat) (mem : List Nat) (s : Nat)
    (nm d : List Nat) : Prop :=
  nm.length = tab_hdr.nullmap_size_ ∧ d.length = tab_hdr.rec_size_ ∧
  memRead mem (sm + s * (tab_hdr.nullmap_size_ + tab_hdr.rec_size_)) tab_hdr.nullmap_size_ = nm ∧
  memRead mem (sm + s * (tab_hdr.nullmap_size_ + tab_hdr.rec_size_) + tab_hdr.nullmap_size_)
    tab_hdr.rec_size_ = d

/-- The copies of `PAXPageHandle::WriteSlot`, on the bytes of the page. -/
def PAXPageHandle.slotWrite (tab_hdr : TableHeader) (schema : List RTField) (sm : Nat)
    (mem : List Nat) (slot_id : Nat) (null_map data : List Nat) : List Nat :=
  PAXPageHandle.writeFields data
    (PAXPageHandle.fieldPtrs sm (TableHandle.field_offset_ tab_hdr schema) slot_id 0 schema)
    schema 0
    (memWrite mem (sm + slot_id * tab_hdr.nullmap_size_)
      (memRead null_map 0 tab_hdr.nullmap_size_))

/-- The bytes of a decomposed page hold the record `(nm, d)` in slot `s`. -/
def PAXPageHandle.slotHolds (tab_hdr : TableHeader) (schema : List RTField) (sm : Nat)
    (mem : List Nat) (s : Nat) (nm d : List Nat) : Prop :=
  nm.length = tab_hdr.nullmap_size_ ∧ d.length = tab_hdr.rec_size_ ∧
  memRead mem (sm + s * tab_hdr.nullmap_size_) tab_hdr.nullmap_size_ = nm ∧
  ∀ out : List Nat, out.length = tab_hdr.rec_size_ →
    PAXPageHandle.readFields mem
      (PAXPageHandle.fieldPtrs sm (TableHandle.field_offset_ tab_hdr schema) s 0 schema)
      schema 0 out = d

/-- A schema of two fields of one byte. -/
def twoByteSchema : List RTField :=
  [{ field_size_ := 1, field_type_ := 0 }, { field_size_ := 1, field_type_ := 1 }]

/-- An empty page of nine bytes. -/
def emptyPage : Page := { fid_ := 0, pid_ := 0, data_ := List.replicate 9 0 }

/-- A sequence of operations on the two slots of a page of `naryHeader`. -/
def demoSlotOps : List SlotOp :=
  [.insert 0 [0] [1, 2], .insert 1 [1] [3, 4], .update 0 [0] [5, 6], .clear 1,
    .insert 1 [0] [7, 8], .insert 0 [1] [9, 9]]

/-! ## Executors (`executor_limit.cpp`) -/

/-- Modelled from the spec: a child executor in the iterator protocol of `AbstractExecutor`
(class outside the given sources), "`Init()`, `Next()`, `IsEnd()`, `GetRecord()`": it yields
the records of `records_` in order; `rest_` are the records from the current one on. -/
structure ChildExecutor where
  records_ : List Record
  rest_ : List Record
deriving DecidableEq, Repr

/-- A child over the records of a list, before `Init`. -/
def ChildExecutor.new (records : List Record) : ChildExecutor :=
  { records_ := records, rest_ := [] }

/-- Modelled from the spec: `Init` of the child places it on its first record. -/
def ChildExecutor.Init (c : ChildExecutor) : ChildExecutor := { c with rest_ := c.records_ }

/-- Modelled from the spec: `IsEnd` of the child, true past the last record. -/
def ChildExecutor.IsEnd (c : ChildExecutor) : Bool := c.rest_.isEmpty

/-- Modelled from the spec: `GetRecord` of the child, the current record, `none` for
`nullptr`. -/
def ChildExecutor.GetRecord (c : ChildExecutor) : Option Record := c.rest_.head?

/-- Modelled from the spec: `Next` of the child moves to the following record. -/
def ChildExecutor.Next (c : ChildExecutor) : ChildExecutor := { c with rest_ := c.rest_.tail }

/-- State of `LimitExecutor`; `record_` is the member of `AbstractExecutor`. The counter is
only incremented below `limit_`, so it never leaves the range of its type. -/
structure LimitExecutor where
  child_ : ChildExecutor
  limit_ : Int
  count_ : Int
  record_ : Option Record
deriving DecidableEq, Repr

/-- The constructor `LimitExecutor::LimitExecutor`. -/
def LimitExecutor.new (child : ChildExecutor) (limit : Int) : LimitExecutor :=
  { child_ := child, limit_ := limit, count_ := 0, record_ := none }

/-- The method `LimitExecutor::Init`. -/
def LimitExecutor.Init (e : LimitExecutor) : LimitExecutor :=
  let child := e.child_.Init
  if child.IsEnd then { e with child_ := child, count_ := 0, record_ := none }
  else { e with child_ := child, count_ := 0 + 1, record_ := child.GetRecord }

/-- The method `LimitExecutor::IsEnd`. -/
def LimitExecutor.IsEnd (e : LimitExecutor) : Bool :=
  decide (e.count_ ≥ e.limit_) || e.child_.IsEnd

/-- The method `LimitExecutor::Next`. -/
def LimitExecutor.Next (e : LimitExecutor) : LimitExecutor :=
  if e.count_ ≥ e.limit_ ∨ e.child_.IsEnd = true then e
  else
    let child := e.child_.Next
    if child.IsEnd then { e with child_ := child }
    else { e with child_ := child, record_ := child.GetRecord, count_ := e.count_ + 1 }

/-- Modelled from the spec: `AbstractExecutor::GetRecord`, which hands out `record_`. -/
def LimitExecutor.GetRecord (e : LimitExecutor) : Option Record := e.record_

/-- The loop `while (!IsEnd()) { emit GetRecord(); Next(); }` of the standard pull loop,
run for at most `fuel` turns: the emitted records, `none` when the turns do not suffice. -/
def LimitExecutor.pullLoop : Nat → LimitExecutor → Option (List (Option Record))
  | 0, _ => none
  | fuel + 1, e =>
    if e.IsEnd then some []
    else (LimitExecutor.pullLoop fuel e.Next).map (fun out => e.GetRecord :: out)

/-- The standard pull loop on a `LimitExecutor` with limit `limit` over a child that yields
`records`: `Init()`, then the loop. -/
def LimitExecutor.pull (fuel : Nat) (records : List Record) (limit : Int) :
    Option (List (Option Record)) :=
  LimitExecutor.pullLoop fuel (LimitExecutor.new (ChildExecutor.new records) limit).Init

/-- Three records with distinct data. -/
def threeRecords : List Record :=
  [{ nullmap_ := [0], data_ := [1], rid_ := ⟨1, 0⟩ },
   { nullmap_ := [0], data_ := [2], rid_ := ⟨1, 1⟩ },
   { nullmap_ := [0], data_ := [3], rid_ := ⟨1, 2⟩ }]

/-- The loop of the constructor `TableHandle::TableHandle` with the arithmetic of `size_t`
written out: `offSet += fieldSize * rec_per_page_` is taken modulo `2 ^ 64`. -/
def TableHandle.fieldOffsetLoop_size_t (rec_per_page : Nat) : List RTField → Nat → List Nat
  | [], _ => []
  | field :: rest, offSet =>
    offSet :: TableHandle.fieldOffsetLoop_size_t rec_per_page rest
      ((offSet + field.field_size_ * rec_per_page % 2 ^ 64) % 2 ^ 64)

/-- The vector `field_offset_` of the constructor with the arithmetic of `size_t` written
out. -/
def TableHandle.field_offset_size_t (tab_hdr : TableHeader) (schema : List RTField) :
    List Nat :=
  TableHandle.fieldOffsetLoop_size_t tab_hdr.rec_per_page_ schema
    (tab_hdr.nullmap_size_ * tab_hdr.rec_per_page_ % 2 ^ 64)

/-- The sum of `field_size_` over the fields `0 .. i - 1` of a schema. -/
def RTField.sizeBefore (schema : List RTField) (i : Nat) : Nat :=
  ((schema.take i).map RTField.field_size_).sum

/-- A pool of two frames with the LRU replacer in which page (0,1) was fetched and unpinned
and page (0,2) was then fetched twice without an unpin in between. -/
def doublePinPool : BufferPoolManager :=
  runOps (BufferPoolManager.new (zeroDisk 4) .LRUReplacer 2 4 2)
    [.FetchPage 0 1, .UnpinPage 0 1 false, .FetchPage 0 2, .FetchPage 0 2]

/-- The virtual call `ReadChunk`: the decomposed handle overrides it; the row-major handle
inherits `PageHandle::ReadChunk`, which throws `WSDB_EXCEPTION_EMPTY`. -/
def PageHandleUptr.ReadChunk (u : PageHandleUptr) (chunk_schema : List RTField) :
    Except TableExn (List (List Value)) :=
  match u with
  | .nary _ => .error TableExn.WSDB_EXCEPTION_EMPTY
  | .pax h => .ok (h.ReadChunk chunk_schema)

/-- The method `TableHandle::GetChunk`. -/
def TableHandle.GetChunk (t : TableHandle) (pid : page_id_t) (chunk_schema : List RTField) :
    Except TableExn (List (List Value)) × TableHandle :=
  match t.FetchPageHandle pid with
  | (.error e, t1) => (.error e, t1)
  | (.ok (_, page_handle), t1) =>
    match page_handle.ReadChunk chunk_schema with
    | .error e => (.error e, t1)
    | .ok chunk => (.ok chunk, t1.unpin pid false)

/-- A disk whose block (0, 1) is a page of `demoHeader` with two of its four slots
occupied: link -1, record count 2, the bits of slots 0 and 1 set; every other block is
zeroed. -/
def halfPageDisk : DiskManager :=
  { blocks := fun key =>
      if key = ⟨0, 1⟩ then
        [255, 255, 255, 255, 0, 0, 0, 0, 2, 0, 0, 0, 0, 0, 0, 0, 3,
          0, 1, 2, 0, 3, 4, 0, 0, 0, 0, 0, 0, 0, 0, 0]
      else List.replicate 32 0,
    log := [] }

/-- A row-major table with one data page, page 1 of `halfPageDisk`, which has room and is
the only page of the free-page list. -/
def halfTable : TableHandle :=
  TableHandle.new 16 (BufferPoolManager.new halfPageDisk .LRUReplacer 2 32 2) 0
    { demoHeader with page_num_ := 2, rec_num_ := 2, first_free_page_ := 1 }
    [{ field_size_ := 2, field_type_ := 0 }] .NARY_MODEL

/-- The structural invariant of the pool: every frame id below the pool size is on the free
list exactly once and the value of no entry of the lookup map, or it is not on the free
list and the value of exactly one entry; and the frame of every entry `(fid, pid) -> frame`
holds the page `(fid, pid)`. -/
def BufferPoolManager.Structure (b : BufferPoolManager) : Prop :=
  (∀ f, f < b.frames_.length →
    (b.free_list_.count f = 1 ∧
        b.page_frame_lookup_.countP (fun e => decide (e.2 = f)) = 0) ∨
      (b.free_list_.count f = 0 ∧
        b.page_frame_lookup_.countP (fun e => decide (e.2 = f)) = 1)) ∧
  ∀ e ∈ b.page_frame_lookup_, (b.frame e.2).ident = e.1

instance (b : BufferPoolManager) : Decidable b.Structure := by
  unfold BufferPoolManager.Structure
  infer_instance

/-- Every frame id below `n` is on the free list or the value of an entry of the lookup
map. -/
def poolCover (n : Nat) (free : List frame_id_t) (lookup : List (fid_pid_t × frame_id_t)) :
    Prop :=
  ∀ f, f < n → f ∈ free ∨ ∃ e ∈ lookup, e.2 = f

/-- Consistency of a pool state in which, moreover, every frame is on the free list or in
the lookup map, and no key of the lookup map is the invalid identity. -/
def BufferPoolManager.Covered (b : BufferPoolManager) : Prop :=
  b.WF ∧ poolCover b.frames_.length b.free_list_ b.page_frame_lookup_ ∧
    ∀ e ∈ b.page_frame_lookup_, e.1 ≠ INVALID_FID_PID

/-- The step is not a `FetchPage` of the invalid page identity
`(INVALID_FILE_ID, INVALID_PAGE_ID)`. -/
def PoolOp.validPage : PoolOp → Prop
  | .FetchPage fid pid => (⟨fid, pid⟩ : fid_pid_t) ≠ INVALID_FID_PID
  | _ => True

instance (op : PoolOp) : Decidable op.validPage := by
  cases op <;> unfold PoolOp.validPage <;> infer_instance

/-- A pool of two frames on which the page of the invalid identity and then page (0,1)
were fetched. -/
def lostFramePool : BufferPoolManager :=
  runOps (BufferPoolManager.new (zeroDisk 4) .LRUReplacer 2 4 2)
    [.FetchPage INVALID_FILE_ID INVALID_PAGE_ID, .FetchPage 0 1]

/-- The layout fields of two table headers are the same. -/
def TableHeader.sameLayout (h1 h2 : TableHeader) : Prop :=
  h1.rec_size_ = h2.rec_size_ ∧ h1.nullmap_size_ = h2.nullmap_size_ ∧
    h1.bitmap_size_ = h2.bitmap_size_ ∧ h1.rec_per_page_ = h2.rec_per_page_

/-- What `GetRecord(rid)` returns once the fetch has given it the page `page`: the handle
is wrapped around the page, the bit of the slot is tested and the slot is read. -/
def TableHandle.recordIn (t : TableHandle) (page : Page) (rid : RID) : Except TableExn Record :=
  match t.WrapPageHandle page with
  | .error e => .error (.handle e)
  | .ok page_handle =>
    if ¬ page_handle.GetBit rid.SlotID then .error TableExn.WSDB_PAGE_MISS
    else
      match page_handle.ReadSlot rid.SlotID (List.replicate t.tab_hdr_.nullmap_size_ 0)
          (List.replicate t.tab_hdr_.rec_size_ 0) with
      | .error e => .error (.handle e)
      | .ok (nm, d) => .ok { nullmap_ := nm, data_ := d, rid_ := rid }

/-- The layout of the table fits a page of `N` bytes: the bitmap size of the header is the
one the layout asks for, the page header spans at least the 16 bytes of its two fields, the
slots end inside the page, and for the decomposed layout the field offsets are those of the
constructor and the field sizes sum to `rec_size_`. -/
def TableHandle.LayoutOK (t : TableHandle) (N : Nat) : Prop :=
  BITMAP_SIZE t.tab_hdr_.rec_per_page_ = t.tab_hdr_.bitmap_size_ ∧
  16 ≤ t.PAGE_HEADER_SIZE ∧
  t.PAGE_HEADER_SIZE + t.tab_hdr_.bitmap_size_ +
    t.tab_hdr_.rec_per_page_ * (t.tab_hdr_.nullmap_size_ + t.tab_hdr_.rec_size_) ≤ N ∧
  (t.storage_model_ = .PAX_MODEL →
    t.field_offsets_ = TableHandle.field_offset_ t.tab_hdr_ t.schema_ ∧
    (t.schema_.map RTField.field_size_).sum = t.tab_hdr_.rec_size_)

/-- Every resident page has in its frame the bytes of its block on disk: the stores into
the pages have been written through. -/
def BufferPoolManager.WrittenThrough (b : BufferPoolManager) : Prop :=
  ∀ e ∈ b.page_frame_lookup_, (b.frame e.2).page_.data_ = b.disk_manager_.blocks e.1

instance (b : BufferPoolManager) : Decidable b.WrittenThrough := by
  unfold BufferPoolManager.WrittenThrough
  infer_instance

instance (t : TableHandle) (N : Nat) : Decidable (t.LayoutOK N) := by
  unfold TableHandle.LayoutOK
  infer_instance

/-- A column-major table over `demoHeader`, with a page header of 16 bytes, on a fresh pool
of two frames of 32 bytes over a zeroed disk. -/
def demoPaxTable : TableHandle :=
  TableHandle.new 16 (BufferPoolManager.new (zeroDisk 32) .LRUReplacer 2 32 2) 0 demoHeader
    [{ field_size_ := 2, field_type_ := 0 }] .PAX_MODEL

/-- Modelled from the spec: the page id of the file header page, after which the data pages
start; the constant is declared outside the given sources. -/
def FILE_HEADER_PAGE_ID : page_id_t := 0

/-- Modelled from the spec: the conversion `static_cast<slot_id_t>` of a `size_t`; a slot id
is a 32-bit signed integer ("`(page_id: int32, slot_id: int32)`"). -/
def to_slot_id_t (n : Nat) : Int :=
  if n % 2 ^ 32 < 2 ^ 31 then ((n % 2 ^ 32 : Nat) : Int) else ((n % 2 ^ 32 : Nat) : Int) - 2 ^ 32

/-- The conversion of a slot id to the `size_t` that `BitMap::FindFirst` and the
constructor of `RID` in this development take. -/
def slot_to_size_t (s : Int) : Nat := (s % 2 ^ 64).toNat

/-- Modelled from the spec: the sentinel `INVALID_RID`, "sentinel `(-1, *)` = invalid"; the
slot id, which the spec leaves open, is taken to be -1 as well. -/
def INVALID_RID : RID := { page_id_ := INVALID_PAGE_ID, slot_id_ := slot_to_size_t (-1) }

/-- The loop of `TableHandle::GetFirstRID` from `page_id` on, with at most `n` pages to
visit; `none` when pages are left after `n` iterations. A failed fetch leaves the method
with its exception. -/
def TableHandle.GetFirstRID_loop :
    Nat → page_id_t → TableHandle → Option (Except TableExn RID × TableHandle)
  | 0, page_id, t =>
    if page_id < to_page_id_t t.tab_hdr_.page_num_ then none else some (.ok INVALID_RID, t)
  | n + 1, page_id, t =>
    if page_id < to_page_id_t t.tab_hdr_.page_num_ then
      match t.FetchPageHandle page_id with
      | (.error e, t1) => some (.error e, t1)
      | (.ok (_, pg_hdl), t1) =>
        let id := BitMap.FindFirst pg_hdl.GetPage.data_ pg_hdl.base.bitmap_
          t1.tab_hdr_.rec_per_page_ 0 true
        if id ≠ t1.tab_hdr_.rec_per_page_ then
          some (.ok { page_id_ := page_id, slot_id_ := slot_to_size_t (to_slot_id_t id) },
            t1.unpin page_id false)
        else TableHandle.GetFirstRID_loop n (page_id + 1) (t1.unpin page_id false)
    else some (.ok INVALID_RID, t)

/-- The method `TableHandle::GetFirstRID`. The loop visits the pages from
`FILE_HEADER_PAGE_ID + 1` up to `page_num_`, so that many iterations are given to it. -/
def TableHandle.GetFirstRID (t : TableHandle) : Option (Except TableExn RID × TableHandle) :=
  TableHandle.GetFirstRID_loop
    (to_page_id_t t.tab_hdr_.page_num_ - (FILE_HEADER_PAGE_ID + 1)).toNat
    (FILE_HEADER_PAGE_ID + 1) t

/-- The loop of `TableHandle::GetNextRID` with the locals `page_id` and `slot_id`, with at
most `n` pages to visit; `none` when pages are left after `n` iterations. -/
def TableHandle.GetNextRID_loop :
    Nat → page_id_t → Int → TableHandle → Option (Except TableExn RID × TableHandle)
  | 0, page_id, _, t =>
    if page_id < to_page_id_t t.tab_hdr_.page_num_ then none else some (.ok INVALID_RID, t)
  | n + 1, page_id, slot_id, t =>
    if page_id < to_page_id_t t.tab_hdr_.page_num_ then
      match t.FetchPageHandle page_id with
      | (.error e, t1) => some (.error e, t1)
      | (.ok (_, pg_hdl), t1) =>
        let slot_id1 := to_slot_id_t (BitMap.FindFirst pg_hdl.GetPage.data_
          pg_hdl.base.bitmap_ t1.tab_hdr_.rec_per_page_ (slot_to_size_t (slot_id + 1)) true)
        if slot_id1 = to_slot_id_t t1.tab_hdr_.rec_per_page_ then
          TableHandle.GetNextRID_loop n (page_id + 1) (-1) (t1.unpin page_id false)
        else
          some (.ok { page_id_ := page_id, slot_id_ := slot_to_size_t slot_id1 },
            t1.unpin page_id false)
    else some (.ok INVALID_RID, t)

/-- The method `TableHandle::GetNextRID`. The loop visits the pages from that of `rid` up
to `page_num_`, so that many iterations are given to it. -/
def TableHandle.GetNextRID (t : TableHandle) (rid : RID) :
    Option (Except TableExn RID × TableHandle) :=
  TableHandle.GetNextRID_loop (to_page_id_t t.tab_hdr_.page_num_ - rid.PageID).toNat
    rid.PageID (to_slot_id_t rid.SlotID) t

/-- The sequence of the scan from `rid` on: `rid`, `GetNextRID(rid)`, and so on up to
the invalid RID, where the scan stops; `none` when a call fails or the invalid RID is not
reached within `fuel` calls. -/
def TableHandle.scanFrom : Nat → RID → TableHandle → Option (List RID)
  | 0, _, _ => none
  | fuel + 1, rid, t =>
    if rid = INVALID_RID then some [rid]
    else
      match t.GetNextRID rid with
      | some (.ok r, t1) => (TableHandle.scanFrom fuel r t1).map (fun l => rid :: l)
      | _ => none

/-- The sequence `GetFirstRID()`, `GetNextRID(r1)`, `GetNextRID(r2)`, ... of a sequential
scan, up to the invalid RID. -/
def TableHandle.scan (fuel : Nat) (t : TableHandle) : Option (List RID) :=
  match t.GetFirstRID with
  | some (.ok r, t1) => TableHandle.scanFrom fuel r t1
  | _ => none

/-- The occupied slots of the `n` pages from `page` on, those of `page` taken from slot
`start` on, in ascending order of page and slot; `pg` gives the bytes of a page, `bm` is the
offset of the bitmap and `rpp` the number of slots of a page. -/
def occupiedIn (pg : page_id_t → List Nat) (bm rpp : Nat) : Nat → page_id_t → Nat → List RID
  | 0, _, _ => []
  | n + 1, page, start =>
    ((List.range rpp).filter
        (fun s => decide (start ≤ s) && BitMap.GetBit (pg page) bm s)).map
      (fun s => ({ page_id_ := page, slot_id_ := s } : RID)) ++
      occupiedIn pg bm rpp n (page + 1) 0

/-- The occupied slots of the data pages of the table, the pages from the first after the
file header up to `page_num_ - 1`, in ascending order of page and slot. -/
def TableHandle.occupiedRIDs (t : TableHandle) : List RID :=
  occupiedIn (fun p => (t.page p).data_) t.PAGE_HEADER_SIZE t.tab_hdr_.rec_per_page_
    (to_page_id_t t.tab_hdr_.page_num_ - (FILE_HEADER_PAGE_ID + 1)).toNat
    (FILE_HEADER_PAGE_ID + 1) 0

/-- The order of the scan: by page id, then by slot id. -/
def RID.lt (a b : RID) : Prop :=
  a.page_id_ < b.page_id_ ∨ (a.page_id_ = b.page_id_ ∧ a.slot_id_ < b.slot_id_)

instance (a b : RID) : Decidable (a.lt b) := by
  unfold RID.lt
  exact inferInstance

/-- The pool after the pages `ps` of the file `fid` have been fetched and unpinned, one
after the other, as the scan does. -/
def scanPool (b : BufferPoolManager) (fid : file_id_t) : List page_id_t → BufferPoolManager
  | [] => b
  | p :: ps => scanPool ((b.FetchPage fid p).2.UnpinPage fid p false).2 fid ps

/-- The pool serves a scan of the table: after any data pages have been fetched and
unpinned in turn, the fetch of a data page succeeds. -/
def TableHandle.Served (t : TableHandle) : Prop :=
  ∀ (ps : List page_id_t) (p : page_id_t),
    (∀ x ∈ p :: ps, FILE_HEADER_PAGE_ID < x ∧ x < to_page_id_t t.tab_hdr_.page_num_) →
    ∃ f, ((scanPool t.buffer_pool_manager_ t.table_id_ ps).FetchPage t.table_id_ p).1 = .ok f

/-- The table is ready for a scan over pages with the bytes `D`: the pool is consistent,
every page has the bytes `D` gives it on disk and in its frame, the bitmap size of the
header is the one the layout asks for, the pool serves the scan, and the number of slots of
a page fits a slot id. -/
def TableHandle.ScanReady (t : TableHandle) (D : fid_pid_t → List Nat) : Prop :=
  t.buffer_pool_manager_.WF ∧
  (∀ key, t.buffer_pool_manager_.coherent key (D key)) ∧
  BITMAP_SIZE t.tab_hdr_.rec_per_page_ = t.tab_hdr_.bitmap_size_ ∧
  t.Served ∧
  t.tab_hdr_.rec_per_page_ < 2 ^ 31

instance (b : BufferPoolManager) : Decidable b.WF := by
  unfold BufferPoolManager.WF poolWF
  exact inferInstance

/-- The table `demoTable3`, whose page 1 holds three records, after one more
`InsertRecord(record)`, which takes the new page 2. -/
def twoPageTable : TableHandle := (demoTable3.InsertRecord demoRecord).2

/-- The results of `n` successive `Victim` calls on an LRU replacer. -/
def LRUReplacer.victims : Nat → LRUReplacer → List (Option frame_id_t)
  | 0, _ => []
  | n + 1, r => r.Victim.1 :: LRUReplacer.victims n r.Victim.2

/-- The frames of the list entries of the LRU replacer whose evictable flag is set, in the
order of the list. -/
def LRUReplacer.evictableFrames (r : LRUReplacer) : List frame_id_t :=
  (r.lru_list_.filter (fun e => e.2)).map Prod.fst

/-- The frames that have an entry in the list of the LRU replacer, in the order of the
list. -/
def LRUReplacer.frames (r : LRUReplacer) : List frame_id_t := r.lru_list_.map Prod.fst

/-- The page `key` satisfies `P` on disk and, when it is resident, in its frame. -/
def holdsP (key : fid_pid_t) (P : List Nat → Prop) (blocks : fid_pid_t → List Nat)
    (frames : List Frame) (lookup : List (fid_pid_t × frame_id_t)) : Prop :=
  P (blocks key) ∧
  ∀ f, umap_find lookup key = some f → P (frames.getD f default).page_.data_

/-- The bytes of the page `key` satisfy `P` in a pool state, on disk and in the frame of
the page when it is resident. -/
def BufferPoolManager.holds (b : BufferPoolManager) (key : fid_pid_t)
    (P : List Nat → Prop) : Prop :=
  holdsP key P b.disk_manager_.blocks b.frames_ b.page_frame_lookup_

/-- The bytes `data` of a page contain the bitmap, which starts at offset `bm` and has
`bs` bytes, and the bit of slot `slot` is clear. -/
def SlotBitClear (bm bs slot : Nat) (data : List Nat) : Prop :=
  bm + bs ≤ data.length ∧ BitMap.GetBit data bm slot = false

/-- One call of a method of `TableHandle` that reaches the buffer pool: the record and chunk
accessors, the two scan steps, and the helpers `FetchPageHandle`, `CreatePageHandle` and
`CreateNewPageHandle` called on their own. The other methods of the class are `const`
getters and `WrapPageHandle`, which leave the table and the pool as they are. -/
inductive TableOp where
  | GetRecord (rid : RID)
  | GetChunk (pid : page_id_t) (chunk_schema : List RTField)
  | InsertRecord (record : Record)
  | InsertRecordAt (rid : RID) (record : Record)
  | DeleteRecord (rid : RID)
  | UpdateRecord (rid : RID) (record : Record)
  | GetFirstRID
  | GetNextRID (rid : RID)
  | FetchPageHandle (page_id : page_id_t)
  | CreatePageHandle
  | CreateNewPageHandle

/-- The table after one call, whatever the call returns or throws. The two scan steps
always return, the iterations given to their loops being enough, so the table is taken as
it was only in a case that does not occur. -/
def TableOp.run (t : TableHandle) : TableOp → TableHandle
  | .GetRecord rid => (t.GetRecord rid).2
  | .GetChunk pid chunk_schema => (t.GetChunk pid chunk_schema).2
  | .InsertRecord record => (t.InsertRecord record).2
  | .InsertRecordAt rid record => (t.InsertRecordAt rid record).2
  | .DeleteRecord rid => (t.DeleteRecord rid).2
  | .UpdateRecord rid record => (t.UpdateRecord rid record).2
  | .GetFirstRID =>
    match t.GetFirstRID with
    | some res => res.2
    | none => t
  | .GetNextRID rid =>
    match t.GetNextRID rid with
    | some res => res.2
    | none => t
  | .FetchPageHandle page_id => (t.FetchPageHandle page_id).2
  | .CreatePageHandle => t.CreatePageHandle.2
  | .CreateNewPageHandle => t.CreateNewPageHandle.2

/-- The table after a sequence of calls. -/
def TableHandle.runOps (t : TableHandle) (ops : List TableOp) : TableHandle :=
  ops.foldl TableOp.run t

/-- The call, made on the table `t`, inserts a record at `rid`: it is an
`InsertRecord(record)` that returns `rid`, or an `InsertRecord(rid, record)` that returns
normally. -/
def TableOp.insertsAt (t : TableHandle) (rid : RID) : TableOp → Bool
  | .InsertRecord record => decide ((t.InsertRecord record).1 = .ok rid)
  | .InsertRecordAt rid1 record =>
    decide (rid1 = rid) && decide ((t.InsertRecordAt rid1 record).1 = .ok ())
  | _ => false

/-- No call of the sequence, made from the table `t` on, inserts a record at `rid`. -/
def TableHandle.insertFree (rid : RID) : TableHandle → List TableOp → Bool
  | _, [] => true
  | t, op :: rest => !(op.insertsAt t rid) && TableHandle.insertFree rid (op.run t) rest

/-- The slot of `rid` is empty in the table, on disk and in the pool: the pool is
consistent, the bytes of the page of `rid`, on disk and in its frame when it is resident,
contain the bitmap and have the bit of the slot clear, the bitmap size of the header is the
one the layout asks for, the page header spans at least its 16 bytes, and the slot id is
in range. -/
def TableHandle.SlotClear (t : TableHandle) (rid : RID) : Prop :=
  t.buffer_pool_manager_.WF ∧
  t.buffer_pool_manager_.holds ⟨t.table_id_, rid.PageID⟩
    (SlotBitClear t.PAGE_HEADER_SIZE t.tab_hdr_.bitmap_size_ rid.SlotID) ∧
  BITMAP_SIZE t.tab_hdr_.rec_per_page_ = t.tab_hdr_.bitmap_size_ ∧
  16 ≤ t.PAGE_HEADER_SIZE ∧ rid.SlotID < t.tab_hdr_.rec_per_page_

/-- A sequence of calls on `fullTable` after `DeleteRecord` of slot 2 of page 1, none of
which inserts at that slot: reads of other slots, an update, an `InsertRecord(record)`,
which goes to a new page, a delete and a re-insert of slot 3, scans, a chunk read, and a
read and a delete of the emptied slot itself, which fail. -/
def laterCalls : List TableOp :=
  [.GetRecord ⟨1, 1⟩, .UpdateRecord ⟨1, 0⟩ demoRecord, .InsertRecord demoRecord,
    .DeleteRecord ⟨1, 3⟩, .InsertRecordAt ⟨1, 3⟩ demoRecord, .GetFirstRID,
    .GetNextRID ⟨1, 1⟩, .GetChunk 1 [{ field_size_ := 2, field_type_ := 0 }],
    .GetRecord ⟨1, 2⟩, .DeleteRecord ⟨1, 2⟩, .CreatePageHandle]

/-! ## Theorems -/

theorem reachable_runOps (ops : List PoolOp) :
    ∀ b : BufferPoolManager, Reachable b → Reachable (runOps b ops) := by
  induction ops with
  | nil => intro b h; exact h
  | cons op rest ih => intro b h; exact ih (op.run b) (Reachable.step op h)

/-- C1 (fails on the code): in the reachable pool `pinnedVictimPool`, for either replacer,
the free list is empty, page (0,0) is resident in frame 0 with pin count 1, the replacer
offers frame 0 as victim, and `FetchPage(0,2)` reuses frame 0: page (0,0) is evicted while
it is pinned. -/
theorem pinned_frame_is_evicted (REPLACER : ReplacerKind) :
    Reachable (pinnedVictimPool REPLACER) ∧
    (pinnedVictimPool REPLACER).free_list_ = [] ∧
    (pinnedVictimPool REPLACER).GetFrame 0 0 = some 0 ∧
    ((pinnedVictimPool REPLACER).frame 0).GetPinCount = 1 ∧
    (pinnedVictimPool REPLACER).replacer_.Victim.1 = .ok (some 0) ∧
    ((pinnedVictimPool REPLACER).FetchPage 0 2).1 = .ok 0 ∧
    ((pinnedVictimPool REPLACER).FetchPage 0 2).2.GetFrame 0 0 = none := by
  refine ⟨?_, ?_⟩
  · exact reachable_runOps _ _ (Reachable.init _ _ _ _ _)
  · cases REPLACER <;> decide


theorem umap_find_eq_none {κ ν : Type} [DecidableEq κ] (m : List (κ × ν)) (key : κ) :
    umap_find m key = none ↔ ∀ e ∈ m, e.1 ≠ key := by
  simp [umap_find, List.find?_eq_none]

theorem mem_umap_erase {κ ν : Type} [DecidableEq κ] (m : List (κ × ν)) (key : κ)
    (e : κ × ν) : e ∈ umap_erase m key ↔ e ∈ m ∧ e.1 ≠ key := by
  simp [umap_erase, List.mem_filter]

theorem mem_umap_assign {κ ν : Type} [DecidableEq κ] (m : List (κ × ν)) (key : κ) (v : ν)
    (e : κ × ν) (h : e ∈ umap_assign m key v) : e = (key, v) ∨ (e ∈ m ∧ e.1 ≠ key) := by
  unfold umap_assign at h
  split at h
  · rw [List.mem_map] at h
    obtain ⟨a, ha, rfl⟩ := h
    by_cases hk : a.1 = key
    · left; simp [hk]
    · right; simp [hk, ha]
  · rename_i hn
    rw [List.mem_append] at h
    rcases h with h | h
    · right
      refine ⟨h, ?_⟩
      have : umap_find m key = none := by simpa using hn
      exact (umap_find_eq_none m key).1 this e h
    · left; simpa using h

theorem Replacer.Pin_size_zero (r : Replacer) (f : frame_id_t) (h : r.Size = 0) :
    (r.Pin f).Size = 0 := by
  cases r with
  | lru r =>
    simp only [Replacer.Size, LRUReplacer.Size] at h
    simp only [Replacer.Pin, Replacer.Size, LRUReplacer.Size, LRUReplacer.Pin]
    split <;> simp [h]
  | lruk r =>
    simp only [Replacer.Size, LRUKReplacer.Size] at h
    simp only [Replacer.Pin, Replacer.Size, LRUKReplacer.Size, LRUKReplacer.Pin]
    split
    · simp [h]
    · split <;> simp [h]

theorem Replacer.Victim_size_zero (r : Replacer) (h : r.Size = 0) :
    r.Victim = (.ok none, r) := by
  cases r with
  | lru r =>
    simp only [Replacer.Size, LRUReplacer.Size] at h
    simp [Replacer.Victim, LRUReplacer.Victim, h]
  | lruk r =>
    simp only [Replacer.Size, LRUKReplacer.Size] at h
    simp [Replacer.Victim, LRUKReplacer.Victim, h]

/-- Fetching a page that is not resident while the free list is not empty. -/
theorem FetchPage_miss_free (b : BufferPoolManager) (fid : file_id_t) (pid : page_id_t)
    (f : frame_id_t) (rest : List frame_id_t)
    (hmiss : umap_find b.page_frame_lookup_ ⟨fid, pid⟩ = none)
    (hfree : b.free_list_ = f :: rest) :
    b.FetchPage fid pid = (.ok f, ({ b with free_list_ := rest }).UpdateFrame f fid pid) := by
  simp [BufferPoolManager.FetchPage, hmiss, BufferPoolManager.GetAvailableFrame, hfree]

theorem FetchPage_exhausted (b : BufferPoolManager) (fid : file_id_t) (pid : page_id_t)
    (hmiss : umap_find b.page_frame_lookup_ ⟨fid, pid⟩ = none)
    (hfree : b.free_list_ = []) (hs : b.replacer_.Size = 0) :
    b.FetchPage fid pid = (.error Exn.WSDB_NO_FREE_FRAME, b) := by
  obtain ⟨d, r, fr, fl, lk⟩ := b
  simp only at hmiss hfree hs
  subst hfree
  simp only [BufferPoolManager.FetchPage, hmiss, BufferPoolManager.GetAvailableFrame,
    Replacer.Victim_size_zero _ hs]

theorem fetchAll_fresh (pages : List fid_pid_t) :
    ∀ (b : BufferPoolManager) (S : List fid_pid_t),
      (∀ e ∈ b.page_frame_lookup_, e.1 ∈ S) → b.replacer_.Size = 0 →
      (S ++ pages).Nodup → pages.length ≤ b.free_list_.length →
      (∀ e ∈ (fetchAll b pages).page_frame_lookup_, e.1 ∈ S ++ pages) ∧
      (fetchAll b pages).replacer_.Size = 0 ∧
      (fetchAll b pages).free_list_ = b.free_list_.drop pages.length := by
  induction pages with
  | nil =>
    intro b S hk hs _ _
    exact ⟨by simpa [fetchAll] using hk, by simpa [fetchAll] using hs, by simp [fetchAll]⟩
  | cons p rest ih =>
    intro b S hk hs hnd hlen
    have hp : p ∉ S := by
      intro hmem
      have := List.nodup_append.1 hnd
      exact this.2.2 hmem (List.mem_cons_self _ _)
    have hmiss : umap_find b.page_frame_lookup_ ⟨p.fid, p.pid⟩ = none := by
      rw [umap_find_eq_none]
      intro e he heq
      exact hp (by have h1 := hk e he; rw [heq] at h1; exact h1)
    obtain ⟨f, fl, hfl⟩ : ∃ f fl, b.free_list_ = f :: fl := by
      cases hb : b.free_list_ with
      | nil => simp [hb] at hlen
      | cons f fl => exact ⟨f, fl, rfl⟩
    have hstep := FetchPage_miss_free b p.fid p.pid f fl hmiss hfl
    have hfa : fetchAll b (p :: rest) =
        fetchAll (({ b with free_list_ := fl }).UpdateFrame f p.fid p.pid) rest := by
      simp [fetchAll, hstep]
    rw [hfa]
    have hnd' : ((S ++ [p]) ++ rest).Nodup := by simpa using hnd
    have := ih (({ b with free_list_ := fl }).UpdateFrame f p.fid p.pid) (S ++ [p])
      (by
        intro e he
        simp only [BufferPoolManager.UpdateFrame] at he
        rcases mem_umap_assign _ _ _ _ he with h | h
        · simp [h]
        · have := (mem_umap_erase _ _ _).1 h.1
          simp [hk e this.1])
      (by simpa [BufferPoolManager.UpdateFrame] using Replacer.Pin_size_zero _ f hs)
      hnd'
      (by simp [BufferPoolManager.UpdateFrame]; simp [hfl] at hlen; omega)
    refine ⟨?_, this.2.1, ?_⟩
    · intro e he; simpa using this.1 e he
    · rw [this.2.2]; simp [BufferPoolManager.UpdateFrame, hfl]

/-- C2: for every pool size N and N+1 pairwise distinct pages, for either replacer: after
FetchPage on the first N pages of a newly constructed pool, FetchPage of the last page
raises the no-free-frame error and returns the pool state unchanged (lookup map, free
list, frames, replacer and disk). -/
theorem FetchPage_no_free_frame (disk_manager : DiskManager) (REPLACER : ReplacerKind)
    (N PAGE_SIZE replacer_lru_k : Nat) (pages : List fid_pid_t) (q : fid_pid_t)
    (hlen : pages.length = N) (hnd : (pages ++ [q]).Nodup) :
    (fetchAll (BufferPoolManager.new disk_manager REPLACER N PAGE_SIZE replacer_lru_k)
        pages).FetchPage q.fid q.pid =
      (.error Exn.WSDB_NO_FREE_FRAME,
        fetchAll (BufferPoolManager.new disk_manager REPLACER N PAGE_SIZE replacer_lru_k)
          pages) := by
  have h := fetchAll_fresh pages
    (BufferPoolManager.new disk_manager REPLACER N PAGE_SIZE replacer_lru_k) []
    (by simp [BufferPoolManager.new])
    (by cases REPLACER <;> rfl)
    (by simpa using (List.nodup_append.1 hnd).1)
    (by simp [BufferPoolManager.new, hlen])
  obtain ⟨hk, hs, hf⟩ := h
  have hfree : (fetchAll (BufferPoolManager.new disk_manager REPLACER N PAGE_SIZE
      replacer_lru_k) pages).free_list_ = [] := by
    rw [hf]; simp [BufferPoolManager.new, hlen]
  have hq : q ∉ pages := by
    intro hmem
    exact (List.nodup_append.1 hnd).2.2 hmem (List.mem_singleton_self q)
  have hmiss : umap_find (fetchAll (BufferPoolManager.new disk_manager REPLACER N PAGE_SIZE
      replacer_lru_k) pages).page_frame_lookup_ ⟨q.fid, q.pid⟩ = none := by
    rw [umap_find_eq_none]
    intro e he heq
    have := hk e he
    simp at this
    rw [heq] at this
    exact hq this
  exact FetchPage_exhausted _ _ _ hmiss hfree hs

/-- An instance of C2: a pool of two frames with the LRU-K replacer and three pages. -/
theorem FetchPage_no_free_frame_witness :
    (fetchAll (BufferPoolManager.new blankDisk .LRUKReplacer 2 1 2)
        [⟨0, 0⟩, ⟨0, 1⟩]).FetchPage 0 2 =
      (.error Exn.WSDB_NO_FREE_FRAME,
        fetchAll (BufferPoolManager.new blankDisk .LRUKReplacer 2 1 2) [⟨0, 0⟩, ⟨0, 1⟩]) :=
  FetchPage_no_free_frame blankDisk .LRUKReplacer 2 1 2 [⟨0, 0⟩, ⟨0, 1⟩] ⟨0, 2⟩ rfl
    (by decide)

theorem getD_set_self (frames : List Frame) (i : Nat) (fr : Frame) (h : i < frames.length) :
    (frames.set i fr).getD i default = fr := by
  simp [List.getD_eq_getElem?_getD, List.getElem?_set, h]

theorem getD_set_ne (frames : List Frame) (i j : Nat) (fr : Frame) (h : i ≠ j) :
    (frames.set i fr).getD j default = frames.getD j default := by
  simp [List.getD_eq_getElem?_getD, List.getElem?_set, h]

theorem getD_set_cases (frames : List Frame) (i j : Nat) (fr : Frame) :
    (frames.set i fr).getD j default = frames.getD j default ∨
    (i = j ∧ i < frames.length ∧ (frames.set i fr).getD j default = fr) := by
  by_cases h : i = j
  · subst h
    by_cases hl : i < frames.length
    · right; exact ⟨rfl, hl, getD_set_self frames i fr hl⟩
    · left; rw [List.set_eq_of_length_le (Nat.le_of_not_lt hl)]
  · left; exact getD_set_ne frames i j fr h

theorem umap_find_mem {κ ν : Type} [DecidableEq κ] (m : List (κ × ν)) (key : κ) (v : ν)
    (h : umap_find m key = some v) : (key, v) ∈ m := by
  unfold umap_find at h
  cases hf : m.find? (fun e => decide (e.1 = key)) with
  | none => simp [hf] at h
  | some e =>
    simp [hf] at h
    have h1 := List.find?_some hf
    have h2 := List.mem_of_find?_eq_some hf
    simp at h1
    have : e = (key, v) := by
      cases e; simp at h1 h; simp [h1, h]
    rw [← this]; exact h2

theorem umap_find_of_mem {κ ν : Type} [DecidableEq κ] (m : List (κ × ν)) (key : κ) (v : ν)
    (hnd : (m.map Prod.fst).Nodup) (h : (key, v) ∈ m) : umap_find m key = some v := by
  induction m with
  | nil => simp at h
  | cons a rest ih =>
    simp only [List.map_cons, List.nodup_cons] at hnd
    by_cases ha : a.1 = key
    · have : a = (key, v) := by
        rcases List.mem_cons.1 h with h | h
        · exact h.symm
        · exfalso
          apply hnd.1
          rw [ha]
          exact List.mem_map.2 ⟨(key, v), h, rfl⟩
      simp [umap_find, List.find?, this]
    · have hr : (key, v) ∈ rest := by
        rcases List.mem_cons.1 h with h | h
        · exfalso; apply ha; rw [← h]
        · exact h
      have := ih hnd.2 hr
      simp only [umap_find] at this ⊢
      simp [List.find?, ha, this]

theorem umap_find_erase_self {κ ν : Type} [DecidableEq κ] (m : List (κ × ν)) (key : κ) :
    umap_find (umap_erase m key) key = none := by
  rw [umap_find_eq_none]
  intro e he
  exact ((mem_umap_erase m key e).1 he).2

theorem umap_find_erase_ne {κ ν : Type} [DecidableEq κ] (m : List (κ × ν)) (key k : κ)
    (h : k ≠ key) : umap_find (umap_erase m key) k = umap_find m k := by
  unfold umap_find umap_erase
  rw [List.find?_filter]
  congr 2
  funext e
  by_cases hk : e.1 = k
  · simp [hk, h]
  · simp [hk]

theorem umap_find_assign_self {κ ν : Type} [DecidableEq κ] (m : List (κ × ν)) (key : κ)
    (v : ν) (h : umap_find m key = none) : umap_find (umap_assign m key v) key = some v := by
  have hm := (umap_find_eq_none m key).1 h
  simp only [umap_assign, h, Option.isSome_none, Bool.false_eq_true, if_false]
  simp only [umap_find]
  rw [List.find?_append]
  have : m.find? (fun e => decide (e.1 = key)) = none := by
    simpa [umap_find] using h
  simp [this]

theorem umap_find_assign_ne {κ ν : Type} [DecidableEq κ] (m : List (κ × ν)) (key k : κ)
    (v : ν) (hk : k ≠ key) (h : umap_find m key = none) :
    umap_find (umap_assign m key v) k = umap_find m k := by
  simp only [umap_assign, h, Option.isSome_none, Bool.false_eq_true, if_false]
  simp only [umap_find]
  rw [List.find?_append]
  have hne : ¬ key = k := fun h' => hk h'.symm
  cases hf : m.find? (fun e => decide (e.1 = k)) <;> simp [hf, hne]

theorem umap_erase_keys_nodup {κ ν : Type} [DecidableEq κ] (m : List (κ × ν)) (key : κ)
    (h : (m.map Prod.fst).Nodup) : ((umap_erase m key).map Prod.fst).Nodup := by
  unfold umap_erase
  exact List.Nodup.sublist (List.Sublist.map _ (List.filter_sublist m)) h

theorem umap_assign_keys_nodup {κ ν : Type} [DecidableEq κ] (m : List (κ × ν)) (key : κ)
    (v : ν) (hn : umap_find m key = none) (h : (m.map Prod.fst).Nodup) :
    ((umap_assign m key v).map Prod.fst).Nodup := by
  have hm := (umap_find_eq_none m key).1 hn
  simp only [umap_assign, hn, Option.isSome_none, Bool.false_eq_true, if_false]
  rw [List.map_append, List.nodup_append]
  refine ⟨h, by simp, ?_⟩
  intro a ha hb
  simp at hb
  rw [List.mem_map] at ha
  obtain ⟨e, he, rfl⟩ := ha
  exact hm e he hb

/-- Replacing a frame by one with the same identity (and, for a free frame, still clean)
keeps the pool consistent. -/
theorem poolWF_set (frames : List Frame) (free : List frame_id_t)
    (lookup : List (fid_pid_t × frame_id_t)) (i : frame_id_t) (fr : Frame)
    (h : poolWF frames free lookup)
    (hid : fr.ident = (frames.getD i default).ident)
    (hd : i ∈ free → fr.is_dirty_ = false) :
    poolWF (frames.set i fr) free lookup := by
  obtain ⟨ha, hb, hc, hd'⟩ := h
  refine ⟨?_, ?_, hc, hd'⟩
  · intro e he
    refine ⟨by simpa using (ha e he).1, ?_⟩
    rcases getD_set_cases frames i e.2 fr with h1 | ⟨h1, _, h3⟩
    · rw [h1]; exact (ha e he).2
    · rw [h3, hid, h1]; exact (ha e he).2
  · intro f hf
    obtain ⟨h1, h2, h3, h4⟩ := hb f hf
    refine ⟨by simpa using h1, ?_, ?_, h4⟩
    · rcases getD_set_cases frames i f fr with g1 | ⟨g1, _, g3⟩
      · rw [g1]; exact h2
      · rw [g3, hid, g1]; exact h2
    · rcases getD_set_cases frames i f fr with g1 | ⟨g1, _, g3⟩
      · rw [g1]; exact h3
      · rw [g3]; exact hd (g1 ▸ hf)

/-- Dropping the head of the free list keeps the pool consistent. -/
theorem poolWF_pop (frames : List Frame) (f : frame_id_t) (free : List frame_id_t)
    (lookup : List (fid_pid_t × frame_id_t)) (h : poolWF frames (f :: free) lookup) :
    poolWF frames free lookup := by
  obtain ⟨ha, hb, hc, hd⟩ := h
  exact ⟨ha, fun g hg => hb g (List.mem_cons_of_mem _ hg), (List.nodup_cons.1 hc).2, hd⟩

/-- Erasing a key of the lookup map keeps the pool consistent. -/
theorem poolWF_erase (frames : List Frame) (free : List frame_id_t)
    (lookup : List (fid_pid_t × frame_id_t)) (key : fid_pid_t)
    (h : poolWF frames free lookup) : poolWF frames free (umap_erase lookup key) := by
  obtain ⟨ha, hb, hc, hd⟩ := h
  refine ⟨fun e he => ha e ((mem_umap_erase _ _ _).1 he).1, ?_, hc,
    umap_erase_keys_nodup _ _ hd⟩
  intro f hf
  obtain ⟨h1, h2, h3, h4⟩ := hb f hf
  exact ⟨h1, h2, h3, fun e he => h4 e ((mem_umap_erase _ _ _).1 he).1⟩

/-- The frame part, free list and lookup map after `UpdateFrame` on a frame that is not
free, for a page that is not resident, are consistent. -/
theorem poolWF_UpdateFrame (b : BufferPoolManager) (f : frame_id_t) (fid : file_id_t)
    (pid : page_id_t) (h : b.WF) (hf : f < b.frames_.length) (hfree : f ∉ b.free_list_)
    (hmiss : umap_find b.page_frame_lookup_ ⟨fid, pid⟩ = none) :
    (b.UpdateFrame f fid pid).WF := by
  obtain ⟨ha, hb, hc, hd⟩ := h
  have hmiss' : umap_find (umap_erase b.page_frame_lookup_ (b.frame f).ident) ⟨fid, pid⟩
      = none := by
    rw [umap_find_eq_none] at hmiss ⊢
    intro e he
    exact hmiss e ((mem_umap_erase _ _ _).1 he).1
  have hne : ∀ e ∈ umap_erase b.page_frame_lookup_ (b.frame f).ident, e.2 ≠ f := by
    intro e he hef
    obtain ⟨h1, h2⟩ := (mem_umap_erase _ _ _).1 he
    apply h2
    rw [← (ha e h1).2, hef]
    rfl
  simp only [BufferPoolManager.WF, BufferPoolManager.UpdateFrame]
  refine ⟨?_, ?_, hc, ?_⟩
  · intro e he
    rcases mem_umap_assign _ _ _ _ he with h1 | ⟨h1, _⟩
    · subst h1
      refine ⟨by simpa using hf, ?_⟩
      rw [getD_set_self _ _ _ hf]
      rfl
    · refine ⟨by simpa using (ha e ((mem_umap_erase _ _ _).1 h1).1).1, ?_⟩
      rw [getD_set_ne _ _ _ _ (fun h' => hne e h1 h'.symm)]
      exact (ha e ((mem_umap_erase _ _ _).1 h1).1).2
  · intro g hg
    obtain ⟨h1, h2, h3, h4⟩ := hb g hg
    have hgf : f ≠ g := fun h' => hfree (h' ▸ hg)
    refine ⟨by simpa using h1, ?_, ?_, ?_⟩
    · rw [getD_set_ne _ _ _ _ hgf]; exact h2
    · rw [getD_set_ne _ _ _ _ hgf]; exact h3
    · intro e he
      rcases mem_umap_assign _ _ _ _ he with h5 | ⟨h5, _⟩
      · subst h5; exact hgf
      · exact h4 e ((mem_umap_erase _ _ _).1 h5).1
  · exact umap_assign_keys_nodup _ _ _ hmiss' (umap_erase_keys_nodup _ _ hd)

/-- The three ways `GetAvailableFrame` can end: the head of the free list; a victim found
in the lookup map, written back when dirty and erased from the map; an exception, with
only the replacer changed. -/
theorem GetAvailableFrame_cases (b : BufferPoolManager) :
    (∃ f rest, b.free_list_ = f :: rest ∧
      b.GetAvailableFrame = (.ok f, { b with free_list_ := rest })) ∨
    (b.free_list_ = [] ∧ ∃ v r entry, entry ∈ b.page_frame_lookup_ ∧ entry.2 = v ∧
      b.replacer_.Victim = (.ok (some v), r) ∧
      b.GetAvailableFrame = (.ok v,
        { b with
          replacer_ := r,
          disk_manager_ :=
            if (b.frame v).IsDirty then
              b.disk_manager_.WritePage entry.1.fid entry.1.pid (b.frame v).page_.data_
            else b.disk_manager_,
          page_frame_lookup_ := umap_erase b.page_frame_lookup_ entry.1 })) ∨
    (b.free_list_ = [] ∧ ∃ e r, b.GetAvailableFrame = (.error e, { b with replacer_ := r })) := by
  unfold BufferPoolManager.GetAvailableFrame
  cases hfl : b.free_list_ with
  | cons f rest => left; exact ⟨f, rest, rfl, rfl⟩
  | nil =>
    right
    rcases hv : b.replacer_.Victim with ⟨res, r⟩
    cases res with
    | error e => right; exact ⟨rfl, e, r, rfl⟩
    | ok o =>
      cases o with
      | none => right; exact ⟨rfl, Exn.WSDB_NO_FREE_FRAME, r, rfl⟩
      | some v =>
        cases hfind : b.page_frame_lookup_.find? (fun entry => decide (entry.2 = v)) with
        | none => right; exact ⟨rfl, Exn.WSDB_NO_FREE_FRAME, r, by simp [hfind]⟩
        | some entry =>
          left
          refine ⟨rfl, v, r, entry, List.mem_of_find?_eq_some hfind, ?_, rfl, by simp [hfind]⟩
          simpa using List.find?_some hfind

theorem FetchPage_hit (b : BufferPoolManager) (fid : file_id_t) (pid : page_id_t)
    (f : frame_id_t) (h : umap_find b.page_frame_lookup_ ⟨fid, pid⟩ = some f) :
    b.FetchPage fid pid =
      (.ok f, { b with frames_ := b.frames_.set f (b.frame f).Pin,
                       replacer_ := b.replacer_.Pin f }) := by
  simp [BufferPoolManager.FetchPage, h]

theorem FetchPage_miss (b : BufferPoolManager) (fid : file_id_t) (pid : page_id_t)
    (h : umap_find b.page_frame_lookup_ ⟨fid, pid⟩ = none) :
    b.FetchPage fid pid =
      match b.GetAvailableFrame with
      | (.ok frame_id, b1) => (.ok frame_id, b1.UpdateFrame frame_id fid pid)
      | (.error e, b1) => (.error e, b1) := by
  simp [BufferPoolManager.FetchPage, h]

theorem WF_FetchPage (b : BufferPoolManager) (fid : file_id_t) (pid : page_id_t)
    (h : b.WF) : (b.FetchPage fid pid).2.WF := by
  cases hfind : umap_find b.page_frame_lookup_ ⟨fid, pid⟩ with
  | some f =>
    rw [FetchPage_hit b fid pid f hfind]
    have hmem := umap_find_mem _ _ _ hfind
    refine poolWF_set _ _ _ f _ h rfl ?_
    intro hf
    exact absurd rfl ((h.2.1 f hf).2.2.2 _ hmem)
  | none =>
    rw [FetchPage_miss b fid pid hfind]
    rcases GetAvailableFrame_cases b with ⟨f, rest, hfl, hg⟩ | ⟨hfl, v, r, entry, hmem, hev, _, hg⟩ |
        ⟨_, e, r, hg⟩
    · rw [hg]
      have hwf : poolWF b.frames_ (f :: rest) b.page_frame_lookup_ := hfl ▸ h
      refine poolWF_UpdateFrame _ f fid pid (poolWF_pop _ _ _ _ hwf) ?_ ?_ hfind
      · exact (hwf.2.1 f (List.mem_cons_self _ _)).1
      · exact (List.nodup_cons.1 hwf.2.2.1).1
    · rw [hg]
      refine poolWF_UpdateFrame _ v fid pid (poolWF_erase _ _ _ _ h) ?_ ?_ ?_
      · exact hev ▸ (h.1 entry hmem).1
      · simp [hfl]
      · simp only
        rw [umap_find_eq_none] at hfind ⊢
        intro e he
        exact hfind e ((mem_umap_erase _ _ _).1 he).1
    · rw [hg]; exact h

/-- Two entries of a consistent lookup map that name the same frame are the same entry. -/
theorem poolWF_frame_inj (frames : List Frame) (free : List frame_id_t)
    (lookup : List (fid_pid_t × frame_id_t)) (h : poolWF frames free lookup)
    (e1 e2 : fid_pid_t × frame_id_t) (h1 : e1 ∈ lookup) (h2 : e2 ∈ lookup)
    (hf : e1.2 = e2.2) : e1.1 = e2.1 := by
  rw [← (h.1 e1 h1).2, ← (h.1 e2 h2).2, hf]

/-- Resetting the frame of a resident page, appending it to the free list and erasing the
page from the lookup map keeps the pool consistent. -/
theorem poolWF_delete (frames : List Frame) (free : List frame_id_t)
    (lookup : List (fid_pid_t × frame_id_t)) (e : fid_pid_t × frame_id_t)
    (h : poolWF frames free lookup) (hmem : e ∈ lookup) :
    poolWF (frames.set e.2 (frames.getD e.2 default).Reset) (free ++ [e.2])
      (umap_erase lookup e.1) := by
  have hinj := poolWF_frame_inj frames free lookup h
  obtain ⟨ha, hb, hc, hd⟩ := h
  have hlen := (ha e hmem).1
  have hne : ∀ e' ∈ umap_erase lookup e.1, e'.2 ≠ e.2 := by
    intro e' he' hf
    obtain ⟨h1, h2⟩ := (mem_umap_erase _ _ _).1 he'
    exact h2 (hinj e' e h1 hmem hf)
  have hnf : e.2 ∉ free := fun hf => (hb e.2 hf).2.2.2 e hmem rfl
  refine ⟨?_, ?_, ?_, umap_erase_keys_nodup _ _ hd⟩
  · intro e' he'
    have h1 := ((mem_umap_erase _ _ _).1 he').1
    refine ⟨by simpa using (ha e' h1).1, ?_⟩
    rw [getD_set_ne _ _ _ _ (fun h' => hne e' he' h'.symm)]
    exact (ha e' h1).2
  · intro g hg
    rcases List.mem_append.1 hg with hg | hg
    · obtain ⟨h1, h2, h3, h4⟩ := hb g hg
      have hgf : e.2 ≠ g := fun h' => hnf (h' ▸ hg)
      refine ⟨by simpa using h1, ?_, ?_, fun e' he' => h4 e' ((mem_umap_erase _ _ _).1 he').1⟩
      · rw [getD_set_ne _ _ _ _ hgf]; exact h2
      · rw [getD_set_ne _ _ _ _ hgf]; exact h3
    · have hg' : g = e.2 := by simpa using hg
      subst hg'
      refine ⟨by simpa using hlen, ?_, ?_, hne⟩
      · rw [getD_set_self _ _ _ hlen]; rfl
      · rw [getD_set_self _ _ _ hlen]; rfl
  · rw [List.nodup_append]
    refine ⟨hc, by simp, ?_⟩
    intro a ha1 ha2
    have : a = e.2 := by simpa using ha2
    exact hnf (this ▸ ha1)

/-- The two outcomes of one iteration of the loop of `DeleteAllPages`: the entry is stepped
over (another file, or a pinned page, which clears `all_pages_deleted`), or the page is of
the file and unpinned and is deleted. -/
theorem DeleteAllPages_body_cases (fid : file_id_t) (acc : Bool × BufferPoolManager)
    (e : fid_pid_t × frame_id_t) :
    ((e.1.fid ≠ fid ∧ BufferPoolManager.DeleteAllPages_body fid acc e = acc) ∨
     (e.1.fid = fid ∧ 0 < (acc.2.frame e.2).pin_count_ ∧
        BufferPoolManager.DeleteAllPages_body fid acc e = (false, acc.2))) ∨
    (e.1.fid = fid ∧ (acc.2.frame e.2).pin_count_ = 0 ∧
      BufferPoolManager.DeleteAllPages_body fid acc e =
        (acc.1,
          { disk_manager_ :=
              if (acc.2.frame e.2).is_dirty_ then
                acc.2.disk_manager_.WritePage e.1.fid e.1.pid (acc.2.frame e.2).page_.data_
              else acc.2.disk_manager_,
            replacer_ := acc.2.replacer_.Unpin e.2,
            frames_ := acc.2.frames_.set e.2 (acc.2.frame e.2).Reset,
            free_list_ := acc.2.free_list_ ++ [e.2],
            page_frame_lookup_ := umap_erase acc.2.page_frame_lookup_ e.1 })) := by
  unfold BufferPoolManager.DeleteAllPages_body
  by_cases hfid : e.1.fid = fid
  · by_cases hpin : 0 < (acc.2.frame e.2).pin_count_
    · left; right
      exact ⟨hfid, hpin, by simp [hfid, Frame.GetPinCount, hpin]⟩
    · right
      have h0 : (acc.2.frame e.2).pin_count_ = 0 := by omega
      refine ⟨hfid, h0, ?_⟩
      subst hfid
      simp [Frame.GetPinCount, h0, Frame.IsDirty]
  · left; left
    exact ⟨hfid, by simp [hfid]⟩

theorem WF_DeleteAllPages_body (fid : file_id_t) (acc : Bool × BufferPoolManager)
    (e : fid_pid_t × frame_id_t) (h : acc.2.WF) (hmem : e ∈ acc.2.page_frame_lookup_) :
    (BufferPoolManager.DeleteAllPages_body fid acc e).2.WF := by
  rcases DeleteAllPages_body_cases fid acc e with (⟨_, h1⟩ | ⟨_, _, h1⟩) | ⟨_, _, h1⟩
  · rw [h1]; exact h
  · rw [h1]; exact h
  · rw [h1]; exact poolWF_delete _ _ _ e h hmem

/-- An entry still to be visited by the loop of `DeleteAllPages` is not erased by the
iteration on an earlier entry with a different key. -/
theorem DeleteAllPages_body_keeps (fid : file_id_t) (acc : Bool × BufferPoolManager)
    (e e' : fid_pid_t × frame_id_t) (hne : e'.1 ≠ e.1) (hmem : e' ∈ acc.2.page_frame_lookup_) :
    e' ∈ (BufferPoolManager.DeleteAllPages_body fid acc e).2.page_frame_lookup_ := by
  rcases DeleteAllPages_body_cases fid acc e with (⟨_, h1⟩ | ⟨_, _, h1⟩) | ⟨_, _, h1⟩
  · rw [h1]; exact hmem
  · rw [h1]; exact hmem
  · rw [h1]; exact (mem_umap_erase _ _ _).2 ⟨hmem, hne⟩

/-- Induction over the loop of `DeleteAllPages`: a property of consistent pool states that
every iteration on an entry of the current lookup map preserves holds after the loop. -/
theorem DeleteAllPages_loop_induction (P : BufferPoolManager → Prop) (fid : file_id_t)
    (hstep : ∀ (acc : Bool × BufferPoolManager) (e : fid_pid_t × frame_id_t),
      acc.2.WF → P acc.2 → e ∈ acc.2.page_frame_lookup_ →
      P (BufferPoolManager.DeleteAllPages_body fid acc e).2)
    (entries : List (fid_pid_t × frame_id_t)) :
    ∀ acc : Bool × BufferPoolManager, acc.2.WF → P acc.2 →
      (∀ e ∈ entries, e ∈ acc.2.page_frame_lookup_) → (entries.map Prod.fst).Nodup →
      (entries.foldl (BufferPoolManager.DeleteAllPages_body fid) acc).2.WF ∧
      P (entries.foldl (BufferPoolManager.DeleteAllPages_body fid) acc).2 := by
  induction entries with
  | nil => intro acc h hp _ _; exact ⟨h, hp⟩
  | cons e rest ih =>
    intro acc h hp hsub hnd
    simp only [List.foldl_cons]
    simp only [List.map_cons, List.nodup_cons] at hnd
    have he := hsub e (List.mem_cons_self _ _)
    refine ih _ (WF_DeleteAllPages_body fid acc e h he) (hstep acc e h hp he) ?_ hnd.2
    intro e' he'
    refine DeleteAllPages_body_keeps fid acc e e' ?_ (hsub e' (List.mem_cons_of_mem _ he'))
    intro heq
    exact hnd.1 (heq ▸ List.mem_map.2 ⟨e', he', rfl⟩)

theorem WF_DeleteAllPages (b : BufferPoolManager) (fid : file_id_t) (h : b.WF) :
    (b.DeleteAllPages fid).2.WF :=
  (DeleteAllPages_loop_induction (fun _ => True) fid (fun _ _ _ _ _ => trivial)
    b.page_frame_lookup_ (true, b) h trivial (fun _ he => he) h.2.2.2).1

/-- The state after `DeletePage` is the old state, or the state after the iteration of the
loop of `DeleteAllPages` on the entry of the page. -/
theorem DeletePage_cases (b : BufferPoolManager) (fid : file_id_t) (pid : page_id_t) :
    b.DeletePage fid pid = (false, b) ∨
    ∃ f, (⟨fid, pid⟩, f) ∈ b.page_frame_lookup_ ∧
      umap_find b.page_frame_lookup_ ⟨fid, pid⟩ = some f ∧ (b.frame f).pin_count_ = 0 ∧
      b.DeletePage fid pid =
        (true, (BufferPoolManager.DeleteAllPages_body fid (true, b) (⟨fid, pid⟩, f)).2) := by
  unfold BufferPoolManager.DeletePage
  cases hfind : umap_find b.page_frame_lookup_ ⟨fid, pid⟩ with
  | none => left; rfl
  | some f =>
    by_cases hpin : 0 < (b.frame f).pin_count_
    · left; simp [Frame.GetPinCount, hpin]
    · right
      have h0 : (b.frame f).pin_count_ = 0 := by omega
      refine ⟨f, umap_find_mem _ _ _ hfind, rfl, h0, ?_⟩
      simp [Frame.GetPinCount, h0, BufferPoolManager.DeleteAllPages_body]

theorem WF_DeletePage (b : BufferPoolManager) (fid : file_id_t) (pid : page_id_t)
    (h : b.WF) : (b.DeletePage fid pid).2.WF := by
  rcases DeletePage_cases b fid pid with h1 | ⟨f, hmem, _, _, h1⟩
  · rw [h1]; exact h
  · rw [h1]; exact WF_DeleteAllPages_body fid (true, b) _ h hmem

/-- The outcomes of `UnpinPage`: `false` with the state unchanged when the page is not
resident or its pin count is 0; otherwise `true`, with the frame unpinned, marked dirty and
written through when `is_dirty`, and the replacer notified. -/
theorem UnpinPage_cases (b : BufferPoolManager) (fid : file_id_t) (pid : page_id_t)
    (is_dirty : Bool) :
    ((umap_find b.page_frame_lookup_ ⟨fid, pid⟩ = none ∨
       ∃ f, umap_find b.page_frame_lookup_ ⟨fid, pid⟩ = some f ∧ (b.frame f).pin_count_ = 0) ∧
      b.UnpinPage fid pid is_dirty = (false, b)) ∨
    (∃ f, umap_find b.page_frame_lookup_ ⟨fid, pid⟩ = some f ∧ 0 < (b.frame f).pin_count_ ∧
      b.UnpinPage fid pid is_dirty =
        (true,
          { b with
            frames_ := b.frames_.set f
              { (b.frame f) with
                pin_count_ := (b.frame f).pin_count_ - 1,
                is_dirty_ := (b.frame f).is_dirty_ || is_dirty },
            disk_manager_ :=
              if is_dirty then b.disk_manager_.WritePage fid pid (b.frame f).page_.data_
              else b.disk_manager_,
            replacer_ := b.replacer_.Unpin f })) := by
  unfold BufferPoolManager.UnpinPage BufferPoolManager.GetFrame
  cases hfind : umap_find b.page_frame_lookup_ ⟨fid, pid⟩ with
  | none => left; exact ⟨Or.inl rfl, rfl⟩
  | some f =>
    by_cases hpin : 0 < (b.frame f).pin_count_
    · right
      refine ⟨f, rfl, hpin, ?_⟩
      cases is_dirty <;> simp [Frame.GetPinCount, hpin, Frame.Unpin, Frame.SetDirty]
    · left
      have h0 : (b.frame f).pin_count_ = 0 := by omega
      exact ⟨Or.inr ⟨f, rfl, h0⟩, by simp [Frame.GetPinCount, h0]⟩

theorem WF_UnpinPage (b : BufferPoolManager) (fid : file_id_t) (pid : page_id_t)
    (is_dirty : Bool) (h : b.WF) : (b.UnpinPage fid pid is_dirty).2.WF := by
  rcases UnpinPage_cases b fid pid is_dirty with ⟨_, h1⟩ | ⟨f, hfind, _, h1⟩
  · rw [h1]; exact h
  · rw [h1]
    have hmem := umap_find_mem _ _ _ hfind
    refine poolWF_set _ _ _ f _ h rfl ?_
    intro hf
    exact absurd rfl ((h.2.1 f hf).2.2.2 _ hmem)

/-- The two outcomes of one iteration of the loop of `FlushAllPages`. -/
theorem FlushAllPages_body_cases (fid : file_id_t) (b : BufferPoolManager)
    (e : fid_pid_t × frame_id_t) :
    BufferPoolManager.FlushAllPages_body fid b e = b ∨
    (e.1.fid = fid ∧ (b.frame e.2).is_dirty_ = true ∧
      BufferPoolManager.FlushAllPages_body fid b e =
        { b with
          disk_manager_ := b.disk_manager_.WritePage e.1.fid e.1.pid (b.frame e.2).page_.data_,
          frames_ := b.frames_.set e.2 { (b.frame e.2) with is_dirty_ := false } }) := by
  unfold BufferPoolManager.FlushAllPages_body
  by_cases hfid : e.1.fid = fid
  · cases hd : (b.frame e.2).is_dirty_
    · left; simp [hfid, Frame.IsDirty, hd]
    · right
      refine ⟨hfid, rfl, ?_⟩
      subst hfid
      simp [Frame.IsDirty, hd, Frame.SetDirty]
  · left; simp [hfid]

theorem WF_FlushAllPages_body (fid : file_id_t) (b : BufferPoolManager)
    (e : fid_pid_t × frame_id_t) (h : b.WF) :
    (BufferPoolManager.FlushAllPages_body fid b e).WF := by
  rcases FlushAllPages_body_cases fid b e with h1 | ⟨_, _, h1⟩
  · rw [h1]; exact h
  · rw [h1]; exact poolWF_set _ _ _ e.2 _ h rfl (fun _ => rfl)

/-- The lookup map is not changed by an iteration of the loop of `FlushAllPages`. -/
theorem FlushAllPages_body_lookup (fid : file_id_t) (b : BufferPoolManager)
    (e : fid_pid_t × frame_id_t) :
    (BufferPoolManager.FlushAllPages_body fid b e).page_frame_lookup_ =
      b.page_frame_lookup_ := by
  rcases FlushAllPages_body_cases fid b e with h1 | ⟨_, _, h1⟩ <;> rw [h1]

/-- Induction over the loop of `FlushAllPages`. -/
theorem FlushAllPages_loop_induction (P : BufferPoolManager → Prop) (fid : file_id_t)
    (hstep : ∀ (b : BufferPoolManager) (e : fid_pid_t × frame_id_t),
      b.WF → P b → e ∈ b.page_frame_lookup_ →
      P (BufferPoolManager.FlushAllPages_body fid b e))
    (entries : List (fid_pid_t × frame_id_t)) :
    ∀ b : BufferPoolManager, b.WF → P b → (∀ e ∈ entries, e ∈ b.page_frame_lookup_) →
      (entries.foldl (BufferPoolManager.FlushAllPages_body fid) b).WF ∧
      P (entries.foldl (BufferPoolManager.FlushAllPages_body fid) b) := by
  induction entries with
  | nil => intro b h hp _; exact ⟨h, hp⟩
  | cons e rest ih =>
    intro b h hp hsub
    simp only [List.foldl_cons]
    have he := hsub e (List.mem_cons_self _ _)
    refine ih _ (WF_FlushAllPages_body fid b e h) (hstep b e h hp he) ?_
    intro e' he'
    rw [FlushAllPages_body_lookup]
    exact hsub e' (List.mem_cons_of_mem _ he')

theorem WF_FlushAllPages (b : BufferPoolManager) (fid : file_id_t) (h : b.WF) :
    (b.FlushAllPages fid).2.WF :=
  (FlushAllPages_loop_induction (fun _ => True) fid (fun _ _ _ _ _ => trivial)
    b.page_frame_lookup_ b h trivial (fun _ he => he)).1

/-- The state after `FlushPage` is the state after the iteration of the loop of
`FlushAllPages` on the entry of the page, or the old state when the page is not resident. -/
theorem FlushPage_cases (b : BufferPoolManager) (fid : file_id_t) (pid : page_id_t) :
    (umap_find b.page_frame_lookup_ ⟨fid, pid⟩ = none ∧ b.FlushPage fid pid = (false, b)) ∨
    ∃ f, (⟨fid, pid⟩, f) ∈ b.page_frame_lookup_ ∧
      umap_find b.page_frame_lookup_ ⟨fid, pid⟩ = some f ∧
      b.FlushPage fid pid =
        (true, BufferPoolManager.FlushAllPages_body fid b (⟨fid, pid⟩, f)) := by
  unfold BufferPoolManager.FlushPage BufferPoolManager.GetFrame
  cases hfind : umap_find b.page_frame_lookup_ ⟨fid, pid⟩ with
  | none => left; exact ⟨rfl, rfl⟩
  | some f =>
    right
    refine ⟨f, umap_find_mem _ _ _ hfind, rfl, ?_⟩
    cases hd : (b.frame f).is_dirty_ <;>
      simp [BufferPoolManager.FlushAllPages_body, Frame.IsDirty, hd]

theorem WF_FlushPage (b : BufferPoolManager) (fid : file_id_t) (pid : page_id_t)
    (h : b.WF) : (b.FlushPage fid pid).2.WF := by
  rcases FlushPage_cases b fid pid with ⟨_, h1⟩ | ⟨f, _, _, h1⟩
  · rw [h1]; exact h
  · rw [h1]; exact WF_FlushAllPages_body fid b _ h

theorem WF_writePageData (b : BufferPoolManager) (f : frame_id_t) (data : List Nat)
    (h : b.WF) : (b.writePageData f data).WF := by
  refine poolWF_set _ _ _ f _ h rfl ?_
  intro hf
  exact (h.2.1 f hf).2.2.1

theorem WF_new (disk_manager : DiskManager) (REPLACER : ReplacerKind)
    (BUFFER_POOL_SIZE PAGE_SIZE replacer_lru_k : Nat) :
    (BufferPoolManager.new disk_manager REPLACER BUFFER_POOL_SIZE PAGE_SIZE
      replacer_lru_k).WF := by
  refine ⟨by simp [BufferPoolManager.new], ?_, List.nodup_range _, by
    simp [BufferPoolManager.new]⟩
  intro f hf
  have hlt : f < BUFFER_POOL_SIZE := by simpa [BufferPoolManager.new] using hf
  have hget : (List.replicate BUFFER_POOL_SIZE (Frame.fresh PAGE_SIZE)).getD f default
      = Frame.fresh PAGE_SIZE := by
    simp [List.getD_eq_getElem?_getD, List.getElem?_replicate, hlt]
  simp only [BufferPoolManager.new]
  refine ⟨by simpa using hlt, ?_, ?_, by simp⟩
  · rw [hget]; rfl
  · rw [hget]; rfl

theorem WF_run (b : BufferPoolManager) (op : PoolOp) (h : b.WF) : (op.run b).WF := by
  cases op with
  | FetchPage fid pid => exact WF_FetchPage b fid pid h
  | UnpinPage fid pid d => exact WF_UnpinPage b fid pid d h
  | DeletePage fid pid => exact WF_DeletePage b fid pid h
  | DeleteAllPages fid => exact WF_DeleteAllPages b fid h
  | FlushPage fid pid => exact WF_FlushPage b fid pid h
  | FlushAllPages fid => exact WF_FlushAllPages b fid h
  | writePageData f data => exact WF_writePageData b f data h

/-- Every reachable pool state is consistent. -/
theorem Reachable.WF {b : BufferPoolManager} (h : Reachable b) : b.WF := by
  induction h with
  | init d k n ps lk => exact WF_new d k n ps lk
  | step op _ ih => exact WF_run _ op ih

theorem WritePage_blocks (d : DiskManager) (fid : file_id_t) (pid : page_id_t)
    (data : List Nat) (key : fid_pid_t) :
    (d.WritePage fid pid data).blocks key = if key = ⟨fid, pid⟩ then data else d.blocks key :=
  rfl

/-- Replacing a frame keeps the page coherent when the new frame has the bytes `B` in case
it is the frame of the page. -/
theorem coherent_set (key : fid_pid_t) (B : List Nat) (blocks : fid_pid_t → List Nat)
    (frames : List Frame) (lookup : List (fid_pid_t × frame_id_t)) (i : frame_id_t)
    (fr : Frame) (h : coherent key B blocks frames lookup)
    (hd : umap_find lookup key = some i → fr.page_.data_ = B) :
    coherent key B blocks (frames.set i fr) lookup := by
  refine ⟨h.1, ?_⟩
  intro f hf
  rcases getD_set_cases frames i f fr with h1 | ⟨h1, _, h3⟩
  · rw [h1]; exact h.2 f hf
  · rw [h3]; exact hd (h1 ▸ hf)

/-- Writing a block to disk keeps the page coherent when the block is `B` in case it is
the block of the page. -/
theorem coherent_write (key : fid_pid_t) (B : List Nat) (d : DiskManager)
    (frames : List Frame) (lookup : List (fid_pid_t × frame_id_t)) (fid : file_id_t)
    (pid : page_id_t) (data : List Nat) (h : coherent key B d.blocks frames lookup)
    (hd : key = ⟨fid, pid⟩ → data = B) :
    coherent key B (d.WritePage fid pid data).blocks frames lookup := by
  refine ⟨?_, h.2⟩
  rw [WritePage_blocks]
  by_cases hk : key = ⟨fid, pid⟩
  · simp [hk, hd hk]
  · simp [hk, h.1]

theorem umap_find_erase_some {κ ν : Type} [DecidableEq κ] (m : List (κ × ν)) (key k : κ)
    (v : ν) (h : umap_find (umap_erase m key) k = some v) :
    k ≠ key ∧ umap_find m k = some v := by
  by_cases hk : k = key
  · subst hk; rw [umap_find_erase_self] at h; cases h
  · exact ⟨hk, by rw [umap_find_erase_ne _ _ _ hk] at h; exact h⟩

theorem coherent_erase (key : fid_pid_t) (B : List Nat) (blocks : fid_pid_t → List Nat)
    (frames : List Frame) (lookup : List (fid_pid_t × frame_id_t)) (k : fid_pid_t)
    (h : coherent key B blocks frames lookup) :
    coherent key B blocks frames (umap_erase lookup k) :=
  ⟨h.1, fun f hf => h.2 f (umap_find_erase_some _ _ _ _ hf).2⟩

/-- The method `UpdateFrame` keeps a page coherent: a dirty frame is written back under
its own identity, and the frame is refilled from disk. -/
theorem coherent_UpdateFrame (b : BufferPoolManager) (key : fid_pid_t) (B : List Nat)
    (f : frame_id_t) (fid : file_id_t) (pid : page_id_t) (hwf : b.WF)
    (h : b.coherent key B) (hf : f < b.frames_.length)
    (hdirty : (b.frame f).is_dirty_ = true → (b.frame f).ident = key →
      (b.frame f).page_.data_ = B)
    (hmiss : umap_find b.page_frame_lookup_ ⟨fid, pid⟩ = none) :
    (b.UpdateFrame f fid pid).coherent key B := by
  have hmiss' : umap_find (umap_erase b.page_frame_lookup_ (b.frame f).ident) ⟨fid, pid⟩
      = none := by
    rw [umap_find_eq_none] at hmiss ⊢
    intro e he
    exact hmiss e ((mem_umap_erase _ _ _).1 he).1
  have hblocks : (if (b.frame f).IsDirty then
        b.disk_manager_.WritePage (b.frame f).page_.fid_ (b.frame f).page_.pid_
          (b.frame f).page_.data_
      else b.disk_manager_).blocks key = B := by
    cases hd : (b.frame f).is_dirty_
    · simp [Frame.IsDirty, hd, h.1]
    · simp only [Frame.IsDirty, hd, if_true, WritePage_blocks]
      by_cases hk : key = ⟨(b.frame f).page_.fid_, (b.frame f).page_.pid_⟩
      · simp [hk]
        exact hdirty hd hk.symm
      · simp [hk, h.1]
  simp only [BufferPoolManager.coherent, BufferPoolManager.UpdateFrame, wsdb.coherent,
    DiskManager.ReadPage]
  refine ⟨hblocks, ?_⟩
  intro g hg
  by_cases hk : key = ⟨fid, pid⟩
  · subst hk
    have hassign : umap_find (umap_assign (umap_erase b.page_frame_lookup_ (b.frame f).ident)
        ⟨fid, pid⟩ f) ⟨fid, pid⟩ = some f := umap_find_assign_self _ _ _ hmiss'
    have hg' : umap_find (umap_assign (umap_erase b.page_frame_lookup_ (b.frame f).ident)
        ⟨fid, pid⟩ f) ⟨fid, pid⟩ = some g := hg
    rw [hassign] at hg'
    cases hg'
    rw [getD_set_self _ _ _ hf]
    exact hblocks
  · have hg' : umap_find (umap_assign (umap_erase b.page_frame_lookup_ (b.frame f).ident)
        ⟨fid, pid⟩ f) key = some g := hg
    rw [umap_find_assign_ne _ _ _ _ hk hmiss'] at hg'
    obtain ⟨hne, hfind⟩ := umap_find_erase_some _ _ _ _ hg'
    have hmem := umap_find_mem _ _ _ hfind
    have hgf : f ≠ g := by
      intro hfg
      apply hne
      have := (hwf.1 _ hmem).2
      simp only at this
      rw [← this, ← hfg]
      rfl
    rw [getD_set_ne _ _ _ _ hgf]
    exact h.2 g hfind

theorem coherent_FetchPage (b : BufferPoolManager) (key : fid_pid_t) (B : List Nat)
    (fid : file_id_t) (pid : page_id_t) (hwf : b.WF) (h : b.coherent key B) :
    (b.FetchPage fid pid).2.coherent key B := by
  cases hfind : umap_find b.page_frame_lookup_ ⟨fid, pid⟩ with
  | some f =>
    rw [FetchPage_hit b fid pid f hfind]
    exact coherent_set _ _ _ _ _ f _ h (fun hk => h.2 f hk)
  | none =>
    rw [FetchPage_miss b fid pid hfind]
    rcases GetAvailableFrame_cases b with ⟨f, rest, hfl, hg⟩ | ⟨hfl, v, r, entry, hmem, hev, _, hg⟩ |
        ⟨_, e, r, hg⟩
    · rw [hg]
      have hwf' : poolWF b.frames_ (f :: rest) b.page_frame_lookup_ := hfl ▸ hwf
      have hfree := hwf'.2.1 f (List.mem_cons_self _ _)
      refine coherent_UpdateFrame _ key B f fid pid (poolWF_pop _ _ _ _ hwf') h hfree.1 ?_ hfind
      intro hd
      have h0 : (b.frames_.getD f default).is_dirty_ = false := hfree.2.2.1
      have h1 : (b.frames_.getD f default).is_dirty_ = true := hd
      rw [h0] at h1
      cases h1
    · rw [hg]
      have hident : (b.frame v).ident = entry.1 := hev ▸ (hwf.1 entry hmem).2
      have hdata : entry.1 = key → (b.frame v).page_.data_ = B := by
        intro hk
        have : umap_find b.page_frame_lookup_ key = some v := by
          apply umap_find_of_mem _ _ _ hwf.2.2.2
          rw [← hk, ← hev]
          exact hmem
        exact h.2 v this
      refine coherent_UpdateFrame _ key B v fid pid (poolWF_erase _ _ _ _ hwf) ?_ ?_ ?_ ?_
      · refine coherent_erase _ _ _ _ _ _ ?_
        cases hd : (b.frame v).IsDirty
        · simpa using h
        · simp only [if_true]
          refine coherent_write _ _ _ _ _ _ _ _ h ?_
          intro hk
          exact hdata hk.symm
      · exact hev ▸ (hwf.1 entry hmem).1
      · intro _ hk
        exact hdata (hident.symm.trans hk)
      · simp only
        rw [umap_find_eq_none] at hfind ⊢
        intro e he
        exact hfind e ((mem_umap_erase _ _ _).1 he).1
    · rw [hg]; exact h

theorem coherent_UnpinPage (b : BufferPoolManager) (key : fid_pid_t) (B : List Nat)
    (fid : file_id_t) (pid : page_id_t) (is_dirty : Bool) (h : b.coherent key B) :
    (b.UnpinPage fid pid is_dirty).2.coherent key B := by
  rcases UnpinPage_cases b fid pid is_dirty with ⟨_, h1⟩ | ⟨f, hfind, _, h1⟩
  · rw [h1]; exact h
  · rw [h1]
    refine coherent_set _ _ _ _ _ f _ ?_ (fun hk => h.2 f hk)
    cases is_dirty
    · exact h
    · refine coherent_write _ _ _ _ _ _ _ _ h ?_
      intro hk
      exact h.2 f (hk ▸ hfind)

theorem coherent_DeleteAllPages_body (fid : file_id_t) (key : fid_pid_t) (B : List Nat)
    (acc : Bool × BufferPoolManager) (e : fid_pid_t × frame_id_t) (hwf : acc.2.WF)
    (h : acc.2.coherent key B) (hmem : e ∈ acc.2.page_frame_lookup_) :
    (BufferPoolManager.DeleteAllPages_body fid acc e).2.coherent key B := by
  rcases DeleteAllPages_body_cases fid acc e with (⟨_, h1⟩ | ⟨_, _, h1⟩) | ⟨_, _, h1⟩
  · rw [h1]; exact h
  · rw [h1]; exact h
  · rw [h1]
    have hdata : key = e.1 → (acc.2.frame e.2).page_.data_ = B := by
      intro hk
      exact h.2 e.2 (umap_find_of_mem _ _ _ hwf.2.2.2 (hk ▸ hmem))
    refine coherent_set _ _ _ _ _ e.2 _ (coherent_erase _ _ _ _ _ _ ?_) ?_
    · cases hd : (acc.2.frame e.2).is_dirty_
      · simpa using h
      · simp only [if_true]
        exact coherent_write _ _ _ _ _ _ _ _ h hdata
    · intro hk
      exfalso
      obtain ⟨hne, hfind⟩ := umap_find_erase_some _ _ _ _ hk
      exact hne (poolWF_frame_inj _ _ _ hwf (key, e.2) e (umap_find_mem _ _ _ hfind) hmem rfl)

theorem coherent_DeleteAllPages (b : BufferPoolManager) (key : fid_pid_t) (B : List Nat)
    (fid : file_id_t) (hwf : b.WF) (h : b.coherent key B) :
    (b.DeleteAllPages fid).2.coherent key B :=
  (DeleteAllPages_loop_induction (fun s => s.coherent key B) fid
    (fun acc e hw hp he => coherent_DeleteAllPages_body fid key B acc e hw hp he)
    b.page_frame_lookup_ (true, b) hwf h (fun _ he => he) hwf.2.2.2).2

theorem coherent_DeletePage (b : BufferPoolManager) (key : fid_pid_t) (B : List Nat)
    (fid : file_id_t) (pid : page_id_t) (hwf : b.WF) (h : b.coherent key B) :
    (b.DeletePage fid pid).2.coherent key B := by
  rcases DeletePage_cases b fid pid with h1 | ⟨f, hmem, _, _, h1⟩
  · rw [h1]; exact h
  · rw [h1]; exact coherent_DeleteAllPages_body fid key B (true, b) _ hwf h hmem

theorem coherent_FlushAllPages_body (fid : file_id_t) (key : fid_pid_t) (B : List Nat)
    (b : BufferPoolManager) (e : fid_pid_t × frame_id_t) (hwf : b.WF)
    (h : b.coherent key B) (hmem : e ∈ b.page_frame_lookup_) :
    (BufferPoolManager.FlushAllPages_body fid b e).coherent key B := by
  rcases FlushAllPages_body_cases fid b e with h1 | ⟨_, _, h1⟩
  · rw [h1]; exact h
  · rw [h1]
    refine coherent_set _ _ _ _ _ e.2 _ ?_ (fun hk => h.2 e.2 hk)
    refine coherent_write _ _ _ _ _ _ _ _ h ?_
    intro hk
    exact h.2 e.2 (umap_find_of_mem _ _ _ hwf.2.2.2 (hk ▸ hmem))

theorem coherent_FlushAllPages (b : BufferPoolManager) (key : fid_pid_t) (B : List Nat)
    (fid : file_id_t) (hwf : b.WF) (h : b.coherent key B) :
    (b.FlushAllPages fid).2.coherent key B :=
  (FlushAllPages_loop_induction (fun s => s.coherent key B) fid
    (fun s e hw hp he => coherent_FlushAllPages_body fid key B s e hw hp he)
    b.page_frame_lookup_ b hwf h (fun _ he => he)).2

theorem coherent_FlushPage (b : BufferPoolManager) (key : fid_pid_t) (B : List Nat)
    (fid : file_id_t) (pid : page_id_t) (hwf : b.WF) (h : b.coherent key B) :
    (b.FlushPage fid pid).2.coherent key B := by
  rcases FlushPage_cases b fid pid with ⟨_, h1⟩ | ⟨f, hmem, _, h1⟩
  · rw [h1]; exact h
  · rw [h1]; exact coherent_FlushAllPages_body fid key B b _ hwf h hmem

/-- A step that does not store into the bytes of the page keeps it coherent. -/
theorem coherent_run (b : BufferPoolManager) (key : fid_pid_t) (B : List Nat) (op : PoolOp)
    (hwf : b.WF) (h : b.coherent key B) (hno : op.modifies b key = false) :
    (op.run b).coherent key B := by
  cases op with
  | FetchPage fid pid => exact coherent_FetchPage b key B fid pid hwf h
  | UnpinPage fid pid d => exact coherent_UnpinPage b key B fid pid d h
  | DeletePage fid pid => exact coherent_DeletePage b key B fid pid hwf h
  | DeleteAllPages fid => exact coherent_DeleteAllPages b key B fid hwf h
  | FlushPage fid pid => exact coherent_FlushPage b key B fid pid hwf h
  | FlushAllPages fid => exact coherent_FlushAllPages b key B fid hwf h
  | writePageData f data =>
    refine coherent_set _ _ _ _ _ f _ h ?_
    intro hk
    have hk' : umap_find b.page_frame_lookup_ key = some f := hk
    simp [PoolOp.modifies, hk'] at hno

/-- After a successful `FetchPage` the lookup map holds the returned frame for the page,
and the frame is pinned. -/
theorem FetchPage_ok_resident (b : BufferPoolManager) (fid : file_id_t) (pid : page_id_t)
    (f : frame_id_t) (b1 : BufferPoolManager) (hwf : b.WF)
    (h : b.FetchPage fid pid = (.ok f, b1)) :
    umap_find b1.page_frame_lookup_ ⟨fid, pid⟩ = some f ∧ f < b1.frames_.length ∧
      0 < (b1.frame f).pin_count_ := by
  cases hfind : umap_find b.page_frame_lookup_ ⟨fid, pid⟩ with
  | some g =>
    rw [FetchPage_hit b fid pid g hfind] at h
    simp only [Prod.mk.injEq, Except.ok.injEq] at h
    obtain ⟨hg, hb⟩ := h
    subst hg hb
    have hlen := (hwf.1 _ (umap_find_mem _ _ _ hfind)).1
    refine ⟨hfind, by simpa using hlen, ?_⟩
    simp only [BufferPoolManager.frame]
    rw [getD_set_self _ _ _ hlen]
    simp [Frame.Pin]
  | none =>
    rw [FetchPage_miss b fid pid hfind] at h
    have key : ∀ (s : BufferPoolManager) (g : frame_id_t), g < s.frames_.length →
        umap_find s.page_frame_lookup_ ⟨fid, pid⟩ = none →
        umap_find (s.UpdateFrame g fid pid).page_frame_lookup_ ⟨fid, pid⟩ = some g ∧
        g < (s.UpdateFrame g fid pid).frames_.length ∧
        0 < ((s.UpdateFrame g fid pid).frame g).pin_count_ := by
      intro s g hg hs
      have hmiss' : umap_find (umap_erase s.page_frame_lookup_ (s.frame g).ident) ⟨fid, pid⟩
          = none := by
        rw [umap_find_eq_none] at hs ⊢
        intro e he
        exact hs e ((mem_umap_erase _ _ _).1 he).1
      refine ⟨umap_find_assign_self _ _ _ hmiss', ?_, ?_⟩
      · simpa [BufferPoolManager.UpdateFrame] using hg
      · simp only [BufferPoolManager.frame, BufferPoolManager.UpdateFrame]
        rw [getD_set_self _ _ _ hg]
        simp [Frame.Pin]
    rcases GetAvailableFrame_cases b with ⟨g, rest, hfl, hg⟩ | ⟨hfl, v, r, entry, hmem, hev, _, hg⟩ |
        ⟨_, e, r, hg⟩
    · rw [hg] at h
      simp only [Prod.mk.injEq, Except.ok.injEq] at h
      obtain ⟨h1, h2⟩ := h
      subst h1 h2
      have hwf' : poolWF b.frames_ (g :: rest) b.page_frame_lookup_ := hfl ▸ hwf
      exact key _ g (hwf'.2.1 g (List.mem_cons_self _ _)).1 hfind
    · rw [hg] at h
      simp only [Prod.mk.injEq, Except.ok.injEq] at h
      obtain ⟨h1, h2⟩ := h
      subst h1 h2
      refine key _ v (hev ▸ (hwf.1 entry hmem).1) ?_
      simp only
      rw [umap_find_eq_none] at hfind ⊢
      intro e he
      exact hfind e ((mem_umap_erase _ _ _).1 he).1
    · rw [hg] at h
      simp at h

/-- The frame, the disk and the lookup map after `UpdateFrame` into a frame that, if
dirty, holds another page than the one requested. -/
theorem UpdateFrame_effect (s : BufferPoolManager) (g : frame_id_t) (fid : file_id_t)
    (pid : page_id_t) (hg : g < s.frames_.length)
    (hs : umap_find s.page_frame_lookup_ ⟨fid, pid⟩ = none)
    (hd : (s.frame g).is_dirty_ = true → (s.frame g).ident ≠ ⟨fid, pid⟩) :
    ((s.UpdateFrame g fid pid).frame g).page_.data_ = s.disk_manager_.blocks ⟨fid, pid⟩ ∧
    ((s.UpdateFrame g fid pid).frame g).ident = ⟨fid, pid⟩ ∧
    ((s.UpdateFrame g fid pid).frame g).pin_count_ = 1 ∧
    ((s.UpdateFrame g fid pid).frame g).is_dirty_ = false ∧
    umap_find (s.UpdateFrame g fid pid).page_frame_lookup_ ⟨fid, pid⟩ = some g ∧
    ((s.frame g).ident ≠ ⟨fid, pid⟩ →
      umap_find (s.UpdateFrame g fid pid).page_frame_lookup_ (s.frame g).ident = none) := by
  have hmiss' : umap_find (umap_erase s.page_frame_lookup_ (s.frame g).ident) ⟨fid, pid⟩
      = none := by
    rw [umap_find_eq_none] at hs ⊢
    intro e he
    exact hs e ((mem_umap_erase _ _ _).1 he).1
  have hfr : (s.UpdateFrame g fid pid).frame g =
      (((((s.frame g).Reset).SetData ((if (s.frame g).IsDirty then
        s.disk_manager_.WritePage (s.frame g).page_.fid_ (s.frame g).page_.pid_
          (s.frame g).page_.data_ else s.disk_manager_).ReadPage fid pid).1).SetFilePageId
        fid pid).Pin) := by
    simp only [BufferPoolManager.frame, BufferPoolManager.UpdateFrame]
    exact getD_set_self _ _ _ hg
  refine ⟨?_, ?_, ?_, ?_, umap_find_assign_self _ _ _ hmiss', ?_⟩
  · rw [hfr]
    simp only [Frame.Pin, Frame.SetFilePageId, Frame.SetData, DiskManager.ReadPage]
    cases hdirty : (s.frame g).is_dirty_
    · simp [Frame.IsDirty, hdirty]
    · simp only [Frame.IsDirty, hdirty, if_true, WritePage_blocks]
      have := hd hdirty
      rw [if_neg (fun h' => this h'.symm)]
  · rw [hfr]; rfl
  · rw [hfr]; rfl
  · rw [hfr]; rfl
  · intro hne
    show umap_find (umap_assign (umap_erase s.page_frame_lookup_ (s.frame g).ident)
      ⟨fid, pid⟩ g) (s.frame g).ident = none
    rw [umap_find_assign_ne _ _ _ _ hne hmiss']
    exact umap_find_erase_self _ _

/-- C4: in a reachable pool state, when FetchPage(fid, pid) succeeds on a page that is
not resident, the returned page has the bytes of the disk block of (fid, pid) at the time
of the call and the identity (fid, pid); its frame has pin count 1 and a clear dirty flag;
the lookup map maps (fid, pid) to that frame; and the lookup map no longer contains the
page that was resident in the frame before, nor the identity stored in the frame before
when that was an identity (a free frame stores the invalid identity). -/
theorem FetchPage_miss_loads_page (b : BufferPoolManager) (hr : Reachable b)
    (fid : file_id_t) (pid : page_id_t) (hmiss : b.GetFrame fid pid = none)
    (f : frame_id_t) (b1 : BufferPoolManager) (h : b.FetchPage fid pid = (.ok f, b1)) :
    (b1.frame f).page_.data_ = b.disk_manager_.blocks ⟨fid, pid⟩ ∧
    (b1.frame f).page_.fid_ = fid ∧ (b1.frame f).page_.pid_ = pid ∧
    (b1.frame f).GetPinCount = 1 ∧ (b1.frame f).IsDirty = false ∧
    b1.GetFrame fid pid = some f ∧
    (∀ key, umap_find b.page_frame_lookup_ key = some f →
      umap_find b1.page_frame_lookup_ key = none) ∧
    ((b.frame f).ident ≠ INVALID_FID_PID →
      b1.GetFrame (b.frame f).page_.fid_ (b.frame f).page_.pid_ = none) := by
  have hwf := hr.WF
  have hfind : umap_find b.page_frame_lookup_ ⟨fid, pid⟩ = none := hmiss
  rw [FetchPage_miss b fid pid hfind] at h
  have main : ∀ s : BufferPoolManager, b1 = s.UpdateFrame f fid pid →
      s.frames_ = b.frames_ → f < s.frames_.length →
      umap_find s.page_frame_lookup_ ⟨fid, pid⟩ = none →
      ((s.frame f).is_dirty_ = true → (s.frame f).ident ≠ ⟨fid, pid⟩) →
      s.disk_manager_.blocks ⟨fid, pid⟩ = b.disk_manager_.blocks ⟨fid, pid⟩ →
      (b.frame f).ident ≠ ⟨fid, pid⟩ ∨ (b.frame f).ident = INVALID_FID_PID →
      (b1.frame f).page_.data_ = b.disk_manager_.blocks ⟨fid, pid⟩ ∧
      (b1.frame f).page_.fid_ = fid ∧ (b1.frame f).page_.pid_ = pid ∧
      (b1.frame f).GetPinCount = 1 ∧ (b1.frame f).IsDirty = false ∧
      b1.GetFrame fid pid = some f ∧
      (∀ key, umap_find b.page_frame_lookup_ key = some f →
        umap_find b1.page_frame_lookup_ key = none) ∧
      ((b.frame f).ident ≠ INVALID_FID_PID →
        b1.GetFrame (b.frame f).page_.fid_ (b.frame f).page_.pid_ = none) := by
    intro s hb1 hfr hlen hs hd hblk hprev
    have hsf : s.frame f = b.frame f := by simp [BufferPoolManager.frame, hfr]
    obtain ⟨e1, e2, e3, e4, e5, e6⟩ := UpdateFrame_effect s f fid pid hlen hs hd
    rw [← hb1] at e1 e2 e3 e4 e5 e6
    rw [hsf] at e6
    have hid := congrArg fid_pid_t.fid e2
    have hid2 := congrArg fid_pid_t.pid e2
    refine ⟨e1.trans hblk, hid, hid2, e3, e4, e5, ?_, ?_⟩
    · intro key hkey
      have hmem := umap_find_mem _ _ _ hkey
      have hk : (b.frame f).ident = key := (hwf.1 _ hmem).2
      have hne : key ≠ ⟨fid, pid⟩ := by
        intro hk'
        rw [hk', hfind] at hkey
        cases hkey
      rw [← hk] at hne ⊢
      exact e6 hne
    · intro hinv
      rcases hprev with hp | hp
      · exact e6 hp
      · exact absurd hp hinv
  rcases GetAvailableFrame_cases b with ⟨g, rest, hfl, hg⟩ | ⟨hfl, v, r, entry, hmem, hev, _, hg⟩ |
      ⟨_, e, r, hg⟩
  · rw [hg] at h
    simp only [Prod.mk.injEq, Except.ok.injEq] at h
    obtain ⟨h1, h2⟩ := h
    subst h1
    have hwf' : poolWF b.frames_ (g :: rest) b.page_frame_lookup_ := hfl ▸ hwf
    obtain ⟨k1, k2, k3, _⟩ := hwf'.2.1 g (List.mem_cons_self _ _)
    refine main _ h2.symm rfl k1 hfind ?_ rfl (Or.inr k2)
    intro hd
    have hd' : (b.frames_.getD g default).is_dirty_ = true := hd
    rw [k3] at hd'
    cases hd'
  · rw [hg] at h
    simp only [Prod.mk.injEq, Except.ok.injEq] at h
    obtain ⟨h1, h2⟩ := h
    subst h1
    have hident : (b.frame v).ident = entry.1 := hev ▸ (hwf.1 entry hmem).2
    have hne : entry.1 ≠ ⟨fid, pid⟩ := by
      intro hk
      exact (umap_find_eq_none _ _).1 hfind entry hmem hk
    refine main _ h2.symm rfl (hev ▸ (hwf.1 entry hmem).1) ?_ ?_ ?_ (Or.inl (hident ▸ hne))
    · simp only
      rw [umap_find_eq_none] at hfind ⊢
      intro e he
      exact hfind e ((mem_umap_erase _ _ _).1 he).1
    · intro _
      exact hident ▸ hne
    · simp only
      cases hd : (b.frame v).IsDirty
      · simp
      · simp only [if_true, WritePage_blocks]
        rw [if_neg (fun h' => hne h'.symm)]
  · rw [hg] at h
    simp at h

/-- The pool `roundTripPool` is reachable from construction. -/
theorem roundTripPool_reachable : Reachable roundTripPool :=
  reachable_runOps
    [.FetchPage 0 0, .writePageData 0 [7], .UnpinPage 0 0 true, .FetchPage 0 1,
      .UnpinPage 0 1 false] _ (Reachable.init blankDisk .LRUReplacer 1 1 2)

/-- An instance of C4: the fetch of page (0,0) in `roundTripPool` reuses the frame of
page (0,1). -/
theorem FetchPage_miss_loads_page_witness :
    ((roundTripPool.FetchPage 0 0).2.frame 0).page_.data_ =
        roundTripPool.disk_manager_.blocks ⟨0, 0⟩ ∧
    ((roundTripPool.FetchPage 0 0).2.frame 0).page_.fid_ = 0 ∧
    ((roundTripPool.FetchPage 0 0).2.frame 0).page_.pid_ = 0 ∧
    ((roundTripPool.FetchPage 0 0).2.frame 0).GetPinCount = 1 ∧
    ((roundTripPool.FetchPage 0 0).2.frame 0).IsDirty = false ∧
    (roundTripPool.FetchPage 0 0).2.GetFrame 0 0 = some 0 ∧
    (∀ key, umap_find roundTripPool.page_frame_lookup_ key = some 0 →
      umap_find (roundTripPool.FetchPage 0 0).2.page_frame_lookup_ key = none) ∧
    ((roundTripPool.frame 0).ident ≠ INVALID_FID_PID →
      (roundTripPool.FetchPage 0 0).2.GetFrame (roundTripPool.frame 0).page_.fid_
        (roundTripPool.frame 0).page_.pid_ = none) :=
  FetchPage_miss_loads_page roundTripPool roundTripPool_reachable 0 0 (by decide) 0
    (roundTripPool.FetchPage 0 0).2 (Prod.ext (by decide) rfl)

/-- C5: in a reachable pool state, FetchPage(fid, pid) on a page resident in frame f
returns frame f; it leaves the disk blocks and the record of disk accesses unchanged (no
read, no write), raises the pin count of f by exactly one, and leaves the lookup map, the
free list, the dirty flag and the page (identity and bytes) of f, and every other frame
unchanged. -/
theorem FetchPage_hit_effect (b : BufferPoolManager) (hr : Reachable b) (fid : file_id_t)
    (pid : page_id_t) (f : frame_id_t) (hres : b.GetFrame fid pid = some f) :
    (b.FetchPage fid pid).1 = .ok f ∧
    (b.FetchPage fid pid).2.disk_manager_ = b.disk_manager_ ∧
    ((b.FetchPage fid pid).2.frame f).GetPinCount = (b.frame f).GetPinCount + 1 ∧
    (b.FetchPage fid pid).2.page_frame_lookup_ = b.page_frame_lookup_ ∧
    (b.FetchPage fid pid).2.free_list_ = b.free_list_ ∧
    ((b.FetchPage fid pid).2.frame f).IsDirty = (b.frame f).IsDirty ∧
    ((b.FetchPage fid pid).2.frame f).page_ = (b.frame f).page_ ∧
    (∀ g, g ≠ f → (b.FetchPage fid pid).2.frame g = b.frame g) ∧
    (b.FetchPage fid pid).2.frames_.length = b.frames_.length := by
  have hfind : umap_find b.page_frame_lookup_ ⟨fid, pid⟩ = some f := hres
  have hlen := (hr.WF.1 _ (umap_find_mem _ _ _ hfind)).1
  rw [FetchPage_hit b fid pid f hfind]
  have hfr : (b.frames_.set f (b.frame f).Pin).getD f default = (b.frame f).Pin :=
    getD_set_self _ _ _ hlen
  refine ⟨rfl, rfl, ?_, rfl, rfl, ?_, ?_, ?_, by simp⟩
  · simp only [BufferPoolManager.frame] at hfr ⊢; rw [hfr]; rfl
  · simp only [BufferPoolManager.frame] at hfr ⊢; rw [hfr]; rfl
  · simp only [BufferPoolManager.frame] at hfr ⊢; rw [hfr]; rfl
  · intro g hg
    exact getD_set_ne _ _ _ _ (fun h' => hg h'.symm)

/-- An instance of C5: the fetch of the resident page (0,1) in `pinnedVictimPool`. -/
theorem FetchPage_hit_effect_witness :
    ((pinnedVictimPool .LRUKReplacer).FetchPage 0 1).1 = .ok 1 ∧
    ((pinnedVictimPool .LRUKReplacer).FetchPage 0 1).2.disk_manager_ =
      (pinnedVictimPool .LRUKReplacer).disk_manager_ ∧
    (((pinnedVictimPool .LRUKReplacer).FetchPage 0 1).2.frame 1).GetPinCount =
      ((pinnedVictimPool .LRUKReplacer).frame 1).GetPinCount + 1 ∧
    ((pinnedVictimPool .LRUKReplacer).FetchPage 0 1).2.page_frame_lookup_ =
      (pinnedVictimPool .LRUKReplacer).page_frame_lookup_ ∧
    ((pinnedVictimPool .LRUKReplacer).FetchPage 0 1).2.free_list_ =
      (pinnedVictimPool .LRUKReplacer).free_list_ ∧
    (((pinnedVictimPool .LRUKReplacer).FetchPage 0 1).2.frame 1).IsDirty =
      ((pinnedVictimPool .LRUKReplacer).frame 1).IsDirty ∧
    (((pinnedVictimPool .LRUKReplacer).FetchPage 0 1).2.frame 1).page_ =
      ((pinnedVictimPool .LRUKReplacer).frame 1).page_ ∧
    (∀ g, g ≠ 1 → ((pinnedVictimPool .LRUKReplacer).FetchPage 0 1).2.frame g =
      (pinnedVictimPool .LRUKReplacer).frame g) ∧
    ((pinnedVictimPool .LRUKReplacer).FetchPage 0 1).2.frames_.length =
      (pinnedVictimPool .LRUKReplacer).frames_.length :=
  FetchPage_hit_effect (pinnedVictimPool .LRUKReplacer)
    (reachable_runOps _ _ (Reachable.init _ _ _ _ _)) 0 1 1 (by decide)

/-- C6: UnpinPage(fid, pid, is_dirty) returns false exactly when (fid, pid) is not in the
lookup map or the pin count of its frame is 0, and then the whole state (frames, lookup
map, free list, replacer, disk) is unchanged. -/
theorem UnpinPage_false_iff (b : BufferPoolManager) (fid : file_id_t) (pid : page_id_t)
    (is_dirty : Bool) :
    ((b.UnpinPage fid pid is_dirty).1 = false ↔
      (b.GetFrame fid pid = none ∨
        ∃ f, b.GetFrame fid pid = some f ∧ (b.frame f).GetPinCount = 0)) ∧
    ((b.UnpinPage fid pid is_dirty).1 = false → (b.UnpinPage fid pid is_dirty).2 = b) := by
  rcases UnpinPage_cases b fid pid is_dirty with ⟨hc, h1⟩ | ⟨f, hfind, hpin, h1⟩
  · rw [h1]
    exact ⟨⟨fun _ => hc, fun _ => rfl⟩, fun _ => rfl⟩
  · rw [h1]
    refine ⟨⟨fun h => (by cases h), ?_⟩, fun h => (by cases h)⟩
    intro hc
    exfalso
    rcases hc with hnone | ⟨f', hf', h0⟩
    · have : umap_find b.page_frame_lookup_ ⟨fid, pid⟩ = none := hnone
      rw [hfind] at this; cases this
    · have : umap_find b.page_frame_lookup_ ⟨fid, pid⟩ = some f' := hf'
      rw [hfind] at this
      cases this
      have h0' : (b.frame f).pin_count_ = 0 := h0
      omega

/-- C7: in a reachable pool state, when UnpinPage(fid, pid, is_dirty) returns true, the
page is resident in a frame f whose pin count afterwards is exactly one less than before
and whose dirty flag is (old dirty flag OR is_dirty); if is_dirty is true the disk block of
(fid, pid) equals the bytes of the page of f after the call; the page of f, the lookup
map, the free list and all other frames are unchanged. -/
theorem UnpinPage_true_effect (b : BufferPoolManager) (hr : Reachable b) (fid : file_id_t)
    (pid : page_id_t) (is_dirty : Bool) (b1 : BufferPoolManager)
    (h : b.UnpinPage fid pid is_dirty = (true, b1)) :
    ∃ f, b.GetFrame fid pid = some f ∧
      (b1.frame f).GetPinCount + 1 = (b.frame f).GetPinCount ∧
      (b1.frame f).IsDirty = ((b.frame f).IsDirty || is_dirty) ∧
      (is_dirty = true → b1.disk_manager_.blocks ⟨fid, pid⟩ = (b1.frame f).page_.data_) ∧
      (b1.frame f).page_ = (b.frame f).page_ ∧
      b1.page_frame_lookup_ = b.page_frame_lookup_ ∧
      b1.free_list_ = b.free_list_ ∧
      (∀ g, g ≠ f → b1.frame g = b.frame g) ∧
      b1.frames_.length = b.frames_.length := by
  rcases UnpinPage_cases b fid pid is_dirty with ⟨_, h1⟩ | ⟨f, hfind, hpin, h1⟩
  · rw [h1] at h; cases h
  · rw [h1] at h
    simp only [Prod.mk.injEq, true_and] at h
    subst h
    have hlen := (hr.WF.1 _ (umap_find_mem _ _ _ hfind)).1
    have hfr := getD_set_self b.frames_ f
      { (b.frame f) with pin_count_ := (b.frame f).pin_count_ - 1,
                         is_dirty_ := (b.frame f).is_dirty_ || is_dirty } hlen
    refine ⟨f, hfind, ?_, ?_, ?_, ?_, rfl, rfl, ?_, by simp⟩
    · simp only [BufferPoolManager.frame] at hfr ⊢
      rw [hfr]
      simp only [Frame.GetPinCount]
      have : 0 < (b.frames_.getD f default).pin_count_ := hpin
      omega
    · simp only [BufferPoolManager.frame] at hfr ⊢; rw [hfr]; rfl
    · intro hd
      subst hd
      simp only [BufferPoolManager.frame] at hfr ⊢
      rw [hfr]
      simp [WritePage_blocks]
    · simp only [BufferPoolManager.frame] at hfr ⊢; rw [hfr]
    · intro g hg
      exact getD_set_ne _ _ _ _ (fun h' => hg h'.symm)

/-- An instance of C7: unpinning page (0,1) dirty in `pinnedVictimPool`. -/
theorem UnpinPage_true_effect_witness :
    ∃ f, (pinnedVictimPool .LRUReplacer).GetFrame 0 1 = some f ∧
      ((((pinnedVictimPool .LRUReplacer).UnpinPage 0 1 true).2).frame f).GetPinCount + 1 =
        ((pinnedVictimPool .LRUReplacer).frame f).GetPinCount ∧
      ((((pinnedVictimPool .LRUReplacer).UnpinPage 0 1 true).2).frame f).IsDirty =
        (((pinnedVictimPool .LRUReplacer).frame f).IsDirty || true) ∧
      (true = true →
        (((pinnedVictimPool .LRUReplacer).UnpinPage 0 1 true).2).disk_manager_.blocks ⟨0, 1⟩ =
          ((((pinnedVictimPool .LRUReplacer).UnpinPage 0 1 true).2).frame f).page_.data_) ∧
      ((((pinnedVictimPool .LRUReplacer).UnpinPage 0 1 true).2).frame f).page_ =
        ((pinnedVictimPool .LRUReplacer).frame f).page_ ∧
      (((pinnedVictimPool .LRUReplacer).UnpinPage 0 1 true).2).page_frame_lookup_ =
        (pinnedVictimPool .LRUReplacer).page_frame_lookup_ ∧
      (((pinnedVictimPool .LRUReplacer).UnpinPage 0 1 true).2).free_list_ =
        (pinnedVictimPool .LRUReplacer).free_list_ ∧
      (∀ g, g ≠ f → (((pinnedVictimPool .LRUReplacer).UnpinPage 0 1 true).2).frame g =
        (pinnedVictimPool .LRUReplacer).frame g) ∧
      (((pinnedVictimPool .LRUReplacer).UnpinPage 0 1 true).2).frames_.length =
        (pinnedVictimPool .LRUReplacer).frames_.length :=
  UnpinPage_true_effect (pinnedVictimPool .LRUReplacer)
    (reachable_runOps _ _ (Reachable.init _ _ _ _ _)) 0 1 true
    ((pinnedVictimPool .LRUReplacer).UnpinPage 0 1 true).2 (Prod.ext (by decide) rfl)

/-- C8: DeletePage(fid, pid) on a resident page whose pin count is > 0 returns false and
leaves the whole state (lookup map, free list, frames, replacer, disk) unchanged. -/
theorem DeletePage_pinned (b : BufferPoolManager) (fid : file_id_t) (pid : page_id_t)
    (f : frame_id_t) (hres : b.GetFrame fid pid = some f)
    (hpin : 0 < (b.frame f).GetPinCount) :
    b.DeletePage fid pid = (false, b) := by
  have hfind : umap_find b.page_frame_lookup_ ⟨fid, pid⟩ = some f := hres
  simp [BufferPoolManager.DeletePage, hfind, hpin]

/-- An instance of C8: page (0,0) of `pinnedVictimPool` is pinned. -/
theorem DeletePage_pinned_witness :
    (pinnedVictimPool .LRUReplacer).DeletePage 0 0 = (false, pinnedVictimPool .LRUReplacer) :=
  DeletePage_pinned (pinnedVictimPool .LRUReplacer) 0 0 0 (by decide) (by decide)

/-- C9: in a reachable pool state, DeletePage(fid, pid) on a page resident in frame f with
pin count 0 returns true; afterwards (fid, pid) is not in the lookup map, f is on the free
list with pin count 0 and a clear dirty flag, the disk block of (fid, pid) equals the bytes
the frame held before the call if the frame was dirty, and the lookup map is unchanged at
every other page. -/
theorem DeletePage_unpinned_effect (b : BufferPoolManager) (hr : Reachable b)
    (fid : file_id_t) (pid : page_id_t) (f : frame_id_t)
    (hres : b.GetFrame fid pid = some f) (hpin : (b.frame f).GetPinCount = 0) :
    (b.DeletePage fid pid).1 = true ∧
    (b.DeletePage fid pid).2.GetFrame fid pid = none ∧
    f ∈ (b.DeletePage fid pid).2.free_list_ ∧
    ((b.DeletePage fid pid).2.frame f).GetPinCount = 0 ∧
    ((b.DeletePage fid pid).2.frame f).IsDirty = false ∧
    ((b.frame f).IsDirty = true →
      (b.DeletePage fid pid).2.disk_manager_.blocks ⟨fid, pid⟩ = (b.frame f).page_.data_) ∧
    (∀ key, key ≠ ⟨fid, pid⟩ →
      umap_find (b.DeletePage fid pid).2.page_frame_lookup_ key =
        umap_find b.page_frame_lookup_ key) := by
  have hfind : umap_find b.page_frame_lookup_ ⟨fid, pid⟩ = some f := hres
  have hlen := (hr.WF.1 _ (umap_find_mem _ _ _ hfind)).1
  have hpin' : ¬ 0 < (b.frame f).GetPinCount := by omega
  have hdel : b.DeletePage fid pid =
      (true,
        { disk_manager_ :=
            if (b.frame f).IsDirty then
              b.disk_manager_.WritePage fid pid (b.frame f).page_.data_
            else b.disk_manager_,
          replacer_ := b.replacer_.Unpin f,
          frames_ := b.frames_.set f (b.frame f).Reset,
          free_list_ := b.free_list_ ++ [f],
          page_frame_lookup_ := umap_erase b.page_frame_lookup_ ⟨fid, pid⟩ }) := by
    simp [BufferPoolManager.DeletePage, hfind, hpin']
  rw [hdel]
  have hfr : (b.frames_.set f (b.frame f).Reset).getD f default = (b.frame f).Reset :=
    getD_set_self _ _ _ hlen
  refine ⟨rfl, umap_find_erase_self _ _, by simp, ?_, ?_, ?_, ?_⟩
  · simp only [BufferPoolManager.frame] at hfr ⊢; rw [hfr]; rfl
  · simp only [BufferPoolManager.frame] at hfr ⊢; rw [hfr]; rfl
  · intro hd
    simp [hd, WritePage_blocks]
  · intro key hkey
    exact umap_find_erase_ne _ _ _ hkey

/-- An instance of C9: page (0,1) of `roundTripPool` is resident and unpinned. -/
theorem DeletePage_unpinned_effect_witness :
    (roundTripPool.DeletePage 0 1).1 = true ∧
    (roundTripPool.DeletePage 0 1).2.GetFrame 0 1 = none ∧
    0 ∈ (roundTripPool.DeletePage 0 1).2.free_list_ ∧
    ((roundTripPool.DeletePage 0 1).2.frame 0).GetPinCount = 0 ∧
    ((roundTripPool.DeletePage 0 1).2.frame 0).IsDirty = false ∧
    ((roundTripPool.frame 0).IsDirty = true →
      (roundTripPool.DeletePage 0 1).2.disk_manager_.blocks ⟨0, 1⟩ =
        (roundTripPool.frame 0).page_.data_) ∧
    (∀ key, key ≠ ⟨0, 1⟩ →
      umap_find (roundTripPool.DeletePage 0 1).2.page_frame_lookup_ key =
        umap_find roundTripPool.page_frame_lookup_ key) :=
  DeletePage_unpinned_effect roundTripPool roundTripPool_reachable 0 1 0 (by decide)
    (by decide)

/-- Two entries of a map with the same key are the same entry. -/
theorem umap_entry_eq {κ ν : Type} [DecidableEq κ] (m : List (κ × ν))
    (hnd : (m.map Prod.fst).Nodup) (e1 e2 : κ × ν) (h1 : e1 ∈ m) (h2 : e2 ∈ m)
    (hk : e1.1 = e2.1) : e1 = e2 := by
  have a1 := umap_find_of_mem m e1.1 e1.2 hnd h1
  have a2 := umap_find_of_mem m e2.1 e2.2 hnd h2
  rw [hk, a2] at a1
  cases e1; cases e2
  simp only at hk a1
  simp only [Option.some.injEq] at a1
  simp [hk, a1]

/-- The effect of one iteration of the loop of `DeleteAllPages` on an entry of the
current lookup map. -/
theorem DeleteAllPages_body_step (fid : file_id_t) (acc : Bool × BufferPoolManager)
    (e0 : fid_pid_t × frame_id_t) (hwf : acc.2.WF) (hmem : e0 ∈ acc.2.page_frame_lookup_) :
    ((BufferPoolManager.DeleteAllPages_body fid acc e0).1 = false ↔
      acc.1 = false ∨ (e0.1.fid = fid ∧ 0 < (acc.2.frame e0.2).pin_count_)) ∧
    (∀ e ∈ acc.2.page_frame_lookup_, e.1 ≠ e0.1 →
      e ∈ (BufferPoolManager.DeleteAllPages_body fid acc e0).2.page_frame_lookup_ ∧
      (BufferPoolManager.DeleteAllPages_body fid acc e0).2.frame e.2 = acc.2.frame e.2) ∧
    ((e0.1.fid ≠ fid ∨ 0 < (acc.2.frame e0.2).pin_count_) →
      (BufferPoolManager.DeleteAllPages_body fid acc e0).2 = acc.2) ∧
    ((e0.1.fid = fid ∧ (acc.2.frame e0.2).pin_count_ = 0) →
      umap_find (BufferPoolManager.DeleteAllPages_body fid acc e0).2.page_frame_lookup_ e0.1
        = none ∧
      e0.2 ∈ (BufferPoolManager.DeleteAllPages_body fid acc e0).2.free_list_) ∧
    (∀ g ∈ acc.2.free_list_,
      g ∈ (BufferPoolManager.DeleteAllPages_body fid acc e0).2.free_list_) ∧
    (∀ k, umap_find acc.2.page_frame_lookup_ k = none →
      umap_find (BufferPoolManager.DeleteAllPages_body fid acc e0).2.page_frame_lookup_ k
        = none) := by
  rcases DeleteAllPages_body_cases fid acc e0 with (⟨hf, h1⟩ | ⟨hf, hp, h1⟩) | ⟨hf, hp, h1⟩
  · rw [h1]
    refine ⟨?_, fun e he _ => ⟨he, rfl⟩, fun _ => rfl, ?_, fun g hg => hg, fun k hk => hk⟩
    · constructor
      · intro h; exact Or.inl h
      · rintro (h | ⟨h, _⟩)
        · exact h
        · exact absurd h hf
    · rintro ⟨h, _⟩; exact absurd h hf
  · rw [h1]
    refine ⟨?_, fun e he _ => ⟨he, rfl⟩, fun _ => rfl, ?_, fun g hg => hg, fun k hk => hk⟩
    · exact ⟨fun _ => Or.inr ⟨hf, hp⟩, fun _ => rfl⟩
    · rintro ⟨_, h0⟩; omega
  · rw [h1]
    refine ⟨?_, ?_, ?_, ?_, ?_, ?_⟩
    · constructor
      · intro h; exact Or.inl h
      · rintro (h | ⟨_, h⟩)
        · exact h
        · omega
    · intro e he hne
      refine ⟨(mem_umap_erase _ _ _).2 ⟨he, hne⟩, ?_⟩
      have hfne : e0.2 ≠ e.2 := by
        intro hfe
        exact hne (poolWF_frame_inj _ _ _ hwf e e0 he hmem hfe.symm)
      exact getD_set_ne _ _ _ _ hfne
    · rintro (h | h)
      · exact absurd hf h
      · omega
    · intro _
      exact ⟨umap_find_erase_self _ _, by simp⟩
    · intro g hg
      exact List.mem_append_left _ hg
    · intro k hk
      rw [umap_find_eq_none] at hk ⊢
      intro e he
      exact hk e ((mem_umap_erase _ _ _).1 he).1

/-- The loop of `DeleteAllPages` over the entries still to visit. -/
theorem DeleteAllPages_loop (fid : file_id_t) (entries : List (fid_pid_t × frame_id_t)) :
    ∀ acc : Bool × BufferPoolManager, acc.2.WF →
      (∀ e ∈ entries, e ∈ acc.2.page_frame_lookup_) → (entries.map Prod.fst).Nodup →
      ((entries.foldl (BufferPoolManager.DeleteAllPages_body fid) acc).1 = false ↔
        acc.1 = false ∨
          ∃ e ∈ entries, e.1.fid = fid ∧ 0 < (acc.2.frame e.2).pin_count_) ∧
      (∀ e ∈ entries, e.1.fid = fid → (acc.2.frame e.2).pin_count_ = 0 →
        umap_find (entries.foldl (BufferPoolManager.DeleteAllPages_body fid)
          acc).2.page_frame_lookup_ e.1 = none ∧
        e.2 ∈ (entries.foldl (BufferPoolManager.DeleteAllPages_body fid) acc).2.free_list_) ∧
      (∀ e ∈ acc.2.page_frame_lookup_,
        (e ∉ entries ∨ e.1.fid ≠ fid ∨ 0 < (acc.2.frame e.2).pin_count_) →
        e ∈ (entries.foldl (BufferPoolManager.DeleteAllPages_body fid)
          acc).2.page_frame_lookup_ ∧
        (entries.foldl (BufferPoolManager.DeleteAllPages_body fid) acc).2.frame e.2 =
          acc.2.frame e.2) ∧
      (∀ g ∈ acc.2.free_list_,
        g ∈ (entries.foldl (BufferPoolManager.DeleteAllPages_body fid) acc).2.free_list_) ∧
      (∀ k, umap_find acc.2.page_frame_lookup_ k = none →
        umap_find (entries.foldl (BufferPoolManager.DeleteAllPages_body fid)
          acc).2.page_frame_lookup_ k = none) := by
  induction entries with
  | nil =>
    intro acc _ _ _
    simp only [List.foldl_nil]
    exact ⟨⟨fun h => Or.inl h, fun h => h.elim id (fun ⟨e, he, _⟩ => by simp at he)⟩,
      fun e he => by simp at he, fun e he _ => ⟨he, trivial⟩, fun g hg => hg, fun k hk => hk⟩
  | cons e0 rest ih =>
    intro acc hwf hsub hnd
    simp only [List.foldl_cons]
    simp only [List.map_cons, List.nodup_cons] at hnd
    have he0 := hsub e0 (List.mem_cons_self _ _)
    obtain ⟨s1, s2, s3, s4, s5, s6⟩ := DeleteAllPages_body_step fid acc e0 hwf he0
    have hkey : ∀ e ∈ rest, e.1 ≠ e0.1 := by
      intro e he heq
      exact hnd.1 (heq ▸ List.mem_map.2 ⟨e, he, rfl⟩)
    have hsub' : ∀ e ∈ rest,
        e ∈ (BufferPoolManager.DeleteAllPages_body fid acc e0).2.page_frame_lookup_ :=
      fun e he => (s2 e (hsub e (List.mem_cons_of_mem _ he)) (hkey e he)).1
    have hfr : ∀ e ∈ rest,
        (BufferPoolManager.DeleteAllPages_body fid acc e0).2.frame e.2 = acc.2.frame e.2 :=
      fun e he => (s2 e (hsub e (List.mem_cons_of_mem _ he)) (hkey e he)).2
    obtain ⟨i1, i2, i3, i4, i5⟩ := ih (BufferPoolManager.DeleteAllPages_body fid acc e0)
      (WF_DeleteAllPages_body fid acc e0 hwf he0) hsub' hnd.2
    refine ⟨?_, ?_, ?_, fun g hg => i4 g (s5 g hg), fun k hk => i5 k (s6 k hk)⟩
    · rw [i1, s1]
      constructor
      · rintro ((h | h) | ⟨e, he, hf, hp⟩)
        · exact Or.inl h
        · exact Or.inr ⟨e0, List.mem_cons_self _ _, h⟩
        · exact Or.inr ⟨e, List.mem_cons_of_mem _ he, hf, by rw [← hfr e he]; exact hp⟩
      · rintro (h | ⟨e, he, hf, hp⟩)
        · exact Or.inl (Or.inl h)
        · rcases List.mem_cons.1 he with rfl | he
          · exact Or.inl (Or.inr ⟨hf, hp⟩)
          · exact Or.inr ⟨e, he, hf, by rw [hfr e he]; exact hp⟩
    · intro e he hf hp
      rcases List.mem_cons.1 he with rfl | he
      · obtain ⟨a1, a2⟩ := s4 ⟨hf, hp⟩
        exact ⟨i5 _ a1, i4 _ a2⟩
      · exact i2 e he hf (by rw [hfr e he]; exact hp)
    · intro e he hc
      by_cases hee : e.1 = e0.1
      · have heq : e = e0 := umap_entry_eq _ hwf.2.2.2 e e0 he he0 hee
        subst heq
        have hskip : e.1.fid ≠ fid ∨ 0 < (acc.2.frame e.2).pin_count_ := by
          rcases hc with h | h
          · exact absurd (List.mem_cons_self _ _) h
          · exact h
        have hsame := s3 hskip
        have hnr : e ∉ rest := by
          intro hr
          exact hnd.1 (List.mem_map.2 ⟨e, hr, rfl⟩)
        have := i3 e (by rw [hsame]; exact he) (Or.inl hnr)
        rw [hsame] at this
        exact this
      · obtain ⟨a1, a2⟩ := s2 e he hee
        have hc' : e ∉ rest ∨ e.1.fid ≠ fid ∨
            0 < ((BufferPoolManager.DeleteAllPages_body fid acc e0).2.frame e.2).pin_count_ := by
          rcases hc with h | h | h
          · exact Or.inl (fun hr => h (List.mem_cons_of_mem _ hr))
          · exact Or.inr (Or.inl h)
          · exact Or.inr (Or.inr (by rw [a2]; exact h))
        obtain ⟨b1, b2⟩ := i3 e a1 hc'
        exact ⟨b1, b2.trans a2⟩

/-- C10: in a reachable pool state, DeleteAllPages(fid) returns false exactly when some
resident page of file fid has pin count > 0; in every case each resident page of fid with
pin count 0 is removed from the lookup map and its frame is on the free list afterwards,
each pinned page of fid stays in the lookup map with its frame unchanged, and each
resident page of another file stays in the lookup map with its frame unchanged. -/
theorem DeleteAllPages_effect (b : BufferPoolManager) (hr : Reachable b) (fid : file_id_t) :
    ((b.DeleteAllPages fid).1 = false ↔
      ∃ e ∈ b.page_frame_lookup_, e.1.fid = fid ∧ 0 < (b.frame e.2).GetPinCount) ∧
    (∀ e ∈ b.page_frame_lookup_, e.1.fid = fid → (b.frame e.2).GetPinCount = 0 →
      umap_find (b.DeleteAllPages fid).2.page_frame_lookup_ e.1 = none ∧
      e.2 ∈ (b.DeleteAllPages fid).2.free_list_) ∧
    (∀ e ∈ b.page_frame_lookup_, e.1.fid = fid → 0 < (b.frame e.2).GetPinCount →
      umap_find (b.DeleteAllPages fid).2.page_frame_lookup_ e.1 = some e.2 ∧
      (b.DeleteAllPages fid).2.frame e.2 = b.frame e.2) ∧
    (∀ e ∈ b.page_frame_lookup_, e.1.fid ≠ fid →
      umap_find (b.DeleteAllPages fid).2.page_frame_lookup_ e.1 = some e.2 ∧
      (b.DeleteAllPages fid).2.frame e.2 = b.frame e.2) := by
  have hwf := hr.WF
  have hwf' := WF_DeleteAllPages b fid hwf
  obtain ⟨l1, l2, l3, _, _⟩ := DeleteAllPages_loop fid b.page_frame_lookup_ (true, b) hwf
    (fun _ he => he) hwf.2.2.2
  refine ⟨?_, ?_, ?_, ?_⟩
  · show (b.page_frame_lookup_.foldl (BufferPoolManager.DeleteAllPages_body fid) (true, b)).1
      = false ↔ _
    rw [l1]
    simp [Frame.GetPinCount]
  · intro e he hf hp
    exact l2 e he hf hp
  · intro e he _ hp
    obtain ⟨a1, a2⟩ := l3 e he (Or.inr (Or.inr hp))
    exact ⟨umap_find_of_mem _ _ _ hwf'.2.2.2 a1, a2⟩
  · intro e he hf
    obtain ⟨a1, a2⟩ := l3 e he (Or.inr (Or.inl hf))
    exact ⟨umap_find_of_mem _ _ _ hwf'.2.2.2 a1, a2⟩

/-- An instance of C10: in `mixedPool` file 0 has a pinned and an unpinned page, so the
call returns false, deletes page (0,1) and keeps pages (0,0) and (1,0). -/
theorem DeleteAllPages_effect_witness :
    (mixedPool.DeleteAllPages 0).1 = false ∧
    umap_find (mixedPool.DeleteAllPages 0).2.page_frame_lookup_ ⟨0, 1⟩ = none ∧
    1 ∈ (mixedPool.DeleteAllPages 0).2.free_list_ ∧
    umap_find (mixedPool.DeleteAllPages 0).2.page_frame_lookup_ ⟨0, 0⟩ = some 0 ∧
    (mixedPool.DeleteAllPages 0).2.frame 0 = mixedPool.frame 0 ∧
    umap_find (mixedPool.DeleteAllPages 0).2.page_frame_lookup_ ⟨1, 0⟩ = some 2 ∧
    (mixedPool.DeleteAllPages 0).2.frame 2 = mixedPool.frame 2 :=
  have h := DeleteAllPages_effect mixedPool
    (reachable_runOps _ _ (Reachable.init _ _ _ _ _)) 0
  ⟨h.1.2 ⟨(⟨0, 0⟩, 0), by decide, by decide, by decide⟩,
    (h.2.1 (⟨0, 1⟩, 1) (by decide) (by decide) (by decide)).1,
    (h.2.1 (⟨0, 1⟩, 1) (by decide) (by decide) (by decide)).2,
    (h.2.2.1 (⟨0, 0⟩, 0) (by decide) (by decide) (by decide)).1,
    (h.2.2.1 (⟨0, 0⟩, 0) (by decide) (by decide) (by decide)).2,
    (h.2.2.2 (⟨1, 0⟩, 2) (by decide) (by decide)).1,
    (h.2.2.2 (⟨1, 0⟩, 2) (by decide) (by decide)).2⟩

/-- C11 (as stated, fails on the code): on a newly constructed pool page (0,0) is not
resident, and FlushPage(0,0) does not return true. -/
theorem FlushPage_not_resident_counterexample :
    (BufferPoolManager.new blankDisk .LRUReplacer 2 1 2).GetFrame 0 0 = none ∧
    ((BufferPoolManager.new blankDisk .LRUReplacer 2 1 2).FlushPage 0 0).1 ≠ true := by
  decide

/-- C11 (amended): FlushPage(fid, pid) on a page that is not resident returns false and
changes neither the pool state nor the disk. -/
theorem FlushPage_not_resident (b : BufferPoolManager) (fid : file_id_t) (pid : page_id_t)
    (h : b.GetFrame fid pid = none) : b.FlushPage fid pid = (false, b) := by
  simp [BufferPoolManager.FlushPage, h]

/-- An instance of C11 (amended): a newly constructed pool. -/
theorem FlushPage_not_resident_witness :
    (BufferPoolManager.new blankDisk .LRUReplacer 2 1 2).FlushPage 0 0 =
      (false, BufferPoolManager.new blankDisk .LRUReplacer 2 1 2) :=
  FlushPage_not_resident _ 0 0 (by decide)

/-- C12 (as stated, fails on the code): after Pin(0), Pin(1), Pin(2), Unpin(1), Unpin(0),
Unpin(2) on a fresh LRU replacer, three successive Victim calls return 0, 1, 2 and not
1, 0, 2. -/
theorem LRU_victim_order_counterexample :
    ((LRUReplacer.new 3).runOps
        [.Pin 0, .Pin 1, .Pin 2, .Unpin 1, .Unpin 0, .Unpin 2]).threeVictims =
      [some 0, some 1, some 2] ∧
    ((LRUReplacer.new 3).runOps
        [.Pin 0, .Pin 1, .Pin 2, .Unpin 1, .Unpin 0, .Unpin 2]).threeVictims ≠
      [some 1, some 0, some 2] := by
  decide

/-- C14 (fails on the code): after Unpin(0), Pin(1), Pin(1) on a fresh LRU replacer,
frame 0 is evictable, so one list entry has its evictable flag set, but Size() is 0 and
Victim returns false. -/
theorem LRU_size_undercounts :
    ((LRUReplacer.new 3).runOps [.Unpin 0, .Pin 1, .Pin 1]).IsEvictable 0 = true ∧
    ((LRUReplacer.new 3).runOps [.Unpin 0, .Pin 1, .Pin 1]).evictableCount = 1 ∧
    ((LRUReplacer.new 3).runOps [.Unpin 0, .Pin 1, .Pin 1]).Size = 0 ∧
    ((LRUReplacer.new 3).runOps [.Unpin 0, .Pin 1, .Pin 1]).Victim.1 = none := by
  decide

/-- C16 (fails on the code): on a fresh LRU-K replacer with K = 2 for 2 frames, after
Pin(0), Unpin(0), Victim, Pin(1), Unpin(1) frame 1 is evictable and Size() is 1, but the
next Victim call raises the "History is empty" error; the same happens with one frame
after Pin(0), Unpin(0), Victim, Unpin(0). -/
theorem LRUK_victim_raises :
    ((LRUKReplacer.new 2 2).runOps
        [.Pin 0, .Unpin 0, .Victim, .Pin 1, .Unpin 1]).IsEvictable 1 = true ∧
    ((LRUKReplacer.new 2 2).runOps [.Pin 0, .Unpin 0, .Victim, .Pin 1, .Unpin 1]).Size = 1 ∧
    ((LRUKReplacer.new 2 2).runOps
        [.Pin 0, .Unpin 0, .Victim, .Pin 1, .Unpin 1]).Victim.1 = .error Exn.runtime_error ∧
    ((LRUKReplacer.new 1 2).runOps [.Pin 0, .Unpin 0, .Victim, .Unpin 0]).IsEvictable 0
      = true ∧
    ((LRUKReplacer.new 1 2).runOps [.Pin 0, .Unpin 0, .Victim, .Unpin 0]).Victim.1 =
      .error Exn.runtime_error := by
  decide

theorem umap_find_append {κ ν : Type} [DecidableEq κ] (m : List (κ × ν)) (key k : κ) (v : ν) :
    umap_find (m ++ [(key, v)]) k =
      match umap_find m k with
      | some x => some x
      | none => if key = k then some v else none := by
  simp only [umap_find]
  rw [List.find?_append]
  cases hf : m.find? (fun e => decide (e.1 = k)) with
  | some e => simp
  | none =>
    by_cases hk : key = k
    · simp [hk]
    · simp [hk]

theorem umap_find_map_assign {κ ν : Type} [DecidableEq κ] (m : List (κ × ν)) (key k : κ)
    (v : ν) :
    umap_find (m.map (fun e => if e.1 = key then (key, v) else e)) k =
      if k = key then (umap_find m key).map (fun _ => v) else umap_find m k := by
  induction m with
  | nil => simp [umap_find]
  | cons a rest ih =>
    simp only [umap_find] at ih ⊢
    by_cases ha : a.1 = key
    · by_cases hk : k = key
      · subst hk; simp [List.find?, ha]
      · have hne : ¬ key = k := fun h => hk h.symm
        have hak : ¬ a.1 = k := by rw [ha]; exact hne
        simp only [List.map_cons, ha, if_true, List.find?, hne, decide_False, hk, if_false,
          hak]
        simpa [hk] using ih
    · by_cases hak : a.1 = k
      · have hk : ¬ k = key := by rw [← hak]; exact ha
        simp [List.find?, ha, hak, hk]
      · by_cases hk : k = key
        · subst hk
          simp only [List.map_cons, ha, if_false, List.find?, decide_False, if_true]
          simpa using ih
        · simp only [List.map_cons, ha, if_false, List.find?, hak, decide_False, hk]
          simpa [hk] using ih

/-- Reading back the key that `m[key] = v` assigned. -/
theorem umap_find_assign_eq {κ ν : Type} [DecidableEq κ] (m : List (κ × ν)) (key : κ)
    (v : ν) : umap_find (umap_assign m key v) key = some v := by
  unfold umap_assign
  cases hf : umap_find m key with
  | none =>
    simp only [Option.isSome_none, Bool.false_eq_true, if_false]
    rw [umap_find_append, hf]; simp
  | some x =>
    simp only [Option.isSome_some, if_true]
    rw [umap_find_map_assign, hf]; simp

/-- Reading another key than the one `m[key] = v` assigned. -/
theorem umap_find_assign_other {κ ν : Type} [DecidableEq κ] (m : List (κ × ν)) (key k : κ)
    (v : ν) (hk : k ≠ key) : umap_find (umap_assign m key v) k = umap_find m k := by
  unfold umap_assign
  cases hf : umap_find m key with
  | none =>
    simp only [Option.isSome_none, Bool.false_eq_true, if_false]
    rw [umap_find_append]
    have : ¬ key = k := fun h => hk h.symm
    cases umap_find m k <;> simp [this]
  | some x =>
    simp only [Option.isSome_some, if_true]
    rw [umap_find_map_assign]; simp [hk]

theorem nodeAt_touch (ns : List (frame_id_t × LRUKNode)) (i j : frame_id_t) :
    nodeAt (umap_touch ns i LRUKNode.dflt) j = nodeAt ns j := by
  unfold nodeAt umap_touch
  cases hf : umap_find ns i with
  | some x => simp
  | none =>
    simp only [Option.isSome_none, Bool.false_eq_true, if_false]
    rw [umap_find_append]
    cases hj : umap_find ns j with
    | some y => simp
    | none => by_cases h : i = j <;> simp [h]

theorem nodeAt_assign_eq (ns : List (frame_id_t × LRUKNode)) (i : frame_id_t)
    (n : LRUKNode) : nodeAt (umap_assign ns i n) i = n := by
  simp [nodeAt, umap_find_assign_eq]

theorem nodeAt_assign_other (ns : List (frame_id_t × LRUKNode)) (i j : frame_id_t)
    (n : LRUKNode) (h : j ≠ i) : nodeAt (umap_assign ns i n) j = nodeAt ns j := by
  simp [nodeAt, umap_find_assign_other _ _ _ _ h]

theorem umap_touch_keys_nodup {κ ν : Type} [DecidableEq κ] (m : List (κ × ν)) (key : κ)
    (d : ν) (h : (m.map Prod.fst).Nodup) : ((umap_touch m key d).map Prod.fst).Nodup := by
  unfold umap_touch
  cases hf : umap_find m key with
  | some x => simpa using h
  | none =>
    simp only [Option.isSome_none, Bool.false_eq_true, if_false]
    have := umap_assign_keys_nodup m key d hf h
    simpa [umap_assign, hf] using this

theorem umap_assign_keys_nodup_gen {κ ν : Type} [DecidableEq κ] (m : List (κ × ν)) (key : κ)
    (v : ν) (h : (m.map Prod.fst).Nodup) : ((umap_assign m key v).map Prod.fst).Nodup := by
  cases hf : umap_find m key with
  | none => exact umap_assign_keys_nodup m key v hf h
  | some x =>
    unfold umap_assign
    simp only [hf, Option.isSome_some, if_true, List.map_map]
    have : (Prod.fst ∘ fun e : κ × ν => if e.1 = key then (key, v) else e) = Prod.fst := by
      funext e
      by_cases he : e.1 = key <;> simp [he]
    rw [this]; exact h

/-- The number of evictable nodes of a node store. -/
theorem evictable_count_append (ns : List (frame_id_t × LRUKNode)) (i : frame_id_t)
    (n : LRUKNode) :
    ((ns ++ [(i, n)]).filter (fun e => e.2.is_evictable_)).length =
      (ns.filter (fun e => e.2.is_evictable_)).length + (if n.is_evictable_ then 1 else 0) := by
  rw [List.filter_append, List.length_append]
  cases h : n.is_evictable_ <;> simp [List.filter, h]

theorem evictable_count_touch (ns : List (frame_id_t × LRUKNode)) (i : frame_id_t) :
    ((umap_touch ns i LRUKNode.dflt).filter (fun e => e.2.is_evictable_)).length =
      (ns.filter (fun e => e.2.is_evictable_)).length := by
  unfold umap_touch
  cases hf : umap_find ns i with
  | some x => simp
  | none =>
    simp only [Option.isSome_none, Bool.false_eq_true, if_false]
    rw [evictable_count_append]
    simp [LRUKNode.dflt]

theorem map_assign_absent {κ ν : Type} [DecidableEq κ] (m : List (κ × ν)) (key : κ) (v : ν)
    (h : ∀ e ∈ m, e.1 ≠ key) : m.map (fun e => if e.1 = key then (key, v) else e) = m := by
  induction m with
  | nil => rfl
  | cons a rest ih =>
    have ha : ¬ a.1 = key := h a (List.mem_cons_self _ _)
    simp only [List.map_cons, ha, if_false]
    rw [ih (fun e he => h e (List.mem_cons_of_mem _ he))]

theorem evictable_count_map_assign (ns : List (frame_id_t × LRUKNode)) (i : frame_id_t)
    (old n : LRUKNode) (hnd : (ns.map Prod.fst).Nodup) (hf : umap_find ns i = some old) :
    ((ns.map (fun e => if e.1 = i then (i, n) else e)).filter
        (fun e => e.2.is_evictable_)).length + (if old.is_evictable_ then 1 else 0) =
      (ns.filter (fun e => e.2.is_evictable_)).length + (if n.is_evictable_ then 1 else 0) := by
  induction ns with
  | nil => simp [umap_find] at hf
  | cons a rest ih =>
    simp only [List.map_cons, List.nodup_cons] at hnd
    by_cases ha : a.1 = i
    · have hold : a.2 = old := by
        simp [umap_find, List.find?, ha] at hf
        exact hf
      have hrest : rest.map (fun e => if e.1 = i then (i, n) else e) = rest := by
        apply map_assign_absent
        intro e he hei
        apply hnd.1
        rw [ha, ← hei]
        exact List.mem_map.2 ⟨e, he, rfl⟩
      simp only [List.map_cons, ha, if_true, hrest]
      rw [← hold]
      cases h1 : a.2.is_evictable_ <;> cases h2 : n.is_evictable_ <;>
        simp [List.filter, h1, h2]
    · have hf' : umap_find rest i = some old := by
        simpa [umap_find, List.find?, ha] using hf
      have := ih hnd.2 hf'
      simp only [List.map_cons, ha, if_false]
      cases h1 : a.2.is_evictable_
      · simpa [List.filter, h1] using this
      · simp only [List.filter, h1]
        simp only [List.length_cons]
        omega

theorem evictable_count_assign (ns : List (frame_id_t × LRUKNode)) (i : frame_id_t)
    (old n : LRUKNode) (hnd : (ns.map Prod.fst).Nodup) (hf : umap_find ns i = some old) :
    ((umap_assign ns i n).filter (fun e => e.2.is_evictable_)).length +
        (if old.is_evictable_ then 1 else 0) =
      (ns.filter (fun e => e.2.is_evictable_)).length + (if n.is_evictable_ then 1 else 0) := by
  unfold umap_assign
  simp only [hf, Option.isSome_some, if_true]
  exact evictable_count_map_assign ns i old n hnd hf

theorem storeStable_refl (ns : List (frame_id_t × LRUKNode)) : storeStable ns ns :=
  ⟨fun _ => rfl, fun h => h, rfl⟩

theorem storeStable_touch (ns0 ns : List (frame_id_t × LRUKNode)) (i : frame_id_t)
    (h : storeStable ns0 ns) : storeStable ns0 (umap_touch ns i LRUKNode.dflt) :=
  ⟨fun j => (nodeAt_touch ns i j).trans (h.1 j),
    fun hnd => umap_touch_keys_nodup _ _ _ (h.2.1 hnd),
    (evictable_count_touch ns i).trans h.2.2⟩

/-- The node store after an iteration of the first loop of `Victim`. -/
theorem scanMax_store (cur : Nat) (s : VictimScan) (i : frame_id_t) :
    (∀ s', LRUKReplacer.scanMax cur s i = .ok s' →
      s'.node_store_ = umap_touch s.node_store_ i LRUKNode.dflt) ∧
    (∀ ns, LRUKReplacer.scanMax cur s i = .error ns →
      ns = umap_touch s.node_store_ i LRUKNode.dflt) := by
  unfold LRUKReplacer.scanMax
  simp only
  constructor
  · intro s' h
    split at h
    · split at h
      · split at h
        · cases h
        · cases h; rfl
      · split at h
        · split at h
          · cases h
          · split at h <;> (cases h; rfl)
        · cases h; rfl
    · cases h; rfl
  · intro ns h
    split at h
    · split at h
      · split at h
        · cases h; rfl
        · cases h
      · split at h
        · split at h
          · cases h; rfl
          · split at h <;> cases h
        · cases h
    · cases h

/-- The node store after an iteration of the second loop of `Victim`. -/
theorem scanInf_store (cur : Nat) (s : VictimScan) (i : frame_id_t) :
    (∀ s', LRUKReplacer.scanInf cur s i = .ok s' →
      s'.node_store_ = umap_touch s.node_store_ i LRUKNode.dflt) ∧
    (∀ ns, LRUKReplacer.scanInf cur s i = .error ns →
      ns = umap_touch s.node_store_ i LRUKNode.dflt) := by
  unfold LRUKReplacer.scanInf
  simp only
  constructor
  · intro s' h
    split at h
    · split at h
      · cases h
      · split at h <;> (cases h; rfl)
    · cases h; rfl
  · intro ns h
    split at h
    · split at h
      · cases h; rfl
      · split at h <;> cases h
    · cases h

/-- A loop over frame ids whose body only extends the node store by value-initialised
nodes leaves the node store stable, whether it ends normally or by an exception. -/
theorem forFrames_store
    (body : VictimScan → frame_id_t → Except (List (frame_id_t × LRUKNode)) VictimScan)
    (hbody : ∀ s i, (∀ s', body s i = .ok s' →
        s'.node_store_ = umap_touch s.node_store_ i LRUKNode.dflt) ∧
      (∀ ns, body s i = .error ns → ns = umap_touch s.node_store_ i LRUKNode.dflt))
    (ns0 : List (frame_id_t × LRUKNode)) (l : List frame_id_t) :
    ∀ s, storeStable ns0 s.node_store_ →
      (∀ s', LRUKReplacer.forFrames body l s = .ok s' → storeStable ns0 s'.node_store_) ∧
      (∀ ns, LRUKReplacer.forFrames body l s = .error ns → storeStable ns0 ns) := by
  induction l with
  | nil =>
    intro s hs
    constructor
    · intro s' h; simp [LRUKReplacer.forFrames] at h; rw [← h]; exact hs
    · intro ns h; simp [LRUKReplacer.forFrames] at h
  | cons i rest ih =>
    intro s hs
    simp only [LRUKReplacer.forFrames]
    cases hb : body s i with
    | ok s1 =>
      have h1 := (hbody s i).1 s1 hb
      have hs1 : storeStable ns0 s1.node_store_ := h1 ▸ storeStable_touch ns0 _ i hs
      simpa using ih s1 hs1
    | error ns1 =>
      have h1 := (hbody s i).2 ns1 hb
      constructor
      · intro s' h; simp at h
      · intro ns h
        simp at h
        rw [← h, h1]
        exact storeStable_touch ns0 _ i hs

/-- An iteration of the first loop of `Victim` keeps the loop invariant and adds the
frame to the visited ones. -/
theorem scanMax_inv (N : frame_id_t → LRUKNode) (cur : Nat) (V : frame_id_t → Prop)
    (s s' : VictimScan) (i : frame_id_t) (hinv : ScanInv N cur V s)
    (h : LRUKReplacer.scanMax cur s i = .ok s') :
    ScanInv N cur (fun j => j = i ∨ V j) s' := by
  obtain ⟨h1, h2, h3, h4, h5⟩ := hinv
  have hstore := (scanMax_store cur s i).1 s' h
  have hN : ∀ j, nodeAt s'.node_store_ j = N j := by
    intro j; rw [hstore, nodeAt_touch]; exact h1 j
  have hnode : nodeAt (umap_touch s.node_store_ i LRUKNode.dflt) i = N i := by
    rw [nodeAt_touch]; exact h1 i
  unfold LRUKReplacer.scanMax at h
  simp only [hnode, LRUKNode.IsEvictable, LRUKNode.FetchOldestTimestamp] at h
  by_cases hev : (N i).is_evictable_ = true
  · simp only [hev, if_true] at h
    by_cases hgt : (N i).GetBackwardKDistance cur > s.max_dist
    · simp only [hgt, if_true] at h
      cases ho : (N i).history_.head? with
      | none => simp [ho] at h
      | some ts =>
        simp only [ho] at h
        cases h
        refine ⟨hN, ?_, ?_, ?_, ?_⟩
        · rintro j (rfl | hj) hej
          · exact Nat.le_refl _
          · exact Nat.le_of_lt (Nat.lt_of_le_of_lt (h2 j hj hej) hgt)
        · rintro j (rfl | hj) hej hd
          · exact ⟨ts, ho, Nat.le_refl _⟩
          · exfalso
            have := h2 j hj hej
            simp only at hd
            omega
        · intro j hj
          simp only [Option.some.injEq] at hj
          subst hj
          exact ⟨Or.inl rfl, hev, rfl, ho⟩
        · intro _; rfl
    · simp only [hgt, if_false] at h
      by_cases heq : (N i).GetBackwardKDistance cur = s.max_dist
      · simp only [heq, if_true] at h
        cases ho : (N i).history_.head? with
        | none => simp [ho] at h
        | some ft =>
          simp only [ho] at h
          by_cases hlt : ft < s.earliest_ts
          · simp only [hlt, if_true] at h
            cases h
            refine ⟨hN, ?_, ?_, ?_, ?_⟩
            · rintro j (rfl | hj) hej
              · exact Nat.le_of_eq heq
              · exact h2 j hj hej
            · rintro j (rfl | hj) hej hd
              · exact ⟨ft, ho, Nat.le_refl _⟩
              · obtain ⟨o, ho', hle⟩ := h3 j hj hej hd
                exact ⟨o, ho', Nat.le_trans (Nat.le_of_lt hlt) hle⟩
            · intro j hj
              simp only [Option.some.injEq] at hj
              subst hj
              exact ⟨Or.inl rfl, hev, heq, ho⟩
            · intro _; rfl
          · simp only [hlt, if_false] at h
            cases h
            refine ⟨hN, ?_, ?_, ?_, h5⟩
            · rintro j (rfl | hj) hej
              · exact Nat.le_of_eq heq
              · exact h2 j hj hej
            · rintro j (rfl | hj) hej hd
              · exact ⟨ft, ho, Nat.le_of_not_lt hlt⟩
              · exact h3 j hj hej hd
            · intro j hj
              obtain ⟨a, b, c, d⟩ := h4 j hj
              exact ⟨Or.inr a, b, c, d⟩
      · simp only [heq, if_false] at h
        cases h
        refine ⟨hN, ?_, ?_, ?_, h5⟩
        · rintro j (rfl | hj) hej
          · simp only; omega
          · exact h2 j hj hej
        · rintro j (rfl | hj) hej hd
          · exact absurd hd heq
          · exact h3 j hj hej hd
        · intro j hj
          obtain ⟨a, b, c, d⟩ := h4 j hj
          exact ⟨Or.inr a, b, c, d⟩
  · simp only [hev, Bool.false_eq_true, if_false] at h
    cases h
    refine ⟨hN, ?_, ?_, ?_, h5⟩
    · rintro j (rfl | hj) hej
      · exact absurd hej hev
      · exact h2 j hj hej
    · rintro j (rfl | hj) hej hd
      · exact absurd hej hev
      · exact h3 j hj hej hd
    · intro j hj
      obtain ⟨a, b, c, d⟩ := h4 j hj
      exact ⟨Or.inr a, b, c, d⟩

/-- An iteration of the second loop of `Victim` on a frame already visited keeps the loop
invariant. -/
theorem scanInf_inv (N : frame_id_t → LRUKNode) (cur : Nat) (V : frame_id_t → Prop)
    (s s' : VictimScan) (i : frame_id_t) (hinv : ScanInv N cur V s) (hi : V i)
    (h : LRUKReplacer.scanInf cur s i = .ok s') :
    ScanInv N cur V s' := by
  obtain ⟨h1, h2, h3, h4, h5⟩ := hinv
  have hstore := (scanInf_store cur s i).1 s' h
  have hN : ∀ j, nodeAt s'.node_store_ j = N j := by
    intro j; rw [hstore, nodeAt_touch]; exact h1 j
  have hnode : nodeAt (umap_touch s.node_store_ i LRUKNode.dflt) i = N i := by
    rw [nodeAt_touch]; exact h1 i
  unfold LRUKReplacer.scanInf at h
  simp only [hnode, LRUKNode.IsEvictable, LRUKNode.FetchOldestTimestamp] at h
  by_cases hc : ((N i).is_evictable_ && decide ((N i).GetBackwardKDistance cur = s.max_dist))
      = true
  · simp only [hc, if_true] at h
    simp only [Bool.and_eq_true, decide_eq_true_eq] at hc
    obtain ⟨hev, heq⟩ := hc
    cases ho : (N i).history_.head? with
    | none => simp [ho] at h
    | some ft =>
      simp only [ho] at h
      by_cases hlt : ft < s.earliest_ts
      · simp only [hlt, if_true] at h
        cases h
        refine ⟨hN, h2, ?_, ?_, fun _ => rfl⟩
        · intro j hj hej hd
          obtain ⟨o, ho', hle⟩ := h3 j hj hej hd
          exact ⟨o, ho', Nat.le_trans (Nat.le_of_lt hlt) hle⟩
        · intro j hj
          simp only [Option.some.injEq] at hj
          subst hj
          exact ⟨hi, hev, heq, ho⟩
      · simp only [hlt, if_false] at h
        cases h
        exact ⟨hN, h2, h3, h4, h5⟩
  · simp only [hc, Bool.false_eq_true, if_false] at h
    cases h
    exact ⟨hN, h2, h3, h4, h5⟩

theorem forFrames_scanMax_inv (N : frame_id_t → LRUKNode) (cur : Nat) (l : List frame_id_t) :
    ∀ (V : frame_id_t → Prop) (s s' : VictimScan), ScanInv N cur V s →
      LRUKReplacer.forFrames (LRUKReplacer.scanMax cur) l s = .ok s' →
      ScanInv N cur (fun j => j ∈ l ∨ V j) s' := by
  induction l with
  | nil =>
    intro V s s' hinv h
    simp [LRUKReplacer.forFrames] at h
    subst h
    simpa using hinv
  | cons i rest ih =>
    intro V s s' hinv h
    simp only [LRUKReplacer.forFrames] at h
    cases hb : LRUKReplacer.scanMax cur s i with
    | error ns => simp [hb] at h
    | ok s1 =>
      simp only [hb] at h
      have := ih _ s1 s' (scanMax_inv N cur V s s1 i hinv hb) h
      have heq : (fun j => j ∈ rest ∨ (j = i ∨ V j)) = (fun j => j ∈ i :: rest ∨ V j) := by
        funext j
        simp only [List.mem_cons, eq_iff_iff]
        constructor
        · rintro (h | h | h)
          · exact Or.inl (Or.inr h)
          · exact Or.inl (Or.inl h)
          · exact Or.inr h
        · rintro ((h | h) | h)
          · exact Or.inr (Or.inl h)
          · exact Or.inl h
          · exact Or.inr (Or.inr h)
      rw [← heq]; exact this

theorem forFrames_scanInf_inv (N : frame_id_t → LRUKNode) (cur : Nat) (V : frame_id_t → Prop)
    (l : List frame_id_t) :
    ∀ (s s' : VictimScan), ScanInv N cur V s → (∀ i ∈ l, V i) →
      LRUKReplacer.forFrames (LRUKReplacer.scanInf cur) l s = .ok s' →
      ScanInv N cur V s' := by
  induction l with
  | nil =>
    intro s s' hinv _ h
    simp [LRUKReplacer.forFrames] at h
    subst h
    exact hinv
  | cons i rest ih =>
    intro s s' hinv hV h
    simp only [LRUKReplacer.forFrames] at h
    cases hb : LRUKReplacer.scanInf cur s i with
    | error ns => simp [hb] at h
    | ok s1 =>
      simp only [hb] at h
      exact ih s1 s' (scanInf_inv N cur V s s1 i hinv (hV i (List.mem_cons_self _ _)) hb)
        (fun j hj => hV j (List.mem_cons_of_mem _ hj)) h

theorem ScanInv_congr (N : frame_id_t → LRUKNode) (cur : Nat) (V V' : frame_id_t → Prop)
    (s : VictimScan) (h : ScanInv N cur V s) (hV : ∀ j, V j ↔ V' j) : ScanInv N cur V' s := by
  obtain ⟨h1, h2, h3, h4, h5⟩ := h
  refine ⟨h1, fun i hi => h2 i ((hV i).2 hi), fun i hi => h3 i ((hV i).2 hi), ?_, h5⟩
  intro j hj
  obtain ⟨a, b, c, d⟩ := h4 j hj
  exact ⟨(hV j).1 a, b, c, d⟩

/-- The outcomes of `LRUKReplacer::Victim`: `false` at once when `cur_size_` is 0; the
exception of `FetchOldestTimestamp`; `false` after the loops; or `true` with the frame
selected by the loops, whose node is then cleared and made non-evictable. In the last three
the node store has been extended by value-initialised nodes. -/
theorem LRUKReplacer.Victim_cases (r : LRUKReplacer) :
    (r.cur_size_ = 0 ∧ r.Victim = (.ok none, r)) ∨
    (∃ ns, storeStable r.node_store_ ns ∧
      r.Victim = (.error Exn.runtime_error, { r with node_store_ := ns })) ∨
    (∃ ns, storeStable r.node_store_ ns ∧
      r.Victim = (.ok none, { r with node_store_ := ns })) ∨
    (∃ s2 f, r.cur_size_ ≠ 0 ∧ storeStable r.node_store_ s2.node_store_ ∧
      ScanInv (nodeAt r.node_store_) r.cur_ts_ (fun j => j < r.max_size_) s2 ∧
      s2.selected_frame = some f ∧
      r.Victim = (.ok (some f),
        { r with
          node_store_ := umap_assign (umap_touch s2.node_store_ f LRUKNode.dflt) f
            (((nodeAt (umap_touch s2.node_store_ f LRUKNode.dflt) f).ResetTimestampHistory).SetEvictable
              false),
          cur_size_ := if 0 < r.cur_size_ then r.cur_size_ - 1 else r.cur_size_ })) := by
  by_cases h0 : r.cur_size_ = 0
  · left; exact ⟨h0, by simp [LRUKReplacer.Victim, h0]⟩
  · right
    have hinit : ScanInv (nodeAt r.node_store_) r.cur_ts_ (fun _ => False)
        { node_store_ := r.node_store_, max_dist := 0, selected_frame := none,
          earliest_ts := TIMESTAMP_MAX, found_candidate := false } :=
      ⟨fun _ => rfl, fun _ hf => hf.elim, fun _ hf => hf.elim,
        fun _ hj => by simp at hj, fun hf => by simp at hf⟩
    have hst0 : storeStable r.node_store_
        ({ node_store_ := r.node_store_, max_dist := 0, selected_frame := none,
           earliest_ts := TIMESTAMP_MAX, found_candidate := false } : VictimScan).node_store_ :=
      storeStable_refl _
    unfold LRUKReplacer.Victim
    simp only [h0, if_false]
    cases h1 : LRUKReplacer.forFrames (LRUKReplacer.scanMax r.cur_ts_) (List.range r.max_size_)
        { node_store_ := r.node_store_, max_dist := 0, selected_frame := none,
          earliest_ts := TIMESTAMP_MAX, found_candidate := false } with
    | error ns =>
      left
      exact ⟨ns, (forFrames_store _ (scanMax_store r.cur_ts_) _ _ _ hst0).2 ns h1, rfl⟩
    | ok s1 =>
      have hst1 := (forFrames_store _ (scanMax_store r.cur_ts_) _ _ _ hst0).1 s1 h1
      have hinv1 : ScanInv (nodeAt r.node_store_) r.cur_ts_ (fun j => j < r.max_size_) s1 :=
        ScanInv_congr _ _ _ _ _ (forFrames_scanMax_inv _ _ _ _ _ _ hinit h1)
          (fun j => by simp [List.mem_range])
      simp only
      have hstep3 : ∀ res, res = (if s1.max_dist = ULL_MAX then
            LRUKReplacer.forFrames (LRUKReplacer.scanInf r.cur_ts_) (List.range r.max_size_) s1
          else .ok s1) →
          (∀ ns, res = .error ns → storeStable r.node_store_ ns) ∧
          (∀ s2, res = .ok s2 → storeStable r.node_store_ s2.node_store_ ∧
            ScanInv (nodeAt r.node_store_) r.cur_ts_ (fun j => j < r.max_size_) s2) := by
        intro res hres
        by_cases hm : s1.max_dist = ULL_MAX
        · simp only [hm, if_true] at hres
          constructor
          · intro ns hns
            exact (forFrames_store _ (scanInf_store r.cur_ts_) _ _ _ hst1).2 ns (hres ▸ hns)
          · intro s2 hs2
            exact ⟨(forFrames_store _ (scanInf_store r.cur_ts_) _ _ _ hst1).1 s2 (hres ▸ hs2),
              forFrames_scanInf_inv _ _ _ _ _ _ hinv1
                (fun i hi => List.mem_range.1 hi) (hres ▸ hs2)⟩
        · simp only [hm, if_false] at hres
          constructor
          · intro ns hns; rw [hres] at hns; cases hns
          · intro s2 hs2
            rw [hres] at hs2
            cases hs2
            exact ⟨hst1, hinv1⟩
      cases h3 : (if s1.max_dist = ULL_MAX then
          LRUKReplacer.forFrames (LRUKReplacer.scanInf r.cur_ts_) (List.range r.max_size_) s1
        else .ok s1) with
      | error ns =>
        left
        exact ⟨ns, (hstep3 _ rfl).1 ns h3, rfl⟩
      | ok s2 =>
        obtain ⟨hst2, hinv2⟩ := (hstep3 _ rfl).2 s2 h3
        right
        cases hfc : s2.found_candidate with
        | false =>
          left
          exact ⟨s2.node_store_, hst2, by simp [hfc]⟩
        | true =>
          cases hsel : s2.selected_frame with
          | none =>
            left
            exact ⟨s2.node_store_, hst2, by simp [hfc, hsel]⟩
          | some f =>
            right
            exact ⟨s2, f, h0, hst2, hinv2, hsel, by simp [hfc, hsel]⟩

theorem nodeAt_evictable_find (ns : List (frame_id_t × LRUKNode)) (f : frame_id_t)
    (h : (nodeAt ns f).is_evictable_ = true) : umap_find ns f = some (nodeAt ns f) := by
  unfold nodeAt at h ⊢
  cases hfd : umap_find ns f with
  | none => rw [hfd] at h; simp [LRUKNode.dflt] at h
  | some x => simp

/-- What `LRUKReplacer::Victim` guarantees when it returns `true` with frame `f`: `f` is a
frame id below `max_size_` that was evictable; no evictable frame below `max_size_` had a
larger backward k-distance; among those with the same distance none had an older first
timestamp; afterwards the node of `f` is cleared and non-evictable, every other node reads
as before, and `cur_size_` has been decremented. -/
theorem LRUKReplacer.Victim_some (r r' : LRUKReplacer) (f : frame_id_t)
    (h : r.Victim = (.ok (some f), r')) :
    f < r.max_size_ ∧ (nodeAt r.node_store_ f).is_evictable_ = true ∧
    (∀ g, g < r.max_size_ → (nodeAt r.node_store_ g).is_evictable_ = true →
      (nodeAt r.node_store_ g).GetBackwardKDistance r.cur_ts_ ≤
        (nodeAt r.node_store_ f).GetBackwardKDistance r.cur_ts_) ∧
    (∃ e, (nodeAt r.node_store_ f).history_.head? = some e ∧
      ∀ g, g < r.max_size_ → (nodeAt r.node_store_ g).is_evictable_ = true →
        (nodeAt r.node_store_ g).GetBackwardKDistance r.cur_ts_ =
          (nodeAt r.node_store_ f).GetBackwardKDistance r.cur_ts_ →
        ∃ o, (nodeAt r.node_store_ g).history_.head? = some o ∧ e ≤ o) ∧
    (∀ j, nodeAt r'.node_store_ j =
      if j = f then ((nodeAt r.node_store_ f).ResetTimestampHistory).SetEvictable false
      else nodeAt r.node_store_ j) ∧
    ((r.node_store_.map Prod.fst).Nodup → (r'.node_store_.map Prod.fst).Nodup ∧
      r'.evictableCount + 1 = r.evictableCount) ∧
    r.cur_size_ ≠ 0 ∧ r'.cur_size_ = r.cur_size_ - 1 ∧
    r'.cur_ts_ = r.cur_ts_ ∧ r'.k_ = r.k_ ∧ r'.max_size_ = r.max_size_ := by
  rcases LRUKReplacer.Victim_cases r with ⟨_, h1⟩ | ⟨ns, _, h1⟩ | ⟨ns, _, h1⟩ |
    ⟨s2, f', h0, hst, hinv, hsel, h1⟩
  · rw [h1] at h; simp at h
  · rw [h1] at h; simp at h
  · rw [h1] at h; simp at h
  · rw [h1] at h
    simp only [Prod.mk.injEq, Except.ok.injEq, Option.some.injEq] at h
    obtain ⟨hf, hr'⟩ := h
    subst hf
    obtain ⟨i1, i2, i3, i4, _⟩ := hinv
    obtain ⟨a, b, c, d⟩ := i4 f' hsel
    have hnode : nodeAt (umap_touch s2.node_store_ f' LRUKNode.dflt) f' =
        nodeAt r.node_store_ f' := by
      rw [nodeAt_touch]; exact i1 f'
    refine ⟨a, b, ?_, ⟨s2.earliest_ts, d, ?_⟩, ?_, ?_, h0, ?_, ?_, ?_, ?_⟩
    · intro g hg hev
      rw [c]; exact i2 g hg hev
    · intro g hg hev hd
      exact i3 g hg hev (hd.trans c)
    · intro j
      rw [← hr']
      simp only
      by_cases hj : j = f'
      · subst hj
        rw [nodeAt_assign_eq, hnode]; simp
      · rw [nodeAt_assign_other _ _ _ _ hj, nodeAt_touch, i1 j]; simp [hj]
    · intro hnd
      rw [← hr']
      have hnd2 := umap_touch_keys_nodup _ f' LRUKNode.dflt (hst.2.1 hnd)
      refine ⟨umap_assign_keys_nodup_gen _ _ _ hnd2, ?_⟩
      have hfind : umap_find (umap_touch s2.node_store_ f' LRUKNode.dflt) f' =
          some (nodeAt r.node_store_ f') := by
        rw [← hnode]
        exact nodeAt_evictable_find _ _ (by rw [hnode]; exact b)
      have hcnt := evictable_count_assign _ f' _
        (((nodeAt (umap_touch s2.node_store_ f' LRUKNode.dflt) f').ResetTimestampHistory).SetEvictable
          false) hnd2 hfind
      rw [evictable_count_touch, hst.2.2] at hcnt
      have hx : (((nodeAt (umap_touch s2.node_store_ f' LRUKNode.dflt)
          f').ResetTimestampHistory).SetEvictable false).is_evictable_ = false := rfl
      simp only [b, hx, if_true, Bool.false_eq_true, if_false, Nat.add_zero] at hcnt
      simp only [LRUKReplacer.evictableCount]
      exact hcnt
    · rw [← hr']
      simp only
      have : 0 < r.cur_size_ := Nat.pos_of_ne_zero h0
      simp [this]
    · rw [← hr']
    · rw [← hr']
    · rw [← hr']

/-- The state after a `Victim` call of the LRU-K replacer that does not return a frame:
the node store is stable and the counters are unchanged. -/
theorem LRUKReplacer.Victim_not_some (r : LRUKReplacer)
    (h : ∀ f, r.Victim.1 ≠ .ok (some f)) :
    storeStable r.node_store_ r.Victim.2.node_store_ ∧
    r.Victim.2.cur_size_ = r.cur_size_ ∧ r.Victim.2.cur_ts_ = r.cur_ts_ ∧
    r.Victim.2.k_ = r.k_ ∧ r.Victim.2.max_size_ = r.max_size_ := by
  rcases LRUKReplacer.Victim_cases r with ⟨_, h1⟩ | ⟨ns, hs, h1⟩ | ⟨ns, hs, h1⟩ |
    ⟨s2, f', h0, hst, hinv, hsel, h1⟩
  · rw [h1]; exact ⟨storeStable_refl _, rfl, rfl, rfl, rfl⟩
  · rw [h1]; exact ⟨hs, rfl, rfl, rfl, rfl⟩
  · rw [h1]; exact ⟨hs, rfl, rfl, rfl, rfl⟩
  · exfalso; exact h f' (by rw [h1])

/-- The node that `Pin(g)` of the LRU-K replacer starts from: the node of `g`, or a new
node with `k_` when the frame has none. -/
theorem LRUKReplacer.Pin_nodeAt (r : LRUKReplacer) (g j : frame_id_t) :
    nodeAt (r.Pin g).node_store_ j =
      if j = g then
        ((((umap_find r.node_store_ g).getD (LRUKNode.new r.k_)).AddHistory
          r.cur_ts_).SetEvictable false)
      else nodeAt r.node_store_ j := by
  unfold LRUKReplacer.Pin
  cases hf : umap_find r.node_store_ g with
  | none =>
    simp only [Option.getD_none]
    unfold nodeAt
    rw [umap_find_append, ]
    by_cases hj : j = g
    · subst hj
      simp [hf, LRUKNode.SetEvictable, LRUKNode.AddHistory, LRUKNode.new]
    · have : ¬ g = j := fun h => hj h.symm
      cases hfj : umap_find r.node_store_ j <;> simp [hj, this]
  | some node0 =>
    simp only [Option.getD_some]
    cases hev : (node0.AddHistory r.cur_ts_).IsEvictable
    · simp only [Bool.false_eq_true, if_false]
      by_cases hj : j = g
      · subst hj
        rw [nodeAt_assign_eq]
        simp only [if_true]
        have : (node0.AddHistory r.cur_ts_).is_evictable_ = false := hev
        cases hn : node0.AddHistory r.cur_ts_
        simp [LRUKNode.SetEvictable, hn] at this ⊢
        exact this
      · rw [nodeAt_assign_other _ _ _ _ hj]; simp [hj]
    · simp only [if_true]
      by_cases hj : j = g
      · subst hj
        rw [nodeAt_assign_eq]; simp
      · rw [nodeAt_assign_other _ _ _ _ hj]; simp [hj]

theorem LRUKReplacer.Unpin_nodeAt (r : LRUKReplacer) (g j : frame_id_t) :
    nodeAt (r.Unpin g).node_store_ j =
      if j = g ∧ (umap_find r.node_store_ g).isSome then
        (nodeAt r.node_store_ g).SetEvictable true
      else nodeAt r.node_store_ j := by
  unfold LRUKReplacer.Unpin
  cases hf : umap_find r.node_store_ g with
  | none => simp
  | some node =>
    simp only [Option.isSome_some, and_true]
    have hnode : nodeAt r.node_store_ g = node := by simp [nodeAt, hf]
    cases hev : node.IsEvictable
    · simp only [Bool.not_false, if_true]
      by_cases hj : j = g
      · subst hj
        rw [nodeAt_assign_eq, hnode]; simp
      · rw [nodeAt_assign_other _ _ _ _ hj]; simp [hj]
    · simp only [Bool.not_true, Bool.false_eq_true, if_false]
      by_cases hj : j = g
      · subst hj
        simp only [if_true, hnode]
        have : node.is_evictable_ = true := hev
        cases node
        simp [LRUKNode.SetEvictable] at this ⊢
        exact this
      · simp [hj]

theorem LRUKReplacer.CountInv_Pin (r : LRUKReplacer) (g : frame_id_t) (h : r.CountInv) :
    (r.Pin g).CountInv := by
  obtain ⟨hnd, hc⟩ := h
  unfold LRUKReplacer.Pin
  cases hf : umap_find r.node_store_ g with
  | none =>
    refine ⟨?_, ?_⟩
    · have := umap_assign_keys_nodup r.node_store_ g
        ((LRUKNode.new r.k_).AddHistory r.cur_ts_) hf hnd
      simpa [umap_assign, hf] using this
    · simp only [LRUKReplacer.evictableCount]
      rw [evictable_count_append]
      simpa [LRUKNode.AddHistory, LRUKNode.new] using hc
  | some node0 =>
    have hev0 : (node0.AddHistory r.cur_ts_).is_evictable_ = node0.is_evictable_ := rfl
    cases hev : (node0.AddHistory r.cur_ts_).IsEvictable
    · simp only [hev, Bool.false_eq_true, if_false]
      refine ⟨umap_assign_keys_nodup_gen _ _ _ hnd, ?_⟩
      have hcnt := evictable_count_assign r.node_store_ g node0 (node0.AddHistory r.cur_ts_)
        hnd hf
      have h1 : node0.is_evictable_ = false := hev0 ▸ hev
      simp only [hev0, h1, Bool.false_eq_true, if_false, Nat.add_zero] at hcnt
      simp only [LRUKReplacer.evictableCount] at hc ⊢
      rw [hcnt]; exact hc
    · simp only [hev, if_true]
      refine ⟨umap_assign_keys_nodup_gen _ _ _ hnd, ?_⟩
      have hcnt := evictable_count_assign r.node_store_ g node0
        ((node0.AddHistory r.cur_ts_).SetEvictable false) hnd hf
      have h1 : node0.is_evictable_ = true := hev0 ▸ hev
      have hx : ((node0.AddHistory r.cur_ts_).SetEvictable false).is_evictable_ = false := rfl
      simp only [h1, hx, if_true, Bool.false_eq_true, if_false, Nat.add_zero] at hcnt
      simp only [LRUKReplacer.evictableCount] at hc ⊢
      have hpos : 0 < r.cur_size_ := by omega
      simp only [hpos, if_true]
      omega

theorem LRUKReplacer.CountInv_Unpin (r : LRUKReplacer) (g : frame_id_t) (h : r.CountInv) :
    (r.Unpin g).CountInv := by
  obtain ⟨hnd, hc⟩ := h
  unfold LRUKReplacer.Unpin
  cases hf : umap_find r.node_store_ g with
  | none => exact ⟨hnd, hc⟩
  | some node =>
    cases hev : node.IsEvictable
    · simp only [hev, Bool.not_false, if_true]
      refine ⟨umap_assign_keys_nodup_gen _ _ _ hnd, ?_⟩
      have hcnt := evictable_count_assign r.node_store_ g node (node.SetEvictable true) hnd hf
      have h1 : node.is_evictable_ = false := hev
      have hx : (node.SetEvictable true).is_evictable_ = true := rfl
      simp only [h1, hx, if_true, Bool.false_eq_true, if_false, Nat.add_zero] at hcnt
      simp only [LRUKReplacer.evictableCount] at hc ⊢
      omega
    · simp only [hev, Bool.not_true, Bool.false_eq_true, if_false]
      exact ⟨hnd, hc⟩

theorem LRUKReplacer.Victim_result (r : LRUKReplacer) :
    (∃ f, r.Victim = (.ok (some f), r.Victim.2)) ∨ (∀ f, r.Victim.1 ≠ .ok (some f)) := by
  cases h : r.Victim.1 with
  | error e => right; intro f hf; cases hf
  | ok o =>
    cases o with
    | none => right; intro f hf; cases hf
    | some f => left; exact ⟨f, Prod.ext h rfl⟩

theorem LRUKReplacer.CountInv_Victim (r : LRUKReplacer) (h : r.CountInv) :
    r.Victim.2.CountInv := by
  obtain ⟨hnd, hc⟩ := h
  rcases LRUKReplacer.Victim_result r with ⟨f, hv⟩ | hv
  · obtain ⟨_, _, _, _, _, h6, h7, h8, _⟩ := LRUKReplacer.Victim_some r _ f hv
    obtain ⟨a, b⟩ := h6 hnd
    exact ⟨a, by omega⟩
  · obtain ⟨hs, h2, _⟩ := LRUKReplacer.Victim_not_some r hv
    refine ⟨hs.2.1 hnd, ?_⟩
    rw [h2, hc]
    exact hs.2.2.symm

theorem LRUKReplacer.CountInv_runOps (ops : List ReplacerOp) :
    ∀ r : LRUKReplacer, r.CountInv → (r.runOps ops).CountInv := by
  induction ops with
  | nil => intro r h; exact h
  | cons op rest ih =>
    intro r h
    refine ih _ ?_
    cases op with
    | Pin g => exact LRUKReplacer.CountInv_Pin r g h
    | Unpin g => exact LRUKReplacer.CountInv_Unpin r g h
    | Victim => exact LRUKReplacer.CountInv_Victim r h

/-- C15: for the LRU-K replacer, after every sequence of Pin, Unpin and Victim calls on a
fresh replacer, Size() equals the number of frames in the node store whose evictable flag
is set. -/
theorem LRUK_size_counts_evictable (BUFFER_POOL_SIZE k : Nat) (ops : List ReplacerOp) :
    ((LRUKReplacer.new BUFFER_POOL_SIZE k).runOps ops).Size =
      ((LRUKReplacer.new BUFFER_POOL_SIZE k).runOps ops).evictableCount :=
  (LRUKReplacer.CountInv_runOps ops _ ⟨by simp [LRUKReplacer.new], rfl⟩).2

theorem lastCallIsPin_append (f : frame_id_t) (ops : List ReplacerOp) (op : ReplacerOp) :
    lastCallIsPin f (ops ++ [op]) = pinFlag f (lastCallIsPin f ops) op := by
  unfold lastCallIsPin
  rw [List.foldl_append]
  cases op <;> rfl

theorem Replacer.runOps_append (r : Replacer) (ops : List ReplacerOp) (op : ReplacerOp) :
    r.runOps (ops ++ [op]) = (r.runOps ops).step op := by
  simp [Replacer.runOps, List.foldl_append]

/-- In a list with distinct frame ids, erasing the entry of a frame leaves no entry of
that frame. -/
theorem eraseP_id_absent (l : List (frame_id_t × Bool)) (g : frame_id_t)
    (hnd : (l.map Prod.fst).Nodup) :
    ∀ e ∈ l.eraseP (fun e => decide (e.1 = g)), e.1 ≠ g := by
  induction l with
  | nil => intro e he; simp at he
  | cons a rest ih =>
    simp only [List.map_cons, List.nodup_cons] at hnd
    intro e he
    by_cases ha : a.1 = g
    · simp only [List.eraseP_cons, ha, decide_True, cond_true] at he
      intro heg
      apply hnd.1
      rw [ha, ← heg]
      exact List.mem_map.2 ⟨e, he, rfl⟩
    · simp only [List.eraseP_cons, ha, decide_False, cond_false, List.mem_cons] at he
      rcases he with rfl | he
      · exact ha
      · exact ih hnd.2 e he

/-- The list of the LRU replacer has distinct frame ids, and every frame of `P` has no
entry with the evictable flag set. -/
theorem LRU_step_inv (r : LRUReplacer) (op : ReplacerOp) (P : frame_id_t → Bool)
    (hnd : (r.lru_list_.map Prod.fst).Nodup)
    (hP : ∀ f, P f = true → ∀ e ∈ r.lru_list_, e.1 = f → e.2 = false) :
    ((r.step op).lru_list_.map Prod.fst).Nodup ∧
    ∀ f, pinFlag f (P f) op = true → ∀ e ∈ (r.step op).lru_list_, e.1 = f → e.2 = false := by
  cases op with
  | Pin g =>
    simp only [LRUReplacer.step, LRUReplacer.Pin, pinFlag]
    have hsub : (r.lru_list_.eraseP (fun e => decide (e.1 = g))).Sublist r.lru_list_ :=
      List.eraseP_sublist _
    split
    · refine ⟨?_, ?_⟩
      · simp only [List.map_append, List.map_cons, List.map_nil]
        rw [List.nodup_append]
        refine ⟨List.Nodup.sublist (List.Sublist.map _ hsub) hnd, by simp, ?_⟩
        intro a ha hb
        simp only [List.mem_singleton] at hb
        rw [List.mem_map] at ha
        obtain ⟨e, he, rfl⟩ := ha
        exact eraseP_id_absent _ g hnd e he hb
      · intro f hf e he hef
        rcases List.mem_append.1 he with he | he
        · have hne := eraseP_id_absent _ g hnd e he
          have hfg : ¬ g = f := fun h => hne (hef.trans h.symm)
          simp only [hfg, if_false] at hf
          exact hP f hf e (hsub.subset he) hef
        · simp only [List.mem_singleton] at he
          rw [he]
    · rename_i hnf
      have habs : ∀ e ∈ r.lru_list_, e.1 ≠ g := by
        have hnone : r.lru_list_.find? (fun e => decide (e.1 = g)) = none := by
          cases hfd : r.lru_list_.find? (fun e => decide (e.1 = g)) with
          | none => rfl
          | some x => rw [hfd] at hnf; simp at hnf
        intro e he
        have := List.find?_eq_none.1 hnone e he
        simpa using this
      refine ⟨?_, ?_⟩
      · simp only [List.map_append, List.map_cons, List.map_nil]
        rw [List.nodup_append]
        refine ⟨hnd, by simp, ?_⟩
        intro a ha hb
        simp only [List.mem_singleton] at hb
        rw [List.mem_map] at ha
        obtain ⟨e, he, rfl⟩ := ha
        exact habs e he hb
      · intro f hf e he hef
        rcases List.mem_append.1 he with he | he
        · have hfg : ¬ g = f := fun h => habs e he (hef.trans h.symm)
          simp only [hfg, if_false] at hf
          exact hP f hf e he hef
        · simp only [List.mem_singleton] at he
          rw [he]
  | Unpin g =>
    simp only [LRUReplacer.step, LRUReplacer.Unpin, pinFlag]
    cases hfind : r.lru_list_.find? (fun e => decide (e.1 = g)) with
    | some entry =>
      simp only
      cases hen : entry.2
      · simp only [Bool.not_false, if_true]
        refine ⟨?_, ?_⟩
        · simp only [List.map_map]
          have : (Prod.fst ∘ fun e : frame_id_t × Bool => if e.1 = g then (e.1, true) else e)
              = Prod.fst := by
            funext e
            by_cases he : e.1 = g <;> simp [he]
          rw [this]; exact hnd
        · intro f hf e he hef
          rw [List.mem_map] at he
          obtain ⟨a, ha, rfl⟩ := he
          by_cases hag : a.1 = g
          · simp only [hag, if_true] at hef
            simp [hef] at hf
          · simp only [hag, if_false] at hef ⊢
            have hfg : ¬ g = f := fun h => hag (hef.trans h.symm)
            simp only [hfg, if_false] at hf
            exact hP f hf a ha hef
      · simp only [Bool.not_true, Bool.false_eq_true, if_false]
        refine ⟨hnd, ?_⟩
        intro f hf e he hef
        by_cases hfg : g = f
        · simp [hfg] at hf
        · simp only [hfg, if_false] at hf
          exact hP f hf e he hef
    | none =>
      simp only
      have habs : ∀ e ∈ r.lru_list_, e.1 ≠ g := by
        intro e he
        have := List.find?_eq_none.1 hfind e he
        simpa using this
      refine ⟨?_, ?_⟩
      · simp only [List.map_append, List.map_cons, List.map_nil]
        rw [List.nodup_append]
        refine ⟨hnd, by simp, ?_⟩
        intro a ha hb
        simp only [List.mem_singleton] at hb
        rw [List.mem_map] at ha
        obtain ⟨e, he, rfl⟩ := ha
        exact habs e he hb
      · intro f hf e he hef
        rcases List.mem_append.1 he with he | he
        · have hfg : ¬ g = f := fun h => habs e he (hef.trans h.symm)
          simp only [hfg, if_false] at hf
          exact hP f hf e he hef
        · simp only [List.mem_singleton] at he
          subst he
          simp only at hef
          simp [hef] at hf
  | Victim =>
    simp only [LRUReplacer.step, pinFlag]
    have hsub : r.Victim.2.lru_list_.Sublist r.lru_list_ := by
      unfold LRUReplacer.Victim
      split
      · exact List.Sublist.refl _
      · split
        · exact List.eraseP_sublist _
        · exact List.Sublist.refl _
    exact ⟨List.Nodup.sublist (List.Sublist.map _ hsub) hnd,
      fun f hf e he hef => hP f hf e (hsub.subset he) hef⟩

/-- A frame that `Victim` of the LRU replacer returns has a list entry with the evictable
flag set. -/
theorem LRUReplacer.Victim_evictable (r : LRUReplacer) (f : frame_id_t)
    (h : r.Victim.1 = some f) : r.IsEvictable f = true := by
  unfold LRUReplacer.Victim at h
  split at h
  · cases h
  · cases hfind : r.lru_list_.find? (fun e => e.2) with
    | none => simp [hfind] at h
    | some e =>
      simp only [hfind, Option.some.injEq] at h
      have hmem := List.mem_of_find?_eq_some hfind
      have hflag := List.find?_some hfind
      unfold LRUReplacer.IsEvictable
      rw [List.any_eq_true]
      exact ⟨e, hmem, by simp [h, hflag]⟩

theorem lastCallIsPin_eq (f : frame_id_t) (ops : List ReplacerOp) :
    lastCallIsPin f ops = ops.foldl (pinFlag f) false := by
  unfold lastCallIsPin
  rfl

theorem Replacer.runOps_lru (r : LRUReplacer) (ops : List ReplacerOp) :
    (Replacer.lru r).runOps ops = .lru (r.runOps ops) := by
  induction ops generalizing r with
  | nil => rfl
  | cons op rest ih =>
    simp only [Replacer.runOps, LRUReplacer.runOps, List.foldl_cons] at ih ⊢
    have : (Replacer.lru r).step op = .lru (r.step op) := by
      cases op <;> rfl
    rw [this]; exact ih _

theorem Replacer.runOps_lruk (r : LRUKReplacer) (ops : List ReplacerOp) :
    (Replacer.lruk r).runOps ops = .lruk (r.runOps ops) := by
  induction ops generalizing r with
  | nil => rfl
  | cons op rest ih =>
    simp only [Replacer.runOps, LRUKReplacer.runOps, List.foldl_cons] at ih ⊢
    have : (Replacer.lruk r).step op = .lruk (r.step op) := by
      cases op <;> rfl
    rw [this]; exact ih _

theorem LRU_runOps_inv (ops : List ReplacerOp) :
    ∀ (r : LRUReplacer) (P : frame_id_t → Bool), (r.lru_list_.map Prod.fst).Nodup →
      (∀ f, P f = true → ∀ e ∈ r.lru_list_, e.1 = f → e.2 = false) →
      ((r.runOps ops).lru_list_.map Prod.fst).Nodup ∧
      ∀ f, ops.foldl (pinFlag f) (P f) = true →
        ∀ e ∈ (r.runOps ops).lru_list_, e.1 = f → e.2 = false := by
  induction ops with
  | nil => intro r P hnd hP; exact ⟨hnd, hP⟩
  | cons op rest ih =>
    intro r P hnd hP
    obtain ⟨h1, h2⟩ := LRU_step_inv r op P hnd hP
    exact ih (r.step op) (fun f => pinFlag f (P f) op) h1 h2

/-- A frame whose latest Pin/Unpin call is Pin is not evictable after an LRU-K call. -/
theorem LRUK_step_inv (r : LRUKReplacer) (op : ReplacerOp) (P : frame_id_t → Bool)
    (hP : ∀ f, P f = true → (nodeAt r.node_store_ f).is_evictable_ = false) :
    ∀ f, pinFlag f (P f) op = true →
      (nodeAt (r.step op).node_store_ f).is_evictable_ = false := by
  intro f hf
  cases op with
  | Pin g =>
    simp only [LRUKReplacer.step, pinFlag] at hf ⊢
    rw [LRUKReplacer.Pin_nodeAt]
    by_cases hfg : f = g
    · simp [hfg, LRUKNode.SetEvictable]
    · have : ¬ g = f := fun h => hfg h.symm
      simp only [this, if_false] at hf
      simp only [hfg, if_false]
      exact hP f hf
  | Unpin g =>
    simp only [LRUKReplacer.step, pinFlag] at hf ⊢
    rw [LRUKReplacer.Unpin_nodeAt]
    by_cases hfg : g = f
    · simp [hfg] at hf
    · have : ¬ f = g := fun h => hfg h.symm
      simp only [hfg, if_false] at hf
      simp only [this, false_and, if_false]
      exact hP f hf
  | Victim =>
    simp only [LRUKReplacer.step, pinFlag] at hf ⊢
    rcases LRUKReplacer.Victim_result r with ⟨f', hv⟩ | hv
    · obtain ⟨_, _, _, _, h5, _⟩ := LRUKReplacer.Victim_some r _ f' hv
      rw [h5 f]
      by_cases hff : f = f'
      · simp [hff, LRUKNode.SetEvictable]
      · simp only [hff, if_false]; exact hP f hf
    · obtain ⟨hs, _⟩ := LRUKReplacer.Victim_not_some r hv
      rw [hs.1 f]; exact hP f hf

theorem LRUK_runOps_inv (ops : List ReplacerOp) :
    ∀ (r : LRUKReplacer) (P : frame_id_t → Bool),
      (∀ f, P f = true → (nodeAt r.node_store_ f).is_evictable_ = false) →
      ∀ f, ops.foldl (pinFlag f) (P f) = true →
        (nodeAt (r.runOps ops).node_store_ f).is_evictable_ = false := by
  induction ops with
  | nil => intro r P hP; exact hP
  | cons op rest ih =>
    intro r P hP
    exact ih (r.step op) (fun f => pinFlag f (P f) op) (LRUK_step_inv r op P hP)

/-- C13: for both replacer variants and every sequence of Pin, Unpin and Victim calls on a
fresh replacer: if the most recent Pin/Unpin call on frame f is Pin(f), the next Victim
call does not return f; and a frame that Victim returns is marked evictable at the time of
the call. -/
theorem victim_returns_only_evictable (REPLACER : ReplacerKind)
    (BUFFER_POOL_SIZE replacer_lru_k : Nat) (ops : List ReplacerOp) :
    (∀ f, lastCallIsPin f ops = true →
      ((Replacer.new REPLACER BUFFER_POOL_SIZE replacer_lru_k).runOps ops).Victim.1 ≠
        .ok (some f)) ∧
    (∀ f, ((Replacer.new REPLACER BUFFER_POOL_SIZE replacer_lru_k).runOps ops).Victim.1 =
        .ok (some f) →
      ((Replacer.new REPLACER BUFFER_POOL_SIZE replacer_lru_k).runOps ops).IsEvictable f
        = true) := by
  cases REPLACER with
  | LRUReplacer =>
    simp only [Replacer.new, Replacer.runOps_lru, Replacer.Victim, Replacer.IsEvictable]
    have hev : ∀ f, (Except.ok ((LRUReplacer.new BUFFER_POOL_SIZE).runOps ops).Victim.1 :
        Except Exn (Option frame_id_t)) = .ok (some f) →
        ((LRUReplacer.new BUFFER_POOL_SIZE).runOps ops).IsEvictable f = true := by
      intro f hf
      simp only [Except.ok.injEq] at hf
      exact LRUReplacer.Victim_evictable _ f hf
    refine ⟨?_, hev⟩
    intro f hpin hv
    have h1 := hev f hv
    obtain ⟨_, h2⟩ := LRU_runOps_inv ops (LRUReplacer.new BUFFER_POOL_SIZE) (fun _ => false)
      (by simp [LRUReplacer.new]) (by simp)
    rw [lastCallIsPin_eq] at hpin
    unfold LRUReplacer.IsEvictable at h1
    rw [List.any_eq_true] at h1
    obtain ⟨e, he, hflag⟩ := h1
    simp only [Bool.and_eq_true, decide_eq_true_eq] at hflag
    have := h2 f hpin e he hflag.1
    rw [this] at hflag
    exact absurd hflag.2 (by simp)
  | LRUKReplacer =>
    simp only [Replacer.new, Replacer.runOps_lruk, Replacer.Victim, Replacer.IsEvictable]
    have hev : ∀ f, ((LRUKReplacer.new BUFFER_POOL_SIZE replacer_lru_k).runOps ops).Victim.1
        = .ok (some f) →
        ((LRUKReplacer.new BUFFER_POOL_SIZE replacer_lru_k).runOps ops).IsEvictable f
          = true := by
      intro f hf
      exact (LRUKReplacer.Victim_some _ _ f (Prod.ext hf rfl)).2.1
    refine ⟨?_, hev⟩
    intro f hpin hv
    have h1 := hev f hv
    rw [lastCallIsPin_eq] at hpin
    have h2 := LRUK_runOps_inv ops (LRUKReplacer.new BUFFER_POOL_SIZE replacer_lru_k)
      (fun _ => false) (by simp) f hpin
    unfold LRUKReplacer.IsEvictable LRUKNode.IsEvictable at h1
    rw [h2] at h1
    cases h1

theorem LRUKNode.trim_length_le (k : Nat) (l : List timestamp_t) :
    (LRUKNode.trim k l).length ≤ k := by
  induction l with
  | nil => simp [LRUKNode.trim]
  | cons t rest ih =>
    unfold LRUKNode.trim
    split
    · exact ih
    · rename_i h; omega

theorem LRUKNode.trim_subset (k : Nat) (l : List timestamp_t) :
    ∀ t ∈ LRUKNode.trim k l, t ∈ l := by
  induction l with
  | nil => intro t ht; simp [LRUKNode.trim] at ht
  | cons a rest ih =>
    intro t ht
    unfold LRUKNode.trim at ht
    split at ht
    · exact List.mem_cons_of_mem _ (ih t ht)
    · exact ht

theorem LRUKNode.trim_zero (l : List timestamp_t) : LRUKNode.trim 0 l = [] := by
  have := LRUKNode.trim_length_le 0 l
  exact List.length_eq_zero.1 (Nat.le_zero.1 this)

theorem LRUKReplacer.step_consts (r : LRUKReplacer) (op : ReplacerOp) :
    (r.step op).k_ = r.k_ ∧ (r.step op).max_size_ = r.max_size_ := by
  cases op with
  | Pin g =>
    simp only [LRUKReplacer.step, LRUKReplacer.Pin]
    cases hf : umap_find r.node_store_ g with
    | none => exact ⟨rfl, rfl⟩
    | some node0 =>
      cases hev : (node0.AddHistory r.cur_ts_).IsEvictable <;> simp [hev]
  | Unpin g =>
    simp only [LRUKReplacer.step, LRUKReplacer.Unpin]
    split
    · split <;> exact ⟨rfl, rfl⟩
    · exact ⟨rfl, rfl⟩
  | Victim =>
    simp only [LRUKReplacer.step]
    rcases LRUKReplacer.Victim_result r with ⟨f', hv⟩ | hv
    · obtain ⟨_, _, _, _, _, _, _, _, _, h1, h2⟩ := LRUKReplacer.Victim_some r _ f' hv
      exact ⟨h1, h2⟩
    · obtain ⟨_, _, _, h1, h2⟩ := LRUKReplacer.Victim_not_some r hv
      exact ⟨h1, h2⟩

theorem LRUKReplacer.runOps_consts (ops : List ReplacerOp) :
    ∀ r : LRUKReplacer, (r.runOps ops).k_ = r.k_ ∧ (r.runOps ops).max_size_ = r.max_size_ := by
  induction ops with
  | nil => intro r; exact ⟨rfl, rfl⟩
  | cons op rest ih =>
    intro r
    obtain ⟨a, b⟩ := ih (r.step op)
    obtain ⟨c, d⟩ := LRUKReplacer.step_consts r op
    exact ⟨a.trans c, b.trans d⟩

theorem LRUKReplacer.Pin_cur_ts (r : LRUKReplacer) (g : frame_id_t) :
    (r.Pin g).cur_ts_ = r.cur_ts_ + 1 ∧ (r.Pin g).k_ = r.k_ := by
  unfold LRUKReplacer.Pin
  cases hf : umap_find r.node_store_ g with
  | none => exact ⟨rfl, rfl⟩
  | some node0 =>
    cases hev : (node0.AddHistory r.cur_ts_).IsEvictable <;> simp [hev]

theorem LRUKReplacer.Unpin_cur_ts (r : LRUKReplacer) (g : frame_id_t) :
    (r.Unpin g).cur_ts_ = r.cur_ts_ ∧ (r.Unpin g).k_ = r.k_ := by
  unfold LRUKReplacer.Unpin
  split
  · split <;> exact ⟨rfl, rfl⟩
  · exact ⟨rfl, rfl⟩

theorem LRUKReplacer.HistInv_Pin (r : LRUKReplacer) (g : frame_id_t) (h : r.HistInv) :
    (r.Pin g).HistInv := by
  obtain ⟨hts, hk⟩ := LRUKReplacer.Pin_cur_ts r g
  -- the node `Pin` starts from
  have hbase : ((umap_find r.node_store_ g).getD (LRUKNode.new r.k_) = LRUKNode.new r.k_ ∧
      nodeAt r.node_store_ g = LRUKNode.dflt) ∨
      (umap_find r.node_store_ g).getD (LRUKNode.new r.k_) = nodeAt r.node_store_ g := by
    unfold nodeAt
    cases umap_find r.node_store_ g with
    | none => left; exact ⟨rfl, rfl⟩
    | some n => right; rfl
  have hnew : ∀ t ∈ ((umap_find r.node_store_ g).getD (LRUKNode.new r.k_)).history_,
      t ∈ (nodeAt r.node_store_ g).history_ := by
    rcases hbase with ⟨hb, _⟩ | hb
    · rw [hb]; intro t ht; simp [LRUKNode.new] at ht
    · rw [hb]; exact fun t ht => ht
  have hmem : ∀ t ∈ (((umap_find r.node_store_ g).getD (LRUKNode.new r.k_)).AddHistory
      r.cur_ts_).history_, t ∈ (nodeAt r.node_store_ g).history_ ∨ t = r.cur_ts_ := by
    intro t ht
    have := LRUKNode.trim_subset _ _ t ht
    rcases List.mem_append.1 this with h1 | h1
    · exact Or.inl (hnew t h1)
    · exact Or.inr (by simpa using h1)
  intro j
  rw [hts, hk]
  by_cases hj : j = g
  · subst hj
    rw [LRUKReplacer.Pin_nodeAt]
    simp only [if_true]
    refine ⟨?_, ?_, ?_, ?_⟩
    · rcases hbase with ⟨hb, _⟩ | hb
      · left; rw [hb]; rfl
      · rcases (h j).1 with h1 | ⟨h1, h2⟩
        · left; rw [hb]; exact h1
        · right
          rw [hb]
          refine ⟨h1, ?_⟩
          simp only [LRUKNode.SetEvictable, LRUKNode.AddHistory, h1]
          exact LRUKNode.trim_zero _
    · exact LRUKNode.trim_length_le _ _
    · intro t ht
      rcases hmem t ht with h1 | h1
      · exact Nat.lt_succ_of_lt ((h j).2.2.1 t h1)
      · rw [h1]; exact Nat.lt_succ_self _
    · intro j' hj' t ht
      rw [LRUKReplacer.Pin_nodeAt]
      simp only [hj', if_false]
      rcases hmem t ht with h1 | h1
      · exact (h j).2.2.2 j' hj' t h1
      · intro hc
        have hlt := (h j').2.2.1 t hc
        rw [h1] at hlt
        exact Nat.lt_irrefl _ hlt
  · rw [LRUKReplacer.Pin_nodeAt]
    simp only [hj, if_false]
    refine ⟨(h j).1, (h j).2.1, ?_, ?_⟩
    · intro t ht
      exact Nat.lt_succ_of_lt ((h j).2.2.1 t ht)
    · intro j' hj' t ht
      rw [LRUKReplacer.Pin_nodeAt]
      by_cases hjg : j' = g
      · subst hjg
        simp only [if_true]
        intro hc
        rcases hmem t hc with h1 | h1
        · exact (h j).2.2.2 j' hj' t ht h1
        · have hlt := (h j).2.2.1 t ht
          rw [h1] at hlt
          exact Nat.lt_irrefl _ hlt
      · simp only [hjg, if_false]
        exact (h j).2.2.2 j' hj' t ht

/-- Histories that read the same per frame id, up to the evictable flag and up to clearing
some of them, keep the invariant. -/
theorem LRUKReplacer.HistInv_of_le (r r' : LRUKReplacer) (h : r.HistInv)
    (hk : r'.k_ = r.k_) (hts : r'.cur_ts_ = r.cur_ts_)
    (hn : ∀ j, (nodeAt r'.node_store_ j).k = (nodeAt r.node_store_ j).k ∧
      ((nodeAt r'.node_store_ j).history_ = (nodeAt r.node_store_ j).history_ ∨
        (nodeAt r'.node_store_ j).history_ = [])) :
    r'.HistInv := by
  have hsub : ∀ j, ∀ t ∈ (nodeAt r'.node_store_ j).history_,
      t ∈ (nodeAt r.node_store_ j).history_ := by
    intro j t ht
    rcases (hn j).2 with h1 | h1
    · rw [← h1]; exact ht
    · rw [h1] at ht; simp at ht
  intro j
  rw [hk, hts, (hn j).1]
  refine ⟨?_, ?_, ?_, ?_⟩
  · rcases (h j).1 with h1 | ⟨h1, h2⟩
    · exact Or.inl h1
    · right
      refine ⟨h1, ?_⟩
      rcases (hn j).2 with h3 | h3
      · rw [h3]; exact h2
      · exact h3
  · rcases (hn j).2 with h3 | h3
    · rw [h3]; exact (h j).2.1
    · rw [h3]; simp
  · intro t ht
    exact (h j).2.2.1 t (hsub j t ht)
  · intro j' hj' t ht hc
    exact (h j).2.2.2 j' hj' t (hsub j t ht) (hsub j' t hc)

theorem LRUKReplacer.HistInv_step (r : LRUKReplacer) (op : ReplacerOp) (h : r.HistInv) :
    (r.step op).HistInv := by
  cases op with
  | Pin g => exact LRUKReplacer.HistInv_Pin r g h
  | Unpin g =>
    obtain ⟨hts, hk⟩ := LRUKReplacer.Unpin_cur_ts r g
    refine LRUKReplacer.HistInv_of_le r _ h hk hts ?_
    intro j
    simp only [LRUKReplacer.step]
    rw [LRUKReplacer.Unpin_nodeAt]
    split
    · rename_i hc
      rw [hc.1]
      exact ⟨rfl, Or.inl rfl⟩
    · exact ⟨rfl, Or.inl rfl⟩
  | Victim =>
    simp only [LRUKReplacer.step]
    rcases LRUKReplacer.Victim_result r with ⟨f', hv⟩ | hv
    · obtain ⟨_, _, _, _, h5, _, _, _, hts, hk, _⟩ := LRUKReplacer.Victim_some r _ f' hv
      refine LRUKReplacer.HistInv_of_le r _ h hk hts ?_
      intro j
      rw [h5 j]
      by_cases hj : j = f'
      · subst hj
        rw [if_pos rfl]
        exact ⟨rfl, Or.inr rfl⟩
      · rw [if_neg hj]
        exact ⟨rfl, Or.inl rfl⟩
    · obtain ⟨hs, _, hts, hk, _⟩ := LRUKReplacer.Victim_not_some r hv
      refine LRUKReplacer.HistInv_of_le r _ h hk hts ?_
      intro j
      rw [hs.1 j]
      exact ⟨rfl, Or.inl rfl⟩

theorem LRUKReplacer.HistInv_runOps (ops : List ReplacerOp) :
    ∀ r : LRUKReplacer, r.HistInv → (r.runOps ops).HistInv := by
  induction ops with
  | nil => intro r h; exact h
  | cons op rest ih => intro r h; exact ih _ (LRUKReplacer.HistInv_step r op h)

theorem LRUKReplacer.HistInv_new (BUFFER_POOL_SIZE k : Nat) :
    (LRUKReplacer.new BUFFER_POOL_SIZE k).HistInv := by
  intro j
  have : nodeAt (LRUKReplacer.new BUFFER_POOL_SIZE k).node_store_ j = LRUKNode.dflt := rfl
  rw [this]
  exact ⟨Or.inr ⟨rfl, rfl⟩, by simp [LRUKNode.dflt], by simp [LRUKNode.dflt],
    by simp [LRUKNode.dflt]⟩

theorem LRUKNode.kthBack_le (k cur : Nat) (l : List timestamp_t) :
    ∀ count, LRUKNode.kthBack k cur l count ≤ ULL_MAX := by
  induction l with
  | nil => intro count; simp [LRUKNode.kthBack]
  | cons t rest ih =>
    intro count
    unfold LRUKNode.kthBack
    split
    · split
      · have : (cur + 2 ^ 64 - t % 2 ^ 64) % 2 ^ 64 < 2 ^ 64 := Nat.mod_lt _ (by decide)
        unfold ULL_MAX
        omega
      · exact ih _
    · exact Nat.le_refl _

theorem LRUKNode.GetBackwardKDistance_le (n : LRUKNode) (cur : Nat) :
    n.GetBackwardKDistance cur ≤ ULL_MAX := by
  unfold LRUKNode.GetBackwardKDistance
  split
  · exact Nat.le_refl _
  · exact LRUKNode.kthBack_le _ _ _ _

/-- The reverse loop of `GetBackwardKDistance` returns the difference to the entry at
position `k - 1 - count` when the list is long enough. -/
theorem LRUKNode.kthBack_eq (k cur : Nat) (l : List timestamp_t) :
    ∀ count, count < k → k - count ≤ l.length →
      LRUKNode.kthBack k cur l count =
        (cur + 2 ^ 64 - (l.getD (k - 1 - count) 0) % 2 ^ 64) % 2 ^ 64 := by
  induction l with
  | nil => intro count h1 h2; simp at h2; omega
  | cons t rest ih =>
    intro count h1 h2
    unfold LRUKNode.kthBack
    simp only [h1, if_true]
    by_cases hk : count + 1 = k
    · simp only [hk, if_true]
      have : k - 1 - count = 0 := by omega
      rw [this]; rfl
    · simp only [hk, if_false]
      have h3 : count + 1 < k := by omega
      have h4 : k - (count + 1) ≤ rest.length := by simp at h2; omega
      rw [ih (count + 1) h3 h4]
      have : k - 1 - count = (k - 1 - (count + 1)) + 1 := by omega
      rw [this]
      rfl

/-- The backward k-distance of a node with at least `k` recorded references, all earlier
than a current timestamp below 2^64: the current timestamp minus the k-th most recent
reference. -/
theorem LRUKNode.GetBackwardKDistance_full (n : LRUKNode) (cur : Nat) (hk : 1 ≤ n.k)
    (hlen : n.k ≤ n.history_.length) (hts : ∀ t ∈ n.history_, t < cur) (hcur : cur < 2 ^ 64) :
    n.GetBackwardKDistance cur = cur - n.history_.reverse.getD (n.k - 1) 0 ∧
    n.history_.reverse.getD (n.k - 1) 0 < cur := by
  have hmem : n.history_.reverse.getD (n.k - 1) 0 ∈ n.history_ := by
    have hlt : n.k - 1 < n.history_.reverse.length := by simp; omega
    rw [List.getD_eq_getElem _ _ hlt]
    exact List.mem_reverse.1 (List.getElem_mem _)
  have hlt := hts _ hmem
  refine ⟨?_, hlt⟩
  unfold LRUKNode.GetBackwardKDistance
  have : ¬ n.history_.length < n.k := by omega
  simp only [this, if_false]
  rw [LRUKNode.kthBack_eq n.k cur _ 0 (by omega) (by simp; omega)]
  simp only [Nat.sub_zero]
  obtain ⟨x, hx⟩ : ∃ x : Nat, x = n.history_.reverse.getD (n.k - 1) 0 := ⟨_, rfl⟩
  rw [← hx] at hlt ⊢
  have hlt' : Nat.lt x cur := hlt
  have hxc : x < cur := hlt'
  have h1 : x % 2 ^ 64 = x := Nat.mod_eq_of_lt (by omega)
  rw [h1]
  have h2 : cur + 2 ^ 64 - x = (cur - x) + 2 ^ 64 := by omega
  rw [h2, Nat.add_mod_right]
  exact Nat.mod_eq_of_lt (by omega)

/-- The backward k-distance of a node of the replacer with fewer than `k_` recorded
references is infinite. -/
theorem LRUKReplacer.distance_short (r : LRUKReplacer) (h : r.HistInv) (g : frame_id_t)
    (hlen : (nodeAt r.node_store_ g).history_.length < r.k_) :
    (nodeAt r.node_store_ g).GetBackwardKDistance r.cur_ts_ = ULL_MAX := by
  unfold LRUKNode.GetBackwardKDistance
  rcases (h g).1 with h1 | ⟨h1, h2⟩
  · rw [h1]; simp [hlen]
  · rw [h1, h2]; simp [LRUKNode.kthBack]

/-- C17: in an LRU-K replacer reached from a fresh one by Pin, Unpin and Victim calls,
whenever Victim returns a frame f, the backward k-distance of f is greater than or equal
to that of every evictable frame of the pool. That distance is infinite (the largest
64-bit value) for a frame with fewer than K recorded references and, while the timestamp
counter has not wrapped, the current timestamp minus the K-th most recent reference
otherwise. In particular, when some evictable frame has fewer than K recorded references,
so has the frame that Victim returns. -/
theorem LRUK_victim_largest_distance (BUFFER_POOL_SIZE K : Nat) (ops : List ReplacerOp)
    (r : LRUKReplacer) (hr : r = (LRUKReplacer.new BUFFER_POOL_SIZE K).runOps ops)
    (f : frame_id_t) (r' : LRUKReplacer) (h : r.Victim = (.ok (some f), r')) :
    (∀ g, g < BUFFER_POOL_SIZE → r.IsEvictable g = true →
      (nodeAt r.node_store_ g).GetBackwardKDistance r.cur_ts_ ≤
        (nodeAt r.node_store_ f).GetBackwardKDistance r.cur_ts_) ∧
    (∀ g, (nodeAt r.node_store_ g).history_.length < K →
      (nodeAt r.node_store_ g).GetBackwardKDistance r.cur_ts_ = ULL_MAX) ∧
    (∀ g, 1 ≤ K → K ≤ (nodeAt r.node_store_ g).history_.length → r.cur_ts_ < 2 ^ 64 →
      (nodeAt r.node_store_ g).GetBackwardKDistance r.cur_ts_ =
        r.cur_ts_ - (nodeAt r.node_store_ g).history_.reverse.getD (K - 1) 0) ∧
    (r.cur_ts_ < ULL_MAX → ∀ g, g < BUFFER_POOL_SIZE → r.IsEvictable g = true →
      (nodeAt r.node_store_ g).history_.length < K →
      (nodeAt r.node_store_ f).history_.length < K) := by
  have hinv : r.HistInv := by
    rw [hr]; exact LRUKReplacer.HistInv_runOps ops _ (LRUKReplacer.HistInv_new _ _)
  have hk : r.k_ = K := by rw [hr]; exact (LRUKReplacer.runOps_consts ops _).1
  have hmax : r.max_size_ = BUFFER_POOL_SIZE := by
    rw [hr]; exact (LRUKReplacer.runOps_consts ops _).2
  obtain ⟨_, _, h3, ⟨e, he, _⟩, _⟩ := LRUKReplacer.Victim_some r r' f h
  have hfull : ∀ g, 1 ≤ K → K ≤ (nodeAt r.node_store_ g).history_.length →
      r.cur_ts_ < 2 ^ 64 →
      (nodeAt r.node_store_ g).GetBackwardKDistance r.cur_ts_ =
        r.cur_ts_ - (nodeAt r.node_store_ g).history_.reverse.getD (K - 1) 0 ∧
      (nodeAt r.node_store_ g).history_.reverse.getD (K - 1) 0 < r.cur_ts_ := by
    intro g hK hlen hcur
    have hkg : (nodeAt r.node_store_ g).k = K := by
      rcases (hinv g).1 with h1 | ⟨_, h2⟩
      · rw [h1, hk]
      · rw [h2] at hlen; simp at hlen; omega
    have := LRUKNode.GetBackwardKDistance_full (nodeAt r.node_store_ g) r.cur_ts_
      (by omega) (by omega) (hinv g).2.2.1 hcur
    rw [hkg] at this
    exact this
  have hshort : ∀ g, (nodeAt r.node_store_ g).history_.length < K →
      (nodeAt r.node_store_ g).GetBackwardKDistance r.cur_ts_ = ULL_MAX :=
    fun g hlen => LRUKReplacer.distance_short r hinv g (hk ▸ hlen)
  refine ⟨fun g hg hev => h3 g (hmax ▸ hg) hev, hshort, fun g a b c => (hfull g a b c).1, ?_⟩
  intro hcur g hg hev hlen
  have h1 := h3 g (hmax ▸ hg) hev
  rw [hshort g hlen] at h1
  by_contra hnot
  have hK : 1 ≤ K := by omega
  have hcur' : r.cur_ts_ < 2 ^ 64 := by unfold ULL_MAX at hcur; omega
  obtain ⟨h2, h4⟩ := hfull f hK (by omega) hcur'
  rw [h2] at h1
  omega

/-- An instance of C17: in `lrukMixedHistory` Victim returns frame 1, referenced once,
and not frame 0, referenced twice. -/
theorem LRUK_victim_largest_distance_witness :
    lrukMixedHistory.Victim.1 = .ok (some 1) ∧
    (nodeAt lrukMixedHistory.node_store_ 0).GetBackwardKDistance lrukMixedHistory.cur_ts_ ≤
      (nodeAt lrukMixedHistory.node_store_ 1).GetBackwardKDistance lrukMixedHistory.cur_ts_ ∧
    (nodeAt lrukMixedHistory.node_store_ 1).history_.length < 2 :=
  ⟨by decide,
    (LRUK_victim_largest_distance 2 2 [.Pin 0, .Pin 0, .Pin 1, .Unpin 0, .Unpin 1]
      lrukMixedHistory rfl 1 lrukMixedHistory.Victim.2 (Prod.ext (by decide) rfl)).1 0
      (by decide) (by decide),
    (LRUK_victim_largest_distance 2 2 [.Pin 0, .Pin 0, .Pin 1, .Unpin 0, .Unpin 1]
      lrukMixedHistory rfl 1 lrukMixedHistory.Victim.2 (Prod.ext (by decide) rfl)).2.2.2
      (by decide) 1 (by decide) (by decide) (by decide)⟩

/-- C18: in an LRU-K replacer reached from a fresh one by Pin, Unpin and Victim calls,
whenever Victim returns a frame f, the oldest timestamp in the history of f is smaller than
the oldest timestamp in the history of every other evictable frame of the pool that has the
same backward k-distance as f (infinite distances included). -/
theorem LRUK_victim_tie_break (BUFFER_POOL_SIZE K : Nat) (ops : List ReplacerOp)
    (r : LRUKReplacer) (hr : r = (LRUKReplacer.new BUFFER_POOL_SIZE K).runOps ops)
    (f : frame_id_t) (r' : LRUKReplacer) (h : r.Victim = (.ok (some f), r')) :
    ∃ e, (nodeAt r.node_store_ f).FetchOldestTimestamp = some e ∧
      ∀ g, g < BUFFER_POOL_SIZE → g ≠ f → r.IsEvictable g = true →
        (nodeAt r.node_store_ g).GetBackwardKDistance r.cur_ts_ =
          (nodeAt r.node_store_ f).GetBackwardKDistance r.cur_ts_ →
        ∃ o, (nodeAt r.node_store_ g).FetchOldestTimestamp = some o ∧ e < o := by
  have hinv : r.HistInv := by
    rw [hr]; exact LRUKReplacer.HistInv_runOps ops _ (LRUKReplacer.HistInv_new _ _)
  have hmax : r.max_size_ = BUFFER_POOL_SIZE := by
    rw [hr]; exact (LRUKReplacer.runOps_consts ops _).2
  obtain ⟨_, _, _, ⟨e, he, h4⟩, _⟩ := LRUKReplacer.Victim_some r r' f h
  refine ⟨e, he, ?_⟩
  intro g hg hgf hev hd
  obtain ⟨o, ho, hle⟩ := h4 g (hmax ▸ hg) hev hd
  refine ⟨o, ho, ?_⟩
  have hemem : e ∈ (nodeAt r.node_store_ f).history_ := List.mem_of_mem_head? he
  have homem : o ∈ (nodeAt r.node_store_ g).history_ := List.mem_of_mem_head? ho
  have hne : e ≠ o := by
    intro heq
    exact (hinv f).2.2.2 g hgf e hemem (heq ▸ homem)
  exact Nat.lt_of_le_of_ne hle hne

/-- An instance of C18: in `lrukAllInfinite` all three frames are at infinite distance;
Victim returns frame 0, whose only timestamp 0 is smaller than those of frames 1 and 2. -/
theorem LRUK_victim_tie_break_witness :
    lrukAllInfinite.Victim.1 = .ok (some 0) ∧
    ∃ e, (nodeAt lrukAllInfinite.node_store_ 0).FetchOldestTimestamp = some e ∧
      ∀ g, g < 3 → g ≠ 0 → lrukAllInfinite.IsEvictable g = true →
        (nodeAt lrukAllInfinite.node_store_ g).GetBackwardKDistance lrukAllInfinite.cur_ts_ =
          (nodeAt lrukAllInfinite.node_store_ 0).GetBackwardKDistance
            lrukAllInfinite.cur_ts_ →
        ∃ o, (nodeAt lrukAllInfinite.node_store_ g).FetchOldestTimestamp = some o ∧ e < o :=
  ⟨by decide,
    LRUK_victim_tie_break 3 2 [.Pin 0, .Pin 1, .Pin 2, .Unpin 2, .Unpin 0, .Unpin 1]
      lrukAllInfinite rfl 0 lrukAllInfinite.Victim.2 (Prod.ext (by decide) rfl)⟩

/-- The byte at index `i` after a `memcpy` that stays inside the buffer. -/
theorem getElem?_memWrite (mem : List Nat) (off : Nat) (src : List Nat)
    (h : off + src.length ≤ mem.length) (i : Nat) :
    (memWrite mem off src)[i]? =
      if i < off then mem[i]? else if i < off + src.length then src[i - off]? else mem[i]? := by
  unfold memWrite
  have hl : (mem.take off).length = off := by simp; omega
  rw [List.append_assoc, List.getElem?_append, hl]
  by_cases h1 : i < off
  · simp only [h1, if_true]
    exact List.getElem?_take_of_lt h1
  · simp only [h1, if_false]
    rw [List.getElem?_append]
    by_cases h2 : i < off + src.length
    · have : i - off < src.length := by omega
      simp [h2, this]
    · have : ¬ i - off < src.length := by omega
      simp only [h2, this, if_false]
      rw [List.getElem?_drop]
      congr 1
      omega

theorem memWrite_length (mem : List Nat) (off : Nat) (src : List Nat)
    (h : off + src.length ≤ mem.length) : (memWrite mem off src).length = mem.length := by
  unfold memWrite
  simp
  omega

theorem getElem?_memRead (mem : List Nat) (off n i : Nat) :
    (memRead mem off n)[i]? = if i < n then mem[off + i]? else none := by
  unfold memRead
  rw [List.getElem?_take, List.getElem?_drop]

theorem memRead_length (mem : List Nat) (off n : Nat) (h : off + n ≤ mem.length) :
    (memRead mem off n).length = n := by
  unfold memRead
  simp
  omega

/-- Reading back what a `memcpy` wrote. -/
theorem memRead_memWrite_same (mem : List Nat) (off : Nat) (src : List Nat)
    (h : off + src.length ≤ mem.length) :
    memRead (memWrite mem off src) off src.length = src := by
  apply List.ext_getElem?
  intro i
  rw [getElem?_memRead, getElem?_memWrite _ _ _ h]
  by_cases hi : i < src.length
  · have h1 : ¬ off + i < off := by omega
    have h2 : off + i < off + src.length := by omega
    simp only [hi, h1, h2, if_true, if_false]
    congr 1
    omega
  · simp only [hi, if_false]
    exact (List.getElem?_eq_none (by omega)).symm

/-- Reading a region that a `memcpy` did not touch. -/
theorem memRead_memWrite_disjoint (mem : List Nat) (off : Nat) (src : List Nat)
    (h : off + src.length ≤ mem.length) (off' n : Nat)
    (hd : off' + n ≤ off ∨ off + src.length ≤ off') :
    memRead (memWrite mem off src) off' n = memRead mem off' n := by
  apply List.ext_getElem?
  intro i
  rw [getElem?_memRead, getElem?_memRead, getElem?_memWrite _ _ _ h]
  by_cases hi : i < n
  · simp only [hi, if_true]
    rcases hd with hd | hd
    · have : off' + i < off := by omega
      simp [this]
    · have h1 : ¬ off' + i < off := by omega
      have h2 : ¬ off' + i < off + src.length := by omega
      simp [h1, h2]
  · simp [hi]

/-- A buffer that is overwritten from its start over its whole length. -/
theorem memWrite_whole (buf src : List Nat) (h : src.length = buf.length) :
    memWrite buf 0 src = src := by
  unfold memWrite
  simp [h]

theorem getD_memWrite_before (mem : List Nat) (off : Nat) (src : List Nat)
    (h : off + src.length ≤ mem.length) (i : Nat) (hi : i < off) :
    (memWrite mem off src).getD i 0 = mem.getD i 0 := by
  rw [List.getD_eq_getElem?_getD, List.getD_eq_getElem?_getD, getElem?_memWrite _ _ _ h,
    if_pos hi]

theorem BitMap.SetBit_length (mem : List Nat) (bm pos : Nat) (v : Bool) :
    (BitMap.SetBit mem bm pos v).length = mem.length := by
  unfold BitMap.SetBit
  simp

theorem BitMap.GetBit_SetBit_true (mem : List Nat) (bm pos : Nat)
    (h : bm + pos / 8 < mem.length) :
    BitMap.GetBit (BitMap.SetBit mem bm pos true) bm pos = true := by
  unfold BitMap.GetBit BitMap.SetBit
  rw [List.getD_eq_getElem?_getD, List.getElem?_set_self h]
  simp [Nat.testBit_two_pow_self]

theorem BitMap.GetBit_memWrite (mem : List Nat) (off : Nat) (src : List Nat)
    (h : off + src.length ≤ mem.length) (bm pos : Nat) (hb : bm + pos / 8 < off) :
    BitMap.GetBit (memWrite mem off src) bm pos = BitMap.GetBit mem bm pos := by
  unfold BitMap.GetBit
  rw [getD_memWrite_before _ _ _ h _ hb]

theorem memRead_SetBit (mem : List Nat) (bm pos : Nat) (v : Bool) (off n : Nat)
    (hb : bm + pos / 8 < off) :
    memRead (BitMap.SetBit mem bm pos v) off n = memRead mem off n := by
  apply List.ext_getElem?
  intro i
  rw [getElem?_memRead, getElem?_memRead]
  unfold BitMap.SetBit
  rw [List.getElem?_set_ne (by omega)]

theorem memRead_zero_length (l : List Nat) : memRead l 0 l.length = l := by
  unfold memRead
  simp

theorem NAry_new_ok (PAGE_HEADER_SIZE : Nat) (tab_hdr : TableHeader) (page : Page)
    (h : PageHandle) (hnew : NAryPageHandle.new PAGE_HEADER_SIZE tab_hdr page = .ok h) :
    BITMAP_SIZE tab_hdr.rec_per_page_ = tab_hdr.bitmap_size_ ∧
      h = { tab_hdr_ := tab_hdr, page_ := page, bitmap_ := PAGE_HEADER_SIZE,
            slots_mem_ := PAGE_HEADER_SIZE + tab_hdr.bitmap_size_ } := by
  unfold NAryPageHandle.new PageHandle.new at hnew
  by_cases hb : BITMAP_SIZE tab_hdr.rec_per_page_ = tab_hdr.bitmap_size_
  · rw [if_pos hb] at hnew
    injection hnew with hnew
    exact ⟨hb, hnew.symm⟩
  · rw [if_neg hb] at hnew
    cases hnew

/-- The round trip of the row-major layout on a handle given by its fields: the slot is
written at a place that lies inside the page and after the byte of its bit. -/
theorem NAry_round_trip_aux (h : PageHandle) (slot_id : Nat)
    (null_map data nm_out data_out : List Nat)
    (hbit : h.bitmap_ + slot_id / 8 < h.slots_mem_)
    (hfit : h.slots_mem_ + h.tab_hdr_.rec_per_page_ *
      (h.tab_hdr_.nullmap_size_ + h.tab_hdr_.rec_size_) ≤ h.page_.data_.length)
    (hslot : slot_id < h.tab_hdr_.rec_per_page_)
    (hnm : null_map.length = h.tab_hdr_.nullmap_size_)
    (hdata : data.length = h.tab_hdr_.rec_size_)
    (hnmo : nm_out.length = h.tab_hdr_.nullmap_size_)
    (hdo : data_out.length = h.tab_hdr_.rec_size_) (update : Bool)
    (hupd : h.GetBit slot_id = update) :
    ∃ h1, NAryPageHandle.WriteSlot h slot_id null_map data update = (.ok (), h1) ∧
      NAryPageHandle.ReadSlot (h1.SetBit slot_id true) slot_id nm_out data_out =
        .ok (null_map, data) ∧
      (update = true →
        NAryPageHandle.ReadSlot h1 slot_id nm_out data_out = .ok (null_map, data)) := by
  obtain ⟨th, pg, bm, sm⟩ := h
  obtain ⟨rs, nms, bs, rpp, pn, rn, ffp⟩ := th
  obtain ⟨fid, pid, mem⟩ := pg
  simp only at hbit hfit hslot hnm hdata hnmo hdo
  simp only [PageHandle.GetBit] at hupd
  have hmul : (slot_id + 1) * (nms + rs) ≤ rpp * (nms + rs) :=
    Nat.mul_le_mul_right _ hslot
  have hexp : (slot_id + 1) * (nms + rs) = slot_id * (nms + rs) + nms + rs := by
    rw [Nat.add_mul, Nat.one_mul, Nat.add_assoc]
  have hr1 : memRead null_map 0 nms = null_map := by rw [← hnm]; exact memRead_zero_length _
  have hr2 : memRead data 0 rs = data := by rw [← hdata]; exact memRead_zero_length _
  have hw1 : sm + slot_id * (nms + rs) + null_map.length ≤ mem.length := by omega
  have hl1 : (memWrite mem (sm + slot_id * (nms + rs)) null_map).length = mem.length :=
    memWrite_length _ _ _ hw1
  have hw2 : sm + slot_id * (nms + rs) + nms + data.length ≤
      (memWrite mem (sm + slot_id * (nms + rs)) null_map).length := by
    rw [hl1]; omega
  have hl2 := memWrite_length _ _ _ hw2
  obtain ⟨mem2, hmem2⟩ : ∃ m, m = memWrite (memWrite mem (sm + slot_id * (nms + rs)) null_map)
      (sm + slot_id * (nms + rs) + nms) data := ⟨_, rfl⟩
  rw [← hmem2] at hl2
  have hg : BitMap.GetBit mem2 bm slot_id = update := by
    rw [hmem2, BitMap.GetBit_memWrite _ _ _ hw2 _ _ (by omega),
      BitMap.GetBit_memWrite _ _ _ hw1 _ _ (by omega)]
    exact hupd
  have e1 : memRead mem2 (sm + slot_id * (nms + rs)) nms = null_map := by
    rw [hmem2, memRead_memWrite_disjoint _ _ _ hw2 _ _ (Or.inl (Nat.le_refl _))]
    have := memRead_memWrite_same mem (sm + slot_id * (nms + rs)) null_map hw1
    rw [hnm] at this
    exact this
  have e2 : memRead mem2 (sm + slot_id * (nms + rs) + nms) rs = data := by
    have := memRead_memWrite_same _ (sm + slot_id * (nms + rs) + nms) data hw2
    rw [hdata, ← hmem2] at this
    exact this
  have hgs : BitMap.GetBit (BitMap.SetBit mem2 bm slot_id true) bm slot_id = true :=
    BitMap.GetBit_SetBit_true _ _ _ (by rw [hl2, hl1]; omega)
  refine ⟨{ tab_hdr_ := ⟨rs, nms, bs, rpp, pn, rn, ffp⟩, page_ := ⟨fid, pid, mem2⟩,
            bitmap_ := bm, slots_mem_ := sm }, ?_, ?_, ?_⟩
  · unfold NAryPageHandle.WriteSlot
    simp only [PageHandle.GetBit, hslot, not_true_eq_false, if_false, hupd, ne_eq, hr1, hr2,
      hmem2]
  · unfold NAryPageHandle.ReadSlot
    simp only [PageHandle.GetBit, PageHandle.SetBit, hslot, not_true_eq_false, if_false, hgs,
      ne_eq]
    rw [memRead_SetBit _ _ _ _ _ _ (by omega), memRead_SetBit _ _ _ _ _ _ (by omega),
      e1, e2, memWrite_whole _ _ (by rw [hnm, hnmo]), memWrite_whole _ _ (by rw [hdata, hdo])]
  · intro hu
    rw [hu] at hg
    unfold NAryPageHandle.ReadSlot
    simp only [PageHandle.GetBit, hslot, not_true_eq_false, if_false, hg, ne_eq]
    rw [e1, e2, memWrite_whole _ _ (by rw [hnm, hnmo]), memWrite_whole _ _ (by rw [hdata, hdo])]

/-- C19: round trip of the row-major layout. Let `h` be the handle that the constructor
`NAryPageHandle` builds over a page whose bytes hold the page header, the bitmap and
`rec_per_page_` slots of `nullmap_size_ + rec_size_` bytes. For every `slot_id <
rec_per_page_`, every null-map of `nullmap_size_` bytes and every data block of
`rec_size_` bytes: if the bit of the slot is clear, `WriteSlot` in insert mode succeeds
and, once the bit of the slot is set, `ReadSlot` on that slot fills the buffers of the
caller with exactly that null-map and those data bytes; if the bit of the slot is set,
`WriteSlot` in update mode succeeds and `ReadSlot` on that slot returns them likewise. -/
theorem NAry_write_read_round_trip (PAGE_HEADER_SIZE : Nat) (tab_hdr : TableHeader)
    (page : Page) (h : PageHandle)
    (hnew : NAryPageHandle.new PAGE_HEADER_SIZE tab_hdr page = .ok h)
    (hfit : PAGE_HEADER_SIZE + tab_hdr.bitmap_size_ +
      tab_hdr.rec_per_page_ * (tab_hdr.nullmap_size_ + tab_hdr.rec_size_) ≤ page.data_.length)
    (slot_id : Nat) (hslot : slot_id < tab_hdr.rec_per_page_)
    (null_map data nm_out data_out : List Nat)
    (hnm : null_map.length = tab_hdr.nullmap_size_) (hdata : data.length = tab_hdr.rec_size_)
    (hnmo : nm_out.length = tab_hdr.nullmap_size_)
    (hdo : data_out.length = tab_hdr.rec_size_) :
    (h.GetBit slot_id = false →
      ∃ h1, NAryPageHandle.WriteSlot h slot_id null_map data false = (.ok (), h1) ∧
        NAryPageHandle.ReadSlot (h1.SetBit slot_id true) slot_id nm_out data_out =
          .ok (null_map, data)) ∧
    (h.GetBit slot_id = true →
      ∃ h1, NAryPageHandle.WriteSlot h slot_id null_map data true = (.ok (), h1) ∧
        NAryPageHandle.ReadSlot h1 slot_id nm_out data_out = .ok (null_map, data)) := by
  obtain ⟨hbs, rfl⟩ := NAry_new_ok _ _ _ _ hnew
  have hbit : PAGE_HEADER_SIZE + slot_id / 8 < PAGE_HEADER_SIZE + tab_hdr.bitmap_size_ := by
    rw [← hbs]
    unfold BITMAP_SIZE
    omega
  constructor
  · intro hb
    obtain ⟨h1, hw, hr, _⟩ := NAry_round_trip_aux _ slot_id null_map data nm_out
      data_out hbit hfit hslot hnm hdata hnmo hdo false hb
    exact ⟨h1, hw, hr⟩
  · intro hb
    obtain ⟨h1, hw, _, hr⟩ := NAry_round_trip_aux _ slot_id null_map data nm_out
      data_out hbit hfit hslot hnm hdata hnmo hdo true hb
    exact ⟨h1, hw, hr rfl⟩

/-- An instance of C19: on `naryPage` (two slots of one null-map byte and two data bytes,
slot 0 occupied and slot 1 empty), slot 1 is written in insert mode and slot 0 in update
mode, and each is read back. -/
theorem NAry_write_read_round_trip_witness :
    (∃ h1, NAryPageHandle.WriteSlot naryHandle 1 [1] [7, 8] false = (.ok (), h1) ∧
      NAryPageHandle.ReadSlot (h1.SetBit 1 true) 1 [0] [0, 0] = .ok ([1], [7, 8])) ∧
    (∃ h1, NAryPageHandle.WriteSlot naryHandle 0 [1] [7, 8] true = (.ok (), h1) ∧
      NAryPageHandle.ReadSlot h1 0 [0] [0, 0] = .ok ([1], [7, 8])) :=
  ⟨(NAry_write_read_round_trip 2 naryHeader naryPage naryHandle (by decide) (by decide)
      1 (by decide) [1] [7, 8] [0] [0, 0] rfl rfl rfl rfl).1 (by decide),
    (NAry_write_read_round_trip 2 naryHeader naryPage naryHandle (by decide) (by decide)
      0 (by decide) [1] [7, 8] [0] [0, 0] rfl rfl rfl rfl).2 (by decide)⟩

/-- The field pointers do not depend on offsets that lie before the current index. -/
theorem PAXPageHandle.fieldPtrs_shift (sm slot : Nat) (pre offs : List Nat) :
    ∀ (fs : List RTField) (i : Nat),
      PAXPageHandle.fieldPtrs sm (pre ++ offs) slot (pre.length + i) fs =
        PAXPageHandle.fieldPtrs sm offs slot i fs := by
  intro fs
  induction fs with
  | nil => intro i; rfl
  | cons f rest ih =>
    intro i
    simp only [PAXPageHandle.fieldPtrs]
    have ih1 := ih (i + 1)
    rw [← Nat.add_assoc] at ih1
    rw [ih1]
    congr 3
    rw [List.getD_eq_getElem?_getD, List.getD_eq_getElem?_getD,
      List.getElem?_append_right (Nat.le_add_right _ _), Nat.add_sub_cancel_left]

/-- The field pointers over the offsets of the table handle, one field at a time. -/
theorem PAXPageHandle.fieldPtrs_cons (sm slot rpp : Nat) (f : RTField) (rest : List RTField)
    (off : Nat) :
    PAXPageHandle.fieldPtrs sm (TableHandle.fieldOffsetLoop rpp (f :: rest) off) slot 0
        (f :: rest) =
      (sm + off + slot * f.field_size_) ::
        PAXPageHandle.fieldPtrs sm
          (TableHandle.fieldOffsetLoop rpp rest (off + f.field_size_ * rpp)) slot 0 rest := by
  simp only [TableHandle.fieldOffsetLoop, PAXPageHandle.fieldPtrs, List.getD_cons_zero]
  congr 1
  exact PAXPageHandle.fieldPtrs_shift sm slot [off] _ rest 0

theorem memRead_congr (m1 m2 : List Nat) (lo hi : Nat)
    (h : ∀ j, lo ≤ j → j < hi → m2[j]? = m1[j]?)
    (off n : Nat) (hlo : lo ≤ off) (hn : off + n ≤ hi) :
    memRead m2 off n = memRead m1 off n := by
  apply List.ext_getElem?
  intro i
  rw [getElem?_memRead, getElem?_memRead]
  by_cases hlt : i < n
  · simp only [hlt, if_true]
    exact h _ (by omega) (by omega)
  · simp only [hlt, if_false]

/-- The field writes of `PAXPageHandle::WriteSlot` keep the length of the page and every
byte before the column of the first field written. -/
theorem PAXPageHandle.writeFields_frame (sm rpp slot : Nat) (hslot : slot < rpp)
    (data : List Nat) :
    ∀ (fs : List RTField) (off total : Nat) (mem : List Nat),
      total + (fs.map RTField.field_size_).sum ≤ data.length →
      sm + off + rpp * (fs.map RTField.field_size_).sum ≤ mem.length →
      (PAXPageHandle.writeFields data
          (PAXPageHandle.fieldPtrs sm (TableHandle.fieldOffsetLoop rpp fs off) slot 0 fs)
          fs total mem).length = mem.length ∧
        ∀ j, j < sm + off →
          (PAXPageHandle.writeFields data
            (PAXPageHandle.fieldPtrs sm (TableHandle.fieldOffsetLoop rpp fs off) slot 0 fs)
            fs total mem)[j]? = mem[j]? := by
  intro fs
  induction fs with
  | nil =>
    intro off total mem _ _
    exact ⟨rfl, fun _ _ => rfl⟩
  | cons f rest ih =>
    intro off total mem hd hm
    rw [PAXPageHandle.fieldPtrs_cons]
    simp only [PAXPageHandle.writeFields]
    simp only [List.map_cons, List.sum_cons] at hd hm
    have hmul : (slot + 1) * f.field_size_ ≤ rpp * f.field_size_ :=
      Nat.mul_le_mul_right _ hslot
    rw [Nat.add_mul, Nat.one_mul, Nat.mul_comm rpp f.field_size_] at hmul
    rw [Nat.mul_add, Nat.mul_comm rpp f.field_size_] at hm
    have hc : (memRead data total f.field_size_).length = f.field_size_ :=
      memRead_length _ _ _ (by omega)
    have hw : sm + off + slot * f.field_size_ + (memRead data total f.field_size_).length ≤
        mem.length := by rw [hc]; omega
    have hl1 := memWrite_length _ _ _ hw
    obtain ⟨ihl, ihf⟩ := ih (off + f.field_size_ * rpp) (total + f.field_size_)
      (memWrite mem (sm + off + slot * f.field_size_) (memRead data total f.field_size_))
      (by omega) (by rw [hl1]; omega)
    refine ⟨by rw [ihl, hl1], ?_⟩
    intro j hj
    rw [ihf j (by omega), getElem?_memWrite _ _ _ hw, if_pos (by omega)]

/-- The field reads of `PAXPageHandle::ReadSlot` after the field writes of `WriteSlot`, on
the same slot: the buffer of the caller holds the written bytes of the fields, and its
other bytes are as before. -/
theorem PAXPageHandle.readFields_writeFields (sm rpp slot : Nat) (hslot : slot < rpp)
    (data : List Nat) :
    ∀ (fs : List RTField) (off total : Nat) (mem out : List Nat),
      total + (fs.map RTField.field_size_).sum ≤ data.length →
      out.length = data.length →
      sm + off + rpp * (fs.map RTField.field_size_).sum ≤ mem.length →
      ∀ (mem' : List Nat), (∀ j, sm + off ≤ j →
          j < sm + off + rpp * (fs.map RTField.field_size_).sum → mem'[j]? = (PAXPageHandle.writeFields data
            (PAXPageHandle.fieldPtrs sm (TableHandle.fieldOffsetLoop rpp fs off) slot 0 fs)
            fs total mem)[j]?) →
      (PAXPageHandle.readFields mem'
          (PAXPageHandle.fieldPtrs sm (TableHandle.fieldOffsetLoop rpp fs off) slot 0 fs)
          fs total out).length = out.length ∧
        ∀ j, (PAXPageHandle.readFields mem'
          (PAXPageHandle.fieldPtrs sm (TableHandle.fieldOffsetLoop rpp fs off) slot 0 fs)
          fs total out)[j]? =
          if total ≤ j ∧ j < total + (fs.map RTField.field_size_).sum then data[j]?
          else out[j]? := by
  intro fs
  induction fs with
  | nil =>
    intro off total mem out _ _ _ mem' _
    refine ⟨rfl, fun j => ?_⟩
    have : ¬ (total ≤ j ∧ j < total + (List.map RTField.field_size_ []).sum) := by
      simp only [List.map_nil, List.sum_nil]; omega
    rw [if_neg this]
    rfl
  | cons f rest ih =>
    intro off total mem out hd ho hm mem' hmem'
    rw [PAXPageHandle.fieldPtrs_cons] at hmem' ⊢
    simp only [PAXPageHandle.writeFields] at hmem'
    simp only [PAXPageHandle.readFields]
    simp only [List.map_cons, List.sum_cons] at hd hm hmem' ⊢
    have hmul : (slot + 1) * f.field_size_ ≤ rpp * f.field_size_ :=
      Nat.mul_le_mul_right _ hslot
    rw [Nat.add_mul, Nat.one_mul, Nat.mul_comm rpp f.field_size_] at hmul
    rw [Nat.mul_add, Nat.mul_comm rpp f.field_size_] at hm hmem'
    have hc : (memRead data total f.field_size_).length = f.field_size_ :=
      memRead_length _ _ _ (by omega)
    have hw : sm + off + slot * f.field_size_ + (memRead data total f.field_size_).length ≤
        mem.length := by rw [hc]; omega
    have hl1 := memWrite_length _ _ _ hw
    obtain ⟨_, hfr⟩ := PAXPageHandle.writeFields_frame sm rpp slot hslot data rest
      (off + f.field_size_ * rpp) (total + f.field_size_)
      (memWrite mem (sm + off + slot * f.field_size_) (memRead data total f.field_size_))
      (by omega) (by rw [hl1]; omega)
    have hchunk : memRead mem' (sm + off + slot * f.field_size_) f.field_size_ =
        memRead data total f.field_size_ := by
      rw [memRead_congr _ mem' (sm + off) (sm + off + f.field_size_ * rpp)
        (fun j hj1 hj => (hmem' j hj1 (by omega)).trans (hfr j (by omega))) _ _ (by omega)
        (by omega)]
      have := memRead_memWrite_same mem (sm + off + slot * f.field_size_)
        (memRead data total f.field_size_) hw
      rw [hc] at this
      exact this
    rw [hchunk]
    have hwo : total + (memRead data total f.field_size_).length ≤ out.length := by
      rw [hc, ho]; omega
    have hlo := memWrite_length _ _ _ hwo
    obtain ⟨ihl, ihr⟩ := ih (off + f.field_size_ * rpp) (total + f.field_size_)
      (memWrite mem (sm + off + slot * f.field_size_) (memRead data total f.field_size_))
      (memWrite out total (memRead data total f.field_size_))
      (by omega) (by rw [hlo, ho]) (by rw [hl1]; omega) mem'
      (fun j hj1 hj => hmem' j (by omega) (by omega))
    refine ⟨by rw [ihl, hlo], ?_⟩
    intro j
    rw [ihr j, getElem?_memWrite _ _ _ hwo, hc, getElem?_memRead]
    by_cases h1 : j < total
    · have n1 : ¬ (total + f.field_size_ ≤ j ∧
          j < total + f.field_size_ + (List.map RTField.field_size_ rest).sum) := by omega
      have n2 : ¬ (total ≤ j ∧
          j < total + (f.field_size_ + (List.map RTField.field_size_ rest).sum)) := by omega
      rw [if_neg n1, if_pos h1, if_neg n2]
    · by_cases h2 : j < total + f.field_size_
      · have n1 : ¬ (total + f.field_size_ ≤ j ∧
            j < total + f.field_size_ + (List.map RTField.field_size_ rest).sum) := by omega
        have p2 : total ≤ j ∧
            j < total + (f.field_size_ + (List.map RTField.field_size_ rest).sum) := by omega
        have p3 : j - total < f.field_size_ := by omega
        rw [if_neg n1, if_neg h1, if_pos h2, if_pos p3, if_pos p2]
        congr 1
        omega
      · by_cases h3 : j < total + f.field_size_ + (List.map RTField.field_size_ rest).sum
        · have p1 : total + f.field_size_ ≤ j ∧
              j < total + f.field_size_ + (List.map RTField.field_size_ rest).sum := by omega
          have p2 : total ≤ j ∧
              j < total + (f.field_size_ + (List.map RTField.field_size_ rest).sum) := by omega
          rw [if_pos p1, if_pos p2]
        · have n1 : ¬ (total + f.field_size_ ≤ j ∧
              j < total + f.field_size_ + (List.map RTField.field_size_ rest).sum) := by omega
          have n2 : ¬ (total ≤ j ∧
              j < total + (f.field_size_ + (List.map RTField.field_size_ rest).sum)) := by omega
          rw [if_neg n1, if_neg h1, if_neg h2, if_neg n2]

theorem getElem?_SetBit_ne (mem : List Nat) (bm pos : Nat) (v : Bool) (j : Nat)
    (hj : bm + pos / 8 ≠ j) : (BitMap.SetBit mem bm pos v)[j]? = mem[j]? := by
  unfold BitMap.SetBit
  rw [List.getElem?_set_ne hj]

theorem BitMap.GetBit_congr (m1 m2 : List Nat) (bm pos : Nat)
    (h : m2[bm + pos / 8]? = m1[bm + pos / 8]?) :
    BitMap.GetBit m2 bm pos = BitMap.GetBit m1 bm pos := by
  unfold BitMap.GetBit
  rw [List.getD_eq_getElem?_getD, List.getD_eq_getElem?_getD, h]

theorem PAX_new_ok (PAGE_HEADER_SIZE : Nat) (tab_hdr : TableHeader) (page : Page)
    (schema : List RTField) (offsets : List Nat) (h : PAXPageHandle)
    (hnew : PAXPageHandle.new PAGE_HEADER_SIZE tab_hdr page schema offsets = .ok h) :
    BITMAP_SIZE tab_hdr.rec_per_page_ = tab_hdr.bitmap_size_ ∧
      h = { tab_hdr_ := tab_hdr, page_ := page, bitmap_ := PAGE_HEADER_SIZE,
            slots_mem_ := PAGE_HEADER_SIZE + tab_hdr.bitmap_size_,
            schema_ := schema, offsets_ := offsets } := by
  unfold PAXPageHandle.new PageHandle.new at hnew
  by_cases hb : BITMAP_SIZE tab_hdr.rec_per_page_ = tab_hdr.bitmap_size_
  · rw [if_pos hb] at hnew
    injection hnew with hnew
    exact ⟨hb, hnew.symm⟩
  · rw [if_neg hb] at hnew
    cases hnew

/-- The round trip of the decomposed layout on a handle given by its fields. -/
theorem PAX_round_trip_aux (tab_hdr : TableHeader) (page : Page) (bm sm : Nat)
    (schema : List RTField) (slot_id : Nat) (null_map data nm_out data_out : List Nat)
    (hsum : (schema.map RTField.field_size_).sum = tab_hdr.rec_size_)
    (hbit : bm + slot_id / 8 < sm)
    (hfit : sm + tab_hdr.rec_per_page_ * (tab_hdr.nullmap_size_ + tab_hdr.rec_size_) ≤
      page.data_.length)
    (hslot : slot_id < tab_hdr.rec_per_page_)
    (hnm : null_map.length = tab_hdr.nullmap_size_)
    (hdata : data.length = tab_hdr.rec_size_)
    (hnmo : nm_out.length = tab_hdr.nullmap_size_)
    (hdo : data_out.length = tab_hdr.rec_size_) (update : Bool)
    (hupd : BitMap.GetBit page.data_ bm slot_id = update) :
    ∃ h1, PAXPageHandle.WriteSlot
        { tab_hdr_ := tab_hdr, page_ := page, bitmap_ := bm, slots_mem_ := sm,
          schema_ := schema, offsets_ := TableHandle.field_offset_ tab_hdr schema }
        slot_id null_map data update = (.ok (), h1) ∧
      PAXPageHandle.ReadSlot (h1.SetBit slot_id true) slot_id nm_out data_out =
        .ok (null_map, data) ∧
      (update = true →
        PAXPageHandle.ReadSlot h1 slot_id nm_out data_out = .ok (null_map, data)) := by
  obtain ⟨rs, nms, bs, rpp, pn, rn, ffp⟩ := tab_hdr
  obtain ⟨fid, pid, mem⟩ := page
  simp only at hsum hbit hfit hslot hnm hdata hnmo hdo hupd
  have hmul : (slot_id + 1) * nms ≤ rpp * nms := Nat.mul_le_mul_right _ hslot
  rw [Nat.add_mul, Nat.one_mul, Nat.mul_comm rpp nms] at hmul
  rw [Nat.mul_add, Nat.mul_comm rpp nms] at hfit
  have hr1 : memRead null_map 0 nms = null_map := by rw [← hnm]; exact memRead_zero_length _
  have hw1 : sm + slot_id * nms + null_map.length ≤ mem.length := by omega
  have hl1 : (memWrite mem (sm + slot_id * nms) null_map).length = mem.length :=
    memWrite_length _ _ _ hw1
  obtain ⟨mem2, hmem2⟩ : ∃ m, m = PAXPageHandle.writeFields data
      (PAXPageHandle.fieldPtrs sm (TableHandle.fieldOffsetLoop rpp schema (nms * rpp))
        slot_id 0 schema) schema 0 (memWrite mem (sm + slot_id * nms) null_map) := ⟨_, rfl⟩
  obtain ⟨hl2, hfr⟩ := PAXPageHandle.writeFields_frame sm rpp slot_id hslot data schema
    (nms * rpp) 0 (memWrite mem (sm + slot_id * nms) null_map)
    (by rw [hsum, hdata]; omega) (by rw [hl1, hsum]; omega)
  rw [← hmem2] at hl2 hfr
  have hg : BitMap.GetBit mem2 bm slot_id = update := by
    rw [BitMap.GetBit_congr _ mem2 bm slot_id (hfr _ (by omega)),
      BitMap.GetBit_memWrite _ _ _ hw1 _ _ (by omega)]
    exact hupd
  have hgs : BitMap.GetBit (BitMap.SetBit mem2 bm slot_id true) bm slot_id = true :=
    BitMap.GetBit_SetBit_true _ _ _ (by rw [hl2, hl1]; omega)
  have e1 : memRead mem2 (sm + slot_id * nms) nms = null_map := by
    rw [memRead_congr _ mem2 0 (sm + nms * rpp) (fun j _ hj => hfr j hj) _ _ (Nat.zero_le _)
      (by omega)]
    have := memRead_memWrite_same mem (sm + slot_id * nms) null_map hw1
    rw [hnm] at this
    exact this
  have hgather : ∀ mem', (∀ j, sm + nms * rpp ≤ j → mem'[j]? = mem2[j]?) →
      PAXPageHandle.readFields mem'
        (PAXPageHandle.fieldPtrs sm (TableHandle.fieldOffsetLoop rpp schema (nms * rpp))
          slot_id 0 schema) schema 0 data_out = data := by
    intro mem' hm'
    obtain ⟨hlen, hpt⟩ := PAXPageHandle.readFields_writeFields sm rpp slot_id hslot data
      schema (nms * rpp) 0 (memWrite mem (sm + slot_id * nms) null_map) data_out
      (by rw [hsum, hdata]; omega) (by rw [hdo, hdata]) (by rw [hl1, hsum]; omega) mem'
      (fun j hj1 _ => by rw [← hmem2]; exact hm' j hj1)
    apply List.ext_getElem?
    intro j
    rw [hpt j, hsum]
    by_cases hj : j < rs
    · rw [if_pos ⟨Nat.zero_le _, by omega⟩]
    · rw [if_neg (by omega), List.getElem?_eq_none (by omega),
        List.getElem?_eq_none (by omega)]
  refine ⟨{ tab_hdr_ := ⟨rs, nms, bs, rpp, pn, rn, ffp⟩, page_ := ⟨fid, pid, mem2⟩,
            bitmap_ := bm, slots_mem_ := sm, schema_ := schema,
            offsets_ := TableHandle.field_offset_ ⟨rs, nms, bs, rpp, pn, rn, ffp⟩ schema },
    ?_, ?_, ?_⟩
  · unfold PAXPageHandle.WriteSlot
    simp only [PageHandle.GetBit, hslot, not_true_eq_false, if_false, hupd, ne_eq, hr1,
      hmem2, TableHandle.field_offset_]
  · unfold PAXPageHandle.ReadSlot
    simp only [PAXPageHandle.SetBit, PageHandle.GetBit, PageHandle.SetBit, hslot,
      not_true_eq_false, if_false, hgs, ne_eq, TableHandle.field_offset_]
    rw [memRead_SetBit _ _ _ _ _ _ (by omega), e1, memWrite_whole _ _ (by rw [hnm, hnmo]),
      hgather _ (fun j hj => getElem?_SetBit_ne _ _ _ _ _ (by omega))]
  · intro hu
    rw [hu] at hg
    unfold PAXPageHandle.ReadSlot
    simp only [PageHandle.GetBit, hslot, not_true_eq_false, if_false, hg, ne_eq,
      TableHandle.field_offset_]
    rw [e1, memWrite_whole _ _ (by rw [hnm, hnmo]), hgather _ (fun _ _ => rfl)]

/-- C20: round trip of the decomposed layout. Let `h` be the handle that the constructor
`PAXPageHandle` builds from a schema whose field sizes sum to `rec_size_`, with the field
offsets that the constructor of the table handle computes, over a page whose bytes hold
the page header, the bitmap, `rec_per_page_` null-maps and the columns of the fields. For
every `slot_id < rec_per_page_`, every null-map of `nullmap_size_` bytes and every data
block of `rec_size_` bytes: if the bit of the slot is clear, `WriteSlot` in insert mode
succeeds and, once the bit of the slot is set, `ReadSlot` on that slot fills the buffers of
the caller with exactly that null-map and with exactly those data bytes, field after field
in the order of the schema; if the bit of the slot is set, `WriteSlot` in update mode
succeeds and `ReadSlot` on that slot returns them likewise. -/
theorem PAX_write_read_round_trip (PAGE_HEADER_SIZE : Nat) (tab_hdr : TableHeader)
    (page : Page) (schema : List RTField) (h : PAXPageHandle)
    (hnew : PAXPageHandle.new PAGE_HEADER_SIZE tab_hdr page schema
      (TableHandle.field_offset_ tab_hdr schema) = .ok h)
    (hsum : (schema.map RTField.field_size_).sum = tab_hdr.rec_size_)
    (hfit : PAGE_HEADER_SIZE + tab_hdr.bitmap_size_ +
      tab_hdr.rec_per_page_ * (tab_hdr.nullmap_size_ + tab_hdr.rec_size_) ≤ page.data_.length)
    (slot_id : Nat) (hslot : slot_id < tab_hdr.rec_per_page_)
    (null_map data nm_out data_out : List Nat)
    (hnm : null_map.length = tab_hdr.nullmap_size_) (hdata : data.length = tab_hdr.rec_size_)
    (hnmo : nm_out.length = tab_hdr.nullmap_size_)
    (hdo : data_out.length = tab_hdr.rec_size_) :
    (h.toPageHandle.GetBit slot_id = false →
      ∃ h1, PAXPageHandle.WriteSlot h slot_id null_map data false = (.ok (), h1) ∧
        PAXPageHandle.ReadSlot (h1.SetBit slot_id true) slot_id nm_out data_out =
          .ok (null_map, data)) ∧
    (h.toPageHandle.GetBit slot_id = true →
      ∃ h1, PAXPageHandle.WriteSlot h slot_id null_map data true = (.ok (), h1) ∧
        PAXPageHandle.ReadSlot h1 slot_id nm_out data_out = .ok (null_map, data)) := by
  obtain ⟨hbs, rfl⟩ := PAX_new_ok _ _ _ _ _ _ hnew
  have hbit : PAGE_HEADER_SIZE + slot_id / 8 < PAGE_HEADER_SIZE + tab_hdr.bitmap_size_ := by
    rw [← hbs]
    unfold BITMAP_SIZE
    omega
  constructor
  · intro hb
    obtain ⟨h1, hw, hr, _⟩ := PAX_round_trip_aux tab_hdr page _ _ schema slot_id
      null_map data nm_out data_out hsum hbit hfit hslot hnm hdata hnmo hdo false hb
    exact ⟨h1, hw, hr⟩
  · intro hb
    obtain ⟨h1, hw, _, hr⟩ := PAX_round_trip_aux tab_hdr page _ _ schema slot_id
      null_map data nm_out data_out hsum hbit hfit hslot hnm hdata hnmo hdo true hb
    exact ⟨h1, hw, hr rfl⟩

/-- An instance of C20: on `paxPage` (two slots, a field of one byte and a field of two
bytes, slot 0 occupied and slot 1 empty), slot 1 is written in insert mode and slot 0 in
update mode, and each is read back. -/
theorem PAX_write_read_round_trip_witness :
    (∃ h1, PAXPageHandle.WriteSlot paxHandle 1 [1] [7, 8, 9] false = (.ok (), h1) ∧
      PAXPageHandle.ReadSlot (h1.SetBit 1 true) 1 [0] [0, 0, 0] = .ok ([1], [7, 8, 9])) ∧
    (∃ h1, PAXPageHandle.WriteSlot paxHandle 0 [1] [7, 8, 9] true = (.ok (), h1) ∧
      PAXPageHandle.ReadSlot h1 0 [0] [0, 0, 0] = .ok ([1], [7, 8, 9])) :=
  ⟨(PAX_write_read_round_trip 2 paxHeader paxPage paxSchema paxHandle (by decide) (by decide)
      (by decide) 1 (by decide) [1] [7, 8, 9] [0] [0, 0, 0] rfl rfl rfl rfl).1 (by decide),
    (PAX_write_read_round_trip 2 paxHeader paxPage paxSchema paxHandle (by decide) (by decide)
      (by decide) 0 (by decide) [1] [7, 8, 9] [0] [0, 0, 0] rfl rfl rfl rfl).2 (by decide)⟩

/-- C22: for both page-handle variants, `WriteSlot(slot_id, null_map, data, is_update)`
raises the assertion failure exactly when `slot_id >= rec_per_page_` or the bit of the
slot differs from `is_update`; it returns normally otherwise; and when it raises, the
handle and its page, byte for byte, are as they were before the call. -/
theorem WriteSlot_assertion_exact (hN : PageHandle) (hP : PAXPageHandle) (slot_id : Nat)
    (null_map data : List Nat) (is_update : Bool) :
    ((NAryPageHandle.WriteSlot hN slot_id null_map data is_update).1 =
        .error HandleExn.assertion_failed ↔
      (hN.tab_hdr_.rec_per_page_ ≤ slot_id ∨ hN.GetBit slot_id ≠ is_update)) ∧
    ((NAryPageHandle.WriteSlot hN slot_id null_map data is_update).1 = .ok () ↔
      ¬ (hN.tab_hdr_.rec_per_page_ ≤ slot_id ∨ hN.GetBit slot_id ≠ is_update)) ∧
    ((NAryPageHandle.WriteSlot hN slot_id null_map data is_update).1 =
        .error HandleExn.assertion_failed →
      (NAryPageHandle.WriteSlot hN slot_id null_map data is_update).2 = hN) ∧
    ((PAXPageHandle.WriteSlot hP slot_id null_map data is_update).1 =
        .error HandleExn.assertion_failed ↔
      (hP.tab_hdr_.rec_per_page_ ≤ slot_id ∨ hP.toPageHandle.GetBit slot_id ≠ is_update)) ∧
    ((PAXPageHandle.WriteSlot hP slot_id null_map data is_update).1 = .ok () ↔
      ¬ (hP.tab_hdr_.rec_per_page_ ≤ slot_id ∨
          hP.toPageHandle.GetBit slot_id ≠ is_update)) ∧
    ((PAXPageHandle.WriteSlot hP slot_id null_map data is_update).1 =
        .error HandleExn.assertion_failed →
      (PAXPageHandle.WriteSlot hP slot_id null_map data is_update).2 = hP) := by
  unfold NAryPageHandle.WriteSlot PAXPageHandle.WriteSlot
  refine ⟨?_, ?_, ?_, ?_, ?_, ?_⟩
  · by_cases h1 : slot_id < hN.tab_hdr_.rec_per_page_
    · by_cases h2 : hN.GetBit slot_id = is_update
      · simp [h1, h2]
      · simp [h1, h2]
    · simp [h1]
      exact Or.inl (Nat.le_of_not_lt h1)
  · by_cases h1 : slot_id < hN.tab_hdr_.rec_per_page_
    · by_cases h2 : hN.GetBit slot_id = is_update
      · simp [h1, h2]
      · simp [h1, h2]
    · simp [h1]
  · by_cases h1 : slot_id < hN.tab_hdr_.rec_per_page_
    · by_cases h2 : hN.GetBit slot_id = is_update
      · simp [h1, h2]
      · simp [h1, h2]
    · simp [h1]
  · by_cases h1 : slot_id < hP.tab_hdr_.rec_per_page_
    · by_cases h2 : hP.toPageHandle.GetBit slot_id = is_update
      · simp [h1, h2]
      · simp [h1, h2]
    · simp [h1]
      exact Or.inl (Nat.le_of_not_lt h1)
  · by_cases h1 : slot_id < hP.tab_hdr_.rec_per_page_
    · by_cases h2 : hP.toPageHandle.GetBit slot_id = is_update
      · simp [h1, h2]
      · simp [h1, h2]
    · simp [h1]
  · by_cases h1 : slot_id < hP.tab_hdr_.rec_per_page_
    · by_cases h2 : hP.toPageHandle.GetBit slot_id = is_update
      · simp [h1, h2]
      · simp [h1, h2]
    · simp [h1]

/-- C23 (fails on the code): on the page `chunkPage` the table has the fields of
`paxSchema`, a field of one byte and a field of two bytes. `ReadSlot` returns for slot 0 the bytes `[11, 12]`
of the second field, and for slot 1 a null-map with the bit of the second field set. For
the chunk schema made of the second field only, `ReadChunk` returns a column read from
the column and the null-map bit of the first field: `[10, 20]` for slot 0 and a value,
not null, for slot 1. -/
theorem ReadChunk_subset_reads_first_column :
    PAXPageHandle.ReadSlot chunkHandle 0 [0] [0, 0, 0] = .ok ([0], [10, 11, 12]) ∧
    PAXPageHandle.ReadSlot chunkHandle 1 [0] [0, 0, 0] = .ok ([2], [20, 21, 22]) ∧
    PAXPageHandle.ReadSlot chunkHandle 3 [0] [0, 0, 0] = .ok ([0], [40, 41, 42]) ∧
    PAXPageHandle.ReadChunk chunkHandle [paxSchema.getD 1 default] =
      [[Value.value 1 [10, 20], Value.value 1 [30, 40], Value.value 1 [21, 22]]] ∧
    PAXPageHandle.ReadChunk chunkHandle [paxSchema.getD 1 default] ≠
      [[Value.value 1 [11, 12], Value.null 1, Value.value 1 [41, 42]]] := by
  decide

/-- The slot loop of `processField` appends one value for each occupied slot. -/
theorem PAXPageHandle.processField_eq_filterMap (h : PAXPageHandle)
    (chunk_schema : List RTField) (field_idx : Nat) :
    h.processField chunk_schema field_idx =
      (List.range h.tab_hdr_.rec_per_page_).filterMap (fun slot_id =>
        if BitMap.GetBit h.page_.data_ h.bitmap_ slot_id = true then
          some
            (if BitMap.GetBit h.page_.data_
                (h.slots_mem_ + slot_id * h.tab_hdr_.nullmap_size_) field_idx = true then
              Value.null (chunk_schema.getD field_idx default).field_type_
            else
              Value.value (chunk_schema.getD field_idx default).field_type_
                (memRead h.page_.data_
                  (h.slots_mem_ + h.offsets_.getD field_idx 0 +
                    slot_id * (chunk_schema.getD field_idx default).field_size_)
                  (chunk_schema.getD field_idx default).field_size_))
        else none) := by
  unfold PAXPageHandle.processField
  generalize List.range h.tab_hdr_.rec_per_page_ = l
  suffices H : ∀ (init : List Value),
      l.foldl (fun array_value slot_id =>
        if ¬ BitMap.GetBit h.page_.data_ h.bitmap_ slot_id then array_value
        else
          let null_map_ptr := h.slots_mem_ + slot_id * h.tab_hdr_.nullmap_size_
          if BitMap.GetBit h.page_.data_ null_map_ptr field_idx then
            array_value ++ [Value.null (chunk_schema.getD field_idx default).field_type_]
          else
            let field_data := h.slots_mem_ + h.offsets_.getD field_idx 0 +
              slot_id * (chunk_schema.getD field_idx default).field_size_
            array_value ++
              [Value.value (chunk_schema.getD field_idx default).field_type_
                (memRead h.page_.data_ field_data
                  (chunk_schema.getD field_idx default).field_size_)]) init =
      init ++ l.filterMap (fun slot_id =>
        if BitMap.GetBit h.page_.data_ h.bitmap_ slot_id = true then
          some
            (if BitMap.GetBit h.page_.data_
                (h.slots_mem_ + slot_id * h.tab_hdr_.nullmap_size_) field_idx = true then
              Value.null (chunk_schema.getD field_idx default).field_type_
            else
              Value.value (chunk_schema.getD field_idx default).field_type_
                (memRead h.page_.data_
                  (h.slots_mem_ + h.offsets_.getD field_idx 0 +
                    slot_id * (chunk_schema.getD field_idx default).field_size_)
                  (chunk_schema.getD field_idx default).field_size_))
        else none) by
    simpa using H []
  induction l with
  | nil => intro init; simp
  | cons s rest ih =>
    intro init
    rw [List.foldl_cons, ih, List.filterMap_cons]
    by_cases hb : BitMap.GetBit h.page_.data_ h.bitmap_ s = true
    · by_cases hn : BitMap.GetBit h.page_.data_
          (h.slots_mem_ + s * h.tab_hdr_.nullmap_size_) field_idx = true
      · simp [hb, hn]
      · simp [hb, hn]
    · simp [hb]

/-- The field reads of `PAXPageHandle::ReadSlot` keep the length of the buffer of the
caller and its bytes outside the range of the fields. -/
theorem PAXPageHandle.readFields_outside (mem : List Nat) (sm rpp slot : Nat)
    (hslot : slot < rpp) :
    ∀ (fs : List RTField) (off total : Nat) (out : List Nat),
      total + (fs.map RTField.field_size_).sum ≤ out.length →
      sm + off + rpp * (fs.map RTField.field_size_).sum ≤ mem.length →
      (PAXPageHandle.readFields mem
          (PAXPageHandle.fieldPtrs sm (TableHandle.fieldOffsetLoop rpp fs off) slot 0 fs)
          fs total out).length = out.length ∧
        ∀ j, (j < total ∨ total + (fs.map RTField.field_size_).sum ≤ j) →
          (PAXPageHandle.readFields mem
            (PAXPageHandle.fieldPtrs sm (TableHandle.fieldOffsetLoop rpp fs off) slot 0 fs)
            fs total out)[j]? = out[j]? := by
  intro fs
  induction fs with
  | nil =>
    intro off total out _ _
    exact ⟨rfl, fun _ _ => rfl⟩
  | cons f rest ih =>
    intro off total out ho hm
    rw [PAXPageHandle.fieldPtrs_cons]
    simp only [PAXPageHandle.readFields]
    simp only [List.map_cons, List.sum_cons] at ho hm ⊢
    have hmul : (slot + 1) * f.field_size_ ≤ rpp * f.field_size_ :=
      Nat.mul_le_mul_right _ hslot
    rw [Nat.add_mul, Nat.one_mul, Nat.mul_comm rpp f.field_size_] at hmul
    rw [Nat.mul_add, Nat.mul_comm rpp f.field_size_] at hm
    have hc : (memRead mem (sm + off + slot * f.field_size_) f.field_size_).length =
        f.field_size_ := memRead_length _ _ _ (by omega)
    have hw : total + (memRead mem (sm + off + slot * f.field_size_) f.field_size_).length ≤
        out.length := by rw [hc]; omega
    have hl1 := memWrite_length _ _ _ hw
    obtain ⟨ihl, ihf⟩ := ih (off + f.field_size_ * rpp) (total + f.field_size_)
      (memWrite out total (memRead mem (sm + off + slot * f.field_size_) f.field_size_))
      (by rw [hl1]; omega) (by omega)
    refine ⟨by rw [ihl, hl1], ?_⟩
    intro j hj
    rw [ihf j (by omega), getElem?_memWrite _ _ _ hw, hc]
    rcases hj with hj | hj
    · rw [if_pos hj]
    · rw [if_neg (by omega), if_neg (by omega)]

/-- The bytes of field `k` in the buffer that the field reads of `ReadSlot` fill are the
bytes of the slot in the column of the field. -/
theorem PAXPageHandle.readFields_field (mem : List Nat) (sm rpp slot : Nat)
    (hslot : slot < rpp) :
    ∀ (fs : List RTField) (off total : Nat) (out : List Nat) (k : Nat),
      k < fs.length →
      total + (fs.map RTField.field_size_).sum ≤ out.length →
      sm + off + rpp * (fs.map RTField.field_size_).sum ≤ mem.length →
      memRead
          (PAXPageHandle.readFields mem
            (PAXPageHandle.fieldPtrs sm (TableHandle.fieldOffsetLoop rpp fs off) slot 0 fs)
            fs total out)
          (total + ((fs.take k).map RTField.field_size_).sum)
          (fs.getD k default).field_size_ =
        memRead mem
          (sm + (TableHandle.fieldOffsetLoop rpp fs off).getD k 0 +
            slot * (fs.getD k default).field_size_)
          (fs.getD k default).field_size_ := by
  intro fs
  induction fs with
  | nil => intro off total out k hk; cases hk
  | cons f rest ih =>
    intro off total out k hk ho hm
    rw [PAXPageHandle.fieldPtrs_cons]
    simp only [PAXPageHandle.readFields]
    simp only [List.map_cons, List.sum_cons] at ho hm
    have hmul : (slot + 1) * f.field_size_ ≤ rpp * f.field_size_ :=
      Nat.mul_le_mul_right _ hslot
    rw [Nat.add_mul, Nat.one_mul, Nat.mul_comm rpp f.field_size_] at hmul
    rw [Nat.mul_add, Nat.mul_comm rpp f.field_size_] at hm
    have hc : (memRead mem (sm + off + slot * f.field_size_) f.field_size_).length =
        f.field_size_ := memRead_length _ _ _ (by omega)
    have hw : total + (memRead mem (sm + off + slot * f.field_size_) f.field_size_).length ≤
        out.length := by rw [hc]; omega
    have hl1 := memWrite_length _ _ _ hw
    cases k with
    | zero =>
      simp only [List.take_zero, List.map_nil, List.sum_nil, Nat.add_zero,
        List.getD_cons_zero, TableHandle.fieldOffsetLoop]
      obtain ⟨_, hout⟩ := PAXPageHandle.readFields_outside mem sm rpp slot hslot rest
        (off + f.field_size_ * rpp) (total + f.field_size_)
        (memWrite out total (memRead mem (sm + off + slot * f.field_size_) f.field_size_))
        (by rw [hl1]; omega) (by omega)
      rw [memRead_congr _ _ 0 (total + f.field_size_)
        (fun j _ hj => hout j (Or.inl hj)) _ _ (Nat.zero_le _) (Nat.le_refl _)]
      have := memRead_memWrite_same out total
        (memRead mem (sm + off + slot * f.field_size_) f.field_size_) hw
      rw [hc] at this
      exact this
    | succ k =>
      simp only [List.take_succ_cons, List.map_cons, List.sum_cons, List.getD_cons_succ,
        TableHandle.fieldOffsetLoop]
      have := ih (off + f.field_size_ * rpp) (total + f.field_size_)
        (memWrite out total (memRead mem (sm + off + slot * f.field_size_) f.field_size_))
        k (Nat.lt_of_succ_lt_succ hk) (by rw [hl1]; omega) (by omega)
      rw [← Nat.add_assoc]
      exact this

theorem length_filterMap_ite {α β : Type} (p : α → Bool) (g : α → β) (l : List α) :
    (l.filterMap (fun x => if p x = true then some (g x) else none)).length =
      (l.filter p).length := by
  induction l with
  | nil => rfl
  | cons a rest ih =>
    rw [List.filterMap_cons, List.filter_cons]
    cases hp : p a
    · simp only [Bool.false_eq_true, if_false]
      exact ih
    · simp only [if_true, List.length_cons, ih]

theorem filterMap_filter_ite {α β : Type} (p : α → Bool) (g : α → Option β) (l : List α) :
    (l.filter p).filterMap g = l.filterMap (fun x => if p x = true then g x else none) := by
  induction l with
  | nil => rfl
  | cons a rest ih =>
    rw [List.filterMap_cons, List.filter_cons]
    cases hp : p a
    · simp only [Bool.false_eq_true, if_false]
      exact ih
    · simp only [if_true, List.filterMap_cons, ih]

/-- For one slot, the entry that `processField` appends for field `f` of the schema of the
table is the value of field `f` in the record that `ReadSlot` returns. -/
theorem PAXPageHandle.processField_slot (tab_hdr : TableHeader) (page : Page) (bm sm : Nat)
    (schema : List RTField) (f slot_id : Nat) (nm_out data_out : List Nat)
    (hsum : (schema.map RTField.field_size_).sum = tab_hdr.rec_size_)
    (hfit : sm + tab_hdr.rec_per_page_ * (tab_hdr.nullmap_size_ + tab_hdr.rec_size_) ≤
      page.data_.length)
    (hnull : schema.length ≤ 8 * tab_hdr.nullmap_size_)
    (hf : f < schema.length) (hslot : slot_id < tab_hdr.rec_per_page_)
    (hnmo : nm_out.length = tab_hdr.nullmap_size_)
    (hdo : data_out.length = tab_hdr.rec_size_) :
    (if BitMap.GetBit page.data_ bm slot_id = true then
        some
          (if BitMap.GetBit page.data_ (sm + slot_id * tab_hdr.nullmap_size_) f = true then
            Value.null (schema.getD f default).field_type_
          else
            Value.value (schema.getD f default).field_type_
              (memRead page.data_
                (sm + (TableHandle.field_offset_ tab_hdr schema).getD f 0 +
                  slot_id * (schema.getD f default).field_size_)
                (schema.getD f default).field_size_))
      else none) =
    PAXPageHandle.readSlotField
      { tab_hdr_ := tab_hdr, page_ := page, bitmap_ := bm, slots_mem_ := sm,
        schema_ := schema, offsets_ := TableHandle.field_offset_ tab_hdr schema }
      f slot_id nm_out data_out := by
  obtain ⟨rs, nms, bs, rpp, pn, rn, ffp⟩ := tab_hdr
  obtain ⟨fid, pid, mem⟩ := page
  simp only at hsum hfit hnull hslot hnmo hdo
  unfold PAXPageHandle.readSlotField PAXPageHandle.ReadSlot
  simp only [PageHandle.GetBit, hslot, not_true_eq_false, if_false, ne_eq,
    TableHandle.field_offset_]
  cases hb : BitMap.GetBit mem bm slot_id
  · simp
  · simp only [if_true, not_true_eq_false, if_false]
    have hmul : (slot_id + 1) * nms ≤ rpp * nms := Nat.mul_le_mul_right _ hslot
    rw [Nat.add_mul, Nat.one_mul, Nat.mul_comm rpp nms] at hmul
    rw [Nat.mul_add, Nat.mul_comm rpp nms] at hfit
    have hnl : (memRead mem (sm + slot_id * nms) nms).length = nms :=
      memRead_length _ _ _ (by omega)
    rw [memWrite_whole _ _ (by rw [hnl, hnmo])]
    unfold Record.fieldValue
    have hbit : BitMap.GetBit (memRead mem (sm + slot_id * nms) nms) 0 f =
        BitMap.GetBit mem (sm + slot_id * nms) f := by
      unfold BitMap.GetBit
      rw [List.getD_eq_getElem?_getD, List.getD_eq_getElem?_getD, getElem?_memRead,
        if_pos (by omega), Nat.zero_add]
    have hfield := PAXPageHandle.readFields_field mem sm rpp slot_id hslot schema (nms * rpp)
      0 data_out f hf (by rw [hsum, hdo]; omega) (by rw [hsum]; omega)
    rw [Nat.zero_add] at hfield
    rw [hbit, hfield]

/-- C24: chunk read over the schema of the table. Let `h` be the decomposed handle that the
constructor builds from the schema of the table, with the field offsets of the table
handle, over a page that holds the whole layout, every field having its bit in the
null-map. `ReadChunk` over the schema of the table returns one column per field. Column
`f` is the list, over the occupied slots in ascending order, of the value of field `f` in
the record that `ReadSlot` returns for the slot (the null marker when bit `f` of its
null-map is set); `ReadSlot` returns a record for each occupied slot, so the length of
the column is the number of occupied slots and an empty slot has no entry. -/
theorem ReadChunk_full_schema (PAGE_HEADER_SIZE : Nat) (tab_hdr : TableHeader) (page : Page)
    (schema : List RTField) (h : PAXPageHandle)
    (hnew : PAXPageHandle.new PAGE_HEADER_SIZE tab_hdr page schema
      (TableHandle.field_offset_ tab_hdr schema) = .ok h)
    (hsum : (schema.map RTField.field_size_).sum = tab_hdr.rec_size_)
    (hfit : PAGE_HEADER_SIZE + tab_hdr.bitmap_size_ +
      tab_hdr.rec_per_page_ * (tab_hdr.nullmap_size_ + tab_hdr.rec_size_) ≤ page.data_.length)
    (hnull : schema.length ≤ 8 * tab_hdr.nullmap_size_)
    (nm_out data_out : List Nat) (hnmo : nm_out.length = tab_hdr.nullmap_size_)
    (hdo : data_out.length = tab_hdr.rec_size_) :
    (h.ReadChunk schema).length = schema.length ∧
    ∀ f, f < schema.length →
      (h.ReadChunk schema).getD f [] =
        h.toPageHandle.occupiedSlots.filterMap
          (fun slot_id => h.readSlotField f slot_id nm_out data_out) ∧
      ((h.ReadChunk schema).getD f []).length = h.toPageHandle.occupiedSlots.length ∧
      ∀ slot_id, slot_id ∈ h.toPageHandle.occupiedSlots →
        ∃ nm d, h.ReadSlot slot_id nm_out data_out = .ok (nm, d) ∧
          h.readSlotField f slot_id nm_out data_out =
            some (Record.fieldValue schema f nm d) := by
  obtain ⟨_, rfl⟩ := PAX_new_ok _ _ _ _ _ _ hnew
  refine ⟨by simp [PAXPageHandle.ReadChunk], ?_⟩
  intro f hf
  have hcol : (PAXPageHandle.ReadChunk
      { tab_hdr_ := tab_hdr, page_ := page, bitmap_ := PAGE_HEADER_SIZE,
        slots_mem_ := PAGE_HEADER_SIZE + tab_hdr.bitmap_size_, schema_ := schema,
        offsets_ := TableHandle.field_offset_ tab_hdr schema } schema).getD f [] =
      (List.range tab_hdr.rec_per_page_).filterMap (fun slot_id =>
        if BitMap.GetBit page.data_ PAGE_HEADER_SIZE slot_id = true then
          some
            (if BitMap.GetBit page.data_
                (PAGE_HEADER_SIZE + tab_hdr.bitmap_size_ + slot_id * tab_hdr.nullmap_size_)
                f = true then
              Value.null (schema.getD f default).field_type_
            else
              Value.value (schema.getD f default).field_type_
                (memRead page.data_
                  (PAGE_HEADER_SIZE + tab_hdr.bitmap_size_ +
                    (TableHandle.field_offset_ tab_hdr schema).getD f 0 +
                    slot_id * (schema.getD f default).field_size_)
                  (schema.getD f default).field_size_))
        else none) := by
    unfold PAXPageHandle.ReadChunk
    rw [List.getD_eq_getElem?_getD, List.getElem?_map, List.getElem?_range hf]
    exact PAXPageHandle.processField_eq_filterMap _ schema f
  refine ⟨?_, ?_, ?_⟩
  · rw [hcol]
    unfold PageHandle.occupiedSlots
    rw [filterMap_filter_ite]
    apply List.filterMap_congr
    intro s hs
    have hs' : s < tab_hdr.rec_per_page_ := List.mem_range.1 hs
    have := PAXPageHandle.processField_slot tab_hdr page PAGE_HEADER_SIZE
      (PAGE_HEADER_SIZE + tab_hdr.bitmap_size_) schema f s nm_out data_out hsum hfit hnull hf
      hs' hnmo hdo
    simp only [PageHandle.GetBit]
    by_cases hb : BitMap.GetBit page.data_ PAGE_HEADER_SIZE s = true
    · rw [if_pos hb] at this
      rw [if_pos hb, if_pos hb]
      exact this
    · rw [if_neg hb, if_neg hb]
  · rw [hcol]
    exact length_filterMap_ite _ _ _
  · intro s hs
    unfold PageHandle.occupiedSlots at hs
    obtain ⟨hs1, hs2⟩ := List.mem_filter.1 hs
    have hs' : s < tab_hdr.rec_per_page_ := List.mem_range.1 hs1
    unfold PAXPageHandle.readSlotField PAXPageHandle.ReadSlot
    simp only [hs', hs2, not_true_eq_false, if_false, ne_eq]
    exact ⟨_, _, rfl, rfl⟩

/-- An instance of C24: on `chunkPage`, with slots 0, 1 and 3 of 4 occupied, the column of
the second field has three entries, the second of them the null marker. -/
theorem ReadChunk_full_schema_witness :
    (chunkHandle.ReadChunk paxSchema).length = 2 ∧
    (chunkHandle.ReadChunk paxSchema).getD 1 [] =
      [Value.value 1 [11, 12], Value.null 1, Value.value 1 [41, 42]] ∧
    chunkHandle.toPageHandle.occupiedSlots = [0, 1, 3] ∧
    ∀ f, f < paxSchema.length →
      (chunkHandle.ReadChunk paxSchema).getD f [] =
        chunkHandle.toPageHandle.occupiedSlots.filterMap
          (fun slot_id => chunkHandle.readSlotField f slot_id [0] [0, 0, 0]) ∧
      ((chunkHandle.ReadChunk paxSchema).getD f []).length =
        chunkHandle.toPageHandle.occupiedSlots.length ∧
      ∀ slot_id, slot_id ∈ chunkHandle.toPageHandle.occupiedSlots →
        ∃ nm d, chunkHandle.ReadSlot slot_id [0] [0, 0, 0] = .ok (nm, d) ∧
          chunkHandle.readSlotField f slot_id [0] [0, 0, 0] =
            some (Record.fieldValue paxSchema f nm d) :=
  ⟨by decide, by decide, by decide,
    (ReadChunk_full_schema 2 chunkHeader chunkPage paxSchema chunkHandle (by decide)
      (by decide) (by decide) (by decide) [0] [0, 0, 0] rfl rfl).2⟩

/-- C25 (fails on the code): in `demoTable1` the free-page list is not empty:
`first_free_page_` is page 1, which has one of its four slots occupied, and
`CreatePageHandle` returns a handle over page 1. `InsertRecord(record)` still allocates a
new page: it returns the RID (2, 0), not a RID of page 1, and `page_num_` grows from 2
to 3. -/
theorem InsertRecord_ignores_free_page :
    demoTable1.tab_hdr_.first_free_page_ = 1 ∧
    demoTable1.tab_hdr_.page_num_ = 2 ∧
    demoTable1.slotOccupied ⟨1, 0⟩ = true ∧ demoTable1.slotOccupied ⟨1, 1⟩ = false ∧
    (match (demoTable1.CreatePageHandle).1 with
      | .ok r => some r.2.GetPage.GetPageId
      | .error _ => none) = some 1 ∧
    (demoTable1.InsertRecord demoRecord).1 = .ok ⟨2, 0⟩ ∧
    (demoTable1.InsertRecord demoRecord).2.tab_hdr_.page_num_ = 3 := by
  decide

/-- C26 (fails on the code): the record count stored in the page is written with the
value read before the mutation. Page 1 of `demoTable` starts empty with a stored count of 0; after
`InsertRecord(record)` it has one occupied slot and after `InsertRecord(rid, record)` two,
and the stored count is still 0. Page 1 of `fullTable` has a stored count of 4; after
`DeleteRecord` of slot 2 it has three occupied slots and the stored count is still 4. -/
theorem record_count_is_not_updated :
    (demoTable.page 1).GetRecordNum = 0 ∧ demoTable.occupiedCount 1 = 0 ∧
    (demoTable.InsertRecord demoRecord).1 = .ok ⟨1, 0⟩ ∧
    (demoTable1.page 1).GetRecordNum = 0 ∧ demoTable1.occupiedCount 1 = 1 ∧
    (demoTable1.InsertRecordAt ⟨1, 1⟩ demoRecord).1 = .ok () ∧
    (demoTable2.page 1).GetRecordNum = 0 ∧ demoTable2.occupiedCount 1 = 2 ∧
    (fullTable.page 1).GetRecordNum = 4 ∧ fullTable.occupiedCount 1 = 4 ∧
    (fullTable.DeleteRecord ⟨1, 2⟩).1 = .ok () ∧
    ((fullTable.DeleteRecord ⟨1, 2⟩).2.page 1).GetRecordNum = 4 ∧
    (fullTable.DeleteRecord ⟨1, 2⟩).2.occupiedCount 1 = 3 := by
  decide

/-- C27 (fails on the code): with `rec_per_page_ = 4`, four inserts occupy all four slots
of page 1.
Before the insert that fills the page, `first_free_page_` is page 1 and the link stored in
page 1 is the invalid page id. After it, `first_free_page_` is still page 1, not the link:
the full page is still at the head of the free-page list. -/
theorem full_page_stays_on_free_list :
    (demoTable.InsertRecord demoRecord).1 = .ok ⟨1, 0⟩ ∧
    (demoTable1.InsertRecordAt ⟨1, 1⟩ demoRecord).1 = .ok () ∧
    (demoTable2.InsertRecordAt ⟨1, 2⟩ demoRecord).1 = .ok () ∧
    demoTable3.tab_hdr_.rec_per_page_ = 4 ∧ demoTable3.occupiedCount 1 = 3 ∧
    demoTable3.tab_hdr_.first_free_page_ = 1 ∧
    (demoTable3.page 1).GetNextFreePageId = INVALID_PAGE_ID ∧
    (demoTable3.InsertRecordAt ⟨1, 3⟩ demoRecord).1 = .ok () ∧
    demoTable4.occupiedCount 1 = 4 ∧
    demoTable4.tab_hdr_.first_free_page_ = 1 := by
  decide

theorem TableHandle.page_data (t : TableHandle) (page_id : page_id_t) :
    (t.page page_id).data_ = t.buffer_pool_manager_.pageData t.table_id_ page_id := by
  unfold TableHandle.page BufferPoolManager.pageData
  cases t.buffer_pool_manager_.GetFrame t.table_id_ page_id <;> rfl

theorem TableHandle.pinCount_eq (t : TableHandle) (page_id : page_id_t) :
    t.pinCount page_id = t.buffer_pool_manager_.pagePins t.table_id_ page_id := rfl

/-- A successful `FetchPage` returns the frame of the page, pinned once more, with the
bytes the pool held for the page. -/
theorem FetchPage_ok_page (b : BufferPoolManager) (fid : file_id_t) (pid : page_id_t)
    (f : frame_id_t) (b1 : BufferPoolManager) (hwf : b.WF)
    (h : b.FetchPage fid pid = (.ok f, b1)) :
    b1.WF ∧ b1.GetFrame fid pid = some f ∧ f < b1.frames_.length ∧
      (b1.frame f).page_.data_ = b.pageData fid pid ∧
      (b1.frame f).pin_count_ = b.pagePins fid pid + 1 := by
  have hwf1 : b1.WF := by
    have := WF_FetchPage b fid pid hwf
    rw [h] at this
    exact this
  obtain ⟨r1, r2, _⟩ := FetchPage_ok_resident b fid pid f b1 hwf h
  refine ⟨hwf1, r1, r2, ?_⟩
  unfold BufferPoolManager.pageData BufferPoolManager.pagePins BufferPoolManager.GetFrame
  cases hfind : umap_find b.page_frame_lookup_ ⟨fid, pid⟩ with
  | some g =>
    rw [FetchPage_hit b fid pid g hfind] at h
    simp only [Prod.mk.injEq, Except.ok.injEq] at h
    obtain ⟨hg, hb⟩ := h
    subst hg hb
    have hlen := (hwf.1 _ (umap_find_mem _ _ _ hfind)).1
    simp only [BufferPoolManager.frame]
    rw [getD_set_self _ _ _ hlen]
    exact ⟨rfl, rfl⟩
  | none =>
    rw [FetchPage_miss b fid pid hfind] at h
    have main : ∀ s : BufferPoolManager, b1 = s.UpdateFrame f fid pid →
        f < s.frames_.length →
        umap_find s.page_frame_lookup_ ⟨fid, pid⟩ = none →
        ((s.frame f).is_dirty_ = true → (s.frame f).ident ≠ ⟨fid, pid⟩) →
        s.disk_manager_.blocks ⟨fid, pid⟩ = b.disk_manager_.blocks ⟨fid, pid⟩ →
        (b1.frame f).page_.data_ = b.disk_manager_.blocks ⟨fid, pid⟩ ∧
        (b1.frame f).pin_count_ = 0 + 1 := by
      intro s hb1 hlen hs hd hblk
      obtain ⟨e1, _, e3, _⟩ := UpdateFrame_effect s f fid pid hlen hs hd
      rw [← hb1] at e1 e3
      exact ⟨e1.trans hblk, e3⟩
    rcases GetAvailableFrame_cases b with ⟨g, rest, hfl, hg⟩ | ⟨hfl, v, r, entry, hmem, hev, _, hg⟩ |
        ⟨_, e, r, hg⟩
    · rw [hg] at h
      simp only [Prod.mk.injEq, Except.ok.injEq] at h
      obtain ⟨h1, h2⟩ := h
      subst h1
      have hwf' : poolWF b.frames_ (g :: rest) b.page_frame_lookup_ := hfl ▸ hwf
      obtain ⟨k1, k2, k3, _⟩ := hwf'.2.1 g (List.mem_cons_self _ _)
      refine main _ h2.symm k1 hfind ?_ rfl
      intro hd
      have hd' : (b.frames_.getD g default).is_dirty_ = true := hd
      rw [k3] at hd'
      cases hd'
    · rw [hg] at h
      simp only [Prod.mk.injEq, Except.ok.injEq] at h
      obtain ⟨h1, h2⟩ := h
      subst h1
      have hident : (b.frame v).ident = entry.1 := hev ▸ (hwf.1 entry hmem).2
      have hne : entry.1 ≠ ⟨fid, pid⟩ := by
        intro hk
        exact (umap_find_eq_none _ _).1 hfind entry hmem hk
      refine main _ h2.symm (hev ▸ (hwf.1 entry hmem).1) ?_ ?_ ?_
      · simp only
        rw [umap_find_eq_none] at hfind ⊢
        intro e he
        exact hfind e ((mem_umap_erase _ _ _).1 he).1
      · intro _
        exact hident ▸ hne
      · simp only
        cases hd : (b.frame v).IsDirty
        · simp
        · simp only [if_true, WritePage_blocks]
          rw [if_neg (fun h' => hne h'.symm)]
    · rw [hg] at h
      simp at h

/-- The frame of a page after a store into its bytes. -/
theorem writePageData_frame (b : BufferPoolManager) (f : frame_id_t) (data : List Nat)
    (hf : f < b.frames_.length) :
    ((b.writePageData f data).frame f).page_.data_ = data ∧
    ((b.writePageData f data).frame f).pin_count_ = (b.frame f).pin_count_ ∧
    (b.writePageData f data).page_frame_lookup_ = b.page_frame_lookup_ ∧
    (b.writePageData f data).frames_.length = b.frames_.length := by
  unfold BufferPoolManager.writePageData
  simp only [BufferPoolManager.frame]
  rw [getD_set_self _ _ _ hf]
  refine ⟨rfl, rfl, ?_, ?_⟩ <;> simp

/-- The frame of a resident, pinned page after `UnpinPage`: it stays resident with the same
page, and is pinned once less. -/
theorem UnpinPage_resident (b : BufferPoolManager) (fid : file_id_t) (pid : page_id_t)
    (is_dirty : Bool) (f : frame_id_t) (hres : b.GetFrame fid pid = some f)
    (hf : f < b.frames_.length) (hpin : 0 < (b.frame f).pin_count_) :
    (b.UnpinPage fid pid is_dirty).2.GetFrame fid pid = some f ∧
    ((b.UnpinPage fid pid is_dirty).2.frame f).page_ = (b.frame f).page_ ∧
    ((b.UnpinPage fid pid is_dirty).2.frame f).pin_count_ + 1 = (b.frame f).pin_count_ ∧
    (b.UnpinPage fid pid is_dirty).2.frames_.length = b.frames_.length := by
  have hres' : umap_find b.page_frame_lookup_ ⟨fid, pid⟩ = some f := hres
  rcases UnpinPage_cases b fid pid is_dirty with ⟨hc, _⟩ | ⟨g, hg, _, hu⟩
  · rcases hc with hc | ⟨g, hg, h0⟩
    · rw [hc] at hres'
      cases hres'
    · rw [hg] at hres'
      cases hres'
      omega
  · rw [hg] at hres'
    cases hres'
    rw [hu]
    simp only [BufferPoolManager.GetFrame, BufferPoolManager.frame]
    rw [getD_set_self _ _ _ hf]
    have hp : 0 < (b.frames_.getD f default).pin_count_ := hpin
    refine ⟨hg, rfl, ?_, by simp⟩
    show (b.frames_.getD f default).pin_count_ - 1 + 1 = (b.frames_.getD f default).pin_count_
    omega

theorem bytesOfNat_length : ∀ (w n : Nat), (bytesOfNat w n).length = w := by
  intro w
  induction w with
  | zero => intro n; rfl
  | succ w ih => intro n; simp [bytesOfNat, ih]

theorem natOfBytes_bytesOfNat : ∀ (w n : Nat), natOfBytes (bytesOfNat w n) = n % 256 ^ w := by
  intro w
  induction w with
  | zero => intro n; simp [bytesOfNat, natOfBytes, Nat.mod_one]
  | succ w ih =>
    intro n
    simp only [bytesOfNat, natOfBytes, ih, Nat.mod_mod]
    rw [pow_succ', Nat.mod_mul]

theorem to_page_id_t_toNat (p : Int) (h1 : -2 ^ 31 ≤ p) (h2 : p < 2 ^ 31) :
    to_page_id_t ((p % 2 ^ 32).toNat % 256 ^ 4) = p := by
  unfold to_page_id_t
  have e : (256 : Nat) ^ 4 = 2 ^ 32 := by norm_num
  rw [e, Nat.mod_mod]
  have hnn : (0 : Int) ≤ p % 2 ^ 32 := Int.emod_nonneg _ (by norm_num)
  have hlt : p % 2 ^ 32 < 2 ^ 32 := Int.emod_lt_of_pos _ (by norm_num)
  have hcast : (((p % 2 ^ 32).toNat % 2 ^ 32 : Nat) : Int) = p % 2 ^ 32 := by
    have h3 : (p % 2 ^ 32).toNat < 2 ^ 32 := by omega
    rw [Nat.mod_eq_of_lt h3]
    exact Int.toNat_of_nonneg hnn
  by_cases hp : 0 ≤ p
  · have hm : p % 2 ^ 32 = p := Int.emod_eq_of_lt hp (by omega)
    have hlt31 : (p % 2 ^ 32).toNat % 2 ^ 32 < 2 ^ 31 := by omega
    rw [if_pos hlt31, hcast, hm]
  · have hm : p % 2 ^ 32 = p + 2 ^ 32 := by omega
    have hge : ¬ (p % 2 ^ 32).toNat % 2 ^ 32 < 2 ^ 31 := by omega
    rw [if_neg hge, hcast, hm]
    exact Int.add_sub_cancel p _

/-- The link read back after `SetNextFreePageId`. -/
theorem Page.GetNextFreePageId_Set (p : Page) (page_id : page_id_t) (hlen : 4 ≤ p.data_.length)
    (h1 : -2 ^ 31 ≤ page_id) (h2 : page_id < 2 ^ 31) :
    (p.SetNextFreePageId page_id).GetNextFreePageId = page_id := by
  unfold Page.SetNextFreePageId Page.GetNextFreePageId PAGE_NEXT_FREE_OFFSET
  simp only
  have hl : (bytesOfNat 4 (page_id % 2 ^ 32).toNat).length = 4 := bytesOfNat_length _ _
  have := memRead_memWrite_same p.data_ 0 (bytesOfNat 4 (page_id % 2 ^ 32).toNat)
    (by rw [hl]; omega)
  rw [hl] at this
  rw [this, natOfBytes_bytesOfNat]
  exact to_page_id_t_toNat page_id h1 h2

/-- The stores of the page header keep the length of the buffer and every byte from
offset 16 on. -/
theorem Page.SetRecordNum_frame (p : Page) (n : Nat) (hlen : 16 ≤ p.data_.length) :
    (p.SetRecordNum n).data_.length = p.data_.length ∧
    ∀ j, 16 ≤ j → (p.SetRecordNum n).data_[j]? = p.data_[j]? := by
  unfold Page.SetRecordNum PAGE_RECORD_NUM_OFFSET
  simp only
  have hl : (bytesOfNat 8 n).length = 8 := bytesOfNat_length _ _
  have hw : 8 + (bytesOfNat 8 n).length ≤ p.data_.length := by rw [hl]; omega
  refine ⟨memWrite_length _ _ _ hw, ?_⟩
  intro j hj
  rw [getElem?_memWrite _ _ _ hw, hl, if_neg (by omega), if_neg (by omega)]

theorem Page.SetNextFreePageId_frame (p : Page) (page_id : page_id_t)
    (hlen : 16 ≤ p.data_.length) :
    (p.SetNextFreePageId page_id).data_.length = p.data_.length ∧
    ∀ j, 4 ≤ j → (p.SetNextFreePageId page_id).data_[j]? = p.data_[j]? := by
  unfold Page.SetNextFreePageId PAGE_NEXT_FREE_OFFSET
  simp only
  have hl : (bytesOfNat 4 (page_id % 2 ^ 32).toNat).length = 4 := bytesOfNat_length _ _
  have hw : 0 + (bytesOfNat 4 (page_id % 2 ^ 32).toNat).length ≤ p.data_.length := by
    rw [hl]; omega
  refine ⟨memWrite_length _ _ _ hw, ?_⟩
  intro j hj
  rw [getElem?_memWrite _ _ _ hw, hl, if_neg (by omega), if_neg (by omega)]

/-- The record count depends on the bytes 8 to 15 of the buffer only. -/
theorem Page.GetRecordNum_congr (p q : Page)
    (h : ∀ j, 8 ≤ j → j < 16 → q.data_[j]? = p.data_[j]?) :
    q.GetRecordNum = p.GetRecordNum := by
  unfold Page.GetRecordNum PAGE_RECORD_NUM_OFFSET
  rw [memRead_congr p.data_ q.data_ 8 16 h 8 8 (Nat.le_refl _) (Nat.le_refl _)]

theorem BitMap.GetBit_SetBit_false (mem : List Nat) (bm pos : Nat) :
    BitMap.GetBit (BitMap.SetBit mem bm pos false) bm pos = false := by
  unfold BitMap.GetBit BitMap.SetBit
  simp only [Bool.false_eq_true, if_false]
  by_cases h : bm + pos / 8 < mem.length
  · rw [List.getD_eq_getElem?_getD, List.getElem?_set_self h]
    simp only [Option.getD_some, Nat.testBit_and]
    have hk : pos % 8 < 8 := Nat.mod_lt _ (by norm_num)
    have : ∀ k, k < 8 → Nat.testBit (255 - 2 ^ k) k = false := by decide
    rw [this _ hk, Bool.and_false]
  · rw [List.set_eq_of_length_le (Nat.le_of_not_lt h), List.getD_eq_getElem?_getD,
      List.getElem?_eq_none (Nat.le_of_not_lt h)]
    simp

theorem getElem?_SetBit_other (mem : List Nat) (bm pos : Nat) (v : Bool) (j : Nat)
    (hj : j ≠ bm + pos / 8) : (BitMap.SetBit mem bm pos v)[j]? = mem[j]? := by
  unfold BitMap.SetBit
  rw [List.getElem?_set_ne (fun h => hj h.symm)]

/-- When `FetchPage` succeeds and the bitmap size of the header is the one the layout
asks for, `FetchPageHandle` returns a handle over the page of the fetched frame. -/
theorem TableHandle.FetchPageHandle_ok (t : TableHandle) (page_id : page_id_t)
    (f : frame_id_t) (b1 : BufferPoolManager)
    (hbm : BITMAP_SIZE t.tab_hdr_.rec_per_page_ = t.tab_hdr_.bitmap_size_)
    (h : t.buffer_pool_manager_.FetchPage t.table_id_ page_id = (.ok f, b1)) :
    ∃ ph, t.FetchPageHandle page_id = (.ok (f, ph), { t with buffer_pool_manager_ := b1 }) ∧
      ph.base = { tab_hdr_ := t.tab_hdr_, page_ := (b1.frame f).page_,
                  bitmap_ := t.PAGE_HEADER_SIZE,
                  slots_mem_ := t.PAGE_HEADER_SIZE + t.tab_hdr_.bitmap_size_ } := by
  unfold TableHandle.FetchPageHandle TableHandle.WrapPageHandle
  rw [h]
  cases hsm : t.storage_model_ with
  | NARY_MODEL =>
    simp only [NAryPageHandle.new, PageHandle.new, hbm, if_true]
    exact ⟨_, rfl, rfl⟩
  | PAX_MODEL =>
    simp only [PAXPageHandle.new, PageHandle.new, hbm, if_true]
    exact ⟨_, rfl, rfl⟩

/-- A fetch of a page followed by a clean unpin leaves the table header, the bytes of the
page and its pin count as they were. -/
theorem TableHandle.fetch_unpin_same (t : TableHandle) (page_id : page_id_t)
    (f : frame_id_t) (b1 : BufferPoolManager) (hwf : t.buffer_pool_manager_.WF)
    (h : t.buffer_pool_manager_.FetchPage t.table_id_ page_id = (.ok f, b1)) :
    t.sameAt (({ t with buffer_pool_manager_ := b1 } : TableHandle).unpin page_id false)
      page_id := by
  obtain ⟨_, r1, r2, r3, r4⟩ := FetchPage_ok_page _ _ _ _ _ hwf h
  obtain ⟨u1, u2, u3, _⟩ := UnpinPage_resident b1 t.table_id_ page_id false f r1 r2
    (by rw [r4]; exact Nat.succ_pos _)
  refine ⟨rfl, ?_, ?_⟩
  · rw [TableHandle.page_data, TableHandle.page_data]
    unfold BufferPoolManager.pageData
    simp only [TableHandle.unpin]
    rw [u1]
    simp only
    rw [u2, r3]
    rfl
  · rw [TableHandle.pinCount_eq, TableHandle.pinCount_eq]
    unfold BufferPoolManager.pagePins
    simp only [TableHandle.unpin]
    rw [u1]
    simp only [Frame.GetPinCount]
    rw [r4] at u3
    exact Nat.succ_injective u3

/-- The bit that the handle of a fetched page reads is the bit of the slot in the page as
the pool held it. -/
theorem TableHandle.handle_bit (t : TableHandle) (rid : RID) (f : frame_id_t)
    (b1 : BufferPoolManager) (ph : PageHandleUptr) (hwf : t.buffer_pool_manager_.WF)
    (h : t.buffer_pool_manager_.FetchPage t.table_id_ rid.PageID = (.ok f, b1))
    (hph : ph.base = { tab_hdr_ := t.tab_hdr_, page_ := (b1.frame f).page_,
                       bitmap_ := t.PAGE_HEADER_SIZE,
                       slots_mem_ := t.PAGE_HEADER_SIZE + t.tab_hdr_.bitmap_size_ }) :
    ph.GetBit rid.SlotID = t.slotOccupied rid := by
  obtain ⟨_, _, _, r3, _⟩ := FetchPage_ok_page _ _ _ _ _ hwf h
  unfold PageHandleUptr.GetBit PageHandle.GetBit TableHandle.slotOccupied
  rw [hph, TableHandle.page_data]
  simp only
  rw [r3]

/-- C29: let the pool be consistent, the bitmap size of the header the one the layout asks
for, and `FetchPage` of the page of `rid` succeed. `InsertRecord(rid, record)` with a valid
page id raises `WSDB_RECORD_EXISTS` exactly when the slot of `rid` is occupied;
`DeleteRecord(rid)` and `UpdateRecord(rid, record)` raise `WSDB_RECORD_MISS` exactly when
it is not. In each of these failing cases the table header, the bytes of the page and the
pin count of the page are the same after the call as before. -/
theorem occupancy_errors_exact_and_atomic (t : TableHandle)
    (hwf : t.buffer_pool_manager_.WF)
    (hbm : BITMAP_SIZE t.tab_hdr_.rec_per_page_ = t.tab_hdr_.bitmap_size_)
    (rid : RID) (record : Record) (f : frame_id_t)
    (hfetch : (t.buffer_pool_manager_.FetchPage t.table_id_ rid.PageID).1 = .ok f) :
    (rid.PageID ≠ INVALID_PAGE_ID →
      ((t.InsertRecordAt rid record).1 = .error TableExn.WSDB_RECORD_EXISTS ↔
        t.slotOccupied rid = true)) ∧
    ((t.DeleteRecord rid).1 = .error TableExn.WSDB_RECORD_MISS ↔
      t.slotOccupied rid = false) ∧
    ((t.UpdateRecord rid record).1 = .error TableExn.WSDB_RECORD_MISS ↔
      t.slotOccupied rid = false) ∧
    (rid.PageID ≠ INVALID_PAGE_ID → t.slotOccupied rid = true →
      t.sameAt (t.InsertRecordAt rid record).2 rid.PageID) ∧
    (t.slotOccupied rid = false →
      t.sameAt (t.DeleteRecord rid).2 rid.PageID ∧
      t.sameAt (t.UpdateRecord rid record).2 rid.PageID) := by
  obtain ⟨b1, hb1⟩ : ∃ b1, t.buffer_pool_manager_.FetchPage t.table_id_ rid.PageID =
      (.ok f, b1) := ⟨_, Prod.ext hfetch rfl⟩
  obtain ⟨ph, hph, hbase⟩ := TableHandle.FetchPageHandle_ok t rid.PageID f b1 hbm hb1
  have hbit := TableHandle.handle_bit t rid f b1 ph hwf hb1 hbase
  have hsame := TableHandle.fetch_unpin_same t rid.PageID f b1 hwf hb1
  refine ⟨?_, ?_, ?_, ?_, ?_⟩
  · intro hvalid
    unfold TableHandle.InsertRecordAt
    rw [if_neg hvalid, hph]
    simp only [hbit]
    cases hocc : t.slotOccupied rid
    · simp only [Bool.false_eq_true, if_false, iff_false]
      rcases hws : ph.WriteSlot rid.SlotID record.GetNullMap record.GetData false with
        ⟨r, h1⟩
      cases r <;> simp
    · simp
  · unfold TableHandle.DeleteRecord
    rw [hph]
    simp only [hbit]
    cases hocc : t.slotOccupied rid <;> simp
  · unfold TableHandle.UpdateRecord
    rw [hph]
    simp only [hbit]
    cases hocc : t.slotOccupied rid
    · simp
    · simp only [not_true_eq_false, if_false, Bool.true_eq_false, iff_false]
      rcases hws : ph.WriteSlot rid.SlotID record.GetNullMap record.GetData true with
        ⟨r, h1⟩
      cases r <;> simp
  · intro hvalid hocc
    unfold TableHandle.InsertRecordAt
    rw [if_neg hvalid, hph]
    simp only [hbit, hocc, if_true]
    exact hsame
  · intro hocc
    constructor
    · unfold TableHandle.DeleteRecord
      rw [hph]
      simp only [hbit, hocc, Bool.false_eq_true, not_false_eq_true, if_true]
      exact hsame
    · unfold TableHandle.UpdateRecord
      rw [hph]
      simp only [hbit, hocc, Bool.false_eq_true, not_false_eq_true, if_true]
      exact hsame

/-- An instance of C29: in `fullTable` slot 2 of page 1 is occupied, `InsertRecord(rid,
record)` at it raises `WSDB_RECORD_EXISTS` and leaves the table as it was, and
`DeleteRecord` does not raise `WSDB_RECORD_MISS`; in `demoTable` slot 0 of page 1 is empty
and `DeleteRecord` of it raises `WSDB_RECORD_MISS` and leaves the table as it was. -/
theorem occupancy_errors_exact_and_atomic_witness :
    (fullTable.InsertRecordAt ⟨1, 2⟩ demoRecord).1 = .error TableExn.WSDB_RECORD_EXISTS ∧
    fullTable.sameAt (fullTable.InsertRecordAt ⟨1, 2⟩ demoRecord).2 1 ∧
    (fullTable.DeleteRecord ⟨1, 2⟩).1 ≠ .error TableExn.WSDB_RECORD_MISS ∧
    (demoTable.DeleteRecord ⟨1, 0⟩).1 = .error TableExn.WSDB_RECORD_MISS ∧
    demoTable.sameAt (demoTable.DeleteRecord ⟨1, 0⟩).2 1 :=
  ⟨((occupancy_errors_exact_and_atomic fullTable (WF_new _ _ _ _ _) (by decide) ⟨1, 2⟩
      demoRecord 0 (by decide)).1 (by decide)).2 (by decide),
    (occupancy_errors_exact_and_atomic fullTable (WF_new _ _ _ _ _) (by decide) ⟨1, 2⟩
      demoRecord 0 (by decide)).2.2.2.1 (by decide) (by decide),
    fun h => absurd
      ((occupancy_errors_exact_and_atomic fullTable (WF_new _ _ _ _ _) (by decide) ⟨1, 2⟩
        demoRecord 0 (by decide)).2.1.1 h) (by decide),
    (occupancy_errors_exact_and_atomic demoTable (WF_new _ _ _ _ _) (by decide) ⟨1, 0⟩
      demoRecord 0 (by decide)).2.1.2 (by decide),
    ((occupancy_errors_exact_and_atomic demoTable (WF_new _ _ _ _ _) (by decide) ⟨1, 0⟩
      demoRecord 0 (by decide)).2.2.2.2 (by decide)).1⟩

/-- The table after the bytes of a fetched page have been put back and the page has been
unpinned: the page is resident with those bytes. -/
theorem TableHandle.store_unpin_view (t1 : TableHandle) (page_id : page_id_t)
    (f : frame_id_t) (page : Page) (is_dirty : Bool) (hwf : t1.buffer_pool_manager_.WF)
    (hres : t1.buffer_pool_manager_.GetFrame t1.table_id_ page_id = some f)
    (hf : f < t1.buffer_pool_manager_.frames_.length)
    (hpin : 0 < (t1.buffer_pool_manager_.frame f).pin_count_) :
    (((t1.storePage f page).unpin page_id is_dirty).page page_id).data_ = page.data_ ∧
    ((t1.storePage f page).unpin page_id is_dirty).buffer_pool_manager_.WF ∧
    ((t1.storePage f page).unpin page_id is_dirty).buffer_pool_manager_.GetFrame
      t1.table_id_ page_id = some f ∧
    ((t1.storePage f page).unpin page_id is_dirty).pinCount page_id + 1 =
      (t1.buffer_pool_manager_.frame f).pin_count_ := by
  obtain ⟨w1, w2, w3, w4⟩ := writePageData_frame t1.buffer_pool_manager_ f page.data_ hf
  have hres2 : (t1.buffer_pool_manager_.writePageData f page.data_).GetFrame t1.table_id_
      page_id = some f := by
    unfold BufferPoolManager.GetFrame at hres ⊢
    rw [w3]
    exact hres
  obtain ⟨u1, u2, u3, _⟩ := UnpinPage_resident
    (t1.buffer_pool_manager_.writePageData f page.data_) t1.table_id_ page_id is_dirty f
    hres2 (by rw [w4]; exact hf) (by rw [w2]; exact hpin)
  have hwf3 := WF_UnpinPage _ t1.table_id_ page_id is_dirty
    (WF_writePageData t1.buffer_pool_manager_ f page.data_ hwf)
  refine ⟨?_, hwf3, u1, ?_⟩
  · rw [TableHandle.page_data]
    unfold BufferPoolManager.pageData
    simp only [TableHandle.unpin, TableHandle.storePage]
    rw [u1]
    simp only
    rw [u2, w1]
  · rw [TableHandle.pinCount_eq]
    unfold BufferPoolManager.pagePins
    simp only [TableHandle.unpin, TableHandle.storePage]
    rw [u1]
    simp only [Frame.GetPinCount]
    rw [u3, w2]

/-- When the slot is empty, `GetRecord` raises `WSDB_PAGE_MISS` and leaves the table as it
was. -/
theorem TableHandle.GetRecord_miss (t : TableHandle) (hwf : t.buffer_pool_manager_.WF)
    (hbm : BITMAP_SIZE t.tab_hdr_.rec_per_page_ = t.tab_hdr_.bitmap_size_)
    (rid : RID) (f : frame_id_t) (b1 : BufferPoolManager)
    (hb1 : t.buffer_pool_manager_.FetchPage t.table_id_ rid.PageID = (.ok f, b1))
    (hocc : t.slotOccupied rid = false) :
    (t.GetRecord rid).1 = .error TableExn.WSDB_PAGE_MISS ∧
    t.sameAt (t.GetRecord rid).2 rid.PageID := by
  obtain ⟨ph, hph, hbase⟩ := TableHandle.FetchPageHandle_ok t rid.PageID f b1 hbm hb1
  have hbit := TableHandle.handle_bit t rid f b1 ph hwf hb1 hbase
  have hsame := TableHandle.fetch_unpin_same t rid.PageID f b1 hwf hb1
  unfold TableHandle.GetRecord
  simp only [hph, hbit, hocc, Bool.false_eq_true, not_false_eq_true, if_true]
  exact ⟨trivial, hsame⟩

/-- `DeleteRecord` of an occupied slot returns normally; afterwards the page is resident,
its bytes are those before the call with the bit of the slot cleared, up to the stores into
the page header, and the layout fields of the table are the same. -/
theorem TableHandle.DeleteRecord_ok_view (t : TableHandle)
    (hwf : t.buffer_pool_manager_.WF)
    (hbm : BITMAP_SIZE t.tab_hdr_.rec_per_page_ = t.tab_hdr_.bitmap_size_)
    (rid : RID) (f : frame_id_t) (b1 : BufferPoolManager)
    (hb1 : t.buffer_pool_manager_.FetchPage t.table_id_ rid.PageID = (.ok f, b1))
    (hocc : t.slotOccupied rid = true) :
    ∃ page1 page3 : Page,
      page1.data_ = BitMap.SetBit (t.page rid.PageID).data_ t.PAGE_HEADER_SIZE rid.SlotID false ∧
      page3 =
        (if size_t_dec page1.GetRecordNum < t.tab_hdr_.rec_per_page_ then
          (page1.SetRecordNum page1.GetRecordNum).SetNextFreePageId t.tab_hdr_.first_free_page_
        else page1.SetRecordNum page1.GetRecordNum) ∧
      (t.DeleteRecord rid).1 = .ok () ∧
      ((t.DeleteRecord rid).2.page rid.PageID).data_ = page3.data_ ∧
      (t.DeleteRecord rid).2.tab_hdr_ =
        (if size_t_dec page1.GetRecordNum < t.tab_hdr_.rec_per_page_ then
          { t.tab_hdr_ with rec_num_ := size_t_dec t.tab_hdr_.rec_num_,
                            first_free_page_ := rid.PageID }
        else { t.tab_hdr_ with rec_num_ := size_t_dec t.tab_hdr_.rec_num_ }) ∧
      (t.DeleteRecord rid).2.buffer_pool_manager_.WF ∧
      (t.DeleteRecord rid).2.buffer_pool_manager_.GetFrame t.table_id_ rid.PageID = some f ∧
      (t.DeleteRecord rid).2.table_id_ = t.table_id_ ∧
      (t.DeleteRecord rid).2.PAGE_HEADER_SIZE = t.PAGE_HEADER_SIZE := by
  obtain ⟨ph, hph, hbase⟩ := TableHandle.FetchPageHandle_ok t rid.PageID f b1 hbm hb1
  have hbit := TableHandle.handle_bit t rid f b1 ph hwf hb1 hbase
  obtain ⟨hwf1, r1, r2, r3, r4⟩ := FetchPage_ok_page _ _ _ _ _ hwf hb1
  have hD : (t.page rid.PageID).data_ = (b1.frame f).page_.data_ := by
    rw [TableHandle.page_data, r3]
  refine ⟨{ (b1.frame f).page_ with
      data_ := BitMap.SetBit (b1.frame f).page_.data_ t.PAGE_HEADER_SIZE rid.SlotID false },
    _, by rw [hD], rfl, ?_⟩
  unfold TableHandle.DeleteRecord
  simp only [hph, hbit, hocc, not_true_eq_false, if_false, PageHandleUptr.GetPage, hbase]
  have hv := fun (hdr : TableHeader) (page : Page) =>
    TableHandle.store_unpin_view
      ({ t with buffer_pool_manager_ := b1, tab_hdr_ := hdr } : TableHandle) rid.PageID f page
      true hwf1 r1 r2 (by rw [r4]; exact Nat.succ_pos _)
  by_cases hc : size_t_dec
      (Page.GetRecordNum { (b1.frame f).page_ with
        data_ := BitMap.SetBit (b1.frame f).page_.data_ t.PAGE_HEADER_SIZE rid.SlotID false })
      < t.tab_hdr_.rec_per_page_
  · simp only [hc, if_true]
    refine ⟨trivial, (hv _ _).1, ?_, (hv _ _).2.1, (hv _ _).2.2.1, ?_, ?_⟩ <;>
      (unfold TableHandle.unpin TableHandle.storePage; rfl)
  · simp only [hc, if_false]
    refine ⟨trivial, (hv _ _).1, ?_, (hv _ _).2.1, (hv _ _).2.2.1, ?_, ?_⟩ <;>
      (unfold TableHandle.unpin TableHandle.storePage; rfl)

/-- After `DeleteRecord` of an occupied slot the bit of the slot is clear in the page. -/
theorem TableHandle.DeleteRecord_clears_bit (t : TableHandle)
    (hwf : t.buffer_pool_manager_.WF)
    (hbm : BITMAP_SIZE t.tab_hdr_.rec_per_page_ = t.tab_hdr_.bitmap_size_)
    (h16 : 16 ≤ t.PAGE_HEADER_SIZE) (rid : RID) (f : frame_id_t) (b1 : BufferPoolManager)
    (hb1 : t.buffer_pool_manager_.FetchPage t.table_id_ rid.PageID = (.ok f, b1))
    (hlen : t.PAGE_HEADER_SIZE ≤ (t.page rid.PageID).data_.length)
    (hocc : t.slotOccupied rid = true) :
    (t.DeleteRecord rid).2.slotOccupied rid = false := by
  obtain ⟨page1, page3, hp1, hp3, _, hdata, _, _, _, _, hphs⟩ :=
    TableHandle.DeleteRecord_ok_view t hwf hbm rid f b1 hb1 hocc
  unfold TableHandle.slotOccupied
  rw [hdata, hphs]
  have hl1 : page1.data_.length = (t.page rid.PageID).data_.length := by
    rw [hp1]; exact BitMap.SetBit_length _ _ _ _
  have hb1' : BitMap.GetBit page1.data_ t.PAGE_HEADER_SIZE rid.SlotID = false := by
    rw [hp1]; exact BitMap.GetBit_SetBit_false _ _ _
  obtain ⟨hl2, hf2⟩ := Page.SetRecordNum_frame page1 page1.GetRecordNum (by omega)
  rw [← hb1']
  apply BitMap.GetBit_congr
  rw [hp3]
  by_cases hc : size_t_dec page1.GetRecordNum < t.tab_hdr_.rec_per_page_
  · rw [if_pos hc]
    obtain ⟨_, hf3⟩ := Page.SetNextFreePageId_frame (page1.SetRecordNum page1.GetRecordNum)
      t.tab_hdr_.first_free_page_ (by omega)
    rw [hf3 _ (by omega), hf2 _ (by omega)]
  · rw [if_neg hc, hf2 _ (by omega)]

/-- On a resident page whose slot is empty, `GetRecord` raises `WSDB_PAGE_MISS` and the
table is afterwards in a state of the same kind. -/
theorem TableHandle.GetRecord_miss_inv (t : TableHandle) (hwf : t.buffer_pool_manager_.WF)
    (hbm : BITMAP_SIZE t.tab_hdr_.rec_per_page_ = t.tab_hdr_.bitmap_size_)
    (rid : RID) (f : frame_id_t)
    (hres : t.buffer_pool_manager_.GetFrame t.table_id_ rid.PageID = some f)
    (hocc : t.slotOccupied rid = false) :
    (t.GetRecord rid).1 = .error TableExn.WSDB_PAGE_MISS ∧
    (t.GetRecord rid).2.buffer_pool_manager_.WF ∧
    BITMAP_SIZE (t.GetRecord rid).2.tab_hdr_.rec_per_page_ =
      (t.GetRecord rid).2.tab_hdr_.bitmap_size_ ∧
    (t.GetRecord rid).2.buffer_pool_manager_.GetFrame (t.GetRecord rid).2.table_id_
      rid.PageID = some f ∧
    (t.GetRecord rid).2.slotOccupied rid = false := by
  have hfp := FetchPage_hit t.buffer_pool_manager_ t.table_id_ rid.PageID f hres
  obtain ⟨g1, g2, g3, _⟩ := TableHandle.GetRecord_miss t hwf hbm rid f _ hfp hocc
  obtain ⟨hwf1, r1, r2, _, r4⟩ := FetchPage_ok_page _ _ _ _ _ hwf hfp
  obtain ⟨u1, _, _, _⟩ := UnpinPage_resident _ t.table_id_ rid.PageID false f r1 r2
    (by rw [r4]; exact Nat.succ_pos _)
  have hpost : (t.GetRecord rid).2 =
      ({ t with buffer_pool_manager_ :=
          { t.buffer_pool_manager_ with
            frames_ := t.buffer_pool_manager_.frames_.set f (t.buffer_pool_manager_.frame f).Pin,
            replacer_ := t.buffer_pool_manager_.replacer_.Pin f } } : TableHandle).unpin
        rid.PageID false := by
    obtain ⟨ph, hph, hbase⟩ := TableHandle.FetchPageHandle_ok t rid.PageID f _ hbm hfp
    have hbit := TableHandle.handle_bit t rid f _ ph hwf hfp hbase
    unfold TableHandle.GetRecord
    simp only [hph, hbit, hocc, Bool.false_eq_true, not_false_eq_true, if_true]
  refine ⟨g1, ?_, ?_, ?_, ?_⟩
  · rw [hpost]
    unfold TableHandle.unpin
    exact WF_UnpinPage _ _ _ _ hwf1
  · rw [g2]
    exact hbm
  · rw [hpost]
    unfold TableHandle.unpin
    exact u1
  · unfold TableHandle.slotOccupied at hocc ⊢
    rw [g3]
    rw [hpost]
    unfold TableHandle.unpin
    exact hocc

theorem TableHandle.getRecordTimes_miss (t : TableHandle) (rid : RID) (f : frame_id_t) :
    ∀ n, t.buffer_pool_manager_.WF →
      BITMAP_SIZE t.tab_hdr_.rec_per_page_ = t.tab_hdr_.bitmap_size_ →
      t.buffer_pool_manager_.GetFrame t.table_id_ rid.PageID = some f →
      t.slotOccupied rid = false →
      ((TableHandle.getRecordTimes t rid n).GetRecord rid).1 =
        .error TableExn.WSDB_PAGE_MISS := by
  have key : ∀ n, t.buffer_pool_manager_.WF →
      BITMAP_SIZE t.tab_hdr_.rec_per_page_ = t.tab_hdr_.bitmap_size_ →
      t.buffer_pool_manager_.GetFrame t.table_id_ rid.PageID = some f →
      t.slotOccupied rid = false →
      (TableHandle.getRecordTimes t rid n).buffer_pool_manager_.WF ∧
      BITMAP_SIZE (TableHandle.getRecordTimes t rid n).tab_hdr_.rec_per_page_ =
        (TableHandle.getRecordTimes t rid n).tab_hdr_.bitmap_size_ ∧
      (TableHandle.getRecordTimes t rid n).buffer_pool_manager_.GetFrame
        (TableHandle.getRecordTimes t rid n).table_id_ rid.PageID = some f ∧
      (TableHandle.getRecordTimes t rid n).slotOccupied rid = false := by
    intro n
    induction n with
    | zero => intro h1 h2 h3 h4; exact ⟨h1, h2, h3, h4⟩
    | succ n ih =>
      intro h1 h2 h3 h4
      obtain ⟨i1, i2, i3, i4⟩ := ih h1 h2 h3 h4
      exact (TableHandle.GetRecord_miss_inv _ i1 i2 rid f i3 i4).2
  intro n h1 h2 h3 h4
  obtain ⟨i1, i2, i3, i4⟩ := key n h1 h2 h3 h4
  exact (TableHandle.GetRecord_miss_inv _ i1 i2 rid f i3 i4).1

theorem size_t_dec_lt (n : Nat) (h1 : 0 < n) (h2 : n < 2 ^ 64) : size_t_dec n < n := by
  unfold size_t_dec
  have e : n + 2 ^ 64 - 1 = (n - 1) + 2 ^ 64 := by omega
  rw [e, Nat.add_mod_right, Nat.mod_eq_of_lt (by omega)]
  omega

/-- C28: let the pool be consistent, the bitmap size of the header the one the layout asks
for, the page header at least 16 bytes inside the page, and `FetchPage` of the page of
`rid` succeed. `DeleteRecord(rid)` of an occupied slot `rid.SlotID < rec_per_page_` of a
page whose stored record count equals `rec_per_page_` returns normally; afterwards the link
stored in the page is `first_free_page_` as it was before the call, and `first_free_page_`
is the page id of `rid`. -/
theorem DeleteRecord_full_page_relinks (t : TableHandle) (hwf : t.buffer_pool_manager_.WF)
    (hbm : BITMAP_SIZE t.tab_hdr_.rec_per_page_ = t.tab_hdr_.bitmap_size_)
    (h16 : 16 ≤ t.PAGE_HEADER_SIZE) (rid : RID) (f : frame_id_t)
    (hfetch : (t.buffer_pool_manager_.FetchPage t.table_id_ rid.PageID).1 = .ok f)
    (hlen : t.PAGE_HEADER_SIZE ≤ (t.page rid.PageID).data_.length)
    (hslot : rid.SlotID < t.tab_hdr_.rec_per_page_)
    (hrpp : t.tab_hdr_.rec_per_page_ < 2 ^ 64)
    (hocc : t.slotOccupied rid = true)
    (hfull : (t.page rid.PageID).GetRecordNum = t.tab_hdr_.rec_per_page_)
    (hff1 : -2 ^ 31 ≤ t.tab_hdr_.first_free_page_)
    (hff2 : t.tab_hdr_.first_free_page_ < 2 ^ 31) :
    (t.DeleteRecord rid).1 = .ok () ∧
    ((t.DeleteRecord rid).2.page rid.PageID).GetNextFreePageId =
      t.tab_hdr_.first_free_page_ ∧
    (t.DeleteRecord rid).2.tab_hdr_.first_free_page_ = rid.PageID := by
  obtain ⟨b1, hb1⟩ : ∃ b1, t.buffer_pool_manager_.FetchPage t.table_id_ rid.PageID =
      (.ok f, b1) := ⟨_, Prod.ext hfetch rfl⟩
  obtain ⟨page1, page3, hp1, hp3, hok, hdata, hhdr, _, _, _, _⟩ :=
    TableHandle.DeleteRecord_ok_view t hwf hbm rid f b1 hb1 hocc
  have hl1 : page1.data_.length = (t.page rid.PageID).data_.length := by
    rw [hp1]; exact BitMap.SetBit_length _ _ _ _
  have hnum : page1.GetRecordNum = t.tab_hdr_.rec_per_page_ := by
    rw [← hfull]
    apply Page.GetRecordNum_congr
    intro j _ hj
    rw [hp1]
    exact getElem?_SetBit_other _ _ _ _ _ (by omega)
  have hc : size_t_dec page1.GetRecordNum < t.tab_hdr_.rec_per_page_ := by
    rw [hnum]
    exact size_t_dec_lt _ (by omega) hrpp
  rw [if_pos hc] at hp3 hhdr
  obtain ⟨hl2, _⟩ := Page.SetRecordNum_frame page1 page1.GetRecordNum (by omega)
  refine ⟨hok, ?_, by rw [hhdr]⟩
  have : ((t.DeleteRecord rid).2.page rid.PageID).GetNextFreePageId =
      page3.GetNextFreePageId := by
    unfold Page.GetNextFreePageId
    rw [hdata]
  rw [this, hp3]
  exact Page.GetNextFreePageId_Set _ _ (by omega) hff1 hff2

/-- An instance of C28: page 1 of `fullTable` is full and not on the free-page list;
after `DeleteRecord` of its slot 2 the link of the page is the former `first_free_page_`,
the invalid page id, and `first_free_page_` is page 1. -/
theorem DeleteRecord_full_page_relinks_witness :
    (fullTable.DeleteRecord ⟨1, 2⟩).1 = .ok () ∧
    ((fullTable.DeleteRecord ⟨1, 2⟩).2.page 1).GetNextFreePageId = INVALID_PAGE_ID ∧
    (fullTable.DeleteRecord ⟨1, 2⟩).2.tab_hdr_.first_free_page_ = 1 :=
  DeleteRecord_full_page_relinks fullTable (WF_new _ _ _ _ _) (by decide) (by decide) ⟨1, 2⟩ 0
    (by decide) (by decide) (by decide) (by decide) (by decide) (by decide) (by decide)
    (by decide)

theorem BitMap.GetBit_SetBit_ne (mem : List Nat) (bm s s' : Nat) (v : Bool) (h : s' ≠ s) :
    BitMap.GetBit (BitMap.SetBit mem bm s v) bm s' = BitMap.GetBit mem bm s' := by
  by_cases hbyte : s' / 8 = s / 8
  · have hmod : s' % 8 ≠ s % 8 := by
      intro hm
      apply h
      rw [← Nat.div_add_mod s' 8, ← Nat.div_add_mod s 8, hbyte, hm]
    unfold BitMap.GetBit BitMap.SetBit
    rw [hbyte]
    by_cases hl : bm + s / 8 < mem.length
    · rw [List.getD_eq_getElem?_getD, List.getElem?_set_self hl, Option.getD_some,
        List.getD_eq_getElem?_getD]
      have hk : s % 8 < 8 := Nat.mod_lt _ (by norm_num)
      have hj : s' % 8 < 8 := Nat.mod_lt _ (by norm_num)
      cases v
      · simp only [Bool.false_eq_true, if_false, Nat.testBit_and]
        have : ∀ k, k < 8 → ∀ j, j < 8 → j ≠ k → Nat.testBit (255 - 2 ^ k) j = true := by
          decide
        rw [this _ hk _ hj hmod, Bool.and_true]
      · simp only [if_true, Nat.testBit_or]
        have : ∀ k, k < 8 → ∀ j, j < 8 → j ≠ k → Nat.testBit (2 ^ k) j = false := by
          decide
        rw [this _ hk _ hj hmod, Bool.or_false]
    · rw [List.set_eq_of_length_le (Nat.le_of_not_lt hl)]
  · apply BitMap.GetBit_congr
    exact getElem?_SetBit_other _ _ _ _ _ (by omega)

/-- A step of a layout keeps `PageHolds`, when the slot write of the layout keeps the
length of the page and its bitmap, stores the record in the slot and keeps the other
slots, and a store into the bitmap keeps every slot. -/
theorem PageHolds_step (tab_hdr : TableHeader) (bm sm N : Nat)
    (W : List Nat → Nat → List Nat → List Nat → List Nat)
    (holds : List Nat → Nat → List Nat → List Nat → Prop)
    (hbit : ∀ s, s < tab_hdr.rec_per_page_ → bm + s / 8 < sm) (hsm : sm ≤ N)
    (hWlen : ∀ mem s nm d, mem.length = N → s < tab_hdr.rec_per_page_ →
      nm.length = tab_hdr.nullmap_size_ → d.length = tab_hdr.rec_size_ →
      (W mem s nm d).length = N ∧ ∀ j, j < sm → (W mem s nm d)[j]? = mem[j]?)
    (hWsame : ∀ mem s nm d, mem.length = N → s < tab_hdr.rec_per_page_ →
      nm.length = tab_hdr.nullmap_size_ → d.length = tab_hdr.rec_size_ →
      holds (W mem s nm d) s nm d)
    (hWother : ∀ mem s nm d s' nm' d', mem.length = N → s < tab_hdr.rec_per_page_ →
      nm.length = tab_hdr.nullmap_size_ → d.length = tab_hdr.rec_size_ →
      s' < tab_hdr.rec_per_page_ → s' ≠ s → holds mem s' nm' d' →
      holds (W mem s nm d) s' nm' d')
    (hcongr : ∀ m1 m2 s nm d, (∀ j, sm ≤ j → m2[j]? = m1[j]?) → holds m1 s nm d →
      holds m2 s nm d)
    (mem : List Nat) (A : Nat → Option (List Nat × List Nat)) (op : SlotOp)
    (hop : op.valid tab_hdr = true) (hlen : mem.length = N)
    (hinv : PageHolds tab_hdr.rec_per_page_ bm holds mem A) :
    (SlotOp.onBytes tab_hdr.rec_per_page_ bm W mem op).length = N ∧
    PageHolds tab_hdr.rec_per_page_ bm holds
      (SlotOp.onBytes tab_hdr.rec_per_page_ bm W mem op)
      (SlotOp.apply tab_hdr.rec_per_page_ A op) := by
  have hset : ∀ (m : List Nat) (s : Nat) (v : Bool) (s' : Nat) nm d,
      s < tab_hdr.rec_per_page_ → holds m s' nm d → holds (BitMap.SetBit m bm s v) s' nm d := by
    intro m s v s' nm d hs hh
    refine hcongr m _ s' nm d ?_ hh
    intro j hj
    have := hbit s hs
    exact getElem?_SetBit_other _ _ _ _ _ (by omega)
  have hWbits : ∀ m s nm d s', m.length = N → s < tab_hdr.rec_per_page_ →
      nm.length = tab_hdr.nullmap_size_ → d.length = tab_hdr.rec_size_ →
      s' < tab_hdr.rec_per_page_ →
      BitMap.GetBit (W m s nm d) bm s' = BitMap.GetBit m bm s' := by
    intro m s nm d s' hm hs h1 h2 hs'
    exact BitMap.GetBit_congr _ _ _ _ ((hWlen m s nm d hm hs h1 h2).2 _ (hbit s' hs'))
  have hAnone : ∀ s, s < tab_hdr.rec_per_page_ →
      (BitMap.GetBit mem bm s = false ↔ A s = none) := by
    intro s hs
    rw [(hinv s hs).1]
    cases A s <;> simp
  have hAsome : ∀ s, s < tab_hdr.rec_per_page_ →
      (BitMap.GetBit mem bm s = true ↔ (A s).isSome = true) := by
    intro s hs
    rw [(hinv s hs).1]
  -- the page after the record `(nm, d)` has been written to slot `s`
  have hwrite : ∀ (s : Nat) (nm d : List Nat), s < tab_hdr.rec_per_page_ →
      nm.length = tab_hdr.nullmap_size_ → d.length = tab_hdr.rec_size_ →
      ∀ s', s' < tab_hdr.rec_per_page_ → ∀ nm' d',
        Function.update A s (some (nm, d)) s' = some (nm', d') →
        holds (W mem s nm d) s' nm' d' := by
    intro s nm d hs h1 h2 s' hs' nm' d' hnd
    by_cases he : s' = s
    · subst he
      rw [Function.update_same] at hnd
      simp only [Option.some.injEq, Prod.mk.injEq] at hnd
      obtain ⟨e1, e2⟩ := hnd
      subst e1 e2
      exact hWsame mem s' nm d hlen hs h1 h2
    · rw [Function.update_noteq he] at hnd
      exact hWother mem s nm d s' nm' d' hlen hs h1 h2 hs' he ((hinv s' hs').2 nm' d' hnd)
  cases op with
  | insert s nm d =>
    simp only [SlotOp.valid, Bool.and_eq_true, decide_eq_true_eq] at hop
    obtain ⟨h1, h2⟩ := hop
    simp only [SlotOp.onBytes, SlotOp.apply]
    by_cases hc : s < tab_hdr.rec_per_page_ ∧ BitMap.GetBit mem bm s = false
    · obtain ⟨hs, hb⟩ := hc
      rw [if_pos ⟨hs, hb⟩, if_pos ⟨hs, (hAnone s hs).1 hb⟩]
      obtain ⟨hl, _⟩ := hWlen mem s nm d hlen hs h1 h2
      refine ⟨by rw [BitMap.SetBit_length, hl], ?_⟩
      intro s' hs'
      refine ⟨?_, fun nm' d' hnd =>
        hset _ _ _ _ _ _ hs (hwrite s nm d hs h1 h2 s' hs' nm' d' hnd)⟩
      by_cases he : s' = s
      · subst he
        rw [Function.update_same]
        exact BitMap.GetBit_SetBit_true _ _ _ (by rw [hl]; have := hbit s' hs; omega)
      · rw [Function.update_noteq he, BitMap.GetBit_SetBit_ne _ _ _ _ _ he,
          hWbits mem s nm d s' hlen hs h1 h2 hs']
        exact (hinv s' hs').1
    · have hc' : ¬ (s < tab_hdr.rec_per_page_ ∧ A s = none) := by
        rintro ⟨hs, hn⟩
        exact hc ⟨hs, (hAnone s hs).2 hn⟩
      rw [if_neg hc, if_neg hc']
      exact ⟨hlen, hinv⟩
  | update s nm d =>
    simp only [SlotOp.valid, Bool.and_eq_true, decide_eq_true_eq] at hop
    obtain ⟨h1, h2⟩ := hop
    simp only [SlotOp.onBytes, SlotOp.apply]
    by_cases hc : s < tab_hdr.rec_per_page_ ∧ BitMap.GetBit mem bm s = true
    · obtain ⟨hs, hb⟩ := hc
      rw [if_pos ⟨hs, hb⟩, if_pos ⟨hs, (hAsome s hs).1 hb⟩]
      obtain ⟨hl, _⟩ := hWlen mem s nm d hlen hs h1 h2
      refine ⟨hl, ?_⟩
      intro s' hs'
      refine ⟨?_, fun nm' d' hnd => hwrite s nm d hs h1 h2 s' hs' nm' d' hnd⟩
      rw [hWbits mem s nm d s' hlen hs h1 h2 hs']
      by_cases he : s' = s
      · subst he
        rw [Function.update_same, hb]
        rfl
      · rw [Function.update_noteq he]
        exact (hinv s' hs').1
    · have hc' : ¬ (s < tab_hdr.rec_per_page_ ∧ (A s).isSome = true) := by
        rintro ⟨hs, hn⟩
        exact hc ⟨hs, (hAsome s hs).2 hn⟩
      rw [if_neg hc, if_neg hc']
      exact ⟨hlen, hinv⟩
  | clear s =>
    simp only [SlotOp.valid, decide_eq_true_eq] at hop
    simp only [SlotOp.onBytes, SlotOp.apply]
    refine ⟨by rw [BitMap.SetBit_length, hlen], ?_⟩
    intro s' hs'
    by_cases he : s' = s
    · subst he
      rw [Function.update_same]
      refine ⟨BitMap.GetBit_SetBit_false _ _ _, ?_⟩
      intro nm' d' hnd
      cases hnd
    · rw [Function.update_noteq he, BitMap.GetBit_SetBit_ne _ _ _ _ _ he]
      exact ⟨(hinv s' hs').1, fun nm' d' hnd =>
        hset _ _ _ _ _ _ hop ((hinv s' hs').2 nm' d' hnd)⟩

theorem NAry_slotWrite_props (tab_hdr : TableHeader) (sm N : Nat)
    (hfit : sm + tab_hdr.rec_per_page_ * (tab_hdr.nullmap_size_ + tab_hdr.rec_size_) ≤ N)
    (mem : List Nat) (s : Nat) (nm d : List Nat) (hlen : mem.length = N)
    (hs : s < tab_hdr.rec_per_page_) (h1 : nm.length = tab_hdr.nullmap_size_)
    (h2 : d.length = tab_hdr.rec_size_) :
    ((NAryPageHandle.slotWrite tab_hdr sm mem s nm d).length = N ∧
      ∀ j, j < sm → (NAryPageHandle.slotWrite tab_hdr sm mem s nm d)[j]? = mem[j]?) ∧
    NAryPageHandle.slotHolds tab_hdr sm (NAryPageHandle.slotWrite tab_hdr sm mem s nm d) s nm d ∧
    ∀ s' nm' d', s' < tab_hdr.rec_per_page_ → s' ≠ s →
      NAryPageHandle.slotHolds tab_hdr sm mem s' nm' d' →
      NAryPageHandle.slotHolds tab_hdr sm (NAryPageHandle.slotWrite tab_hdr sm mem s nm d)
        s' nm' d' := by
  obtain ⟨rs, nms, bs, rpp, pn, rn, ffp⟩ := tab_hdr
  simp only at hfit hs h1 h2
  unfold NAryPageHandle.slotWrite NAryPageHandle.slotHolds
  simp only
  have hmul : (s + 1) * (nms + rs) ≤ rpp * (nms + rs) := Nat.mul_le_mul_right _ hs
  have hexp : (s + 1) * (nms + rs) = s * (nms + rs) + nms + rs := by
    rw [Nat.add_mul, Nat.one_mul, Nat.add_assoc]
  have hr1 : memRead nm 0 nms = nm := by rw [← h1]; exact memRead_zero_length _
  have hr2 : memRead d 0 rs = d := by rw [← h2]; exact memRead_zero_length _
  rw [hr1, hr2]
  have hw1 : sm + s * (nms + rs) + nm.length ≤ mem.length := by omega
  have hl1 : (memWrite mem (sm + s * (nms + rs)) nm).length = mem.length :=
    memWrite_length _ _ _ hw1
  have hw2 : sm + s * (nms + rs) + nms + d.length ≤
      (memWrite mem (sm + s * (nms + rs)) nm).length := by
    rw [hl1]; omega
  have hl2 := memWrite_length _ _ _ hw2
  refine ⟨⟨by rw [hl2, hl1, hlen], ?_⟩, ⟨h1, h2, ?_, ?_⟩, ?_⟩
  · intro j hj
    rw [getElem?_memWrite _ _ _ hw2, if_pos (by omega), getElem?_memWrite _ _ _ hw1,
      if_pos (by omega)]
  · rw [memRead_memWrite_disjoint _ _ _ hw2 _ _ (Or.inl (Nat.le_refl _))]
    have := memRead_memWrite_same mem (sm + s * (nms + rs)) nm hw1
    rw [h1] at this
    exact this
  · have := memRead_memWrite_same _ (sm + s * (nms + rs) + nms) d hw2
    rw [h2] at this
    exact this
  · intro s' nm' d' hs' hne ⟨k1, k2, k3, k4⟩
    have hdis : (s' + 1) * (nms + rs) ≤ s * (nms + rs) ∨
        (s + 1) * (nms + rs) ≤ s' * (nms + rs) := by
      rcases Nat.lt_or_gt_of_ne hne with hlt | hgt
      · exact Or.inl (Nat.mul_le_mul_right _ hlt)
      · exact Or.inr (Nat.mul_le_mul_right _ hgt)
    have hexp' : (s' + 1) * (nms + rs) = s' * (nms + rs) + nms + rs := by
      rw [Nat.add_mul, Nat.one_mul, Nat.add_assoc]
    refine ⟨k1, k2, ?_, ?_⟩
    · rw [memRead_memWrite_disjoint _ _ _ hw2 _ _ (by omega),
        memRead_memWrite_disjoint _ _ _ hw1 _ _ (by omega)]
      exact k3
    · rw [memRead_memWrite_disjoint _ _ _ hw2 _ _ (by omega),
        memRead_memWrite_disjoint _ _ _ hw1 _ _ (by omega)]
      exact k4

theorem NAry_slotHolds_congr (tab_hdr : TableHeader) (sm : Nat)
    (m1 m2 : List Nat) (s : Nat) (nm d : List Nat)
    (h : ∀ j, sm ≤ j → m2[j]? = m1[j]?)
    (hh : NAryPageHandle.slotHolds tab_hdr sm m1 s nm d) :
    NAryPageHandle.slotHolds tab_hdr sm m2 s nm d := by
  obtain ⟨k1, k2, k3, k4⟩ := hh
  refine ⟨k1, k2, ?_, ?_⟩
  · rw [← k3]
    exact memRead_congr m1 m2 sm
      (sm + s * (tab_hdr.nullmap_size_ + tab_hdr.rec_size_) + tab_hdr.nullmap_size_)
      (fun j hj _ => h j hj) _ _ (by omega) (Nat.le_refl _)
  · rw [← k4]
    exact memRead_congr m1 m2 sm
      (sm + s * (tab_hdr.nullmap_size_ + tab_hdr.rec_size_) + tab_hdr.nullmap_size_ +
        tab_hdr.rec_size_)
      (fun j hj _ => h j hj) _ _ (by omega) (Nat.le_refl _)

/-- The field reads of `ReadSlot` depend on the bytes of the columns only. -/
theorem PAXPageHandle.readFields_congr_above (m1 m2 : List Nat) (sm rpp slot : Nat) :
    ∀ (fs : List RTField) (off total : Nat) (out : List Nat),
      (∀ j, sm + off ≤ j → m2[j]? = m1[j]?) →
      PAXPageHandle.readFields m2
          (PAXPageHandle.fieldPtrs sm (TableHandle.fieldOffsetLoop rpp fs off) slot 0 fs)
          fs total out =
        PAXPageHandle.readFields m1
          (PAXPageHandle.fieldPtrs sm (TableHandle.fieldOffsetLoop rpp fs off) slot 0 fs)
          fs total out := by
  intro fs
  induction fs with
  | nil => intro off total out _; rfl
  | cons f rest ih =>
    intro off total out h
    rw [PAXPageHandle.fieldPtrs_cons]
    simp only [PAXPageHandle.readFields]
    rw [memRead_congr m1 m2 (sm + off) (sm + off + slot * f.field_size_ + f.field_size_)
      (fun j hj _ => h j hj) _ _ (by omega) (Nat.le_refl _)]
    exact ih (off + f.field_size_ * rpp) _ _ (fun j hj => h j (by omega))

/-- The field reads of `ReadSlot` on a slot after the field writes of `WriteSlot` on
another slot: the writes are not seen. -/
theorem PAXPageHandle.readFields_writeFields_other (sm rpp s s' : Nat) (hs : s < rpp)
    (hs' : s' < rpp) (hne : s' ≠ s) (data : List Nat) :
    ∀ (fs : List RTField) (off total total' : Nat) (mem out : List Nat),
      total + (fs.map RTField.field_size_).sum ≤ data.length →
      sm + off + rpp * (fs.map RTField.field_size_).sum ≤ mem.length →
      PAXPageHandle.readFields
          (PAXPageHandle.writeFields data
            (PAXPageHandle.fieldPtrs sm (TableHandle.fieldOffsetLoop rpp fs off) s 0 fs)
            fs total mem)
          (PAXPageHandle.fieldPtrs sm (TableHandle.fieldOffsetLoop rpp fs off) s' 0 fs)
          fs total' out =
        PAXPageHandle.readFields mem
          (PAXPageHandle.fieldPtrs sm (TableHandle.fieldOffsetLoop rpp fs off) s' 0 fs)
          fs total' out := by
  intro fs
  induction fs with
  | nil => intro off total total' mem out _ _; rfl
  | cons f rest ih =>
    intro off total total' mem out hd hm
    rw [PAXPageHandle.fieldPtrs_cons, PAXPageHandle.fieldPtrs_cons]
    simp only [PAXPageHandle.writeFields, PAXPageHandle.readFields]
    simp only [List.map_cons, List.sum_cons] at hd hm
    have hmul : (s + 1) * f.field_size_ ≤ rpp * f.field_size_ := Nat.mul_le_mul_right _ hs
    have hmul' : (s' + 1) * f.field_size_ ≤ rpp * f.field_size_ :=
      Nat.mul_le_mul_right _ hs'
    rw [Nat.add_mul, Nat.one_mul, Nat.mul_comm rpp f.field_size_] at hmul hmul'
    rw [Nat.mul_add, Nat.mul_comm rpp f.field_size_] at hm
    have hdis : (s' + 1) * f.field_size_ ≤ s * f.field_size_ ∨
        (s + 1) * f.field_size_ ≤ s' * f.field_size_ := by
      rcases Nat.lt_or_gt_of_ne hne with hlt | hgt
      · exact Or.inl (Nat.mul_le_mul_right _ hlt)
      · exact Or.inr (Nat.mul_le_mul_right _ hgt)
    rw [Nat.add_mul, Nat.add_mul, Nat.one_mul] at hdis
    have hc : (memRead data total f.field_size_).length = f.field_size_ :=
      memRead_length _ _ _ (by omega)
    have hw : sm + off + s * f.field_size_ + (memRead data total f.field_size_).length ≤
        mem.length := by rw [hc]; omega
    have hl1 := memWrite_length _ _ _ hw
    obtain ⟨_, hfr⟩ := PAXPageHandle.writeFields_frame sm rpp s hs data rest
      (off + f.field_size_ * rpp) (total + f.field_size_)
      (memWrite mem (sm + off + s * f.field_size_) (memRead data total f.field_size_))
      (by omega) (by rw [hl1]; omega)
    have hchunk : memRead
        (PAXPageHandle.writeFields data
          (PAXPageHandle.fieldPtrs sm
            (TableHandle.fieldOffsetLoop rpp rest (off + f.field_size_ * rpp)) s 0 rest)
          rest (total + f.field_size_)
          (memWrite mem (sm + off + s * f.field_size_) (memRead data total f.field_size_)))
        (sm + off + s' * f.field_size_) f.field_size_ =
        memRead mem (sm + off + s' * f.field_size_) f.field_size_ := by
      rw [memRead_congr _ _ 0 (sm + (off + f.field_size_ * rpp)) (fun j _ hj => hfr j hj) _ _
        (Nat.zero_le _) (by omega)]
      exact memRead_memWrite_disjoint _ _ _ hw _ _ (by rw [hc]; omega)
    rw [hchunk, ih (off + f.field_size_ * rpp) (total + f.field_size_) _
      (memWrite mem (sm + off + s * f.field_size_) (memRead data total f.field_size_)) _
      (by omega) (by rw [hl1]; omega)]
    apply PAXPageHandle.readFields_congr_above
    intro j hj
    rw [getElem?_memWrite _ _ _ hw, hc, if_neg (by omega), if_neg (by omega)]

theorem PAX_slotWrite_props (tab_hdr : TableHeader) (schema : List RTField)
    (sm N : Nat) (hsum : (schema.map RTField.field_size_).sum = tab_hdr.rec_size_)
    (hfit : sm + tab_hdr.rec_per_page_ * (tab_hdr.nullmap_size_ + tab_hdr.rec_size_) ≤ N)
    (mem : List Nat) (s : Nat) (nm d : List Nat) (hlen : mem.length = N)
    (hs : s < tab_hdr.rec_per_page_) (h1 : nm.length = tab_hdr.nullmap_size_)
    (h2 : d.length = tab_hdr.rec_size_) :
    ((PAXPageHandle.slotWrite tab_hdr schema sm mem s nm d).length = N ∧
      ∀ j, j < sm → (PAXPageHandle.slotWrite tab_hdr schema sm mem s nm d)[j]? = mem[j]?) ∧
    PAXPageHandle.slotHolds tab_hdr schema sm
      (PAXPageHandle.slotWrite tab_hdr schema sm mem s nm d) s nm d ∧
    ∀ s' nm' d', s' < tab_hdr.rec_per_page_ → s' ≠ s →
      PAXPageHandle.slotHolds tab_hdr schema sm mem s' nm' d' →
      PAXPageHandle.slotHolds tab_hdr schema sm
        (PAXPageHandle.slotWrite tab_hdr schema sm mem s nm d) s' nm' d' := by
  obtain ⟨rs, nms, bs, rpp, pn, rn, ffp⟩ := tab_hdr
  simp only at hsum hfit hs h1 h2
  unfold PAXPageHandle.slotWrite PAXPageHandle.slotHolds TableHandle.field_offset_
  simp only
  have hmul : (s + 1) * nms ≤ rpp * nms := Nat.mul_le_mul_right _ hs
  rw [Nat.add_mul, Nat.one_mul, Nat.mul_comm rpp nms] at hmul
  rw [Nat.mul_add, Nat.mul_comm rpp nms] at hfit
  have hr1 : memRead nm 0 nms = nm := by rw [← h1]; exact memRead_zero_length _
  rw [hr1]
  have hw1 : sm + s * nms + nm.length ≤ mem.length := by omega
  have hl1 : (memWrite mem (sm + s * nms) nm).length = mem.length := memWrite_length _ _ _ hw1
  obtain ⟨mem2, hmem2⟩ : ∃ m, m = PAXPageHandle.writeFields d
      (PAXPageHandle.fieldPtrs sm (TableHandle.fieldOffsetLoop rpp schema (nms * rpp))
        s 0 schema) schema 0 (memWrite mem (sm + s * nms) nm) := ⟨_, rfl⟩
  obtain ⟨hl2, hfr⟩ := PAXPageHandle.writeFields_frame sm rpp s hs d schema
    (nms * rpp) 0 (memWrite mem (sm + s * nms) nm)
    (by rw [hsum, h2]; omega) (by rw [hl1, hsum]; omega)
  rw [← hmem2] at hl2 hfr ⊢
  refine ⟨⟨by rw [hl2, hl1, hlen], ?_⟩, ⟨h1, h2, ?_, ?_⟩, ?_⟩
  · intro j hj
    rw [hfr j (by omega), getElem?_memWrite _ _ _ hw1, if_pos (by omega)]
  · rw [memRead_congr _ mem2 0 (sm + nms * rpp) (fun j _ hj => hfr j hj) _ _ (Nat.zero_le _)
      (by omega)]
    have := memRead_memWrite_same mem (sm + s * nms) nm hw1
    rw [h1] at this
    exact this
  · intro out hout
    obtain ⟨hlen', hpt⟩ := PAXPageHandle.readFields_writeFields sm rpp s hs d
      schema (nms * rpp) 0 (memWrite mem (sm + s * nms) nm) out
      (by rw [hsum, h2]; omega) (by rw [hout, h2]) (by rw [hl1, hsum]; omega) mem2
      (fun j _ _ => by rw [← hmem2])
    apply List.ext_getElem?
    intro j
    rw [hpt j, hsum]
    by_cases hj : j < rs
    · rw [if_pos ⟨Nat.zero_le _, by omega⟩]
    · rw [if_neg (by omega), List.getElem?_eq_none (by omega),
        List.getElem?_eq_none (by omega)]
  · intro s' nm' d' hs' hne ⟨k1, k2, k3, k4⟩
    have hmul' : (s' + 1) * nms ≤ rpp * nms := Nat.mul_le_mul_right _ hs'
    rw [Nat.add_mul, Nat.one_mul, Nat.mul_comm rpp nms] at hmul'
    have hdis : (s' + 1) * nms ≤ s * nms ∨ (s + 1) * nms ≤ s' * nms := by
      rcases Nat.lt_or_gt_of_ne hne with hlt | hgt
      · exact Or.inl (Nat.mul_le_mul_right _ hlt)
      · exact Or.inr (Nat.mul_le_mul_right _ hgt)
    rw [Nat.add_mul, Nat.add_mul, Nat.one_mul] at hdis
    refine ⟨k1, k2, ?_, ?_⟩
    · rw [memRead_congr _ mem2 0 (sm + nms * rpp) (fun j _ hj => hfr j hj) _ _
        (Nat.zero_le _) (by omega),
        memRead_memWrite_disjoint _ _ _ hw1 _ _ (by omega)]
      exact k3
    · intro out hout
      rw [hmem2, PAXPageHandle.readFields_writeFields_other sm rpp s s' hs hs' hne d schema
        (nms * rpp) 0 0 _ out (by rw [hsum, h2]; omega) (by rw [hl1, hsum]; omega),
        PAXPageHandle.readFields_congr_above mem _ sm rpp s' schema (nms * rpp) 0 out
          (fun j hj => by
            rw [getElem?_memWrite _ _ _ hw1, if_neg (by omega), if_neg (by omega)])]
      exact k4 out hout

theorem PAX_slotHolds_congr (tab_hdr : TableHeader) (schema : List RTField)
    (sm : Nat) (m1 m2 : List Nat) (s : Nat) (nm d : List Nat)
    (h : ∀ j, sm ≤ j → m2[j]? = m1[j]?)
    (hh : PAXPageHandle.slotHolds tab_hdr schema sm m1 s nm d) :
    PAXPageHandle.slotHolds tab_hdr schema sm m2 s nm d := by
  obtain ⟨k1, k2, k3, k4⟩ := hh
  refine ⟨k1, k2, ?_, ?_⟩
  · rw [← k3]
    exact memRead_congr m1 m2 sm (sm + s * tab_hdr.nullmap_size_ + tab_hdr.nullmap_size_)
      (fun j hj _ => h j hj) _ _ (by omega) (Nat.le_refl _)
  · intro out hout
    rw [← k4 out hout]
    unfold TableHandle.field_offset_
    exact PAXPageHandle.readFields_congr_above m1 m2 sm _ s schema _ 0 out
      (fun j hj => h j (by omega))

theorem NAry_step_bytes (tab_hdr : TableHeader) (fid : file_id_t)
    (pid : page_id_t) (mem : List Nat) (bm sm : Nat) (op : SlotOp) :
    NAryPageHandle.step
        { tab_hdr_ := tab_hdr, page_ := ⟨fid, pid, mem⟩, bitmap_ := bm, slots_mem_ := sm } op =
      { tab_hdr_ := tab_hdr,
        page_ := ⟨fid, pid,
          SlotOp.onBytes tab_hdr.rec_per_page_ bm (NAryPageHandle.slotWrite tab_hdr sm) mem op⟩,
        bitmap_ := bm, slots_mem_ := sm } := by
  cases op with
  | insert s nm d =>
    simp only [NAryPageHandle.step, NAryPageHandle.WriteSlot, SlotOp.onBytes,
      PageHandle.GetBit, PageHandle.SetBit, NAryPageHandle.slotWrite]
    by_cases hs : s < tab_hdr.rec_per_page_
    · cases hb : BitMap.GetBit mem bm s <;> simp [hs, hb]
    · simp [hs]
  | update s nm d =>
    simp only [NAryPageHandle.step, NAryPageHandle.WriteSlot, SlotOp.onBytes,
      PageHandle.GetBit, NAryPageHandle.slotWrite]
    by_cases hs : s < tab_hdr.rec_per_page_
    · cases hb : BitMap.GetBit mem bm s <;> simp [hs, hb]
    · simp [hs]
  | clear s => rfl

theorem PAX_step_bytes (tab_hdr : TableHeader) (schema : List RTField)
    (fid : file_id_t) (pid : page_id_t) (mem : List Nat) (bm sm : Nat) (op : SlotOp) :
    PAXPageHandle.step
        { tab_hdr_ := tab_hdr, page_ := ⟨fid, pid, mem⟩, bitmap_ := bm, slots_mem_ := sm,
          schema_ := schema, offsets_ := TableHandle.field_offset_ tab_hdr schema } op =
      { tab_hdr_ := tab_hdr,
        page_ := ⟨fid, pid,
          SlotOp.onBytes tab_hdr.rec_per_page_ bm
            (PAXPageHandle.slotWrite tab_hdr schema sm) mem op⟩,
        bitmap_ := bm, slots_mem_ := sm,
        schema_ := schema, offsets_ := TableHandle.field_offset_ tab_hdr schema } := by
  cases op with
  | insert s nm d =>
    simp only [PAXPageHandle.step, PAXPageHandle.WriteSlot, SlotOp.onBytes,
      PageHandle.GetBit, PAXPageHandle.SetBit, PageHandle.SetBit, PAXPageHandle.slotWrite]
    by_cases hs : s < tab_hdr.rec_per_page_
    · cases hb : BitMap.GetBit mem bm s <;> simp [hs, hb]
    · simp [hs]
  | update s nm d =>
    simp only [PAXPageHandle.step, PAXPageHandle.WriteSlot, SlotOp.onBytes,
      PageHandle.GetBit, PAXPageHandle.slotWrite]
    by_cases hs : s < tab_hdr.rec_per_page_
    · cases hb : BitMap.GetBit mem bm s <;> simp [hs, hb]
    · simp [hs]
  | clear s => rfl

theorem NAry_run_bytes (tab_hdr : TableHeader) (fid : file_id_t)
    (pid : page_id_t) (bm sm : Nat) (ops : List SlotOp) :
    ∀ mem : List Nat,
      ops.foldl NAryPageHandle.step
          { tab_hdr_ := tab_hdr, page_ := ⟨fid, pid, mem⟩, bitmap_ := bm, slots_mem_ := sm } =
        { tab_hdr_ := tab_hdr,
          page_ := ⟨fid, pid,
            ops.foldl
              (SlotOp.onBytes tab_hdr.rec_per_page_ bm (NAryPageHandle.slotWrite tab_hdr sm))
              mem⟩,
          bitmap_ := bm, slots_mem_ := sm } := by
  induction ops with
  | nil => intro mem; rfl
  | cons op rest ih =>
    intro mem
    rw [List.foldl_cons, List.foldl_cons, NAry_step_bytes, ih]

theorem PAX_run_bytes (tab_hdr : TableHeader) (schema : List RTField)
    (fid : file_id_t) (pid : page_id_t) (bm sm : Nat) (ops : List SlotOp) :
    ∀ mem : List Nat,
      ops.foldl PAXPageHandle.step
          { tab_hdr_ := tab_hdr, page_ := ⟨fid, pid, mem⟩, bitmap_ := bm, slots_mem_ := sm,
            schema_ := schema, offsets_ := TableHandle.field_offset_ tab_hdr schema } =
        { tab_hdr_ := tab_hdr,
          page_ := ⟨fid, pid,
            ops.foldl
              (SlotOp.onBytes tab_hdr.rec_per_page_ bm
                (PAXPageHandle.slotWrite tab_hdr schema sm)) mem⟩,
          bitmap_ := bm, slots_mem_ := sm,
          schema_ := schema, offsets_ := TableHandle.field_offset_ tab_hdr schema } := by
  induction ops with
  | nil => intro mem; rfl
  | cons op rest ih =>
    intro mem
    rw [List.foldl_cons, List.foldl_cons, PAX_step_bytes, ih]

/-- A run of steps of a layout keeps `PageHolds`. -/
theorem PageHolds_run (tab_hdr : TableHeader) (bm N : Nat)
    (W : List Nat → Nat → List Nat → List Nat → List Nat)
    (holds : List Nat → Nat → List Nat → List Nat → Prop)
    (hstep : ∀ (mem : List Nat) (A : Nat → Option (List Nat × List Nat)) (op : SlotOp),
      op.valid tab_hdr = true → mem.length = N →
      PageHolds tab_hdr.rec_per_page_ bm holds mem A →
      (SlotOp.onBytes tab_hdr.rec_per_page_ bm W mem op).length = N ∧
      PageHolds tab_hdr.rec_per_page_ bm holds
        (SlotOp.onBytes tab_hdr.rec_per_page_ bm W mem op)
        (SlotOp.apply tab_hdr.rec_per_page_ A op))
    (ops : List SlotOp) :
    ∀ (mem : List Nat) (A : Nat → Option (List Nat × List Nat)),
      (∀ op, op ∈ ops → op.valid tab_hdr = true) → mem.length = N →
      PageHolds tab_hdr.rec_per_page_ bm holds mem A →
      PageHolds tab_hdr.rec_per_page_ bm holds
        (ops.foldl (SlotOp.onBytes tab_hdr.rec_per_page_ bm W) mem)
        (ops.foldl (SlotOp.apply tab_hdr.rec_per_page_) A) := by
  induction ops with
  | nil => intro mem A _ _ h; exact h
  | cons op rest ih =>
    intro mem A hv hlen h
    rw [List.foldl_cons, List.foldl_cons]
    obtain ⟨hl, hh⟩ := hstep mem A op (hv op (List.mem_cons_self _ _)) hlen h
    exact ih _ _ (fun o ho => hv o (List.mem_cons_of_mem _ ho)) hl hh

/-- C21: the two layouts are interchangeable. Let a row-major handle and a decomposed
handle be built by their constructors for the same table header, the decomposed one from a
schema whose field sizes sum to `rec_size_` with the field offsets of the table handle,
each over its own page, which holds the whole layout and has no occupied slot. Let the same
sequence of operations (insert-mode `WriteSlot` followed by setting the bit of the slot,
update-mode `WriteSlot`, clearing the bit of a slot; buffers of `nullmap_size_` and
`rec_size_` bytes) be applied to both. Then every slot of the page is occupied in both
pages or in neither, and on a slot that is occupied `ReadSlot` through the row-major handle
and `ReadSlot` through the decomposed handle both return, with the same null-map and the
same data bytes. -/
theorem layouts_interchangeable (PAGE_HEADER_SIZE : Nat) (tab_hdr : TableHeader)
    (schema : List RTField) (pageN pageP : Page) (hN : PageHandle) (hP : PAXPageHandle)
    (hnewN : NAryPageHandle.new PAGE_HEADER_SIZE tab_hdr pageN = .ok hN)
    (hnewP : PAXPageHandle.new PAGE_HEADER_SIZE tab_hdr pageP schema
      (TableHandle.field_offset_ tab_hdr schema) = .ok hP)
    (hsum : (schema.map RTField.field_size_).sum = tab_hdr.rec_size_)
    (hfitN : PAGE_HEADER_SIZE + tab_hdr.bitmap_size_ +
      tab_hdr.rec_per_page_ * (tab_hdr.nullmap_size_ + tab_hdr.rec_size_) ≤ pageN.data_.length)
    (hfitP : PAGE_HEADER_SIZE + tab_hdr.bitmap_size_ +
      tab_hdr.rec_per_page_ * (tab_hdr.nullmap_size_ + tab_hdr.rec_size_) ≤ pageP.data_.length)
    (hemptyN : ∀ s, s < tab_hdr.rec_per_page_ → hN.GetBit s = false)
    (hemptyP : ∀ s, s < tab_hdr.rec_per_page_ → hP.toPageHandle.GetBit s = false)
    (ops : List SlotOp) (hops : ∀ op, op ∈ ops → op.valid tab_hdr = true)
    (slot_id : Nat) (hslot : slot_id < tab_hdr.rec_per_page_)
    (nm_out data_out : List Nat) (hnmo : nm_out.length = tab_hdr.nullmap_size_)
    (hdo : data_out.length = tab_hdr.rec_size_) :
    (ops.foldl NAryPageHandle.step hN).GetBit slot_id =
      (ops.foldl PAXPageHandle.step hP).toPageHandle.GetBit slot_id ∧
    ((ops.foldl NAryPageHandle.step hN).GetBit slot_id = true →
      ∃ nm d,
        NAryPageHandle.ReadSlot (ops.foldl NAryPageHandle.step hN) slot_id nm_out data_out =
          .ok (nm, d) ∧
        PAXPageHandle.ReadSlot (ops.foldl PAXPageHandle.step hP) slot_id nm_out data_out =
          .ok (nm, d)) := by
  obtain ⟨hbs, rfl⟩ := NAry_new_ok _ _ _ _ hnewN
  obtain ⟨_, rfl⟩ := PAX_new_ok _ _ _ _ _ _ hnewP
  obtain ⟨fidN, pidN, memN⟩ := pageN
  obtain ⟨fidP, pidP, memP⟩ := pageP
  simp only at hfitN hfitP
  simp only [PageHandle.GetBit] at hemptyN hemptyP
  have hbit : ∀ s, s < tab_hdr.rec_per_page_ →
      PAGE_HEADER_SIZE + s / 8 < PAGE_HEADER_SIZE + tab_hdr.bitmap_size_ := by
    intro s hs
    rw [← hbs]
    unfold BITMAP_SIZE
    omega
  -- the records that the operations define
  obtain ⟨A, hA⟩ : ∃ A, A = ops.foldl (SlotOp.apply tab_hdr.rec_per_page_) (fun _ => none) :=
    ⟨_, rfl⟩
  have hinvN := PageHolds_run tab_hdr PAGE_HEADER_SIZE memN.length
    (NAryPageHandle.slotWrite tab_hdr (PAGE_HEADER_SIZE + tab_hdr.bitmap_size_))
    (NAryPageHandle.slotHolds tab_hdr (PAGE_HEADER_SIZE + tab_hdr.bitmap_size_))
    (fun mem A op hop hlen hinv =>
      PageHolds_step tab_hdr PAGE_HEADER_SIZE (PAGE_HEADER_SIZE + tab_hdr.bitmap_size_)
        memN.length _ _ hbit (by omega)
        (fun m s nm d hm hs h1 h2 =>
          (NAry_slotWrite_props tab_hdr _ _ hfitN m s nm d hm hs h1 h2).1)
        (fun m s nm d hm hs h1 h2 =>
          (NAry_slotWrite_props tab_hdr _ _ hfitN m s nm d hm hs h1 h2).2.1)
        (fun m s nm d s' nm' d' hm hs h1 h2 hs' hne hh =>
          (NAry_slotWrite_props tab_hdr _ _ hfitN m s nm d hm hs h1 h2).2.2
            s' nm' d' hs' hne hh)
        (fun m1 m2 s nm d h hh => NAry_slotHolds_congr tab_hdr _ m1 m2 s nm d h hh)
        mem A op hop hlen hinv)
    ops memN (fun _ => none) hops rfl
    (fun s hs => ⟨hemptyN s hs, fun nm d h => by cases h⟩)
  have hinvP := PageHolds_run tab_hdr PAGE_HEADER_SIZE memP.length
    (PAXPageHandle.slotWrite tab_hdr schema (PAGE_HEADER_SIZE + tab_hdr.bitmap_size_))
    (PAXPageHandle.slotHolds tab_hdr schema (PAGE_HEADER_SIZE + tab_hdr.bitmap_size_))
    (fun mem A op hop hlen hinv =>
      PageHolds_step tab_hdr PAGE_HEADER_SIZE (PAGE_HEADER_SIZE + tab_hdr.bitmap_size_)
        memP.length _ _ hbit (by omega)
        (fun m s nm d hm hs h1 h2 =>
          (PAX_slotWrite_props tab_hdr schema _ _ hsum hfitP m s nm d hm hs h1
            h2).1)
        (fun m s nm d hm hs h1 h2 =>
          (PAX_slotWrite_props tab_hdr schema _ _ hsum hfitP m s nm d hm hs h1
            h2).2.1)
        (fun m s nm d s' nm' d' hm hs h1 h2 hs' hne hh =>
          (PAX_slotWrite_props tab_hdr schema _ _ hsum hfitP m s nm d hm hs h1
            h2).2.2 s' nm' d' hs' hne hh)
        (fun m1 m2 s nm d h hh =>
          PAX_slotHolds_congr tab_hdr schema _ m1 m2 s nm d h hh)
        mem A op hop hlen hinv)
    ops memP (fun _ => none) hops rfl
    (fun s hs => ⟨hemptyP s hs, fun nm d h => by cases h⟩)
  rw [← hA] at hinvN hinvP
  rw [NAry_run_bytes, PAX_run_bytes]
  obtain ⟨bN, cN⟩ := hinvN slot_id hslot
  obtain ⟨bP, cP⟩ := hinvP slot_id hslot
  simp only [PageHandle.GetBit]
  refine ⟨by rw [bN, bP], ?_⟩
  intro hocc
  rw [bN] at hocc
  obtain ⟨⟨nm, d⟩, hAs⟩ := Option.isSome_iff_exists.1 hocc
  obtain ⟨n1, n2, n3, n4⟩ := cN nm d hAs
  obtain ⟨_, _, p3, p4⟩ := cP nm d hAs
  have hbN' : BitMap.GetBit
      (ops.foldl (SlotOp.onBytes tab_hdr.rec_per_page_ PAGE_HEADER_SIZE
        (NAryPageHandle.slotWrite tab_hdr (PAGE_HEADER_SIZE + tab_hdr.bitmap_size_))) memN)
      PAGE_HEADER_SIZE slot_id = true := by rw [bN, hAs]; rfl
  have hbP' : BitMap.GetBit
      (ops.foldl (SlotOp.onBytes tab_hdr.rec_per_page_ PAGE_HEADER_SIZE
        (PAXPageHandle.slotWrite tab_hdr schema (PAGE_HEADER_SIZE + tab_hdr.bitmap_size_)))
        memP)
      PAGE_HEADER_SIZE slot_id = true := by rw [bP, hAs]; rfl
  refine ⟨nm, d, ?_, ?_⟩
  · unfold NAryPageHandle.ReadSlot
    simp only [PageHandle.GetBit, hslot, hbN', not_true_eq_false, if_false, ne_eq]
    rw [n3, n4, memWrite_whole _ _ (by rw [n1, hnmo]), memWrite_whole _ _ (by rw [n2, hdo])]
  · unfold PAXPageHandle.ReadSlot
    simp only [PageHandle.GetBit, hslot, hbP', not_true_eq_false, if_false, ne_eq]
    rw [p3, p4 data_out hdo, memWrite_whole _ _ (by rw [n1, hnmo])]

/-- An instance of C21: the operations `demoSlotOps` are applied to two empty pages of
nine bytes; both slots are occupied at the end, and for each of them the two handles
return the same record, the one last written to the slot. -/
theorem layouts_interchangeable_witness :
    (∃ nm d,
      NAryPageHandle.ReadSlot
          (demoSlotOps.foldl NAryPageHandle.step { naryHandle with page_ := emptyPage })
          0 [0] [0, 0] = .ok (nm, d) ∧
      PAXPageHandle.ReadSlot
          (demoSlotOps.foldl PAXPageHandle.step
            { tab_hdr_ := naryHeader, page_ := emptyPage, bitmap_ := 2, slots_mem_ := 3,
              schema_ := twoByteSchema,
              offsets_ := TableHandle.field_offset_ naryHeader twoByteSchema })
          0 [0] [0, 0] = .ok (nm, d)) ∧
    NAryPageHandle.ReadSlot
        (demoSlotOps.foldl NAryPageHandle.step { naryHandle with page_ := emptyPage })
        0 [0] [0, 0] = .ok ([0], [5, 6]) ∧
    NAryPageHandle.ReadSlot
        (demoSlotOps.foldl NAryPageHandle.step { naryHandle with page_ := emptyPage })
        1 [0] [0, 0] = .ok ([0], [7, 8]) :=
  ⟨(layouts_interchangeable 2 naryHeader twoByteSchema emptyPage emptyPage
      { naryHandle with page_ := emptyPage }
      { tab_hdr_ := naryHeader, page_ := emptyPage, bitmap_ := 2, slots_mem_ := 3,
        schema_ := twoByteSchema,
        offsets_ := TableHandle.field_offset_ naryHeader twoByteSchema }
      (by decide) (by decide) (by decide) (by decide) (by decide) (by decide) (by decide)
      demoSlotOps (by decide) 0 (by decide) [0] [0, 0] rfl rfl).2 (by decide),
    by decide, by decide⟩

/-- The loop of the pull loop from a state in which `count_` records have been loaded and the
child stands on the record `r`: the records still emitted are the current one and those that
follow while the counter is below the limit. -/
theorem LimitExecutor.pullLoop_eq (records : List Record) (limit : Int) :
    ∀ (rest : List Record) (r : Record) (count : Int) (fuel : Nat) (cur : Option Record),
      rest.length + 2 ≤ fuel → 1 ≤ count →
      LimitExecutor.pullLoop fuel
        { child_ := { records_ := records, rest_ := r :: rest }, limit_ := limit,
          count_ := count, record_ := cur } =
      if count ≥ limit then some []
      else some (cur :: ((r :: rest).tail.take (limit - count - 1).toNat).map some) := by
  intro rest
  induction rest with
  | nil =>
    intro r count fuel cur hf hc
    obtain ⟨k, rfl⟩ : ∃ k, fuel = k + 2 := ⟨fuel - 2, by simp at hf; omega⟩
    by_cases hl : count ≥ limit
    · simp [LimitExecutor.pullLoop, LimitExecutor.IsEnd, hl]
    · simp [LimitExecutor.pullLoop, LimitExecutor.IsEnd, LimitExecutor.Next,
        ChildExecutor.IsEnd, ChildExecutor.Next, LimitExecutor.GetRecord, hl]
  | cons r1 rest ih =>
    intro r count fuel cur hf hc
    obtain ⟨k, rfl⟩ : ∃ k, fuel = k + 1 := ⟨fuel - 1, by simp at hf; omega⟩
    by_cases hl : count ≥ limit
    · simp [LimitExecutor.pullLoop, LimitExecutor.IsEnd, hl]
    · have hstep : LimitExecutor.Next
          { child_ := { records_ := records, rest_ := r :: r1 :: rest }, limit_ := limit,
            count_ := count, record_ := cur } =
          { child_ := { records_ := records, rest_ := r1 :: rest }, limit_ := limit,
            count_ := count + 1, record_ := some r1 } := by
        simp [LimitExecutor.Next, ChildExecutor.IsEnd, ChildExecutor.Next,
          ChildExecutor.GetRecord, hl]
      have hend : LimitExecutor.IsEnd
          { child_ := { records_ := records, rest_ := r :: r1 :: rest }, limit_ := limit,
            count_ := count, record_ := cur } = false := by
        simp [LimitExecutor.IsEnd, ChildExecutor.IsEnd, hl]
      rw [LimitExecutor.pullLoop, hend, hstep,
        ih r1 (count + 1) k (some r1) (by simp at hf ⊢; omega) (by omega)]
      rw [if_neg hl]
      simp only [Bool.false_eq_true, if_false, LimitExecutor.GetRecord, List.tail_cons]
      by_cases hl1 : count + 1 ≥ limit
      · rw [if_pos hl1]
        have : (limit - count - 1).toNat = 0 := by omega
        simp [this]
      · rw [if_neg hl1]
        have : (limit - count - 1).toNat = (limit - (count + 1) - 1).toNat + 1 := by omega
        simp [this, List.take_succ_cons]

/-- The standard pull loop on a `LimitExecutor` ends, and with a limit `L` it emits the
first `L - 1` records of the child (all of them when the child yields fewer): `Init` loads
the first record and counts it, and `IsEnd` is true as soon as the counter reaches the
limit, before the record loaded last has been emitted. -/
theorem LimitExecutor.pull_eq (records : List Record) (L : Nat) :
    LimitExecutor.pull (records.length + 1) records L =
      some ((records.take (L - 1)).map some) := by
  cases records with
  | nil =>
    simp [LimitExecutor.pull, LimitExecutor.new, ChildExecutor.new, LimitExecutor.Init,
      ChildExecutor.Init, ChildExecutor.IsEnd, LimitExecutor.pullLoop, LimitExecutor.IsEnd]
  | cons r rest =>
    have hinit : (LimitExecutor.new (ChildExecutor.new (r :: rest)) L).Init =
        { child_ := { records_ := r :: rest, rest_ := r :: rest }, limit_ := L,
          count_ := 1, record_ := some r } := by
      simp [LimitExecutor.new, ChildExecutor.new, LimitExecutor.Init, ChildExecutor.Init,
        ChildExecutor.IsEnd, ChildExecutor.GetRecord]
    unfold LimitExecutor.pull
    rw [hinit, LimitExecutor.pullLoop_eq (r :: rest) L rest r 1 _ (some r) (by simp) (by omega)]
    by_cases hl : (1 : Int) ≥ L
    · rw [if_pos hl]
      have : L - 1 = 0 := by omega
      simp [this]
    · rw [if_neg hl]
      have h1 : ((L : Int) - 1 - 1).toNat = L - 2 := by omega
      obtain ⟨m, hm⟩ : ∃ m, L - 1 = m + 1 := ⟨L - 2, by omega⟩
      have h2 : L - 2 = m := by omega
      rw [h1, hm, h2]
      simp [List.take_succ_cons]

/-- C40 (fails on the code): over a child that yields the three records of `threeRecords`,
the pull loop on a `LimitExecutor` with limit 2 ends and emits the first record only, and
with limit 1 it emits nothing; with limit 5 it emits the three records. -/
theorem LimitExecutor_emits_one_record_less :
    LimitExecutor.pull 4 threeRecords 2 = some ((threeRecords.take 1).map some) ∧
    LimitExecutor.pull 4 threeRecords 1 = some [] ∧
    LimitExecutor.pull 4 threeRecords 5 = some (threeRecords.map some) := by
  decide

theorem TableHandle.fieldOffsetLoop_length (rpp : Nat) :
    ∀ (fs : List RTField) (off : Nat), (TableHandle.fieldOffsetLoop rpp fs off).length =
      fs.length := by
  intro fs
  induction fs with
  | nil => intro off; rfl
  | cons f rest ih => intro off; simp [TableHandle.fieldOffsetLoop, ih]

theorem TableHandle.fieldOffsetLoop_getD (rpp : Nat) :
    ∀ (fs : List RTField) (off i : Nat), i < fs.length →
      (TableHandle.fieldOffsetLoop rpp fs off).getD i 0 =
        off + rpp * RTField.sizeBefore fs i := by
  intro fs
  induction fs with
  | nil => intro off i hi; simp at hi
  | cons f rest ih =>
    intro off i hi
    cases i with
    | zero => simp [TableHandle.fieldOffsetLoop, RTField.sizeBefore]
    | succ i =>
      have hi' : i < rest.length := by simpa using hi
      have := ih (off + f.field_size_ * rpp) i hi'
      simp only [TableHandle.fieldOffsetLoop, List.getD_cons_succ, this, RTField.sizeBefore,
        List.take_succ_cons, List.map_cons, List.sum_cons]
      ring

/-- While the regions end below `2 ^ 64`, the arithmetic of `size_t` does not wrap in the
loop of the constructor. -/
theorem TableHandle.fieldOffsetLoop_size_t_eq (rpp : Nat) :
    ∀ (fs : List RTField) (off : Nat),
      off + rpp * RTField.sizeBefore fs fs.length < 2 ^ 64 →
      TableHandle.fieldOffsetLoop_size_t rpp fs off = TableHandle.fieldOffsetLoop rpp fs off := by
  intro fs
  induction fs with
  | nil => intro off _; rfl
  | cons f rest ih =>
    intro off h
    have hsum : RTField.sizeBefore (f :: rest) (f :: rest).length =
        f.field_size_ + RTField.sizeBefore rest rest.length := by
      simp [RTField.sizeBefore]
    rw [hsum, Nat.mul_add] at h
    have h1 : f.field_size_ * rpp < 2 ^ 64 := by
      have : f.field_size_ * rpp = rpp * f.field_size_ := Nat.mul_comm _ _
      omega
    have h2 : (off + f.field_size_ * rpp % 2 ^ 64) % 2 ^ 64 = off + f.field_size_ * rpp := by
      rw [Nat.mod_eq_of_lt h1, Nat.mod_eq_of_lt]
      have : f.field_size_ * rpp = rpp * f.field_size_ := Nat.mul_comm _ _
      omega
    simp only [TableHandle.fieldOffsetLoop_size_t, TableHandle.fieldOffsetLoop, h2]
    rw [ih]
    have : f.field_size_ * rpp = rpp * f.field_size_ := Nat.mul_comm _ _
    omega

theorem RTField.sizeBefore_succ (schema : List RTField) (i : Nat) (hi : i < schema.length) :
    RTField.sizeBefore schema (i + 1) =
      RTField.sizeBefore schema i + (schema.getD i default).field_size_ := by
  unfold RTField.sizeBefore
  rw [List.take_succ, List.map_append, List.sum_append]
  simp [List.getD_eq_getElem?_getD, List.getElem?_eq_getElem hi]

theorem RTField.sizeBefore_mono (schema : List RTField) (i j : Nat) (hij : i ≤ j) :
    RTField.sizeBefore schema i ≤ RTField.sizeBefore schema j := by
  induction j with
  | zero =>
    have : i = 0 := by omega
    rw [this]
  | succ j ih =>
    by_cases h : i = j + 1
    · rw [h]
    · have h1 := ih (by omega)
      by_cases hj : j < schema.length
      · rw [RTField.sizeBefore_succ schema j hj]; omega
      · have : RTField.sizeBefore schema (j + 1) = RTField.sizeBefore schema j := by
          unfold RTField.sizeBefore
          rw [List.take_of_length_le (by omega), List.take_of_length_le (by omega)]
        omega

/-- C36: let the null-map region and the column regions of the decomposed layout end below
`2 ^ 64`, so that the arithmetic of `size_t` in the constructor does not wrap. The vector
`field_offset_` has one entry per field, and entry `i` is
`rec_per_page_ * (nullmap_size_ + sum of field_size_ of the fields 0 .. i - 1)`. The column
region of field 0 starts where the null-map region `[0, nullmap_size_ * rec_per_page_)` ends,
the column region of field `i + 1` starts where that of field `i` ends, and the column
region of a field ends at or before the start of that of every later field: the regions
are contiguous in schema order and pairwise disjoint. -/
theorem field_offsets_are_prefix_sums (tab_hdr : TableHeader) (schema : List RTField)
    (hfit : tab_hdr.rec_per_page_ *
      (tab_hdr.nullmap_size_ + RTField.sizeBefore schema schema.length) < 2 ^ 64) :
    TableHandle.field_offset_size_t tab_hdr schema = TableHandle.field_offset_ tab_hdr schema ∧
    (TableHandle.field_offset_ tab_hdr schema).length = schema.length ∧
    (∀ i, i < schema.length →
      (TableHandle.field_offset_ tab_hdr schema).getD i 0 =
        tab_hdr.rec_per_page_ * (tab_hdr.nullmap_size_ + RTField.sizeBefore schema i)) ∧
    (0 < schema.length →
      (TableHandle.field_offset_ tab_hdr schema).getD 0 0 =
        tab_hdr.nullmap_size_ * tab_hdr.rec_per_page_) ∧
    (∀ i, i + 1 < schema.length →
      (TableHandle.field_offset_ tab_hdr schema).getD (i + 1) 0 =
        (TableHandle.field_offset_ tab_hdr schema).getD i 0 +
          (schema.getD i default).field_size_ * tab_hdr.rec_per_page_) ∧
    (∀ i j, i < j → j < schema.length →
      (TableHandle.field_offset_ tab_hdr schema).getD i 0 +
          (schema.getD i default).field_size_ * tab_hdr.rec_per_page_ ≤
        (TableHandle.field_offset_ tab_hdr schema).getD j 0) := by
  have hget : ∀ i, i < schema.length →
      (TableHandle.field_offset_ tab_hdr schema).getD i 0 =
        tab_hdr.rec_per_page_ * (tab_hdr.nullmap_size_ + RTField.sizeBefore schema i) := by
    intro i hi
    unfold TableHandle.field_offset_
    rw [TableHandle.fieldOffsetLoop_getD _ _ _ _ hi]
    ring
  rw [Nat.mul_add] at hfit
  have hnm : tab_hdr.nullmap_size_ * tab_hdr.rec_per_page_ =
      tab_hdr.rec_per_page_ * tab_hdr.nullmap_size_ := Nat.mul_comm _ _
  refine ⟨?_, ?_, hget, ?_, ?_, ?_⟩
  · unfold TableHandle.field_offset_size_t TableHandle.field_offset_
    rw [Nat.mod_eq_of_lt (by omega)]
    exact TableHandle.fieldOffsetLoop_size_t_eq _ _ _ (by omega)
  · exact TableHandle.fieldOffsetLoop_length _ _ _
  · intro h0
    rw [hget 0 h0]
    simp [RTField.sizeBefore, Nat.mul_comm]
  · intro i hi
    rw [hget (i + 1) hi, hget i (by omega), RTField.sizeBefore_succ schema i (by omega)]
    ring
  · intro i j hij hj
    rw [hget i (by omega), hget j hj]
    have h1 := RTField.sizeBefore_mono schema (i + 1) j (by omega)
    rw [RTField.sizeBefore_succ schema i (by omega)] at h1
    have h2 : (schema.getD i default).field_size_ * tab_hdr.rec_per_page_ =
        tab_hdr.rec_per_page_ * (schema.getD i default).field_size_ := Nat.mul_comm _ _
    rw [h2, ← Nat.mul_add]
    exact Nat.mul_le_mul_left _ (by omega)

/-- An instance of C36: for `paxHeader` and `paxSchema` the offset of field 1 is
`rec_per_page_` times the null-map size plus the size of field 0. -/
theorem field_offsets_are_prefix_sums_witness :
    (TableHandle.field_offset_ paxHeader paxSchema).getD 1 0 =
      paxHeader.rec_per_page_ * (paxHeader.nullmap_size_ + RTField.sizeBefore paxSchema 1) :=
  (field_offsets_are_prefix_sums paxHeader paxSchema (by decide)).2.2.1 1 (by decide)

/-- A successful `NAryPageHandle::WriteSlot` on slot `i` of a handle given by its fields:
the bytes before `slots_mem_` and what `ReadSlot` returns for another slot are unchanged. -/
theorem NAry_WriteSlot_other (tab_hdr : TableHeader) (page : Page) (bm sm : Nat)
    (hbm : ∀ s, s < tab_hdr.rec_per_page_ → bm + s / 8 < sm)
    (hfit : sm + tab_hdr.rec_per_page_ * (tab_hdr.nullmap_size_ + tab_hdr.rec_size_) ≤
      page.data_.length)
    (i j : Nat) (hi : i < tab_hdr.rec_per_page_) (hj : j < tab_hdr.rec_per_page_)
    (hij : i ≠ j) (null_map data : List Nat)
    (hnm : null_map.length = tab_hdr.nullmap_size_)
    (hdata : data.length = tab_hdr.rec_size_) (update : Bool) (h1 : PageHandle)
    (hw : NAryPageHandle.WriteSlot
      { tab_hdr_ := tab_hdr, page_ := page, bitmap_ := bm, slots_mem_ := sm }
      i null_map data update = (.ok (), h1)) :
    h1.page_.data_.length = page.data_.length ∧
    (∀ k, k < sm → h1.page_.data_[k]? = page.data_[k]?) ∧
    (∀ nm_out d_out, NAryPageHandle.ReadSlot h1 j nm_out d_out =
      NAryPageHandle.ReadSlot
        { tab_hdr_ := tab_hdr, page_ := page, bitmap_ := bm, slots_mem_ := sm }
        j nm_out d_out) := by
  obtain ⟨fid, pid, mem⟩ := page
  have hh1 : h1 =
      { tab_hdr_ := tab_hdr,
        page_ := ⟨fid, pid, NAryPageHandle.slotWrite tab_hdr sm mem i null_map data⟩,
        bitmap_ := bm, slots_mem_ := sm } := by
    unfold NAryPageHandle.WriteSlot at hw
    simp only [hi, not_true_eq_false, if_false] at hw
    by_cases hb : PageHandle.GetBit
        { tab_hdr_ := tab_hdr, page_ := ⟨fid, pid, mem⟩, bitmap_ := bm, slots_mem_ := sm } i ≠
        update
    · rw [if_pos hb] at hw
      cases hw
    · rw [if_neg hb] at hw
      injection hw with _ hw
      rw [← hw]
      rfl
  obtain ⟨⟨hl, hlow⟩, _, hoth⟩ := NAry_slotWrite_props tab_hdr sm mem.length hfit mem i
    null_map data rfl hi hnm hdata
  have hmul : (j + 1) * (tab_hdr.nullmap_size_ + tab_hdr.rec_size_) ≤
      tab_hdr.rec_per_page_ * (tab_hdr.nullmap_size_ + tab_hdr.rec_size_) :=
    Nat.mul_le_mul_right _ hj
  have hexp : (j + 1) * (tab_hdr.nullmap_size_ + tab_hdr.rec_size_) =
      j * (tab_hdr.nullmap_size_ + tab_hdr.rec_size_) + tab_hdr.nullmap_size_ +
        tab_hdr.rec_size_ := by
    rw [Nat.add_mul, Nat.one_mul, Nat.add_assoc]
  simp only at hfit
  obtain ⟨_, _, hr1, hr2⟩ := hoth j
    (memRead mem (sm + j * (tab_hdr.nullmap_size_ + tab_hdr.rec_size_)) tab_hdr.nullmap_size_)
    (memRead mem (sm + j * (tab_hdr.nullmap_size_ + tab_hdr.rec_size_) +
      tab_hdr.nullmap_size_) tab_hdr.rec_size_) hj (Ne.symm hij)
    ⟨memRead_length _ _ _ (by omega), memRead_length _ _ _ (by omega), rfl, rfl⟩
  subst hh1
  refine ⟨hl, hlow, ?_⟩
  intro nm_out d_out
  have hbit : BitMap.GetBit (NAryPageHandle.slotWrite tab_hdr sm mem i null_map data) bm j =
      BitMap.GetBit mem bm j := BitMap.GetBit_congr _ _ _ _ (hlow _ (hbm j hj))
  simp only [NAryPageHandle.ReadSlot, PageHandle.GetBit, hbit, hr1, hr2]

/-- A successful `PAXPageHandle::WriteSlot` on slot `i` of a handle given by its fields,
with the field offsets of the constructor of the table handle: the bytes before `slots_mem_`
and what `ReadSlot` returns for another slot are unchanged. -/
theorem PAX_WriteSlot_other (tab_hdr : TableHeader) (page : Page) (bm sm : Nat)
    (schema : List RTField)
    (hsum : (schema.map RTField.field_size_).sum = tab_hdr.rec_size_)
    (hbm : ∀ s, s < tab_hdr.rec_per_page_ → bm + s / 8 < sm)
    (hfit : sm + tab_hdr.rec_per_page_ * (tab_hdr.nullmap_size_ + tab_hdr.rec_size_) ≤
      page.data_.length)
    (i j : Nat) (hi : i < tab_hdr.rec_per_page_) (hj : j < tab_hdr.rec_per_page_)
    (hij : i ≠ j) (null_map data : List Nat)
    (hnm : null_map.length = tab_hdr.nullmap_size_)
    (hdata : data.length = tab_hdr.rec_size_) (update : Bool) (h1 : PAXPageHandle)
    (hw : PAXPageHandle.WriteSlot
      { tab_hdr_ := tab_hdr, page_ := page, bitmap_ := bm, slots_mem_ := sm,
        schema_ := schema, offsets_ := TableHandle.field_offset_ tab_hdr schema }
      i null_map data update = (.ok (), h1)) :
    h1.page_.data_.length = page.data_.length ∧
    (∀ k, k < sm → h1.page_.data_[k]? = page.data_[k]?) ∧
    (∀ nm_out d_out, PAXPageHandle.ReadSlot h1 j nm_out d_out =
      PAXPageHandle.ReadSlot
        { tab_hdr_ := tab_hdr, page_ := page, bitmap_ := bm, slots_mem_ := sm,
          schema_ := schema, offsets_ := TableHandle.field_offset_ tab_hdr schema }
        j nm_out d_out) := by
  obtain ⟨fid, pid, mem⟩ := page
  have hh1 : h1 =
      { tab_hdr_ := tab_hdr,
        page_ := ⟨fid, pid, PAXPageHandle.slotWrite tab_hdr schema sm mem i null_map data⟩,
        bitmap_ := bm, slots_mem_ := sm, schema_ := schema,
        offsets_ := TableHandle.field_offset_ tab_hdr schema } := by
    unfold PAXPageHandle.WriteSlot at hw
    simp only [hi, not_true_eq_false, if_false] at hw
    by_cases hb : PageHandle.GetBit
        { tab_hdr_ := tab_hdr, page_ := ⟨fid, pid, mem⟩, bitmap_ := bm, slots_mem_ := sm } i ≠
        update
    · rw [if_pos hb] at hw
      cases hw
    · rw [if_neg hb] at hw
      injection hw with _ hw
      rw [← hw]
      rfl
  obtain ⟨⟨hl, hlow⟩, _, _⟩ := PAX_slotWrite_props tab_hdr schema sm mem.length hsum hfit
    mem i null_map data rfl hi hnm hdata
  subst hh1
  refine ⟨hl, hlow, ?_⟩
  intro nm_out d_out
  have hbit : BitMap.GetBit (PAXPageHandle.slotWrite tab_hdr schema sm mem i null_map data)
      bm j = BitMap.GetBit mem bm j := BitMap.GetBit_congr _ _ _ _ (hlow _ (hbm j hj))
  obtain ⟨rs, nms, bs, rpp, pn, rn, ffp⟩ := tab_hdr
  simp only at hsum hfit hi hj hnm hdata
  have hmuli : (i + 1) * nms ≤ rpp * nms := Nat.mul_le_mul_right _ hi
  have hmulj : (j + 1) * nms ≤ rpp * nms := Nat.mul_le_mul_right _ hj
  rw [Nat.add_mul, Nat.one_mul, Nat.mul_comm rpp nms] at hmuli hmulj
  rw [Nat.mul_add, Nat.mul_comm rpp nms] at hfit
  have hr1 : memRead null_map 0 nms = null_map := by rw [← hnm]; exact memRead_zero_length _
  have hw1 : sm + i * nms + null_map.length ≤ mem.length := by omega
  have hl1 : (memWrite mem (sm + i * nms) null_map).length = mem.length :=
    memWrite_length _ _ _ hw1
  obtain ⟨_, hfr⟩ := PAXPageHandle.writeFields_frame sm rpp i hi data schema (nms * rpp) 0
    (memWrite mem (sm + i * nms) null_map) (by omega) (by rw [hl1, hsum]; omega)
  have hnmread : memRead (PAXPageHandle.slotWrite ⟨rs, nms, bs, rpp, pn, rn, ffp⟩ schema sm mem
      i null_map data) (sm + j * nms) nms = memRead mem (sm + j * nms) nms := by
    unfold PAXPageHandle.slotWrite TableHandle.field_offset_
    simp only [hr1]
    rw [memRead_congr _ _ 0 (sm + nms * rpp) (fun k _ hk => hfr k hk) _ _ (Nat.zero_le _)
      (by omega)]
    apply memRead_memWrite_disjoint _ _ _ hw1
    rcases Nat.lt_or_gt_of_ne hij with hlt | hgt
    · right
      have : (i + 1) * nms ≤ j * nms := Nat.mul_le_mul_right _ hlt
      rw [Nat.add_mul, Nat.one_mul] at this
      omega
    · left
      have : (j + 1) * nms ≤ i * nms := Nat.mul_le_mul_right _ hgt
      rw [Nat.add_mul, Nat.one_mul] at this
      omega
  have hfread : PAXPageHandle.readFields
      (PAXPageHandle.slotWrite ⟨rs, nms, bs, rpp, pn, rn, ffp⟩ schema sm mem i null_map data)
      (PAXPageHandle.fieldPtrs sm
        (TableHandle.field_offset_ ⟨rs, nms, bs, rpp, pn, rn, ffp⟩ schema) j 0 schema)
      schema 0 d_out =
      PAXPageHandle.readFields mem
        (PAXPageHandle.fieldPtrs sm
          (TableHandle.field_offset_ ⟨rs, nms, bs, rpp, pn, rn, ffp⟩ schema) j 0 schema)
        schema 0 d_out := by
    unfold PAXPageHandle.slotWrite TableHandle.field_offset_
    simp only [hr1]
    rw [PAXPageHandle.readFields_writeFields_other sm rpp i j hi hj (Ne.symm hij) data schema
      (nms * rpp) 0 0 _ d_out (by omega) (by rw [hl1, hsum]; omega)]
    apply PAXPageHandle.readFields_congr_above
    intro k hk
    rw [getElem?_memWrite _ _ _ hw1]
    have h1 : ¬ k < sm + i * nms := by omega
    have h2 : ¬ k < sm + i * nms + null_map.length := by omega
    simp only [h1, h2, if_false]
  simp only [PAXPageHandle.ReadSlot, PageHandle.GetBit, hbit, hnmread, hfread]

/-- C37: take the row-major handle and the decomposed handle (with the field offsets of the
constructor of the table handle, the field sizes summing to `rec_size_`) that the
constructors build over a page, a layout that fits in the page, slots `i ≠ j` below
`rec_per_page_`, and buffers of the sizes of the header. After a `WriteSlot` on slot `i`
that returns, in either layout, the identity of the page, the bytes of the page header
`[0, PAGE_HEADER_SIZE)` and those of the slot bitmap are unchanged, every bit of the bitmap
reads as before, and `ReadSlot` on slot `j` returns what it returned before the write. -/
theorem WriteSlot_touches_own_slot_only (PAGE_HEADER_SIZE : Nat) (tab_hdr : TableHeader)
    (page : Page) (schema : List RTField) (hN : PageHandle) (hP : PAXPageHandle)
    (hnewN : NAryPageHandle.new PAGE_HEADER_SIZE tab_hdr page = .ok hN)
    (hnewP : PAXPageHandle.new PAGE_HEADER_SIZE tab_hdr page schema
      (TableHandle.field_offset_ tab_hdr schema) = .ok hP)
    (hsum : (schema.map RTField.field_size_).sum = tab_hdr.rec_size_)
    (hfit : PAGE_HEADER_SIZE + tab_hdr.bitmap_size_ +
      tab_hdr.rec_per_page_ * (tab_hdr.nullmap_size_ + tab_hdr.rec_size_) ≤ page.data_.length)
    (i j : Nat) (hi : i < tab_hdr.rec_per_page_) (hj : j < tab_hdr.rec_per_page_)
    (hij : i ≠ j) (null_map data : List Nat)
    (hnm : null_map.length = tab_hdr.nullmap_size_)
    (hdata : data.length = tab_hdr.rec_size_) (update : Bool) :
    (∀ hN1, NAryPageHandle.WriteSlot hN i null_map data update = (.ok (), hN1) →
      hN1.page_.fid_ = page.fid_ ∧ hN1.page_.pid_ = page.pid_ ∧
      memRead hN1.page_.data_ 0 PAGE_HEADER_SIZE = memRead page.data_ 0 PAGE_HEADER_SIZE ∧
      memRead hN1.page_.data_ PAGE_HEADER_SIZE tab_hdr.bitmap_size_ =
        memRead page.data_ PAGE_HEADER_SIZE tab_hdr.bitmap_size_ ∧
      (∀ s, s < tab_hdr.rec_per_page_ → hN1.GetBit s = hN.GetBit s) ∧
      ∀ nm_out d_out, NAryPageHandle.ReadSlot hN1 j nm_out d_out =
        NAryPageHandle.ReadSlot hN j nm_out d_out) ∧
    (∀ hP1, PAXPageHandle.WriteSlot hP i null_map data update = (.ok (), hP1) →
      hP1.page_.fid_ = page.fid_ ∧ hP1.page_.pid_ = page.pid_ ∧
      memRead hP1.page_.data_ 0 PAGE_HEADER_SIZE = memRead page.data_ 0 PAGE_HEADER_SIZE ∧
      memRead hP1.page_.data_ PAGE_HEADER_SIZE tab_hdr.bitmap_size_ =
        memRead page.data_ PAGE_HEADER_SIZE tab_hdr.bitmap_size_ ∧
      (∀ s, s < tab_hdr.rec_per_page_ →
        hP1.toPageHandle.GetBit s = hP.toPageHandle.GetBit s) ∧
      ∀ nm_out d_out, PAXPageHandle.ReadSlot hP1 j nm_out d_out =
        PAXPageHandle.ReadSlot hP j nm_out d_out) := by
  obtain ⟨hb, hNeq⟩ := NAry_new_ok PAGE_HEADER_SIZE tab_hdr page hN hnewN
  obtain ⟨_, hPeq⟩ := PAX_new_ok PAGE_HEADER_SIZE tab_hdr page schema _ hP hnewP
  have hbm : ∀ s, s < tab_hdr.rec_per_page_ →
      PAGE_HEADER_SIZE + s / 8 < PAGE_HEADER_SIZE + tab_hdr.bitmap_size_ := by
    intro s hs
    rw [← hb]
    unfold BITMAP_SIZE
    omega
  subst hNeq hPeq
  constructor
  · intro hN1 hw
    obtain ⟨_, hlow, hread⟩ := NAry_WriteSlot_other tab_hdr page PAGE_HEADER_SIZE
      (PAGE_HEADER_SIZE + tab_hdr.bitmap_size_) hbm hfit i j hi hj hij null_map data hnm hdata
      update hN1 hw
    have hid : hN1.page_.fid_ = page.fid_ ∧ hN1.page_.pid_ = page.pid_ := by
      unfold NAryPageHandle.WriteSlot at hw
      split at hw
      · cases hw
      · split at hw
        · cases hw
        · injection hw with _ hw
          rw [← hw]
          exact ⟨rfl, rfl⟩
    refine ⟨hid.1, hid.2, ?_, ?_, ?_, hread⟩
    · exact memRead_congr _ _ 0 (PAGE_HEADER_SIZE + tab_hdr.bitmap_size_)
        (fun k _ hk => hlow k hk) _ _ (Nat.zero_le _) (by omega)
    · exact memRead_congr _ _ 0 (PAGE_HEADER_SIZE + tab_hdr.bitmap_size_)
        (fun k _ hk => hlow k hk) _ _ (Nat.zero_le _) (Nat.le_refl _)
    · intro s hs
      have hbmeq : hN1.bitmap_ = PAGE_HEADER_SIZE := by
        unfold NAryPageHandle.WriteSlot at hw
        split at hw
        · cases hw
        · split at hw
          · cases hw
          · injection hw with _ hw
            rw [← hw]
      unfold PageHandle.GetBit
      rw [hbmeq]
      exact BitMap.GetBit_congr _ _ _ _ (hlow _ (hbm s hs))
  · intro hP1 hw
    obtain ⟨_, hlow, hread⟩ := PAX_WriteSlot_other tab_hdr page PAGE_HEADER_SIZE
      (PAGE_HEADER_SIZE + tab_hdr.bitmap_size_) schema hsum hbm hfit i j hi hj hij null_map
      data hnm hdata update hP1 hw
    have hid : hP1.page_.fid_ = page.fid_ ∧ hP1.page_.pid_ = page.pid_ ∧
        hP1.bitmap_ = PAGE_HEADER_SIZE := by
      unfold PAXPageHandle.WriteSlot at hw
      split at hw
      · cases hw
      · split at hw
        · cases hw
        · injection hw with _ hw
          rw [← hw]
          exact ⟨rfl, rfl, rfl⟩
    refine ⟨hid.1, hid.2.1, ?_, ?_, ?_, hread⟩
    · exact memRead_congr _ _ 0 (PAGE_HEADER_SIZE + tab_hdr.bitmap_size_)
        (fun k _ hk => hlow k hk) _ _ (Nat.zero_le _) (by omega)
    · exact memRead_congr _ _ 0 (PAGE_HEADER_SIZE + tab_hdr.bitmap_size_)
        (fun k _ hk => hlow k hk) _ _ (Nat.zero_le _) (Nat.le_refl _)
    · intro s hs
      unfold PageHandle.GetBit
      rw [hid.2.2]
      exact BitMap.GetBit_congr _ _ _ _ (hlow _ (hbm s hs))

/-- An instance of C37: a write into slot 1 of `naryPage`, through the row-major handle
and through the decomposed one, leaves what `ReadSlot` returns for slot 0 unchanged. -/
theorem WriteSlot_touches_own_slot_only_witness :
    NAryPageHandle.ReadSlot (NAryPageHandle.WriteSlot naryHandle 1 [1] [7, 8] false).2 0
        [0] [0, 0] = NAryPageHandle.ReadSlot naryHandle 0 [0] [0, 0] ∧
    PAXPageHandle.ReadSlot
        (PAXPageHandle.WriteSlot
          { tab_hdr_ := naryHeader, page_ := naryPage, bitmap_ := 2, slots_mem_ := 3,
            schema_ := twoByteSchema,
            offsets_ := TableHandle.field_offset_ naryHeader twoByteSchema }
          1 [1] [7, 8] false).2 0 [0] [0, 0] =
      PAXPageHandle.ReadSlot
        { tab_hdr_ := naryHeader, page_ := naryPage, bitmap_ := 2, slots_mem_ := 3,
          schema_ := twoByteSchema,
          offsets_ := TableHandle.field_offset_ naryHeader twoByteSchema }
        0 [0] [0, 0] :=
  ⟨((WriteSlot_touches_own_slot_only 2 naryHeader naryPage twoByteSchema naryHandle
      { tab_hdr_ := naryHeader, page_ := naryPage, bitmap_ := 2, slots_mem_ := 3,
        schema_ := twoByteSchema,
        offsets_ := TableHandle.field_offset_ naryHeader twoByteSchema }
      (by decide) (by decide) (by decide) (by decide) 1 0 (by decide) (by decide) (by decide)
      [1] [7, 8] rfl rfl false).1 _ (by decide)).2.2.2.2.2 [0] [0, 0],
   ((WriteSlot_touches_own_slot_only 2 naryHeader naryPage twoByteSchema naryHandle
      { tab_hdr_ := naryHeader, page_ := naryPage, bitmap_ := 2, slots_mem_ := 3,
        schema_ := twoByteSchema,
        offsets_ := TableHandle.field_offset_ naryHeader twoByteSchema }
      (by decide) (by decide) (by decide) (by decide) 1 0 (by decide) (by decide) (by decide)
      [1] [7, 8] rfl rfl false).2 _ (by decide)).2.2.2.2.2 [0] [0, 0]⟩

/-- C38 (fails on the code): in the reachable pool `doublePinPool`, with the LRU replacer,
the free list is empty, page (0,1) is resident in frame 0 with pin count 0, page (0,2) is
resident in frame 1 with pin count 2, and page (0,3) is not resident; the replacer reports
size 0 and no victim, and `FetchPage(0,3)` raises `WSDB_NO_FREE_FRAME`. -/
theorem FetchPage_fails_with_unpinned_frame :
    Reachable doublePinPool ∧
    doublePinPool.free_list_ = [] ∧
    doublePinPool.GetFrame 0 1 = some 0 ∧
    (doublePinPool.frame 0).GetPinCount = 0 ∧
    doublePinPool.GetFrame 0 2 = some 1 ∧
    (doublePinPool.frame 1).GetPinCount = 2 ∧
    doublePinPool.GetFrame 0 3 = none ∧
    doublePinPool.replacer_.Size = 0 ∧
    doublePinPool.replacer_.Victim.1 = .ok none ∧
    (doublePinPool.FetchPage 0 3).1 = .error Exn.WSDB_NO_FREE_FRAME := by
  refine ⟨?_, ?_⟩
  · exact reachable_runOps _ _ (Reachable.init _ _ _ _ _)
  · decide

/-- C34 (fails on the code): page 1 of the row-major table `demoTable1` is resident with pin
count 0. `GetChunk` on page 1 raises `WSDB_EXCEPTION_EMPTY` and leaves the pin count of the
page at 1. `InsertRecord(rid, record)` and `UpdateRecord(rid, record)` at a slot id beyond
`rec_per_page_` whose bit reads clear, resp. set, raise the assertion failure of `WriteSlot`
and leave the pin count at 1; `GetRecord` at such a slot whose bit reads set raises the
assertion failure of `ReadSlot` and leaves it at 1. The paths that raise before the slot is
touched (`GetRecord` on an empty slot) and the normal returns leave it at 0. -/
theorem error_paths_leave_page_pinned :
    demoTable1.storage_model_ = .NARY_MODEL ∧
    demoTable1.pinCount 1 = 0 ∧
    (demoTable1.GetChunk 1 demoTable1.schema_).1 = .error TableExn.WSDB_EXCEPTION_EMPTY ∧
    (demoTable1.GetChunk 1 demoTable1.schema_).2.pinCount 1 = 1 ∧
    (demoTable1.InsertRecordAt ⟨1, 9⟩ demoRecord).1 =
      .error (.handle HandleExn.assertion_failed) ∧
    (demoTable1.InsertRecordAt ⟨1, 9⟩ demoRecord).2.pinCount 1 = 1 ∧
    (demoTable1.UpdateRecord ⟨1, 18⟩ demoRecord).1 =
      .error (.handle HandleExn.assertion_failed) ∧
    (demoTable1.UpdateRecord ⟨1, 18⟩ demoRecord).2.pinCount 1 = 1 ∧
    (demoTable1.GetRecord ⟨1, 18⟩).1 = .error (.handle HandleExn.assertion_failed) ∧
    (demoTable1.GetRecord ⟨1, 18⟩).2.pinCount 1 = 1 ∧
    (demoTable1.GetRecord ⟨1, 1⟩).1 = .error TableExn.WSDB_PAGE_MISS ∧
    (demoTable1.GetRecord ⟨1, 1⟩).2.pinCount 1 = 0 ∧
    (demoTable1.GetRecord ⟨1, 0⟩).2.pinCount 1 = 0 := by
  decide

/-- C35 (fails on the code): page 1 of `halfTable` has two of its four slots occupied and a
stored record count of 2; it is the head of the free-page list and its link is the invalid
page id. `DeleteRecord` of slot 0 returns normally and stores `first_free_page_`, page 1,
as the link of page 1: the page is relinked, and the chain rooted at `first_free_page_`
leads from page 1 to page 1. -/
theorem DeleteRecord_relinks_page_with_room :
    halfTable.occupiedCount 1 = 2 ∧
    (halfTable.page 1).GetRecordNum = 2 ∧
    halfTable.tab_hdr_.rec_per_page_ = 4 ∧
    halfTable.tab_hdr_.first_free_page_ = 1 ∧
    (halfTable.page 1).GetNextFreePageId = INVALID_PAGE_ID ∧
    (halfTable.DeleteRecord ⟨1, 0⟩).1 = .ok () ∧
    (halfTable.DeleteRecord ⟨1, 0⟩).2.tab_hdr_.first_free_page_ = 1 ∧
    ((halfTable.DeleteRecord ⟨1, 0⟩).2.page 1).GetNextFreePageId = 1 := by
  decide

theorem mem_umap_assign_self {κ ν : Type} [DecidableEq κ] (m : List (κ × ν)) (key : κ)
    (v : ν) : (key, v) ∈ umap_assign m key v :=
  umap_find_mem _ _ _ (umap_find_assign_eq m key v)

theorem mem_umap_assign_of_mem {κ ν : Type} [DecidableEq κ] (m : List (κ × ν)) (key : κ)
    (v : ν) (e : κ × ν) (he : e ∈ m) (hne : e.1 ≠ key) : e ∈ umap_assign m key v := by
  unfold umap_assign
  split
  · exact List.mem_map.2 ⟨e, he, by simp [hne]⟩
  · exact List.mem_append_left _ he

/-- In a map, the entries that satisfy a predicate which fixes the key are at most one. -/
theorem countP_le_one_of_keys_nodup {κ ν : Type} (p : κ × ν → Bool) :
    ∀ (m : List (κ × ν)), (m.map Prod.fst).Nodup →
      (∀ e1 ∈ m, ∀ e2 ∈ m, p e1 = true → p e2 = true → e1.1 = e2.1) →
      m.countP p ≤ 1 := by
  intro m
  induction m with
  | nil => intro _ _; simp
  | cons e rest ih =>
    intro hnd hkey
    simp only [List.map_cons, List.nodup_cons] at hnd
    have hrest := ih hnd.2 (fun e1 h1 e2 h2 => hkey e1 (List.mem_cons_of_mem _ h1) e2
      (List.mem_cons_of_mem _ h2))
    rw [List.countP_cons]
    by_cases hp : p e = true
    · have h0 : rest.countP p = 0 := by
        rw [List.countP_eq_zero]
        intro e2 h2 hp2
        have := hkey e (List.mem_cons_self _ _) e2 (List.mem_cons_of_mem _ h2) hp hp2
        exact hnd.1 (this ▸ List.mem_map.2 ⟨e2, h2, rfl⟩)
      simp [h0, hp]
    · simp [hp]
      exact hrest

/-- A consistent pool in which every frame is free or in the lookup map has the structural
invariant. -/
theorem Structure_of_cover (b : BufferPoolManager) (hwf : b.WF)
    (hc : poolCover b.frames_.length b.free_list_ b.page_frame_lookup_) : b.Structure := by
  obtain ⟨ha, hb, hnd, hkeys⟩ := hwf
  refine ⟨?_, fun e he => (ha e he).2⟩
  intro f hf
  by_cases hfree : f ∈ b.free_list_
  · left
    refine ⟨List.count_eq_one_of_mem hnd hfree, ?_⟩
    rw [List.countP_eq_zero]
    intro e he
    simpa using (hb f hfree).2.2.2 e he
  · right
    refine ⟨List.count_eq_zero_of_not_mem hfree, ?_⟩
    rcases hc f hf with h | ⟨e, he, hef⟩
    · exact absurd h hfree
    · have h1 : b.page_frame_lookup_.countP (fun e => decide (e.2 = f)) ≤ 1 := by
        apply countP_le_one_of_keys_nodup _ _ hkeys
        intro e1 h1 e2 h2 p1 p2
        have q1 : e1.2 = f := by simpa using p1
        have q2 : e2.2 = f := by simpa using p2
        rw [← (ha e1 h1).2, ← (ha e2 h2).2, q1, q2]
      have h2 : 0 < b.page_frame_lookup_.countP (fun e => decide (e.2 = f)) :=
        List.countP_pos_iff.2 ⟨e, he, by simpa using hef⟩
      omega

theorem Covered_new (disk_manager : DiskManager) (REPLACER : ReplacerKind)
    (BUFFER_POOL_SIZE PAGE_SIZE replacer_lru_k : Nat) :
    (BufferPoolManager.new disk_manager REPLACER BUFFER_POOL_SIZE PAGE_SIZE
      replacer_lru_k).Covered := by
  refine ⟨WF_new _ _ _ _ _, ?_, ?_⟩
  · intro f hf
    left
    simpa [BufferPoolManager.new] using hf
  · intro e he
    simp [BufferPoolManager.new] at he

/-- A state that differs from a covered one in the replacer, the disk and the contents of
the frames only is covered when it is consistent. -/
theorem Covered_of_same (b b1 : BufferPoolManager) (h : b.Covered) (hwf : b1.WF)
    (hlen : b1.frames_.length = b.frames_.length) (hfree : b1.free_list_ = b.free_list_)
    (hlook : b1.page_frame_lookup_ = b.page_frame_lookup_) : b1.Covered := by
  refine ⟨hwf, ?_, ?_⟩
  · rw [hlen, hfree, hlook]; exact h.2.1
  · rw [hlook]; exact h.2.2

theorem Covered_FetchPage (b : BufferPoolManager) (fid : file_id_t) (pid : page_id_t)
    (h : b.Covered) (hvalid : (⟨fid, pid⟩ : fid_pid_t) ≠ INVALID_FID_PID) :
    (b.FetchPage fid pid).2.Covered := by
  have hwf1 := WF_FetchPage b fid pid h.1
  obtain ⟨hwf, hcov, hkey⟩ := h
  cases hfind : umap_find b.page_frame_lookup_ ⟨fid, pid⟩ with
  | some f =>
    rw [FetchPage_hit b fid pid f hfind] at hwf1 ⊢
    exact Covered_of_same b _ ⟨hwf, hcov, hkey⟩ hwf1 (by simp) rfl rfl
  | none =>
    have hnokey := (umap_find_eq_none _ _).1 hfind
    rw [FetchPage_miss b fid pid hfind] at hwf1 ⊢
    rcases GetAvailableFrame_cases b with ⟨f, rest, hfl, hga⟩ | ⟨hfl, v, r, entry, hmem, hev,
      _, hga⟩ | ⟨_, e, r, hga⟩
    · rw [hga] at hwf1 ⊢
      refine ⟨hwf1, ?_, ?_⟩
      · intro g hg
        have hg' : g < b.frames_.length := by
          simpa [BufferPoolManager.UpdateFrame] using hg
        by_cases hgf : g = f
        · right
          exact ⟨(⟨fid, pid⟩, f), mem_umap_assign_self _ _ _, hgf.symm⟩
        · rcases hcov g hg' with hin | ⟨e, he, heg⟩
          · left
            rw [hfl] at hin
            rcases List.mem_cons.1 hin with h1 | h1
            · exact absurd h1 hgf
            · exact h1
          · right
            refine ⟨e, ?_, heg⟩
            apply mem_umap_assign_of_mem _ _ _ _ _ (hnokey e he)
            apply (mem_umap_erase _ _ _).2 ⟨he, ?_⟩
            have hid : (b.frame f).ident = INVALID_FID_PID :=
              (hwf.2.1 f (by rw [hfl]; exact List.mem_cons_self _ _)).2.1
            intro heq
            exact hkey e he (heq.trans hid)
      · intro e he
        rcases mem_umap_assign _ _ _ _ he with h1 | ⟨h1, _⟩
        · rw [h1]; exact hvalid
        · exact hkey e ((mem_umap_erase _ _ _).1 h1).1
    · rw [hga] at hwf1 ⊢
      refine ⟨hwf1, ?_, ?_⟩
      · intro g hg
        have hg' : g < b.frames_.length := by
          simpa [BufferPoolManager.UpdateFrame] using hg
        by_cases hgf : g = v
        · right
          exact ⟨(⟨fid, pid⟩, v), mem_umap_assign_self _ _ _, hgf.symm⟩
        · rcases hcov g hg' with hin | ⟨e, he, heg⟩
          · rw [hfl] at hin
            cases hin
          · right
            refine ⟨e, ?_, heg⟩
            have hne : e.1 ≠ entry.1 := by
              intro heq
              have := umap_entry_eq _ hwf.2.2.2 e entry he hmem heq
              rw [this, hev] at heg
              exact hgf heg.symm
            apply mem_umap_assign_of_mem _ _ _ _ _ (hnokey e he)
            apply (mem_umap_erase _ _ _).2 ⟨(mem_umap_erase _ _ _).2 ⟨he, hne⟩, ?_⟩
            have hid : (b.frame v).ident = entry.1 := by
              have := (hwf.1 entry hmem).2
              rw [hev] at this
              exact this
            intro heq
            exact hne (heq.trans hid)
      · intro e he
        rcases mem_umap_assign _ _ _ _ he with h1 | ⟨h1, _⟩
        · rw [h1]; exact hvalid
        · exact hkey e ((mem_umap_erase _ _ _).1 ((mem_umap_erase _ _ _).1 h1).1).1
    · rw [hga] at hwf1 ⊢
      exact Covered_of_same b _ ⟨hwf, hcov, hkey⟩ hwf1 rfl rfl rfl

theorem Covered_UnpinPage (b : BufferPoolManager) (fid : file_id_t) (pid : page_id_t)
    (is_dirty : Bool) (h : b.Covered) : (b.UnpinPage fid pid is_dirty).2.Covered := by
  have hwf1 := WF_UnpinPage b fid pid is_dirty h.1
  rcases UnpinPage_cases b fid pid is_dirty with ⟨_, h1⟩ | ⟨f, _, _, h1⟩
  · rw [h1]; exact h
  · rw [h1] at hwf1 ⊢
    exact Covered_of_same b _ h hwf1 (by simp) rfl rfl

theorem Covered_DeleteAllPages_body (fid : file_id_t) (acc : Bool × BufferPoolManager)
    (e : fid_pid_t × frame_id_t) (h : acc.2.Covered) (hmem : e ∈ acc.2.page_frame_lookup_) :
    (BufferPoolManager.DeleteAllPages_body fid acc e).2.Covered := by
  have hwf1 := WF_DeleteAllPages_body fid acc e h.1 hmem
  rcases DeleteAllPages_body_cases fid acc e with (⟨_, h1⟩ | ⟨_, _, h1⟩) | ⟨_, _, h1⟩
  · rw [h1]; exact h
  · rw [h1]; exact h
  · rw [h1] at hwf1 ⊢
    obtain ⟨hwf, hcov, hkey⟩ := h
    refine ⟨hwf1, ?_, ?_⟩
    · intro g hg
      have hg' : g < acc.2.frames_.length := by simpa using hg
      by_cases hge : g = e.2
      · left
        simp [hge]
      · rcases hcov g hg' with hin | ⟨e', he', heg⟩
        · left
          exact List.mem_append_left _ hin
        · right
          refine ⟨e', (mem_umap_erase _ _ _).2 ⟨he', ?_⟩, heg⟩
          intro heq
          have := umap_entry_eq _ hwf.2.2.2 e' e he' hmem heq
          rw [this] at heg
          exact hge heg.symm
    · intro e' he'
      exact hkey e' ((mem_umap_erase _ _ _).1 he').1

theorem Covered_DeletePage (b : BufferPoolManager) (fid : file_id_t) (pid : page_id_t)
    (h : b.Covered) : (b.DeletePage fid pid).2.Covered := by
  rcases DeletePage_cases b fid pid with h1 | ⟨f, hmem, _, _, h1⟩
  · rw [h1]; exact h
  · rw [h1]; exact Covered_DeleteAllPages_body fid (true, b) _ h hmem

theorem Covered_DeleteAllPages (b : BufferPoolManager) (fid : file_id_t) (h : b.Covered) :
    (b.DeleteAllPages fid).2.Covered :=
  (DeleteAllPages_loop_induction (fun s => s.Covered) fid
    (fun acc e _ hp he => Covered_DeleteAllPages_body fid acc e hp he)
    b.page_frame_lookup_ (true, b) h.1 h (fun _ he => he) h.1.2.2.2).2

theorem Covered_FlushAllPages_body (fid : file_id_t) (b : BufferPoolManager)
    (e : fid_pid_t × frame_id_t) (h : b.Covered) :
    (BufferPoolManager.FlushAllPages_body fid b e).Covered := by
  have hwf1 := WF_FlushAllPages_body fid b e h.1
  rcases FlushAllPages_body_cases fid b e with h1 | ⟨_, _, h1⟩
  · rw [h1]; exact h
  · rw [h1] at hwf1 ⊢
    exact Covered_of_same b _ h hwf1 (by simp) rfl rfl

theorem Covered_FlushPage (b : BufferPoolManager) (fid : file_id_t) (pid : page_id_t)
    (h : b.Covered) : (b.FlushPage fid pid).2.Covered := by
  rcases FlushPage_cases b fid pid with ⟨_, h1⟩ | ⟨f, _, _, h1⟩
  · rw [h1]; exact h
  · rw [h1]; exact Covered_FlushAllPages_body fid b _ h

theorem Covered_FlushAllPages (b : BufferPoolManager) (fid : file_id_t) (h : b.Covered) :
    (b.FlushAllPages fid).2.Covered :=
  (FlushAllPages_loop_induction (fun s => s.Covered) fid
    (fun s e _ hp _ => Covered_FlushAllPages_body fid s e hp)
    b.page_frame_lookup_ b h.1 h (fun _ he => he)).2

theorem Covered_run (b : BufferPoolManager) (op : PoolOp) (h : b.Covered)
    (hvalid : op.validPage) : (op.run b).Covered := by
  cases op with
  | FetchPage fid pid => exact Covered_FetchPage b fid pid h hvalid
  | UnpinPage fid pid d => exact Covered_UnpinPage b fid pid d h
  | DeletePage fid pid => exact Covered_DeletePage b fid pid h
  | DeleteAllPages fid => exact Covered_DeleteAllPages b fid h
  | FlushPage fid pid => exact Covered_FlushPage b fid pid h
  | FlushAllPages fid => exact Covered_FlushAllPages b fid h
  | writePageData f data =>
    exact Covered_of_same b _ h (WF_writePageData b f data h.1)
      (by simp [PoolOp.run, BufferPoolManager.writePageData]) rfl rfl

theorem Covered_runOps (ops : List PoolOp) :
    ∀ b : BufferPoolManager, b.Covered → (∀ op ∈ ops, op.validPage) →
      (runOps b ops).Covered := by
  induction ops with
  | nil => intro b h _; exact h
  | cons op rest ih =>
    intro b h hv
    exact ih _ (Covered_run b op h (hv op (List.mem_cons_self _ _)))
      (fun o ho => hv o (List.mem_cons_of_mem _ ho))

/-- No step changes the number of frames of the pool. -/
theorem frames_length_run (b : BufferPoolManager) (op : PoolOp) (h : b.WF) :
    (op.run b).frames_.length = b.frames_.length := by
  cases op with
  | FetchPage fid pid =>
    simp only [PoolOp.run]
    cases hfind : umap_find b.page_frame_lookup_ ⟨fid, pid⟩ with
    | some f => rw [FetchPage_hit b fid pid f hfind]; simp
    | none =>
      rw [FetchPage_miss b fid pid hfind]
      rcases GetAvailableFrame_cases b with ⟨f, rest, _, hga⟩ | ⟨_, v, r, entry, _, _, _, hga⟩ |
        ⟨_, e, r, hga⟩ <;> rw [hga] <;> simp [BufferPoolManager.UpdateFrame]
  | UnpinPage fid pid d =>
    simp only [PoolOp.run]
    rcases UnpinPage_cases b fid pid d with ⟨_, h1⟩ | ⟨f, _, _, h1⟩ <;> rw [h1] <;> simp
  | DeletePage fid pid =>
    simp only [PoolOp.run]
    rcases DeletePage_cases b fid pid with h1 | ⟨f, _, _, _, h1⟩
    · rw [h1]
    · rw [h1]
      rcases DeleteAllPages_body_cases fid (true, b) (⟨fid, pid⟩, f) with
        (⟨_, h2⟩ | ⟨_, _, h2⟩) | ⟨_, _, h2⟩ <;> rw [h2] <;> simp
  | DeleteAllPages fid =>
    exact (DeleteAllPages_loop_induction (fun s => s.frames_.length = b.frames_.length) fid
      (fun acc e _ hp _ => by
        rcases DeleteAllPages_body_cases fid acc e with (⟨_, h2⟩ | ⟨_, _, h2⟩) | ⟨_, _, h2⟩ <;>
          rw [h2] <;> simp [hp])
      b.page_frame_lookup_ (true, b) h rfl (fun _ he => he) h.2.2.2).2
  | FlushPage fid pid =>
    simp only [PoolOp.run]
    rcases FlushPage_cases b fid pid with ⟨_, h1⟩ | ⟨f, _, _, h1⟩
    · rw [h1]
    · rw [h1]
      rcases FlushAllPages_body_cases fid b (⟨fid, pid⟩, f) with h2 | ⟨_, _, h2⟩ <;>
        rw [h2] <;> simp
  | FlushAllPages fid =>
    exact (FlushAllPages_loop_induction (fun s => s.frames_.length = b.frames_.length) fid
      (fun s e _ hp _ => by
        rcases FlushAllPages_body_cases fid s e with h2 | ⟨_, _, h2⟩ <;>
          rw [h2] <;> simp [hp])
      b.page_frame_lookup_ b h rfl (fun _ he => he)).2
  | writePageData f data => simp [PoolOp.run, BufferPoolManager.writePageData]

theorem frames_length_runOps (ops : List PoolOp) :
    ∀ b : BufferPoolManager, b.WF → (runOps b ops).frames_.length = b.frames_.length := by
  induction ops with
  | nil => intro b _; rfl
  | cons op rest ih =>
    intro b h
    exact (ih _ (WF_run b op h)).trans (frames_length_run b op h)

/-- C39 (fails as stated): in the reachable pool `lostFramePool` both calls of `FetchPage`
returned a page, and frame 0 is neither on the free list nor the value of an entry of the
lookup map: the second call, which took frame 1 from the free list, erased the entry of
the page of the invalid identity that the first call had placed in frame 0. -/
theorem structural_invariant_counterexample :
    Reachable lostFramePool ∧
    ((BufferPoolManager.new (zeroDisk 4) .LRUReplacer 2 4 2).FetchPage
      INVALID_FILE_ID INVALID_PAGE_ID).1 = .ok 0 ∧
    (((BufferPoolManager.new (zeroDisk 4) .LRUReplacer 2 4 2).FetchPage
      INVALID_FILE_ID INVALID_PAGE_ID).2.FetchPage 0 1).1 = .ok 1 ∧
    lostFramePool.frames_.length = 2 ∧
    lostFramePool.free_list_ = [] ∧
    lostFramePool.page_frame_lookup_ = [(⟨0, 1⟩, 1)] ∧
    ¬ lostFramePool.Structure := by
  refine ⟨?_, ?_⟩
  · exact reachable_runOps _ _ (Reachable.init _ _ _ _ _)
  · decide

/-- C39, amended: in every pool state reached from construction by calls of the public
operations (and stores into pages between them), none of which is a `FetchPage` of the
invalid identity `(INVALID_FILE_ID, INVALID_PAGE_ID)`, whether the calls succeeded or failed:
every frame id below the pool size is on the free list exactly once and in no entry of the
lookup map, or it is not on the free list and the value of exactly one entry; and the frame
of every entry `(fid, pid) -> frame` holds the page `(fid, pid)`. -/
theorem structural_invariant (disk_manager : DiskManager) (REPLACER : ReplacerKind)
    (BUFFER_POOL_SIZE PAGE_SIZE replacer_lru_k : Nat) (ops : List PoolOp)
    (hvalid : ∀ op ∈ ops, op.validPage) :
    (runOps (BufferPoolManager.new disk_manager REPLACER BUFFER_POOL_SIZE PAGE_SIZE
      replacer_lru_k) ops).Structure ∧
    (runOps (BufferPoolManager.new disk_manager REPLACER BUFFER_POOL_SIZE PAGE_SIZE
      replacer_lru_k) ops).frames_.length = BUFFER_POOL_SIZE := by
  have h := Covered_runOps ops _ (Covered_new disk_manager REPLACER BUFFER_POOL_SIZE
    PAGE_SIZE replacer_lru_k) hvalid
  exact ⟨Structure_of_cover _ h.1 h.2.1,
    (frames_length_runOps ops _ (WF_new _ _ _ _ _)).trans (by simp [BufferPoolManager.new])⟩

/-- An instance of C39, amended: the invariant holds after a run of fetches, an unpin and
deletions on a pool of three frames. -/
theorem structural_invariant_witness :
    (runOps (BufferPoolManager.new blankDisk .LRUReplacer 3 1 2)
      [.FetchPage 0 0, .FetchPage 0 1, .UnpinPage 0 1 true, .FetchPage 1 0,
        .DeletePage 0 1, .FetchPage 0 2, .FetchPage 0 3, .FetchPage 0 4,
        .DeleteAllPages 0]).Structure :=
  (structural_invariant blankDisk .LRUReplacer 3 1 2 _ (by decide)).1

/-- The reads of `NAryPageHandle::ReadSlot` depend on the layout, on the bit of the slot
and on the bytes of the page from `slots_mem_` on. -/
theorem NAry_ReadSlot_congr (h h' : PageHandle) (slot_id : Nat) (nm_out d_out : List Nat)
    (hl : h'.tab_hdr_.sameLayout h.tab_hdr_) (hsm : h'.slots_mem_ = h.slots_mem_)
    (hbit : h'.GetBit slot_id = h.GetBit slot_id)
    (hbytes : ∀ k, h.slots_mem_ ≤ k → h'.page_.data_[k]? = h.page_.data_[k]?) :
    NAryPageHandle.ReadSlot h' slot_id nm_out d_out =
      NAryPageHandle.ReadSlot h slot_id nm_out d_out := by
  obtain ⟨l1, l2, _, l4⟩ := hl
  simp only [NAryPageHandle.ReadSlot]
  rw [hbit, l1, l2, l4, hsm]
  rw [memRead_congr h.page_.data_ h'.page_.data_ h.slots_mem_
      (h.slots_mem_ + slot_id * (h.tab_hdr_.nullmap_size_ + h.tab_hdr_.rec_size_) +
        h.tab_hdr_.nullmap_size_)
      (fun j hj _ => hbytes j (by omega)) _ _ (by omega) (Nat.le_refl _),
    memRead_congr h.page_.data_ h'.page_.data_ h.slots_mem_
      (h.slots_mem_ + slot_id * (h.tab_hdr_.nullmap_size_ + h.tab_hdr_.rec_size_) +
        h.tab_hdr_.nullmap_size_ + h.tab_hdr_.rec_size_)
      (fun j hj _ => hbytes j (by omega)) _ _ (by omega) (Nat.le_refl _)]

theorem PAXPageHandle.fieldPtrs_ge (sm : Nat) (offsets : List Nat) (slot : Nat) :
    ∀ (fs : List RTField) (i : Nat), ∀ p ∈ PAXPageHandle.fieldPtrs sm offsets slot i fs,
      sm ≤ p := by
  intro fs
  induction fs with
  | nil => intro i p hp; simp [PAXPageHandle.fieldPtrs] at hp
  | cons f rest ih =>
    intro i p hp
    simp only [PAXPageHandle.fieldPtrs, List.mem_cons] at hp
    rcases hp with hp | hp
    · omega
    · exact ih _ p hp

/-- The field reads of `ReadSlot` depend on the bytes at and after the least pointer
only. -/
theorem PAXPageHandle.readFields_congr_ge (m1 m2 : List Nat) (lo : Nat)
    (h : ∀ j, lo ≤ j → m2[j]? = m1[j]?) :
    ∀ (ptrs : List Nat) (fs : List RTField) (total : Nat) (out : List Nat),
      (∀ p ∈ ptrs, lo ≤ p) →
      PAXPageHandle.readFields m2 ptrs fs total out =
        PAXPageHandle.readFields m1 ptrs fs total out := by
  intro ptrs
  induction ptrs with
  | nil => intro fs total out _; cases fs <;> rfl
  | cons p ptrs ih =>
    intro fs total out hp
    cases fs with
    | nil => rfl
    | cons f rest =>
      simp only [PAXPageHandle.readFields]
      rw [memRead_congr m1 m2 lo (p + f.field_size_) (fun j hj _ => h j hj) _ _
        (hp p (List.mem_cons_self _ _)) (Nat.le_refl _)]
      exact ih rest _ _ (fun q hq => hp q (List.mem_cons_of_mem _ hq))

/-- The reads of `PAXPageHandle::ReadSlot` depend on the layout, on the bit of the slot
and on the bytes of the page from `slots_mem_` on. -/
theorem PAX_ReadSlot_congr (h h' : PAXPageHandle) (slot_id : Nat) (nm_out d_out : List Nat)
    (hl : h'.tab_hdr_.sameLayout h.tab_hdr_) (hsm : h'.slots_mem_ = h.slots_mem_)
    (hsch : h'.schema_ = h.schema_) (hoff : h'.offsets_ = h.offsets_)
    (hbit : h'.toPageHandle.GetBit slot_id = h.toPageHandle.GetBit slot_id)
    (hbytes : ∀ k, h.slots_mem_ ≤ k → h'.page_.data_[k]? = h.page_.data_[k]?) :
    PAXPageHandle.ReadSlot h' slot_id nm_out d_out =
      PAXPageHandle.ReadSlot h slot_id nm_out d_out := by
  obtain ⟨_, l2, _, l4⟩ := hl
  simp only [PAXPageHandle.ReadSlot]
  rw [hbit, l2, l4, hsm, hsch, hoff]
  rw [memRead_congr h.page_.data_ h'.page_.data_ h.slots_mem_
      (h.slots_mem_ + slot_id * h.tab_hdr_.nullmap_size_ + h.tab_hdr_.nullmap_size_)
      (fun j hj _ => hbytes j (by omega)) _ _ (by omega) (Nat.le_refl _),
    PAXPageHandle.readFields_congr_ge h.page_.data_ h'.page_.data_ h.slots_mem_
      (fun j hj => hbytes j (by omega)) _ _ _ _
      (PAXPageHandle.fieldPtrs_ge _ _ _ _ _)]

/-- The handle that `WrapPageHandle` builds over a page, when the bitmap size of the header
is the one the layout asks for. -/
theorem TableHandle.WrapPageHandle_eq (t : TableHandle) (page : Page)
    (hbm : BITMAP_SIZE t.tab_hdr_.rec_per_page_ = t.tab_hdr_.bitmap_size_) :
    t.WrapPageHandle page =
      match t.storage_model_ with
      | .NARY_MODEL =>
        .ok (.nary { tab_hdr_ := t.tab_hdr_, page_ := page, bitmap_ := t.PAGE_HEADER_SIZE,
                     slots_mem_ := t.PAGE_HEADER_SIZE + t.tab_hdr_.bitmap_size_ })
      | .PAX_MODEL =>
        .ok (.pax { tab_hdr_ := t.tab_hdr_, page_ := page, bitmap_ := t.PAGE_HEADER_SIZE,
                    slots_mem_ := t.PAGE_HEADER_SIZE + t.tab_hdr_.bitmap_size_,
                    schema_ := t.schema_, offsets_ := t.field_offsets_ }) := by
  unfold TableHandle.WrapPageHandle
  cases t.storage_model_ <;>
    simp only [NAryPageHandle.new, PAXPageHandle.new, PageHandle.new, hbm, if_true]

/-- When the bitmap size of the header is not the one the layout asks for, the constructor
of the page handle raises. -/
theorem TableHandle.WrapPageHandle_error (t : TableHandle) (page : Page)
    (hbm : ¬ BITMAP_SIZE t.tab_hdr_.rec_per_page_ = t.tab_hdr_.bitmap_size_) :
    t.WrapPageHandle page = .error HandleExn.assertion_failed := by
  unfold TableHandle.WrapPageHandle
  cases t.storage_model_ <;>
    simp only [NAryPageHandle.new, PAXPageHandle.new, PageHandle.new, hbm, if_false]

/-- What `GetRecord` returns from a page depends on the layout of the table, on the bit of
the slot and on the bytes of the page from the slots on. -/
theorem TableHandle.recordIn_congr (t t' : TableHandle) (p p' : Page) (rid : RID)
    (hl : t'.tab_hdr_.sameLayout t.tab_hdr_) (hm : t'.storage_model_ = t.storage_model_)
    (hphs : t'.PAGE_HEADER_SIZE = t.PAGE_HEADER_SIZE) (hsch : t'.schema_ = t.schema_)
    (hoff : t'.field_offsets_ = t.field_offsets_)
    (hbit : BitMap.GetBit p'.data_ t.PAGE_HEADER_SIZE rid.SlotID =
      BitMap.GetBit p.data_ t.PAGE_HEADER_SIZE rid.SlotID)
    (hbytes : ∀ k, t.PAGE_HEADER_SIZE + t.tab_hdr_.bitmap_size_ ≤ k →
      p'.data_[k]? = p.data_[k]?) :
    t'.recordIn p' rid = t.recordIn p rid := by
  have hl' := hl
  obtain ⟨l1, l2, l3, l4⟩ := hl
  unfold TableHandle.recordIn
  by_cases hbm : BITMAP_SIZE t.tab_hdr_.rec_per_page_ = t.tab_hdr_.bitmap_size_
  · have hbm' : BITMAP_SIZE t'.tab_hdr_.rec_per_page_ = t'.tab_hdr_.bitmap_size_ := by
      rw [l3, l4]; exact hbm
    rw [TableHandle.WrapPageHandle_eq t p hbm, TableHandle.WrapPageHandle_eq t' p' hbm', hm]
    cases hsm : t.storage_model_ with
    | NARY_MODEL =>
      simp only [PageHandleUptr.GetBit, PageHandleUptr.base, PageHandle.GetBit,
        PageHandleUptr.ReadSlot, hphs, hbit, l1, l2]
      rw [NAry_ReadSlot_congr
        { tab_hdr_ := t.tab_hdr_, page_ := p, bitmap_ := t.PAGE_HEADER_SIZE,
          slots_mem_ := t.PAGE_HEADER_SIZE + t.tab_hdr_.bitmap_size_ }
        { tab_hdr_ := t'.tab_hdr_, page_ := p', bitmap_ := t.PAGE_HEADER_SIZE,
          slots_mem_ := t.PAGE_HEADER_SIZE + t'.tab_hdr_.bitmap_size_ }
        rid.SlotID _ _ hl' (by simp only [l3]) hbit (fun k hk => hbytes k hk)]
    | PAX_MODEL =>
      simp only [PageHandleUptr.GetBit, PageHandleUptr.base, PageHandle.GetBit,
        PageHandleUptr.ReadSlot, hphs, hbit, l1, l2]
      rw [PAX_ReadSlot_congr
        { tab_hdr_ := t.tab_hdr_, page_ := p, bitmap_ := t.PAGE_HEADER_SIZE,
          slots_mem_ := t.PAGE_HEADER_SIZE + t.tab_hdr_.bitmap_size_,
          schema_ := t.schema_, offsets_ := t.field_offsets_ }
        { tab_hdr_ := t'.tab_hdr_, page_ := p', bitmap_ := t.PAGE_HEADER_SIZE,
          slots_mem_ := t.PAGE_HEADER_SIZE + t'.tab_hdr_.bitmap_size_,
          schema_ := t'.schema_, offsets_ := t'.field_offsets_ }
        rid.SlotID _ _ hl' (by simp only [l3]) hsch hoff hbit (fun k hk => hbytes k hk)]
  · have hbm' : ¬ BITMAP_SIZE t'.tab_hdr_.rec_per_page_ = t'.tab_hdr_.bitmap_size_ := by
      rw [l3, l4]; exact hbm
    rw [TableHandle.WrapPageHandle_error t p hbm, TableHandle.WrapPageHandle_error t' p' hbm']

/-- The outcome of `GetRecord(rid)` when the fetch of the page succeeds. -/
theorem TableHandle.GetRecord_recordIn (t : TableHandle) (rid : RID) (f : frame_id_t)
    (b1 : BufferPoolManager)
    (h : t.buffer_pool_manager_.FetchPage t.table_id_ rid.PageID = (.ok f, b1)) :
    (t.GetRecord rid).1 = t.recordIn (b1.frame f).page_ rid := by
  unfold TableHandle.GetRecord TableHandle.FetchPageHandle TableHandle.recordIn
  rw [h]
  simp only
  cases hw : t.WrapPageHandle (b1.frame f).page_ with
  | error e => rfl
  | ok ph =>
    simp only
    by_cases hb : ph.GetBit rid.SlotID = true
    · simp only [hb, not_true_eq_false, if_false]
      cases hr : ph.ReadSlot rid.SlotID (List.replicate t.tab_hdr_.nullmap_size_ 0)
        (List.replicate t.tab_hdr_.rec_size_ 0) <;> rfl
    · have hb' : ph.GetBit rid.SlotID = false := by simpa using hb
      rw [hb', if_pos (by simp), if_pos (by simp)]

/-- A `NAryPageHandle::WriteSlot` that returns: the slot it wrote, what it kept, and what
`ReadSlot` returns afterwards. -/
theorem NAry_WriteSlot_view (tab_hdr : TableHeader) (page : Page) (bm sm : Nat)
    (hbm : ∀ s, s < tab_hdr.rec_per_page_ → bm + s / 8 < sm)
    (hfit : sm + tab_hdr.rec_per_page_ * (tab_hdr.nullmap_size_ + tab_hdr.rec_size_) ≤
      page.data_.length)
    (i : Nat) (nm d : List Nat) (hnm : nm.length = tab_hdr.nullmap_size_)
    (hd : d.length = tab_hdr.rec_size_) (upd : Bool) (h1 : PageHandle)
    (hw : NAryPageHandle.WriteSlot
      { tab_hdr_ := tab_hdr, page_ := page, bitmap_ := bm, slots_mem_ := sm }
      i nm d upd = (.ok (), h1)) :
    i < tab_hdr.rec_per_page_ ∧ BitMap.GetBit page.data_ bm i = upd ∧
    h1.tab_hdr_ = tab_hdr ∧ h1.bitmap_ = bm ∧ h1.slots_mem_ = sm ∧
    h1.page_.fid_ = page.fid_ ∧ h1.page_.pid_ = page.pid_ ∧
    h1.page_.data_.length = page.data_.length ∧
    (∀ k, k < sm → h1.page_.data_[k]? = page.data_[k]?) ∧
    (∀ nm_out d_out, nm_out.length = tab_hdr.nullmap_size_ →
      d_out.length = tab_hdr.rec_size_ →
      NAryPageHandle.ReadSlot (h1.SetBit i true) i nm_out d_out = .ok (nm, d) ∧
      (upd = true → NAryPageHandle.ReadSlot h1 i nm_out d_out = .ok (nm, d))) ∧
    (∀ j, j < tab_hdr.rec_per_page_ → j ≠ i → ∀ nm_out d_out,
      NAryPageHandle.ReadSlot h1 j nm_out d_out =
        NAryPageHandle.ReadSlot
          { tab_hdr_ := tab_hdr, page_ := page, bitmap_ := bm, slots_mem_ := sm }
          j nm_out d_out) := by
  have hw0 := hw
  simp only [NAryPageHandle.WriteSlot, PageHandle.GetBit] at hw
  have hi : i < tab_hdr.rec_per_page_ := by
    by_contra hc
    rw [if_pos hc] at hw
    cases hw
  rw [if_neg (not_not.mpr hi)] at hw
  have hbit : BitMap.GetBit page.data_ bm i = upd := by
    by_contra hc
    rw [if_pos hc] at hw
    cases hw
  rw [if_neg (not_not.mpr hbit)] at hw
  have hh1 : h1 =
      { tab_hdr_ := tab_hdr,
        page_ := { page with
          data_ := NAryPageHandle.slotWrite tab_hdr sm page.data_ i nm d },
        bitmap_ := bm, slots_mem_ := sm } := by
    injection hw with _ hw
    rw [← hw]
    rfl
  obtain ⟨⟨hl, hlow⟩, _, _⟩ := NAry_slotWrite_props tab_hdr sm page.data_.length hfit
    page.data_ i nm d rfl hi hnm hd
  refine ⟨hi, hbit, by rw [hh1], by rw [hh1], by rw [hh1], by rw [hh1], by rw [hh1],
    by rw [hh1]; exact hl, by rw [hh1]; exact hlow, ?_, ?_⟩
  · intro nm_out d_out hnmo hdo
    obtain ⟨h1', e1, e2, e3⟩ := NAry_round_trip_aux
      { tab_hdr_ := tab_hdr, page_ := page, bitmap_ := bm, slots_mem_ := sm } i nm d
      nm_out d_out (hbm i hi) hfit hi hnm hd hnmo hdo upd hbit
    rw [hw0] at e1
    injection e1 with _ e1
    subst e1
    exact ⟨e2, e3⟩
  · intro j hj hji nm_out d_out
    exact (NAry_WriteSlot_other tab_hdr page bm sm hbm hfit i j hi hj (Ne.symm hji) nm d hnm
      hd upd h1 hw0).2.2 nm_out d_out

/-- A `PAXPageHandle::WriteSlot` that returns, with the field offsets of the constructor of
the table handle: the slot it wrote, what it kept, and what `ReadSlot` returns
afterwards. -/
theorem PAX_WriteSlot_view (tab_hdr : TableHeader) (page : Page) (bm sm : Nat)
    (schema : List RTField)
    (hsum : (schema.map RTField.field_size_).sum = tab_hdr.rec_size_)
    (hbm : ∀ s, s < tab_hdr.rec_per_page_ → bm + s / 8 < sm)
    (hfit : sm + tab_hdr.rec_per_page_ * (tab_hdr.nullmap_size_ + tab_hdr.rec_size_) ≤
      page.data_.length)
    (i : Nat) (nm d : List Nat) (hnm : nm.length = tab_hdr.nullmap_size_)
    (hd : d.length = tab_hdr.rec_size_) (upd : Bool) (h1 : PAXPageHandle)
    (hw : PAXPageHandle.WriteSlot
      { tab_hdr_ := tab_hdr, page_ := page, bitmap_ := bm, slots_mem_ := sm,
        schema_ := schema, offsets_ := TableHandle.field_offset_ tab_hdr schema }
      i nm d upd = (.ok (), h1)) :
    i < tab_hdr.rec_per_page_ ∧ BitMap.GetBit page.data_ bm i = upd ∧
    h1.tab_hdr_ = tab_hdr ∧ h1.bitmap_ = bm ∧ h1.slots_mem_ = sm ∧
    h1.schema_ = schema ∧ h1.offsets_ = TableHandle.field_offset_ tab_hdr schema ∧
    h1.page_.fid_ = page.fid_ ∧ h1.page_.pid_ = page.pid_ ∧
    h1.page_.data_.length = page.data_.length ∧
    (∀ k, k < sm → h1.page_.data_[k]? = page.data_[k]?) ∧
    (∀ nm_out d_out, nm_out.length = tab_hdr.nullmap_size_ →
      d_out.length = tab_hdr.rec_size_ →
      PAXPageHandle.ReadSlot (h1.SetBit i true) i nm_out d_out = .ok (nm, d) ∧
      (upd = true → PAXPageHandle.ReadSlot h1 i nm_out d_out = .ok (nm, d))) ∧
    (∀ j, j < tab_hdr.rec_per_page_ → j ≠ i → ∀ nm_out d_out,
      PAXPageHandle.ReadSlot h1 j nm_out d_out =
        PAXPageHandle.ReadSlot
          { tab_hdr_ := tab_hdr, page_ := page, bitmap_ := bm, slots_mem_ := sm,
            schema_ := schema, offsets_ := TableHandle.field_offset_ tab_hdr schema }
          j nm_out d_out) := by
  have hw0 := hw
  simp only [PAXPageHandle.WriteSlot, PageHandle.GetBit] at hw
  have hi : i < tab_hdr.rec_per_page_ := by
    by_contra hc
    rw [if_pos hc] at hw
    cases hw
  rw [if_neg (not_not.mpr hi)] at hw
  have hbit : BitMap.GetBit page.data_ bm i = upd := by
    by_contra hc
    rw [if_pos hc] at hw
    cases hw
  rw [if_neg (not_not.mpr hbit)] at hw
  have hh1 : h1 =
      { tab_hdr_ := tab_hdr,
        page_ := { page with
          data_ := PAXPageHandle.slotWrite tab_hdr schema sm page.data_ i nm d },
        bitmap_ := bm, slots_mem_ := sm, schema_ := schema,
        offsets_ := TableHandle.field_offset_ tab_hdr schema } := by
    injection hw with _ hw
    rw [← hw]
    rfl
  obtain ⟨⟨hl, hlow⟩, _, _⟩ := PAX_slotWrite_props tab_hdr schema sm page.data_.length hsum
    hfit page.data_ i nm d rfl hi hnm hd
  refine ⟨hi, hbit, by rw [hh1], by rw [hh1], by rw [hh1], by rw [hh1], by rw [hh1],
    by rw [hh1], by rw [hh1], by rw [hh1]; exact hl, by rw [hh1]; exact hlow, ?_, ?_⟩
  · intro nm_out d_out hnmo hdo
    obtain ⟨h1', e1, e2, e3⟩ := PAX_round_trip_aux tab_hdr page bm sm schema i nm d
      nm_out d_out hsum (hbm i hi) hfit hi hnm hd hnmo hdo upd hbit
    rw [hw0] at e1
    injection e1 with _ e1
    subst e1
    exact ⟨e2, e3⟩
  · intro j hj hji nm_out d_out
    exact (PAX_WriteSlot_other tab_hdr page bm sm schema hsum hbm hfit i j hi hj (Ne.symm hji)
      nm d hnm hd upd h1 hw0).2.2 nm_out d_out

theorem BITMAP_SIZE_bit (rpp bs phs s : Nat) (hbm : BITMAP_SIZE rpp = bs) (hs : s < rpp) :
    phs + s / 8 < phs + bs := by
  rw [← hbm]
  unfold BITMAP_SIZE
  omega

/-- A `WriteSlot` that returns, through the handle that the table wraps around a page: the
slot it wrote, what it kept, and what `GetRecord` returns from a page that has the written
bytes in its slots. -/
theorem TableHandle.WriteSlot_view (t : TableHandle) (page : Page) (ph u1 : PageHandleUptr)
    (i : Nat) (nm d : List Nat) (upd : Bool) (hlay : t.LayoutOK page.data_.length)
    (hnm : nm.length = t.tab_hdr_.nullmap_size_) (hd : d.length = t.tab_hdr_.rec_size_)
    (hwrap : t.WrapPageHandle page = .ok ph)
    (hw : ph.WriteSlot i nm d upd = (.ok (), u1)) :
    i < t.tab_hdr_.rec_per_page_ ∧ BitMap.GetBit page.data_ t.PAGE_HEADER_SIZE i = upd ∧
    u1.base.bitmap_ = t.PAGE_HEADER_SIZE ∧
    u1.GetPage.fid_ = page.fid_ ∧ u1.GetPage.pid_ = page.pid_ ∧
    u1.GetPage.data_.length = page.data_.length ∧
    (∀ k, k < t.PAGE_HEADER_SIZE + t.tab_hdr_.bitmap_size_ →
      u1.GetPage.data_[k]? = page.data_[k]?) ∧
    (∀ (page' : Page) (pid : page_id_t),
      BitMap.GetBit page'.data_ t.PAGE_HEADER_SIZE i = true →
      (∀ k, t.PAGE_HEADER_SIZE + t.tab_hdr_.bitmap_size_ ≤ k →
        page'.data_[k]? = u1.GetPage.data_[k]?) →
      t.recordIn page' ⟨pid, i⟩ = .ok ⟨nm, d, ⟨pid, i⟩⟩) ∧
    (∀ (page' : Page) (pid : page_id_t) (j : Nat), j < t.tab_hdr_.rec_per_page_ → j ≠ i →
      BitMap.GetBit page'.data_ t.PAGE_HEADER_SIZE j =
        BitMap.GetBit page.data_ t.PAGE_HEADER_SIZE j →
      (∀ k, t.PAGE_HEADER_SIZE + t.tab_hdr_.bitmap_size_ ≤ k →
        page'.data_[k]? = u1.GetPage.data_[k]?) →
      t.recordIn page' ⟨pid, j⟩ = t.recordIn page ⟨pid, j⟩) := by
  obtain ⟨hbm, h16, hfit, hpax⟩ := hlay
  have hbit8 := fun s (hs : s < t.tab_hdr_.rec_per_page_) =>
    BITMAP_SIZE_bit _ _ t.PAGE_HEADER_SIZE s hbm hs
  have hz1 : (List.replicate t.tab_hdr_.nullmap_size_ 0).length = t.tab_hdr_.nullmap_size_ :=
    List.length_replicate _ _
  have hz2 : (List.replicate t.tab_hdr_.rec_size_ 0).length = t.tab_hdr_.rec_size_ :=
    List.length_replicate _ _
  rw [TableHandle.WrapPageHandle_eq t page hbm] at hwrap
  cases hsm : t.storage_model_ with
  | NARY_MODEL =>
    simp only [hsm] at hwrap
    injection hwrap with hwrap
    subst hwrap
    simp only [PageHandleUptr.WriteSlot, Prod.mk.injEq] at hw
    obtain ⟨hw1, hw2⟩ := hw
    subst hw2
    obtain ⟨v1, v2, v3, v4, v5, v6, v7, v8, v9, v10, v11⟩ := NAry_WriteSlot_view t.tab_hdr_
      page t.PAGE_HEADER_SIZE (t.PAGE_HEADER_SIZE + t.tab_hdr_.bitmap_size_) hbit8 hfit i nm d
      hnm hd upd _ (Prod.ext hw1 rfl)
    refine ⟨v1, v2, v4, v6, v7, v8, v9, ?_, ?_⟩
    · intro page' pid hb hbytes
      unfold TableHandle.recordIn
      rw [TableHandle.WrapPageHandle_eq t page' hbm]
      simp only [hsm, PageHandleUptr.GetBit, PageHandleUptr.base, PageHandle.GetBit,
        PageHandleUptr.ReadSlot, RID.SlotID, hb, not_true_eq_false, if_false]
      rw [NAry_ReadSlot_congr _
        { tab_hdr_ := t.tab_hdr_, page_ := page', bitmap_ := t.PAGE_HEADER_SIZE,
          slots_mem_ := t.PAGE_HEADER_SIZE + t.tab_hdr_.bitmap_size_ } i _ _ ?_ ?_ ?_ ?_,
        (v10 _ _ hz1 hz2).1]
      · simp only [PageHandle.SetBit, v3]
        exact ⟨rfl, rfl, rfl, rfl⟩
      · simp only [PageHandle.SetBit, v5]
      · simp only [PageHandle.GetBit, PageHandle.SetBit, hb]
        rw [BitMap.GetBit_SetBit_true]
        rw [v4, v8]
        have := hbit8 i v1
        omega
      · intro k hk
        simp only [PageHandle.SetBit, v5] at hk ⊢
        rw [hbytes k hk, getElem?_SetBit_other]
        simp only [PageHandleUptr.GetPage, PageHandleUptr.base]
        rw [v4]
        have := hbit8 i v1
        omega
    · intro page' pid j hj hji hb hbytes
      unfold TableHandle.recordIn
      rw [TableHandle.WrapPageHandle_eq t page' hbm, TableHandle.WrapPageHandle_eq t page hbm]
      simp only [hsm, PageHandleUptr.GetBit, PageHandleUptr.base, PageHandle.GetBit,
        PageHandleUptr.ReadSlot, RID.SlotID, hb]
      rw [NAry_ReadSlot_congr _
        { tab_hdr_ := t.tab_hdr_, page_ := page', bitmap_ := t.PAGE_HEADER_SIZE,
          slots_mem_ := t.PAGE_HEADER_SIZE + t.tab_hdr_.bitmap_size_ } j _ _ ?_ ?_ ?_ ?_,
        v11 j hj hji]
      · rw [v3]
        exact ⟨rfl, rfl, rfl, rfl⟩
      · rw [v5]
      · simp only [PageHandle.GetBit, hb, v4]
        exact (BitMap.GetBit_congr _ _ _ _ (v9 _ (hbit8 j hj))).symm
      · intro k hk
        rw [v5] at hk
        exact hbytes k hk
  | PAX_MODEL =>
    obtain ⟨hoff, hsum⟩ := hpax hsm
    simp only [hsm] at hwrap
    injection hwrap with hwrap
    subst hwrap
    simp only [PageHandleUptr.WriteSlot, Prod.mk.injEq] at hw
    obtain ⟨hw1, hw2⟩ := hw
    subst hw2
    rw [hoff] at hw1 ⊢
    obtain ⟨v1, v2, v3, v4, v5, vs, vo, v6, v7, v8, v9, v10, v11⟩ := PAX_WriteSlot_view
      t.tab_hdr_ page t.PAGE_HEADER_SIZE (t.PAGE_HEADER_SIZE + t.tab_hdr_.bitmap_size_)
      t.schema_ hsum hbit8 hfit i nm d hnm hd upd _ (Prod.ext hw1 rfl)
    refine ⟨v1, v2, v4, v6, v7, v8, v9, ?_, ?_⟩
    · intro page' pid hb hbytes
      unfold TableHandle.recordIn
      rw [TableHandle.WrapPageHandle_eq t page' hbm]
      simp only [hsm, PageHandleUptr.GetBit, PageHandleUptr.base, PageHandle.GetBit,
        PageHandleUptr.ReadSlot, RID.SlotID, hb, not_true_eq_false, if_false]
      rw [PAX_ReadSlot_congr _
        { tab_hdr_ := t.tab_hdr_, page_ := page', bitmap_ := t.PAGE_HEADER_SIZE,
          slots_mem_ := t.PAGE_HEADER_SIZE + t.tab_hdr_.bitmap_size_,
          schema_ := t.schema_, offsets_ := t.field_offsets_ } i _ _ ?_ ?_ ?_ ?_ ?_ ?_,
        (v10 _ _ hz1 hz2).1]
      · simp only [PAXPageHandle.SetBit, PageHandle.SetBit, v3]
        exact ⟨rfl, rfl, rfl, rfl⟩
      · simp only [PAXPageHandle.SetBit, PageHandle.SetBit, v5]
      · simp only [PAXPageHandle.SetBit, vs]
      · simp only [PAXPageHandle.SetBit, vo, hoff]
      · simp only [PageHandle.GetBit, PAXPageHandle.SetBit, PageHandle.SetBit, hb]
        rw [BitMap.GetBit_SetBit_true]
        rw [v4, v8]
        have := hbit8 i v1
        omega
      · intro k hk
        simp only [PAXPageHandle.SetBit, PageHandle.SetBit, v5] at hk ⊢
        rw [hbytes k hk, getElem?_SetBit_other]
        simp only [PageHandleUptr.GetPage, PageHandleUptr.base]
        rw [v4]
        have := hbit8 i v1
        omega
    · intro page' pid j hj hji hb hbytes
      unfold TableHandle.recordIn
      rw [TableHandle.WrapPageHandle_eq t page' hbm, TableHandle.WrapPageHandle_eq t page hbm]
      simp only [hsm, PageHandleUptr.GetBit, PageHandleUptr.base, PageHandle.GetBit,
        PageHandleUptr.ReadSlot, RID.SlotID, hb]
      rw [PAX_ReadSlot_congr _
        { tab_hdr_ := t.tab_hdr_, page_ := page', bitmap_ := t.PAGE_HEADER_SIZE,
          slots_mem_ := t.PAGE_HEADER_SIZE + t.tab_hdr_.bitmap_size_,
          schema_ := t.schema_, offsets_ := t.field_offsets_ } j _ _ ?_ ?_ ?_ ?_ ?_ ?_,
        v11 j hj hji, hoff]
      · rw [v3]
        exact ⟨rfl, rfl, rfl, rfl⟩
      · rw [v5]
      · rw [vs]
      · rw [vo, hoff]
      · simp only [PageHandle.GetBit, hb, v4]
        exact (BitMap.GetBit_congr _ _ _ _ (v9 _ (hbit8 j hj))).symm
      · intro k hk
        rw [v5] at hk
        exact hbytes k hk

theorem WrittenThrough_coherent (b : BufferPoolManager) (h : b.WrittenThrough)
    (key : fid_pid_t) : b.coherent key (b.disk_manager_.blocks key) :=
  ⟨rfl, fun f hf => h (key, f) (umap_find_mem _ _ _ hf)⟩

theorem coherent_pageData (b : BufferPoolManager) (fid : file_id_t) (pid : page_id_t)
    (B : List Nat) (h : b.coherent ⟨fid, pid⟩ B) : b.pageData fid pid = B := by
  unfold BufferPoolManager.pageData BufferPoolManager.GetFrame
  cases hfind : umap_find b.page_frame_lookup_ ⟨fid, pid⟩ with
  | none => exact h.1
  | some f => exact h.2 f hfind

/-- A store into the frame of a page followed by the unpin of that page keeps every other
page coherent. -/
theorem coherent_store_unpin (b1 : BufferPoolManager) (fid : file_id_t) (pid : page_id_t)
    (f : frame_id_t) (data : List Nat) (is_dirty : Bool) (key : fid_pid_t) (B : List Nat)
    (hwf : b1.WF) (hres : b1.GetFrame fid pid = some f) (hne : key ≠ ⟨fid, pid⟩)
    (h : b1.coherent key B) :
    ((b1.writePageData f data).UnpinPage fid pid is_dirty).2.coherent key B := by
  apply coherent_UnpinPage
  refine coherent_run b1 key B (.writePageData f data) hwf h ?_
  simp only [PoolOp.modifies, decide_eq_false_iff_not]
  intro hk
  exact hne (poolWF_frame_inj _ _ _ hwf (key, f) (⟨fid, pid⟩, f) (umap_find_mem _ _ _ hk)
    (umap_find_mem _ _ _ hres) rfl)

/-- A page that is coherent with some bytes is coherent with its block on disk. -/
theorem coherent_blocks (b : BufferPoolManager) (key : fid_pid_t) (B : List Nat)
    (h : b.coherent key B) : b.coherent key (b.disk_manager_.blocks key) :=
  ⟨rfl, fun f hf => (h.2 f hf).trans h.1.symm⟩

/-- In a consistent pool in which every page is coherent with its block on disk, every
resident page is written through. -/
theorem WrittenThrough_of_coherent (b : BufferPoolManager) (hwf : b.WF)
    (h : ∀ key, b.coherent key (b.disk_manager_.blocks key)) : b.WrittenThrough := by
  intro e he
  exact (h e.1).2 e.2 (umap_find_of_mem _ _ _ hwf.2.2.2 he)

/-- After `UnpinPage(fid, pid, true)` of a resident, pinned page the block of the page on
disk has the bytes of its frame. -/
theorem coherent_UnpinPage_dirty_self (b : BufferPoolManager) (fid : file_id_t)
    (pid : page_id_t) (f : frame_id_t) (hres : b.GetFrame fid pid = some f)
    (hf : f < b.frames_.length) (hpin : 0 < (b.frame f).pin_count_) :
    (b.UnpinPage fid pid true).2.coherent ⟨fid, pid⟩ (b.frame f).page_.data_ := by
  have hres' : umap_find b.page_frame_lookup_ ⟨fid, pid⟩ = some f := hres
  rcases UnpinPage_cases b fid pid true with ⟨hc, _⟩ | ⟨g, hg, _, hu⟩
  · rcases hc with hc | ⟨g, hg, h0⟩
    · rw [hc] at hres'
      cases hres'
    · rw [hg] at hres'
      cases hres'
      omega
  · rw [hg] at hres'
    cases hres'
    rw [hu]
    refine ⟨?_, ?_⟩
    · simp only [if_true, WritePage_blocks]
    · intro g' hg'
      simp only at hg'
      rw [hg] at hg'
      cases hg'
      simp only
      rw [getD_set_self _ _ _ hf]

/-- A store into the frame of a resident, pinned page followed by `UnpinPage(.., true)` of
that page leaves every resident page written through, when the other pages were. -/
theorem store_unpin_written (b : BufferPoolManager) (fid : file_id_t) (pid : page_id_t)
    (f : frame_id_t) (data : List Nat) (hwf : b.WF) (hres : b.GetFrame fid pid = some f)
    (hf : f < b.frames_.length) (hpin : 0 < (b.frame f).pin_count_)
    (h : ∀ key, key ≠ ⟨fid, pid⟩ → b.coherent key (b.disk_manager_.blocks key)) :
    ((b.writePageData f data).UnpinPage fid pid true).2.WrittenThrough := by
  obtain ⟨w1, w2, w3, w4⟩ := writePageData_frame b f data hf
  apply WrittenThrough_of_coherent _
    (WF_UnpinPage _ fid pid true (WF_writePageData b f data hwf))
  intro key
  by_cases hk : key = ⟨fid, pid⟩
  · rw [hk]
    apply coherent_blocks _ _ ((b.writePageData f data).frame f).page_.data_
    apply coherent_UnpinPage_dirty_self
    · unfold BufferPoolManager.GetFrame at hres ⊢
      rw [w3]
      exact hres
    · rw [w4]; exact hf
    · rw [w2]; exact hpin
  · exact coherent_blocks _ _ _
      (coherent_store_unpin b fid pid f data true key _ hwf hres hk (h key hk))

theorem TableHandle.store_unpin_pool (t1 : TableHandle) (page_id : page_id_t)
    (f : frame_id_t) (page : Page) (is_dirty : Bool) :
    ((t1.storePage f page).unpin page_id is_dirty).buffer_pool_manager_ =
      ((t1.buffer_pool_manager_.writePageData f page.data_).UnpinPage t1.table_id_ page_id
        is_dirty).2 := by
  unfold TableHandle.unpin TableHandle.storePage
  rfl

theorem TableHandle.store_unpin_fields (t1 : TableHandle) (page_id : page_id_t)
    (f : frame_id_t) (page : Page) (is_dirty : Bool) :
    ((t1.storePage f page).unpin page_id is_dirty).tab_hdr_ = t1.tab_hdr_ ∧
    ((t1.storePage f page).unpin page_id is_dirty).table_id_ = t1.table_id_ ∧
    ((t1.storePage f page).unpin page_id is_dirty).schema_ = t1.schema_ ∧
    ((t1.storePage f page).unpin page_id is_dirty).storage_model_ = t1.storage_model_ ∧
    ((t1.storePage f page).unpin page_id is_dirty).field_offsets_ = t1.field_offsets_ ∧
    ((t1.storePage f page).unpin page_id is_dirty).PAGE_HEADER_SIZE = t1.PAGE_HEADER_SIZE := by
  unfold TableHandle.unpin TableHandle.storePage
  exact ⟨rfl, rfl, rfl, rfl, rfl, rfl⟩

/-- The free-list link depends on the bytes 0 to 3 of the buffer only. -/
theorem Page.GetNextFreePageId_congr (p q : Page)
    (h : ∀ j, j < 4 → q.data_[j]? = p.data_[j]?) :
    q.GetNextFreePageId = p.GetNextFreePageId := by
  unfold Page.GetNextFreePageId PAGE_NEXT_FREE_OFFSET
  rw [memRead_congr p.data_ q.data_ 0 4 (fun j _ hj => h j hj) 0 4 (Nat.le_refl _)
    (Nat.le_refl _)]

/-- With the slot in range and its bit as the mode asks, `WriteSlot` through the handle
that the table wraps around a page returns. -/
theorem TableHandle.WriteSlot_ok (t : TableHandle) (page : Page) (ph : PageHandleUptr)
    (i : Nat) (nm d : List Nat) (upd : Bool)
    (hbm : BITMAP_SIZE t.tab_hdr_.rec_per_page_ = t.tab_hdr_.bitmap_size_)
    (hwrap : t.WrapPageHandle page = .ok ph) (hi : i < t.tab_hdr_.rec_per_page_)
    (hbit : BitMap.GetBit page.data_ t.PAGE_HEADER_SIZE i = upd) :
    ∃ u1, ph.WriteSlot i nm d upd = (.ok (), u1) := by
  rw [TableHandle.WrapPageHandle_eq t page hbm] at hwrap
  cases hsm : t.storage_model_ with
  | NARY_MODEL =>
    simp only [hsm] at hwrap
    injection hwrap with hwrap
    subst hwrap
    refine ⟨_, Prod.ext ?_ rfl⟩
    simp only [PageHandleUptr.WriteSlot, NAryPageHandle.WriteSlot, PageHandle.GetBit]
    rw [if_neg (not_not.mpr hi), if_neg (not_not.mpr hbit)]
  | PAX_MODEL =>
    simp only [hsm] at hwrap
    injection hwrap with hwrap
    subst hwrap
    refine ⟨_, Prod.ext ?_ rfl⟩
    simp only [PageHandleUptr.WriteSlot, PAXPageHandle.WriteSlot, PageHandle.GetBit]
    rw [if_neg (not_not.mpr hi), if_neg (not_not.mpr hbit)]

/-- `UpdateRecord` on an occupied slot in range: the write returns, and the table is left
with the written page put back and unpinned. -/
theorem TableHandle.UpdateRecord_eq (t : TableHandle) (hwf : t.buffer_pool_manager_.WF)
    (hbm : BITMAP_SIZE t.tab_hdr_.rec_per_page_ = t.tab_hdr_.bitmap_size_)
    (rid : RID) (record : Record) (f : frame_id_t) (b1 : BufferPoolManager)
    (hb1 : t.buffer_pool_manager_.FetchPage t.table_id_ rid.PageID = (.ok f, b1))
    (hslot : rid.SlotID < t.tab_hdr_.rec_per_page_) (hocc : t.slotOccupied rid = true) :
    ∃ ph u1, t.WrapPageHandle (b1.frame f).page_ = .ok ph ∧
      ph.WriteSlot rid.SlotID record.nullmap_ record.data_ true = (.ok (), u1) ∧
      t.UpdateRecord rid record =
        (.ok (), ((({ t with buffer_pool_manager_ := b1 } : TableHandle).storePage f
          u1.GetPage).unpin rid.PageID true)) := by
  obtain ⟨_, _, _, r3, _⟩ := FetchPage_ok_page _ _ _ _ _ hwf hb1
  have hD : (b1.frame f).page_.data_ = (t.page rid.PageID).data_ := by
    rw [TableHandle.page_data, r3]
  have hbit : BitMap.GetBit (b1.frame f).page_.data_ t.PAGE_HEADER_SIZE rid.SlotID = true := by
    rw [hD]; exact hocc
  have hwrap := TableHandle.WrapPageHandle_eq t (b1.frame f).page_ hbm
  obtain ⟨ph, hph⟩ : ∃ ph, t.WrapPageHandle (b1.frame f).page_ = .ok ph := by
    rw [hwrap]; cases t.storage_model_ <;> exact ⟨_, rfl⟩
  obtain ⟨u1, hu1⟩ := TableHandle.WriteSlot_ok t (b1.frame f).page_ ph rid.SlotID
    record.nullmap_ record.data_ true hbm hph hslot hbit
  refine ⟨ph, u1, hph, hu1, ?_⟩
  have hgb : ph.GetBit rid.SlotID = true := by
    rw [hwrap] at hph
    cases hsm : t.storage_model_ <;> simp only [hsm] at hph <;> injection hph with hph <;>
      subst hph <;> exact hbit
  unfold TableHandle.UpdateRecord TableHandle.FetchPageHandle
  rw [hb1]
  simp only [hph, hgb, not_true_eq_false, if_false, Record.GetNullMap, Record.GetData, hu1]

/-- The record that `GetRecord` returns from a page depends on the table through its layout
only. -/
theorem TableHandle.recordIn_fields (t t' : TableHandle) (p : Page) (rid : RID)
    (h1 : t'.tab_hdr_.sameLayout t.tab_hdr_) (h2 : t'.storage_model_ = t.storage_model_)
    (h3 : t'.PAGE_HEADER_SIZE = t.PAGE_HEADER_SIZE) (h4 : t'.schema_ = t.schema_)
    (h5 : t'.field_offsets_ = t.field_offsets_) :
    t'.recordIn p rid = t.recordIn p rid :=
  TableHandle.recordIn_congr t t' p p rid h1 h2 h3 h4 h5 rfl (fun _ _ => rfl)

/-- The record that `GetRecord` returns from a page depends on the bytes of the page
only. -/
theorem TableHandle.recordIn_data (t : TableHandle) (p p' : Page) (rid : RID)
    (h : p'.data_ = p.data_) : t.recordIn p' rid = t.recordIn p rid :=
  TableHandle.recordIn_congr t t p p' rid ⟨rfl, rfl, rfl, rfl⟩ rfl rfl rfl rfl (by rw [h])
    (fun _ _ => by rw [h])

/-- The outcome of `GetRecord(rid)` when the fetch of the page succeeds, in terms of the
bytes that the pool holds for the page. -/
theorem TableHandle.GetRecord_page (t : TableHandle) (hwf : t.buffer_pool_manager_.WF)
    (rid : RID) (f : frame_id_t)
    (h : (t.buffer_pool_manager_.FetchPage t.table_id_ rid.PageID).1 = .ok f) :
    (t.GetRecord rid).1 = t.recordIn (t.page rid.PageID) rid := by
  obtain ⟨b1, hb1⟩ : ∃ b1, t.buffer_pool_manager_.FetchPage t.table_id_ rid.PageID =
      (.ok f, b1) := ⟨_, Prod.ext h rfl⟩
  obtain ⟨_, _, _, r3, _⟩ := FetchPage_ok_page _ _ _ _ _ hwf hb1
  rw [TableHandle.GetRecord_recordIn t rid f b1 hb1]
  apply TableHandle.recordIn_data
  rw [TableHandle.page_data, r3]

/-- A resident page can be fetched. -/
theorem FetchPage_resident_ok (b : BufferPoolManager) (fid : file_id_t) (pid : page_id_t)
    (f : frame_id_t) (h : b.GetFrame fid pid = some f) : (b.FetchPage fid pid).1 = .ok f := by
  rw [FetchPage_hit b fid pid f h]

/-- C32: let the pool be consistent with every resident page written through, the layout
of the table fit the page of `rid`, `FetchPage` of that page succeed, the slot of `rid` be
in range and occupied, and the record have the sizes of the header. `UpdateRecord(rid,
record)` returns normally. Afterwards `GetRecord(rid)` returns the null-map and the data of
`record` under `rid`; every bit of the bitmap of the page, the record count and the
free-list link stored in the page, and the table header (with `rec_num_`, `page_num_` and
`first_free_page_`) are as before; and `GetRecord` on any other RID with a slot in
range, when the fetch of its page succeeds before and after, returns what it returned
before; and the pool is again consistent with every resident page written through. -/
theorem UpdateRecord_rewrites_in_place (t : TableHandle) (hwf : t.buffer_pool_manager_.WF)
    (hwt : t.buffer_pool_manager_.WrittenThrough) (rid : RID) (record : Record)
    (f : frame_id_t)
    (hfetch : (t.buffer_pool_manager_.FetchPage t.table_id_ rid.PageID).1 = .ok f)
    (hlay : t.LayoutOK (t.page rid.PageID).data_.length)
    (hslot : rid.SlotID < t.tab_hdr_.rec_per_page_) (hocc : t.slotOccupied rid = true)
    (hnm : record.nullmap_.length = t.tab_hdr_.nullmap_size_)
    (hd : record.data_.length = t.tab_hdr_.rec_size_) :
    (t.UpdateRecord rid record).1 = .ok () ∧
    ((t.UpdateRecord rid record).2.GetRecord rid).1 =
      .ok { nullmap_ := record.nullmap_, data_ := record.data_, rid_ := rid } ∧
    (∀ s, s < t.tab_hdr_.rec_per_page_ →
      (t.UpdateRecord rid record).2.slotOccupied ⟨rid.PageID, s⟩ =
        t.slotOccupied ⟨rid.PageID, s⟩) ∧
    ((t.UpdateRecord rid record).2.page rid.PageID).GetRecordNum =
      (t.page rid.PageID).GetRecordNum ∧
    ((t.UpdateRecord rid record).2.page rid.PageID).GetNextFreePageId =
      (t.page rid.PageID).GetNextFreePageId ∧
    (t.UpdateRecord rid record).2.tab_hdr_ = t.tab_hdr_ ∧
    (∀ rid' : RID, rid' ≠ rid → rid'.SlotID < t.tab_hdr_.rec_per_page_ →
      ∀ f1 f2 : frame_id_t,
        (t.buffer_pool_manager_.FetchPage t.table_id_ rid'.PageID).1 = .ok f1 →
        ((t.UpdateRecord rid record).2.buffer_pool_manager_.FetchPage t.table_id_
          rid'.PageID).1 = .ok f2 →
        ((t.UpdateRecord rid record).2.GetRecord rid').1 = (t.GetRecord rid').1) ∧
    (t.UpdateRecord rid record).2.buffer_pool_manager_.WF ∧
    (t.UpdateRecord rid record).2.buffer_pool_manager_.WrittenThrough := by
  obtain ⟨b1, hb1⟩ : ∃ b1, t.buffer_pool_manager_.FetchPage t.table_id_ rid.PageID =
      (.ok f, b1) := ⟨_, Prod.ext hfetch rfl⟩
  obtain ⟨hwf1, r1, r2, r3, r4⟩ := FetchPage_ok_page _ _ _ _ _ hwf hb1
  have hD : (b1.frame f).page_.data_ = (t.page rid.PageID).data_ := by
    rw [TableHandle.page_data, r3]
  obtain ⟨ph, u1, hph, hu1, hupd⟩ := TableHandle.UpdateRecord_eq t hwf hlay.1 rid record f b1
    hb1 hslot hocc
  obtain ⟨_, w2, _, _, _, w6, w7, wself, wother⟩ := TableHandle.WriteSlot_view t
    (b1.frame f).page_ ph u1 rid.SlotID record.nullmap_ record.data_ true
    (by rw [hD]; exact hlay) hnm hd hph hu1
  obtain ⟨s1, s2, s3, _⟩ := TableHandle.store_unpin_view
    ({ t with buffer_pool_manager_ := b1 } : TableHandle) rid.PageID f u1.GetPage true hwf1
    r1 r2 (by rw [r4]; exact Nat.succ_pos _)
  obtain ⟨g1, g2, g3, g4, g5, g6⟩ := TableHandle.store_unpin_fields
    ({ t with buffer_pool_manager_ := b1 } : TableHandle) rid.PageID f u1.GetPage true
  have hpool := TableHandle.store_unpin_pool
    ({ t with buffer_pool_manager_ := b1 } : TableHandle) rid.PageID f u1.GetPage true
  rw [hupd]
  simp only
  generalize ((({ t with buffer_pool_manager_ := b1 } : TableHandle).storePage f
    u1.GetPage).unpin rid.PageID true) = t2 at s1 s2 s3 g1 g2 g3 g4 g5 g6 hpool ⊢
  simp only at s3 g1 g2 g3 g4 g5 g6 hpool
  have hlayout : ∀ p r, t2.recordIn p r = t.recordIn p r := fun p r =>
    TableHandle.recordIn_fields t t2 p r (by rw [g1]; exact ⟨rfl, rfl, rfl, rfl⟩) g4 g6 g3 g5
  have hlow : ∀ k, k < t.PAGE_HEADER_SIZE + t.tab_hdr_.bitmap_size_ →
      (t2.page rid.PageID).data_[k]? = (t.page rid.PageID).data_[k]? := by
    intro k hk
    rw [s1, w7 k hk, hD]
  have hbits : ∀ s, s < t.tab_hdr_.rec_per_page_ →
      BitMap.GetBit (t2.page rid.PageID).data_ t.PAGE_HEADER_SIZE s =
        BitMap.GetBit (t.page rid.PageID).data_ t.PAGE_HEADER_SIZE s := fun s hs =>
    BitMap.GetBit_congr _ _ _ _ (hlow _ (BITMAP_SIZE_bit _ _ _ s hlay.1 hs))
  have h16 := hlay.2.1
  have hwt2 : t2.buffer_pool_manager_.WrittenThrough := by
    rw [hpool]
    refine store_unpin_written b1 t.table_id_ rid.PageID f _ hwf1 r1 r2
      (by rw [r4]; exact Nat.succ_pos _) ?_
    intro key _
    have hc1 := coherent_FetchPage _ _ _ t.table_id_ rid.PageID hwf
      (WrittenThrough_coherent _ hwt key)
    rw [hb1] at hc1
    exact coherent_blocks _ _ _ hc1
  refine ⟨trivial, ?_, ?_, ?_, ?_, g1, ?_, s2, hwt2⟩
  · rw [TableHandle.GetRecord_page t2 s2 rid f
      (FetchPage_resident_ok _ _ _ _ (by rw [g2]; exact s3)), hlayout]
    have := wself (t2.page rid.PageID) rid.PageID
      (by rw [hbits _ hslot]; exact hocc) (fun k _ => by rw [s1])
    cases rid
    exact this
  · intro s hs
    unfold TableHandle.slotOccupied
    rw [g6]
    exact hbits s hs
  · exact Page.GetRecordNum_congr _ _ (fun j _ hj => hlow j (by omega))
  · exact Page.GetNextFreePageId_congr _ _ (fun j hj => hlow j (by omega))
  · intro rid' hne hs' f1 f2 hf1 hf2
    rw [TableHandle.GetRecord_page t2 s2 rid' f2 (by rw [g2]; exact hf2),
      TableHandle.GetRecord_page t hwf rid' f1 hf1, hlayout]
    by_cases hp : rid'.PageID = rid.PageID
    · have hsl : rid'.SlotID ≠ rid.SlotID := by
        intro hsl
        apply hne
        cases rid; cases rid'
        simp only [RID.PageID, RID.SlotID] at hp hsl
        rw [hp, hsl]
      have := wother (t2.page rid.PageID) rid.PageID rid'.SlotID hs' hsl
        (by rw [hbits _ hs', hD]) (fun k _ => by rw [s1])
      rw [hp]
      have e : rid' = ⟨rid.PageID, rid'.SlotID⟩ := by
        rw [← hp]
        cases rid'
        rfl
      rw [e]
      simp only [RID.PageID, RID.SlotID] at this ⊢
      rw [this]
      exact TableHandle.recordIn_data t _ _ _ hD
    · apply TableHandle.recordIn_data
      have hc := WrittenThrough_coherent _ hwt ⟨t.table_id_, rid'.PageID⟩
      have hc1 := coherent_FetchPage _ _ _ t.table_id_ rid.PageID hwf hc
      rw [hb1] at hc1
      have hc2 := coherent_store_unpin b1 t.table_id_ rid.PageID f u1.GetPage.data_ true
        ⟨t.table_id_, rid'.PageID⟩ _ hwf1 r1 (by
          intro h
          injection h with _ h
          exact hp h) hc1
      rw [TableHandle.page_data, TableHandle.page_data, g2, hpool,
        coherent_pageData _ _ _ _ hc2, coherent_pageData _ _ _ _ hc]

/-- An instance of C32: in `fullTable` the record in slot 2 of page 1 is replaced by
`demoRecord`; `GetRecord` returns the new bytes for that slot and the old record of
slot 1. -/
theorem UpdateRecord_rewrites_in_place_witness :
    (fullTable.UpdateRecord ⟨1, 2⟩ demoRecord).1 = .ok () ∧
    ((fullTable.UpdateRecord ⟨1, 2⟩ demoRecord).2.GetRecord ⟨1, 2⟩).1 =
      .ok { nullmap_ := [0], data_ := [7, 8], rid_ := ⟨1, 2⟩ } ∧
    ((fullTable.UpdateRecord ⟨1, 2⟩ demoRecord).2.GetRecord ⟨1, 1⟩).1 =
      (fullTable.GetRecord ⟨1, 1⟩).1 :=
  have h := UpdateRecord_rewrites_in_place fullTable (WF_new _ _ _ _ _) (by decide) ⟨1, 2⟩
    demoRecord 0 (by decide) (by decide) (by decide) (by decide) rfl rfl
  ⟨h.1, h.2.1, h.2.2.2.2.2.2.1 ⟨1, 1⟩ (by decide) (by decide) 0 0 (by decide) (by decide)⟩

/-- `CreateNewPageHandle` when the fetch of the new page succeeds: the page of the returned
handle is the fetched page with `first_free_page_` as its link, the store has reached the
frame, and the header counts one more page and has the new page as first free page. The
handle was wrapped by a table `T` with the layout of `t`. -/
theorem TableHandle.CreateNewPageHandle_view (t : TableHandle)
    (hbm : BITMAP_SIZE t.tab_hdr_.rec_per_page_ = t.tab_hdr_.bitmap_size_)
    (f : frame_id_t) (b1 : BufferPoolManager)
    (hf : t.buffer_pool_manager_.FetchPage t.table_id_ (to_page_id_t t.tab_hdr_.page_num_) =
      (.ok f, b1)) :
    ∃ (nph : PageHandleUptr) (t1 T : TableHandle),
      t.CreateNewPageHandle = (.ok (f, nph), t1) ∧
      T.WrapPageHandle ((b1.frame f).page_.SetNextFreePageId t.tab_hdr_.first_free_page_) =
        .ok nph ∧
      nph.GetPage = (b1.frame f).page_.SetNextFreePageId t.tab_hdr_.first_free_page_ ∧
      nph.base.bitmap_ = t.PAGE_HEADER_SIZE ∧
      T.tab_hdr_.sameLayout t.tab_hdr_ ∧ T.storage_model_ = t.storage_model_ ∧
      T.PAGE_HEADER_SIZE = t.PAGE_HEADER_SIZE ∧ T.schema_ = t.schema_ ∧
      T.field_offsets_ = t.field_offsets_ ∧
      t1.tab_hdr_ = { t.tab_hdr_ with
        page_num_ := size_t_inc t.tab_hdr_.page_num_,
        first_free_page_ := to_page_id_t t.tab_hdr_.page_num_ } ∧
      t1.buffer_pool_manager_ = b1.writePageData f
        ((b1.frame f).page_.SetNextFreePageId t.tab_hdr_.first_free_page_).data_ ∧
      t1.table_id_ = t.table_id_ ∧ t1.schema_ = t.schema_ ∧
      t1.storage_model_ = t.storage_model_ ∧ t1.field_offsets_ = t.field_offsets_ ∧
      t1.PAGE_HEADER_SIZE = t.PAGE_HEADER_SIZE := by
  have hwrap := fun (T : TableHandle) (pg : Page)
      (h : BITMAP_SIZE T.tab_hdr_.rec_per_page_ = T.tab_hdr_.bitmap_size_) =>
    TableHandle.WrapPageHandle_eq T pg h
  cases hsm : t.storage_model_ with
  | NARY_MODEL =>
    refine ⟨?nph, ?t1,
      { t with tab_hdr_ := { t.tab_hdr_ with page_num_ := size_t_inc t.tab_hdr_.page_num_ } },
      ?h1, ?h2, ?_, ?_, ⟨rfl, rfl, rfl, rfl⟩, hsm, rfl, rfl, rfl, ?_, ?_, ?_, ?_, ?_, ?_, ?_⟩
    case h1 =>
      unfold TableHandle.CreateNewPageHandle
      simp only [hf, hwrap, hbm, hsm]
      exact rfl
    case h2 =>
      simp only [hwrap, hbm, hsm]
      exact rfl
    all_goals rfl
  | PAX_MODEL =>
    refine ⟨?nphP, ?t1P,
      { t with tab_hdr_ := { t.tab_hdr_ with page_num_ := size_t_inc t.tab_hdr_.page_num_ } },
      ?h1P, ?h2P, ?_, ?_, ⟨rfl, rfl, rfl, rfl⟩, hsm, rfl, rfl, rfl, ?_, ?_, ?_, ?_, ?_, ?_, ?_⟩
    case h1P =>
      unfold TableHandle.CreateNewPageHandle
      simp only [hf, hwrap, hbm, hsm]
      exact rfl
    case h2P =>
      simp only [hwrap, hbm, hsm]
      exact rfl
    all_goals rfl

/-- `CreateNewPageHandle` when the fetch of the new page fails. -/
theorem TableHandle.CreateNewPageHandle_error (t : TableHandle) (e : Exn)
    (b1 : BufferPoolManager)
    (hf : t.buffer_pool_manager_.FetchPage t.table_id_ (to_page_id_t t.tab_hdr_.page_num_) =
      (.error e, b1)) :
    (t.CreateNewPageHandle).1 = .error (.pool e) := by
  unfold TableHandle.CreateNewPageHandle
  simp only [hf]

theorem TableHandle.LayoutOK_of_fields (t T : TableHandle) (N : Nat)
    (h1 : T.tab_hdr_.sameLayout t.tab_hdr_) (h2 : T.storage_model_ = t.storage_model_)
    (h3 : T.PAGE_HEADER_SIZE = t.PAGE_HEADER_SIZE) (h4 : T.schema_ = t.schema_)
    (h5 : T.field_offsets_ = t.field_offsets_) (h : t.LayoutOK N) : T.LayoutOK N := by
  obtain ⟨l1, l2, l3, l4⟩ := h1
  unfold TableHandle.LayoutOK TableHandle.field_offset_ at h ⊢
  rw [l1, l2, l3, l4, h2, h3, h4, h5]
  exact h

/-- `InsertRecord(record)` that returns `rid`: the page of `rid` is the new page, the slot
is in range and was empty, the layout of the table is kept, the page is resident
afterwards and `GetRecord` finds the record in it, the other slots of the page read as
before, every other page that was coherent with some bytes still is, and the resident
pages are written through afterwards when they were before. -/
theorem TableHandle.InsertRecord_view (t : TableHandle) (hwf : t.buffer_pool_manager_.WF)
    (record : Record) (rid : RID)
    (hlay : t.LayoutOK (t.page (to_page_id_t t.tab_hdr_.page_num_)).data_.length)
    (hnm : record.nullmap_.length = t.tab_hdr_.nullmap_size_)
    (hd : record.data_.length = t.tab_hdr_.rec_size_)
    (hins : (t.InsertRecord record).1 = .ok rid) :
    rid.PageID = to_page_id_t t.tab_hdr_.page_num_ ∧
    rid.SlotID < t.tab_hdr_.rec_per_page_ ∧
    t.slotOccupied rid = false ∧
    (t.InsertRecord record).2.tab_hdr_.sameLayout t.tab_hdr_ ∧
    (t.InsertRecord record).2.table_id_ = t.table_id_ ∧
    (t.InsertRecord record).2.schema_ = t.schema_ ∧
    (t.InsertRecord record).2.storage_model_ = t.storage_model_ ∧
    (t.InsertRecord record).2.field_offsets_ = t.field_offsets_ ∧
    (t.InsertRecord record).2.PAGE_HEADER_SIZE = t.PAGE_HEADER_SIZE ∧
    (t.InsertRecord record).2.buffer_pool_manager_.WF ∧
    (∃ f, (t.InsertRecord record).2.buffer_pool_manager_.GetFrame t.table_id_ rid.PageID =
      some f) ∧
    t.recordIn ((t.InsertRecord record).2.page rid.PageID) rid =
      .ok { nullmap_ := record.nullmap_, data_ := record.data_, rid_ := rid } ∧
    (∀ j, j < t.tab_hdr_.rec_per_page_ → j ≠ rid.SlotID →
      t.recordIn ((t.InsertRecord record).2.page rid.PageID) ⟨rid.PageID, j⟩ =
        t.recordIn (t.page rid.PageID) ⟨rid.PageID, j⟩) ∧
    (∀ key B, key ≠ ⟨t.table_id_, rid.PageID⟩ → t.buffer_pool_manager_.coherent key B →
      (t.InsertRecord record).2.buffer_pool_manager_.coherent key B) ∧
    (t.buffer_pool_manager_.WrittenThrough →
      (t.InsertRecord record).2.buffer_pool_manager_.WrittenThrough) := by
  have hbm := hlay.1
  rcases hf : t.buffer_pool_manager_.FetchPage t.table_id_
    (to_page_id_t t.tab_hdr_.page_num_) with ⟨res, b1⟩
  cases res with
  | error e =>
    exfalso
    have he := TableHandle.CreateNewPageHandle_error t e b1 hf
    rcases hc : t.CreateNewPageHandle with ⟨r, t1⟩
    rw [hc] at he
    simp only at he
    subst he
    unfold TableHandle.InsertRecord at hins
    rw [hc] at hins
    cases hins
  | ok f =>
    obtain ⟨nph, t1, T, hc, hTw, hgp, hbmp, hTl, hTm, hTp, hTs, hTo, h1hdr, h1bpm, h1tid,
      h1sch, h1sm, h1off, h1phs⟩ := TableHandle.CreateNewPageHandle_view t hbm f b1 hf
    obtain ⟨hwf1, r1, r2, r3, r4⟩ := FetchPage_ok_page _ _ _ _ _ hwf hf
    have hD : (b1.frame f).page_.data_ =
        (t.page (to_page_id_t t.tab_hdr_.page_num_)).data_ := by
      rw [TableHandle.page_data, r3]
    have hpid0 : (b1.frame f).page_.pid_ = to_page_id_t t.tab_hdr_.page_num_ := by
      have := (hwf1.1 _ (umap_find_mem _ _ _ r1)).2
      exact congrArg fid_pid_t.pid this
    have h16 := hlay.2.1
    have hlen0 : 16 ≤ (b1.frame f).page_.data_.length := by
      rw [hD]
      have := hlay.2.2.1
      omega
    obtain ⟨hlenL, hfrL⟩ := Page.SetNextFreePageId_frame (b1.frame f).page_
      t.tab_hdr_.first_free_page_ hlen0
    have hlayT : T.LayoutOK
        ((b1.frame f).page_.SetNextFreePageId t.tab_hdr_.first_free_page_).data_.length := by
      rw [hlenL, hD]
      exact TableHandle.LayoutOK_of_fields t T _ hTl hTm hTp hTs hTo hlay
    obtain ⟨l1, l2, l3, l4⟩ := hTl
    obtain ⟨slot, hslot⟩ : ∃ s, s = BitMap.FindFirst nph.GetPage.data_ nph.base.bitmap_
        t1.tab_hdr_.rec_per_page_ 0 false := ⟨_, rfl⟩
    unfold TableHandle.InsertRecord at hins ⊢
    rw [hc] at hins ⊢
    dsimp only at hins ⊢
    rw [← hslot] at hins ⊢
    rcases hws : nph.WriteSlot slot record.GetNullMap record.GetData false with ⟨r, u1⟩
    rw [hws] at hins
    cases r with
    | error e => cases hins
    | ok u =>
      dsimp only at hins ⊢
      obtain ⟨w1, w2, w3, w4, w5, w6, w7, wself, wother⟩ := TableHandle.WriteSlot_view T
        ((b1.frame f).page_.SetNextFreePageId t.tab_hdr_.first_free_page_) nph u1 slot
        record.nullmap_ record.data_ false hlayT (by rw [l2]; exact hnm) (by rw [l1]; exact hd)
        hTw hws
      obtain ⟨page1, hp1⟩ : ∃ p : Page, p = Page.mk u1.GetPage.fid_ u1.GetPage.pid_
          (BitMap.SetBit u1.GetPage.data_ u1.base.bitmap_ slot true) := ⟨_, rfl⟩
      rw [← hp1] at hins ⊢
      obtain ⟨page3, hp3⟩ : ∃ p : Page, p =
          (if size_t_inc page1.GetRecordNum = t1.tab_hdr_.rec_per_page_ then
            (page1.SetRecordNum page1.GetRecordNum).SetNextFreePageId INVALID_PAGE_ID
          else page1.SetRecordNum page1.GetRecordNum) := ⟨_, rfl⟩
      rw [← hp3] at hins ⊢
      obtain ⟨hdr3, hh3⟩ : ∃ h : TableHeader, h =
          (if size_t_inc page1.GetRecordNum = t1.tab_hdr_.rec_per_page_ then
            { t1.tab_hdr_ with rec_num_ := size_t_inc t1.tab_hdr_.rec_num_, first_free_page_ := (page1.SetRecordNum page1.GetRecordNum).GetNextFreePageId }
          else
            { t1.tab_hdr_ with rec_num_ := size_t_inc t1.tab_hdr_.rec_num_ }) := ⟨_, rfl⟩
      rw [← hh3]
      have hfit := hlay.2.2.1
      have hsl : slot < t.tab_hdr_.rec_per_page_ := by rw [← l4]; exact w1
      have hbyte : ∀ j, j < t.tab_hdr_.rec_per_page_ →
          t.PAGE_HEADER_SIZE + j / 8 < t.PAGE_HEADER_SIZE + t.tab_hdr_.bitmap_size_ :=
        fun j hj => BITMAP_SIZE_bit _ _ _ j hbm hj
      have hp1pid : page1.pid_ = to_page_id_t t.tab_hdr_.page_num_ := by
        rw [hp1]
        simp only
        rw [w5]
        exact hpid0
      have hp1d : page1.data_ = BitMap.SetBit u1.GetPage.data_ t.PAGE_HEADER_SIZE slot true := by
        rw [hp1, w3, hTp]
      have hp1len : page1.data_.length = (b1.frame f).page_.data_.length := by
        rw [hp1d, BitMap.SetBit_length, w6, hlenL]
      have hp3pid : page3.GetPageId = to_page_id_t t.tab_hdr_.page_num_ := by
        rw [hp3]
        split
        · exact hp1pid
        · exact hp1pid
      have hp3d : ∀ j, 16 ≤ j → page3.data_[j]? = page1.data_[j]? := by
        intro j hj
        obtain ⟨e1, e2⟩ := Page.SetRecordNum_frame page1 page1.GetRecordNum
          (by rw [hp1len]; exact hlen0)
        rw [hp3]
        split
        · rw [(Page.SetNextFreePageId_frame _ INVALID_PAGE_ID (by rw [e1, hp1len]; exact hlen0)).2
            j (by omega), e2 j hj]
        · exact e2 j hj
      have hLd : ∀ j, 4 ≤ j →
          ((b1.frame f).page_.SetNextFreePageId t.tab_hdr_.first_free_page_).data_[j]? =
            (t.page (to_page_id_t t.tab_hdr_.page_num_)).data_[j]? := by
        intro j hj
        rw [hfrL j hj, hD]
      have hrid : rid = ⟨to_page_id_t t.tab_hdr_.page_num_, slot⟩ := by
        injection hins with h
        rw [← h, hp3pid]
      subst hrid
      rw [hp3pid]
      simp only [RID.PageID, RID.SlotID]
      have hwft1 : t1.buffer_pool_manager_.WF := by
        rw [h1bpm]
        exact WF_writePageData _ _ _ hwf1
      obtain ⟨v1, v2, v3, v4⟩ := writePageData_frame b1 f
        ((b1.frame f).page_.SetNextFreePageId t.tab_hdr_.first_free_page_).data_ r2
      have hres1 : t1.buffer_pool_manager_.GetFrame t.table_id_
          (to_page_id_t t.tab_hdr_.page_num_) = some f := by
        rw [h1bpm]
        unfold BufferPoolManager.GetFrame at r1 ⊢
        rw [v3]
        exact r1
      obtain ⟨s1, s2, s3, _⟩ := TableHandle.store_unpin_view
        ({ t1 with tab_hdr_ := hdr3 } : TableHandle) (to_page_id_t t.tab_hdr_.page_num_) f page3
        true hwft1 (by rw [h1tid]; exact hres1) (by rw [h1bpm, v4]; exact r2)
        (by rw [h1bpm, v2, r4]; exact Nat.succ_pos _)
      obtain ⟨g1, g2, g3, g4, g5, g6⟩ := TableHandle.store_unpin_fields
        ({ t1 with tab_hdr_ := hdr3 } : TableHandle) (to_page_id_t t.tab_hdr_.page_num_) f page3
        true
      have hpool := TableHandle.store_unpin_pool
        ({ t1 with tab_hdr_ := hdr3 } : TableHandle) (to_page_id_t t.tab_hdr_.page_num_) f page3
        true
      generalize ((({ t1 with tab_hdr_ := hdr3 } : TableHandle).storePage f
        page3).unpin (to_page_id_t t.tab_hdr_.page_num_) true) = t3
        at s1 s2 s3 g1 g2 g3 g4 g5 g6 hpool ⊢
      simp only at s3 g1 g2 g3 g4 g5 g6 hpool
      have hTt : ∀ p r, T.recordIn p r = t.recordIn p r := fun p r =>
        TableHandle.recordIn_fields t T p r ⟨l1, l2, l3, l4⟩ hTm hTp hTs hTo
      have hhigh : ∀ k, t.PAGE_HEADER_SIZE + t.tab_hdr_.bitmap_size_ ≤ k →
          (t3.page (to_page_id_t t.tab_hdr_.page_num_)).data_[k]? = u1.GetPage.data_[k]? := by
        intro k hk
        have := hbyte slot hsl
        rw [s1, hp3d k (by omega), hp1d, getElem?_SetBit_other _ _ _ _ _ (by omega)]
      have hbit3 : ∀ j, j < t.tab_hdr_.rec_per_page_ →
          BitMap.GetBit (t3.page (to_page_id_t t.tab_hdr_.page_num_)).data_
            t.PAGE_HEADER_SIZE j = BitMap.GetBit page1.data_ t.PAGE_HEADER_SIZE j := by
        intro j hj
        apply BitMap.GetBit_congr
        rw [s1]
        exact hp3d _ (by omega)
      have hbitL : ∀ j, j < t.tab_hdr_.rec_per_page_ →
          BitMap.GetBit ((b1.frame f).page_.SetNextFreePageId t.tab_hdr_.first_free_page_).data_
            t.PAGE_HEADER_SIZE j =
          BitMap.GetBit (t.page (to_page_id_t t.tab_hdr_.page_num_)).data_
            t.PAGE_HEADER_SIZE j := by
        intro j hj
        apply BitMap.GetBit_congr
        exact hLd _ (by omega)
      rw [hTp, l3] at w7 wself wother
      rw [hTp] at w2
      have hother : ∀ key, key ≠ ⟨t.table_id_, to_page_id_t t.tab_hdr_.page_num_⟩ →
          ∀ B, t.buffer_pool_manager_.coherent key B →
            t1.buffer_pool_manager_.coherent key B := by
        intro key hne B hco
        have hc1 := coherent_FetchPage _ _ _ t.table_id_ (to_page_id_t t.tab_hdr_.page_num_)
          hwf hco
        rw [hf] at hc1
        rw [h1bpm]
        refine coherent_run b1 key B (.writePageData f _) hwf1 hc1 ?_
        simp only [PoolOp.modifies, decide_eq_false_iff_not]
        intro hk
        exact hne (poolWF_frame_inj _ _ _ hwf1 (key, f) (⟨t.table_id_, _⟩, f)
          (umap_find_mem _ _ _ hk) (umap_find_mem _ _ _ r1) rfl)
      refine ⟨trivial, hsl, ?_, ?_, ?_, ?_, ?_, ?_, ?_, s2, ⟨f, by rw [← h1tid]; exact s3⟩,
        ?_, ?_, ?_, ?_⟩
      · unfold TableHandle.slotOccupied
        simp only [RID.PageID, RID.SlotID]
        rw [← hbitL slot hsl]
        exact w2
      · rw [g1, hh3]
        split
        · rw [h1hdr]; exact ⟨rfl, rfl, rfl, rfl⟩
        · rw [h1hdr]; exact ⟨rfl, rfl, rfl, rfl⟩
      · rw [g2, h1tid]
      · rw [g3, h1sch]
      · rw [g4, h1sm]
      · rw [g5, h1off]
      · rw [g6, h1phs]
      · rw [← hTt]
        apply wself _ _ ?_ hhigh
        rw [hbit3 slot hsl, hp1d]
        apply BitMap.GetBit_SetBit_true
        rw [w6, hlenL, hD]
        have := hbyte slot hsl
        omega
      · intro j hj hne
        rw [← hTt, wother _ _ j (by rw [l4]; exact hj) hne ?_ hhigh, hTt]
        · apply TableHandle.recordIn_congr t t _ _ _ ⟨rfl, rfl, rfl, rfl⟩ rfl rfl rfl rfl
          · exact hbitL j hj
          · intro k hk
            exact hLd k (by omega)
        · rw [hbit3 j hj, hp1d, BitMap.GetBit_SetBit_ne _ _ _ _ _ hne]
          apply BitMap.GetBit_congr
          exact w7 _ (hbyte j hj)
      · intro key B hne hco
        rw [hpool, h1tid]
        exact coherent_store_unpin _ _ _ f _ true key B hwft1 hres1 hne
          (hother key hne B hco)
      · intro hwt
        rw [hpool, h1tid]
        exact store_unpin_written _ _ _ f _ hwft1 hres1 (by rw [h1bpm, v4]; exact r2)
          (by rw [h1bpm, v2, r4]; exact Nat.succ_pos _)
          (fun key hne => coherent_blocks _ _ _
            (hother key hne _ (WrittenThrough_coherent _ hwt key)))

/-- C31: let the pool be consistent with every resident page written through, the layout
of the table (of either storage model) fit the page that `InsertRecord` takes, and the
record have the sizes of the header. If `InsertRecord(record)` returns `rid`, then
`GetRecord(rid)` afterwards returns the null-map and the data of `record` under `rid`, and
`GetRecord` on any RID whose slot was occupied before the insert, when the fetch of its
page succeeds before and after, returns what it returned before; and the pool is again
consistent with every resident page written through. -/
theorem InsertRecord_GetRecord_round_trip (t : TableHandle)
    (hwf : t.buffer_pool_manager_.WF) (hwt : t.buffer_pool_manager_.WrittenThrough)
    (record : Record) (rid : RID)
    (hlay : t.LayoutOK (t.page (to_page_id_t t.tab_hdr_.page_num_)).data_.length)
    (hnm : record.nullmap_.length = t.tab_hdr_.nullmap_size_)
    (hd : record.data_.length = t.tab_hdr_.rec_size_)
    (hins : (t.InsertRecord record).1 = .ok rid) :
    ((t.InsertRecord record).2.GetRecord rid).1 =
      .ok { nullmap_ := record.nullmap_, data_ := record.data_, rid_ := rid } ∧
    (∀ rid' : RID, rid'.SlotID < t.tab_hdr_.rec_per_page_ → t.slotOccupied rid' = true →
      ∀ f1 f2 : frame_id_t,
        (t.buffer_pool_manager_.FetchPage t.table_id_ rid'.PageID).1 = .ok f1 →
        ((t.InsertRecord record).2.buffer_pool_manager_.FetchPage t.table_id_
          rid'.PageID).1 = .ok f2 →
        ((t.InsertRecord record).2.GetRecord rid').1 = (t.GetRecord rid').1) ∧
    (t.InsertRecord record).2.buffer_pool_manager_.WF ∧
    (t.InsertRecord record).2.buffer_pool_manager_.WrittenThrough := by
  obtain ⟨i1, i2, i3, i4, i5, i6, i7, i8, i9, i10, ⟨f, i11⟩, i12, i13, i14, i15⟩ :=
    TableHandle.InsertRecord_view t hwf record rid hlay hnm hd hins
  generalize (t.InsertRecord record).2 = t2 at i4 i5 i6 i7 i8 i9 i10 i11 i12 i13 i14 i15 ⊢
  have hlayout : ∀ p r, t2.recordIn p r = t.recordIn p r := fun p r =>
    TableHandle.recordIn_fields t t2 p r i4 i7 i9 i6 i8
  refine ⟨?_, ?_, i10, i15 hwt⟩
  · rw [TableHandle.GetRecord_page t2 i10 rid f
      (FetchPage_resident_ok _ _ _ _ (by rw [i5]; exact i11)), hlayout]
    exact i12
  · intro rid' hs' hocc f1 f2 hf1 hf2
    rw [TableHandle.GetRecord_page t2 i10 rid' f2 (by rw [i5]; exact hf2),
      TableHandle.GetRecord_page t hwf rid' f1 hf1, hlayout]
    by_cases hp : rid'.PageID = rid.PageID
    · have hsl : rid'.SlotID ≠ rid.SlotID := by
        intro hsl
        have e : rid' = rid := by
          cases rid; cases rid'
          simp only [RID.PageID, RID.SlotID] at hp hsl
          rw [hp, hsl]
        rw [e, i3] at hocc
        cases hocc
      have e : rid' = ⟨rid.PageID, rid'.SlotID⟩ := by
        rw [← hp]
        cases rid'
        rfl
      rw [hp, e]
      exact i13 rid'.SlotID hs' hsl
    · apply TableHandle.recordIn_data
      have hc := WrittenThrough_coherent _ hwt ⟨t.table_id_, rid'.PageID⟩
      have hc2 := i14 ⟨t.table_id_, rid'.PageID⟩ _ (by
        intro h
        injection h with _ h
        exact hp h) hc
      rw [TableHandle.page_data, TableHandle.page_data, i5,
        coherent_pageData _ _ _ _ hc2, coherent_pageData _ _ _ _ hc]

/-- An instance of C31: in `fullTable`, whose page 1 holds four records, `demoRecord` is
inserted into slot 0 of the new page 2; `GetRecord` returns it from there, and still
returns the record of slot 1 of page 1. In the column-major `demoPaxTable` the record goes
to slot 0 of page 1 and `GetRecord` returns it. -/
theorem InsertRecord_GetRecord_round_trip_witness :
    (fullTable.InsertRecord demoRecord).1 = .ok ⟨2, 0⟩ ∧
    ((fullTable.InsertRecord demoRecord).2.GetRecord ⟨2, 0⟩).1 =
      .ok { nullmap_ := [0], data_ := [7, 8], rid_ := ⟨2, 0⟩ } ∧
    ((fullTable.InsertRecord demoRecord).2.GetRecord ⟨1, 1⟩).1 =
      (fullTable.GetRecord ⟨1, 1⟩).1 ∧
    (demoPaxTable.InsertRecord demoRecord).1 = .ok ⟨1, 0⟩ ∧
    ((demoPaxTable.InsertRecord demoRecord).2.GetRecord ⟨1, 0⟩).1 =
      .ok { nullmap_ := [0], data_ := [7, 8], rid_ := ⟨1, 0⟩ } :=
  have h := InsertRecord_GetRecord_round_trip fullTable (WF_new _ _ _ _ _) (by decide)
    demoRecord ⟨2, 0⟩ (by decide) rfl rfl (by decide)
  have h2 := InsertRecord_GetRecord_round_trip demoPaxTable (WF_new _ _ _ _ _) (by decide)
    demoRecord ⟨1, 0⟩ (by decide) rfl rfl (by decide)
  ⟨by decide, h.1, h.2.1 ⟨1, 1⟩ (by decide) (by decide) 0 1 (by decide) (by decide),
    by decide, h2.1⟩

theorem filter_of_find (q : Nat → Bool) (l : List Nat) (hs : l.Pairwise (fun a b => a < b)) :
    (l.find? q = none ∧ l.filter q = []) ∨
    ∃ s, l.find? q = some s ∧ q s = true ∧ s ∈ l ∧
      l.filter q = s :: l.filter (fun x => decide (s < x) && q x) := by
  induction l with
  | nil => left; exact ⟨rfl, rfl⟩
  | cons a l ih =>
    rw [List.pairwise_cons] at hs
    cases hqa : q a with
    | true =>
      right
      refine ⟨a, by simp [List.find?, hqa], hqa, List.mem_cons_self _ _, ?_⟩
      rw [List.filter_cons_of_pos hqa, List.filter_cons_of_neg (by simp)]
      congr 1
      apply List.filter_congr
      intro x hx
      simp [hs.1 x hx]
    | false =>
      rcases ih hs.2 with ⟨h1, h2⟩ | ⟨s, h1, h2, h3, h4⟩
      · left
        refine ⟨by simp [List.find?, hqa, h1], ?_⟩
        rw [List.filter_cons_of_neg (by simp [hqa]), h2]
      · right
        refine ⟨s, by simp [List.find?, hqa, h1], h2, List.mem_cons_of_mem _ h3, ?_⟩
        rw [List.filter_cons_of_neg (by simp [hqa]), h4,
          List.filter_cons_of_neg (by simp [hqa])]

/-- What `BitMap::FindFirst` finds for the value 1: `max_n` when no bit from `start` on is
set, else the first position from `start` on whose bit is set. -/
theorem BitMap.FindFirst_true (mem : List Nat) (bm rpp start : Nat) :
    (BitMap.FindFirst mem bm rpp start true = rpp ∧
      (List.range rpp).filter (fun s => decide (start ≤ s) && BitMap.GetBit mem bm s) = []) ∨
    (BitMap.FindFirst mem bm rpp start true < rpp ∧
      start ≤ BitMap.FindFirst mem bm rpp start true ∧
      (List.range rpp).filter (fun s => decide (start ≤ s) && BitMap.GetBit mem bm s) =
        BitMap.FindFirst mem bm rpp start true ::
          (List.range rpp).filter (fun s =>
            decide (BitMap.FindFirst mem bm rpp start true + 1 ≤ s) &&
              BitMap.GetBit mem bm s)) := by
  have hq : (fun pos => decide (start ≤ pos) && (BitMap.GetBit mem bm pos == true)) =
      (fun s => decide (start ≤ s) && BitMap.GetBit mem bm s) := by
    funext s
    simp
  unfold BitMap.FindFirst
  rw [hq]
  rcases filter_of_find (fun s => decide (start ≤ s) && BitMap.GetBit mem bm s)
    (List.range rpp) (List.pairwise_lt_range _) with ⟨h1, h2⟩ | ⟨s, h1, h2, h3, h4⟩
  · left
    rw [h1]
    exact ⟨rfl, h2⟩
  · right
    rw [h1]
    simp only [Option.getD_some]
    simp only [Bool.and_eq_true, decide_eq_true_eq] at h2
    refine ⟨List.mem_range.mp h3, h2.1, ?_⟩
    rw [h4]
    congr 1
    apply List.filter_congr
    intro x _
    have : (s < x ∧ start ≤ x) ↔ s + 1 ≤ x := by omega
    by_cases hx : s + 1 ≤ x
    · have h5 : s < x := by omega
      have h6 : start ≤ x := by omega
      simp [hx, h5, h6]
    · have h5 : ¬ s < x := by omega
      simp [hx, h5]

/-- The list `occupiedIn` in terms of what `BitMap::FindFirst` finds on the first page. -/
theorem occupiedIn_find (pg : page_id_t → List Nat) (bm rpp n : Nat) (page : page_id_t)
    (start : Nat) :
    occupiedIn pg bm rpp (n + 1) page start =
      if BitMap.FindFirst (pg page) bm rpp start true = rpp then
        occupiedIn pg bm rpp n (page + 1) 0
      else
        { page_id_ := page, slot_id_ := BitMap.FindFirst (pg page) bm rpp start true } ::
          occupiedIn pg bm rpp (n + 1) page
            (BitMap.FindFirst (pg page) bm rpp start true + 1) := by
  rcases BitMap.FindFirst_true (pg page) bm rpp start with ⟨h1, h2⟩ | ⟨h1, _, h2⟩
  · rw [if_pos h1]
    simp only [occupiedIn]
    rw [h2]
    rfl
  · rw [if_neg (Nat.ne_of_lt h1)]
    simp only [occupiedIn]
    rw [h2]
    rfl

theorem occupiedIn_cons (pg : page_id_t → List Nat) (bm rpp : Nat) :
    ∀ (n : Nat) (page : page_id_t) (start : Nat) (r : RID) (L : List RID),
      occupiedIn pg bm rpp n page start = r :: L →
      page ≤ r.page_id_ ∧ r.page_id_ < page + n ∧ r.slot_id_ < rpp ∧
        L = occupiedIn pg bm rpp (page + n - r.page_id_).toNat r.page_id_ (r.slot_id_ + 1) := by
  intro n
  induction n with
  | zero =>
    intro page start r L h
    simp [occupiedIn] at h
  | succ n ih =>
    intro page start r L h
    rw [occupiedIn_find] at h
    unfold page_id_t at *
    rcases BitMap.FindFirst_true (pg page) bm rpp start with ⟨h1, _⟩ | ⟨h1, _, _⟩
    · rw [if_pos h1] at h
      obtain ⟨a1, a2, a3, a4⟩ := ih (page + 1) 0 r L h
      refine ⟨by omega, by push_cast; omega, a3, ?_⟩
      rw [a4]
      congr 1
      push_cast
      omega
    · rw [if_neg (Nat.ne_of_lt h1)] at h
      injection h with h3 h4
      subst h3
      refine ⟨le_refl _, by simp only; push_cast; omega, h1, ?_⟩
      rw [← h4]
      simp only
      congr 1
      push_cast
      omega

theorem mem_occupiedIn (pg : page_id_t → List Nat) (bm rpp : Nat) :
    ∀ (n : Nat) (page : page_id_t) (start : Nat) (r : RID),
      r ∈ occupiedIn pg bm rpp n page start ↔
        page ≤ r.page_id_ ∧ r.page_id_ < page + n ∧ r.slot_id_ < rpp ∧
          BitMap.GetBit (pg r.page_id_) bm r.slot_id_ = true ∧
          (r.page_id_ = page → start ≤ r.slot_id_) := by
  intro n
  induction n with
  | zero =>
    intro page start r
    simp only [occupiedIn, List.not_mem_nil, false_iff]
    unfold page_id_t at *
    intro h
    have := h.1
    have := h.2.1
    simp at *
    omega
  | succ n ih =>
    intro page start r
    simp only [occupiedIn, List.mem_append, List.mem_map, List.mem_filter, List.mem_range,
      Bool.and_eq_true, decide_eq_true_eq, ih]
    unfold page_id_t at *
    constructor
    · rintro (⟨s, ⟨h1, h2, h3⟩, rfl⟩ | ⟨h1, h2, h3, h4, _⟩)
      · exact ⟨le_refl _, by simp only; push_cast; omega, h1, h3, fun _ => h2⟩
      · exact ⟨by omega, by push_cast; omega, h3, h4, fun h => by omega⟩
    · rintro ⟨h1, h2, h3, h4, h5⟩
      by_cases hp : r.page_id_ = page
      · left
        refine ⟨r.slot_id_, ⟨h3, h5 hp, by rw [← hp]; exact h4⟩, ?_⟩
        cases r
        simp only at hp
        rw [hp]
      · right
        push_cast at h2
        unfold page_id_t at *
        exact ⟨by omega, by omega, h3, h4, fun h => Nat.zero_le _⟩

theorem pairwise_occupiedIn (pg : page_id_t → List Nat) (bm rpp : Nat) :
    ∀ (n : Nat) (page : page_id_t) (start : Nat),
      (occupiedIn pg bm rpp n page start).Pairwise RID.lt := by
  intro n
  induction n with
  | zero =>
    intro page start
    simp [occupiedIn]
  | succ n ih =>
    intro page start
    simp only [occupiedIn]
    rw [List.pairwise_append]
    refine ⟨?_, ih _ _, ?_⟩
    · rw [List.pairwise_map]
      apply List.Pairwise.filter
      exact (List.pairwise_lt_range _).imp (fun h => Or.inr ⟨rfl, h⟩)
    · intro a ha b hb
      rw [List.mem_map] at ha
      obtain ⟨s, _, rfl⟩ := ha
      have := ((mem_occupiedIn pg bm rpp n (page + 1) 0 b).mp hb).1
      left
      unfold page_id_t at *
      simp only
      omega

theorem to_slot_id_t_small (n : Nat) (h : n < 2 ^ 31) : to_slot_id_t n = (n : Int) := by
  unfold to_slot_id_t
  have : n % 2 ^ 32 = n := Nat.mod_eq_of_lt (by omega)
  rw [this, if_pos h]

theorem slot_to_size_t_small (s : Int) (h0 : 0 ≤ s) (h : s < 2 ^ 64) :
    slot_to_size_t s = s.toNat := by
  unfold slot_to_size_t
  rw [Int.emod_eq_of_lt h0 h]

/-- One page of the scan: the fetch succeeds, the handle is over the bytes `D` gives the
page, and after the unpin the table is ready for the rest of the scan. -/
theorem TableHandle.scan_step (t : TableHandle) (D : fid_pid_t → List Nat)
    (h : t.ScanReady D) (p : page_id_t) (hp1 : FILE_HEADER_PAGE_ID < p)
    (hp2 : p < to_page_id_t t.tab_hdr_.page_num_) :
    ∃ (f : frame_id_t) (ph : PageHandleUptr) (t1 : TableHandle),
      t.FetchPageHandle p = (.ok (f, ph), t1) ∧
      ph.GetPage.data_ = D ⟨t.table_id_, p⟩ ∧
      ph.base.bitmap_ = t.PAGE_HEADER_SIZE ∧
      t1.tab_hdr_ = t.tab_hdr_ ∧
      (t1.unpin p false).ScanReady D ∧
      (t1.unpin p false).tab_hdr_ = t.tab_hdr_ ∧
      (t1.unpin p false).table_id_ = t.table_id_ ∧
      (t1.unpin p false).PAGE_HEADER_SIZE = t.PAGE_HEADER_SIZE := by
  obtain ⟨hwf, hcoh, hbm, hserved, hrpp⟩ := h
  obtain ⟨f, hf⟩ := hserved [] p (by
    intro x hx
    rw [List.mem_singleton] at hx
    rw [hx]
    exact ⟨hp1, hp2⟩)
  simp only [scanPool] at hf
  obtain ⟨b1, hb1⟩ : ∃ b1, t.buffer_pool_manager_.FetchPage t.table_id_ p = (.ok f, b1) :=
    ⟨_, Prod.ext hf rfl⟩
  obtain ⟨ph, hph, hbase⟩ := TableHandle.FetchPageHandle_ok t p f b1 hbm hb1
  obtain ⟨hwf1, r1, r2, r3, r4⟩ := FetchPage_ok_page _ _ _ _ _ hwf hb1
  refine ⟨f, ph, _, hph, ?_, ?_, rfl, ?_, rfl, rfl, rfl⟩
  · unfold PageHandleUptr.GetPage
    rw [hbase]
    simp only
    rw [r3]
    exact coherent_pageData _ _ _ _ (hcoh _)
  · rw [hbase]
  · refine ⟨?_, ?_, hbm, ?_, hrpp⟩
    · exact WF_UnpinPage b1 t.table_id_ p false hwf1
    · intro key
      have := coherent_FetchPage _ key _ t.table_id_ p hwf (hcoh key)
      rw [hb1] at this
      exact coherent_UnpinPage b1 key _ t.table_id_ p false this
    · intro ps p' hv
      have := hserved (p :: ps) p' (by
        intro x hx
        rcases List.mem_cons.mp hx with rfl | hx
        · exact hv x (List.mem_cons_self _ _)
        · rcases List.mem_cons.mp hx with rfl | hx
          · exact ⟨hp1, hp2⟩
          · exact hv x (List.mem_cons_of_mem _ hx))
      simp only [scanPool] at this
      rw [hb1] at this
      exact this

/-- The loop of `GetNextRID` on a table that is ready for the scan: it returns the first
occupied slot from `slot_id + 1` of `page_id` on, or the invalid RID when there is none,
and leaves the table ready for the scan. -/
theorem TableHandle.GetNextRID_loop_eq (D : fid_pid_t → List Nat) :
    ∀ (n : Nat) (t : TableHandle) (page : page_id_t) (slot : Int),
      t.ScanReady D → FILE_HEADER_PAGE_ID < page →
      n = (to_page_id_t t.tab_hdr_.page_num_ - page).toNat →
      -1 ≤ slot → slot < 2 ^ 31 →
      ∃ t', t.GetNextRID_loop n page slot =
          some (.ok ((occupiedIn (fun p => D ⟨t.table_id_, p⟩) t.PAGE_HEADER_SIZE
            t.tab_hdr_.rec_per_page_ n page (slot + 1).toNat).head?.getD INVALID_RID), t') ∧
        t'.ScanReady D ∧ t'.tab_hdr_ = t.tab_hdr_ ∧ t'.table_id_ = t.table_id_ ∧
        t'.PAGE_HEADER_SIZE = t.PAGE_HEADER_SIZE := by
  intro n
  induction n with
  | zero =>
    intro t page slot h hp hn _ _
    have hlt : ¬ page < to_page_id_t t.tab_hdr_.page_num_ := by
      unfold page_id_t at *
      omega
    refine ⟨t, ?_, h, rfl, rfl, rfl⟩
    simp only [TableHandle.GetNextRID_loop, occupiedIn]
    rw [if_neg hlt]
    rfl
  | succ n ih =>
    intro t page slot h hp hn hs0 hs1
    have hlt : page < to_page_id_t t.tab_hdr_.page_num_ := by
      unfold page_id_t at *
      omega
    have hrpp := h.2.2.2.2
    obtain ⟨f, ph, t1, hfetch, hdata, hbmp, hhdr, hready, h1, h2, h3⟩ :=
      TableHandle.scan_step t D h page hp hlt
    have hconv : slot_to_size_t (slot + 1) = (slot + 1).toNat :=
      slot_to_size_t_small _ (by omega) (by omega)
    simp only [TableHandle.GetNextRID_loop]
    rw [if_pos hlt, hfetch]
    simp only
    rw [hdata, hbmp, hhdr, hconv, occupiedIn_find]
    rcases BitMap.FindFirst_true (D ⟨t.table_id_, page⟩) t.PAGE_HEADER_SIZE
      t.tab_hdr_.rec_per_page_ (slot + 1).toNat with ⟨e1, _⟩ | ⟨e1, _, _⟩
    · rw [e1, if_pos rfl, if_pos rfl]
      obtain ⟨t', g1, g2, g3, g4, g5⟩ := ih (t1.unpin page false) (page + 1) (-1) hready
        (by unfold page_id_t at *; omega)
        (by rw [h1]; unfold page_id_t at *; omega) (le_refl _) (by norm_num)
      rw [h1, h2, h3] at g1
      exact ⟨t', g1, g2, g3.trans h1, g4.trans h2, g5.trans h3⟩
    · have hne : BitMap.FindFirst (D ⟨t.table_id_, page⟩) t.PAGE_HEADER_SIZE
          t.tab_hdr_.rec_per_page_ (slot + 1).toNat true ≠ t.tab_hdr_.rec_per_page_ :=
        Nat.ne_of_lt e1
      rw [to_slot_id_t_small _ (by omega), to_slot_id_t_small _ hrpp,
        if_neg (by intro hc; exact hne (by exact_mod_cast hc)), if_neg hne,
        slot_to_size_t_small _ (by omega) (by omega)]
      exact ⟨_, rfl, hready, h1, h2, h3⟩

/-- The loop of `GetFirstRID` on a table that is ready for the scan: it returns the first
occupied slot from `page_id` on, or the invalid RID when there is none, and leaves the
table ready for the scan. -/
theorem TableHandle.GetFirstRID_loop_eq (D : fid_pid_t → List Nat) :
    ∀ (n : Nat) (t : TableHandle) (page : page_id_t),
      t.ScanReady D → FILE_HEADER_PAGE_ID < page →
      n = (to_page_id_t t.tab_hdr_.page_num_ - page).toNat →
      ∃ t', t.GetFirstRID_loop n page =
          some (.ok ((occupiedIn (fun p => D ⟨t.table_id_, p⟩) t.PAGE_HEADER_SIZE
            t.tab_hdr_.rec_per_page_ n page 0).head?.getD INVALID_RID), t') ∧
        t'.ScanReady D ∧ t'.tab_hdr_ = t.tab_hdr_ ∧ t'.table_id_ = t.table_id_ ∧
        t'.PAGE_HEADER_SIZE = t.PAGE_HEADER_SIZE := by
  intro n
  induction n with
  | zero =>
    intro t page h hp hn
    have hlt : ¬ page < to_page_id_t t.tab_hdr_.page_num_ := by
      unfold page_id_t at *
      omega
    refine ⟨t, ?_, h, rfl, rfl, rfl⟩
    simp only [TableHandle.GetFirstRID_loop, occupiedIn]
    rw [if_neg hlt]
    rfl
  | succ n ih =>
    intro t page h hp hn
    have hlt : page < to_page_id_t t.tab_hdr_.page_num_ := by
      unfold page_id_t at *
      omega
    have hrpp := h.2.2.2.2
    obtain ⟨f, ph, t1, hfetch, hdata, hbmp, hhdr, hready, h1, h2, h3⟩ :=
      TableHandle.scan_step t D h page hp hlt
    simp only [TableHandle.GetFirstRID_loop]
    rw [if_pos hlt, hfetch]
    simp only
    rw [hdata, hbmp, hhdr, occupiedIn_find]
    rcases BitMap.FindFirst_true (D ⟨t.table_id_, page⟩) t.PAGE_HEADER_SIZE
      t.tab_hdr_.rec_per_page_ 0 with ⟨e1, _⟩ | ⟨e1, _, _⟩
    · rw [e1, if_neg (by simp), if_pos rfl]
      obtain ⟨t', g1, g2, g3, g4, g5⟩ := ih (t1.unpin page false) (page + 1) hready
        (by unfold page_id_t at *; omega)
        (by rw [h1]; unfold page_id_t at *; omega)
      rw [h1, h2, h3] at g1
      exact ⟨t', g1, g2, g3.trans h1, g4.trans h2, g5.trans h3⟩
    · have hne : BitMap.FindFirst (D ⟨t.table_id_, page⟩) t.PAGE_HEADER_SIZE
          t.tab_hdr_.rec_per_page_ 0 true ≠ t.tab_hdr_.rec_per_page_ :=
        Nat.ne_of_lt e1
      rw [if_pos hne, if_neg hne, to_slot_id_t_small _ (by omega),
        slot_to_size_t_small _ (by omega) (by omega)]
      exact ⟨_, rfl, hready, h1, h2, h3⟩

theorem TableHandle.scanFrom_succ (fuel : Nat) (t : TableHandle) (rid : RID) :
    t.scanFrom (fuel + 1) rid =
      if rid = INVALID_RID then some [rid]
      else
        match t.GetNextRID rid with
        | some (.ok r, t1) => (TableHandle.scanFrom fuel r t1).map (fun l => rid :: l)
        | _ => none := rfl

/-- The method `GetNextRID` on a table that is ready for the scan, for a RID after the file
header page whose slot is in range: it returns the first occupied slot after `rid`, or the
invalid RID when there is none, and leaves the table ready for the scan. -/
theorem TableHandle.GetNextRID_eq (D : fid_pid_t → List Nat) (t : TableHandle) (rid : RID)
    (h : t.ScanReady D) (hp : FILE_HEADER_PAGE_ID < rid.page_id_)
    (hs : rid.slot_id_ < t.tab_hdr_.rec_per_page_) :
    ∃ t', t.GetNextRID rid =
        some (.ok ((occupiedIn (fun p => D ⟨t.table_id_, p⟩) t.PAGE_HEADER_SIZE
          t.tab_hdr_.rec_per_page_ (to_page_id_t t.tab_hdr_.page_num_ - rid.page_id_).toNat
          rid.page_id_ (rid.slot_id_ + 1)).head?.getD INVALID_RID), t') ∧
      t'.ScanReady D ∧ t'.tab_hdr_ = t.tab_hdr_ ∧ t'.table_id_ = t.table_id_ ∧
      t'.PAGE_HEADER_SIZE = t.PAGE_HEADER_SIZE := by
  have hrpp := h.2.2.2.2
  have hc := to_slot_id_t_small rid.slot_id_ (by omega)
  obtain ⟨t', g1, g2⟩ := TableHandle.GetNextRID_loop_eq D _ t rid.page_id_
    (to_slot_id_t rid.slot_id_) h hp rfl (by rw [hc]; omega) (by rw [hc]; omega)
  have e : (to_slot_id_t rid.slot_id_ + 1).toNat = rid.slot_id_ + 1 := by
    rw [hc]
    omega
  rw [e] at g1
  exact ⟨t', g1, g2⟩

/-- The scan from a RID of a data page on, on a table that is ready for the scan: it
lists the RID and the occupied slots after it in ascending order, and ends with the invalid
RID. -/
theorem TableHandle.scanFrom_eq (D : fid_pid_t → List Nat) :
    ∀ (len : Nat) (t : TableHandle) (rid : RID) (rest : List RID),
      rest.length = len → t.ScanReady D → FILE_HEADER_PAGE_ID < rid.page_id_ →
      rid.page_id_ < to_page_id_t t.tab_hdr_.page_num_ →
      rid.slot_id_ < t.tab_hdr_.rec_per_page_ →
      rest = occupiedIn (fun p => D ⟨t.table_id_, p⟩) t.PAGE_HEADER_SIZE
        t.tab_hdr_.rec_per_page_ (to_page_id_t t.tab_hdr_.page_num_ - rid.page_id_).toNat
        rid.page_id_ (rid.slot_id_ + 1) →
      t.scanFrom (len + 2) rid = some (rid :: rest ++ [INVALID_RID]) := by
  intro len
  induction len with
  | zero =>
    intro t rid rest hlen h hp1 hp2 hs hrest
    have hinv : rid ≠ INVALID_RID := by
      intro hc
      rw [hc] at hp1
      exact absurd hp1 (by decide)
    obtain ⟨t', g1, _⟩ := TableHandle.GetNextRID_eq D t rid h hp1 hs
    rw [← hrest, List.length_eq_zero.mp hlen] at g1
    rw [TableHandle.scanFrom_succ, if_neg hinv, g1, List.length_eq_zero.mp hlen]
    simp only [List.head?_nil, Option.getD_none]
    rw [TableHandle.scanFrom_succ, if_pos rfl]
    rfl
  | succ len ih =>
    intro t rid rest hlen h hp1 hp2 hs hrest
    have hinv : rid ≠ INVALID_RID := by
      intro hc
      rw [hc] at hp1
      exact absurd hp1 (by decide)
    obtain ⟨t', g1, g2, g3, g4, g5⟩ := TableHandle.GetNextRID_eq D t rid h hp1 hs
    rw [← hrest] at g1
    cases rest with
    | nil => simp at hlen
    | cons r L =>
      obtain ⟨a1, a2, a3, a4⟩ := occupiedIn_cons _ _ _ _ _ _ r L hrest.symm
      have hsum : rid.page_id_ +
          ((to_page_id_t t.tab_hdr_.page_num_ - rid.page_id_).toNat : Int) =
          to_page_id_t t.tab_hdr_.page_num_ := by
        unfold page_id_t at *
        omega
      rw [hsum] at a2 a4
      have hL := ih t' r L (by simpa using hlen) g2 (by unfold page_id_t at *; omega)
        (by rw [g3]; exact a2) (by rw [g3]; exact a3) (by rw [g3, g4, g5]; exact a4)
      rw [TableHandle.scanFrom_succ, if_neg hinv, g1]
      simp only [List.head?_cons, Option.getD_some]
      rw [hL]
      rfl

theorem RID.lt_irrefl (a : RID) : ¬ a.lt a := by
  unfold RID.lt
  unfold page_id_t at *
  omega

/-- Two lists of RIDs in strictly ascending order with the same members are equal. -/
theorem RID.sorted_ext (l1 l2 : List RID) (h1 : l1.Pairwise RID.lt) (h2 : l2.Pairwise RID.lt)
    (hmem : ∀ x, x ∈ l1 ↔ x ∈ l2) : l1 = l2 := by
  haveI : IsAntisymm RID RID.lt := ⟨by
    intro a b hab hba
    exfalso
    unfold RID.lt at hab hba
    unfold page_id_t at *
    omega⟩
  have hne : ∀ {a b : RID}, a.lt b → a ≠ b := by
    intro a b hab hc
    rw [← hc] at hab
    exact RID.lt_irrefl a hab
  have d1 : l1.Nodup := h1.imp hne
  have d2 : l2.Nodup := h2.imp hne
  exact List.eq_of_perm_of_sorted ((List.perm_ext_iff_of_nodup d1 d2).mpr hmem) h1 h2

/-- The occupied slots after `rid` are the occupied slots of the data pages that come
after `rid` in the order of the scan. -/
theorem occupiedIn_after (pg : page_id_t → List Nat) (bm rpp : Nat) (N : Int) (rid : RID)
    (hp : FILE_HEADER_PAGE_ID < rid.page_id_) :
    occupiedIn pg bm rpp (N - rid.page_id_).toNat rid.page_id_ (rid.slot_id_ + 1) =
      (occupiedIn pg bm rpp (N - (FILE_HEADER_PAGE_ID + 1)).toNat (FILE_HEADER_PAGE_ID + 1)
        0).filter (fun x => decide (rid.lt x)) := by
  apply RID.sorted_ext _ _ (pairwise_occupiedIn _ _ _ _ _ _)
    ((pairwise_occupiedIn _ _ _ _ _ _).filter _)
  intro x
  simp only [mem_occupiedIn, List.mem_filter, decide_eq_true_eq, RID.lt]
  unfold FILE_HEADER_PAGE_ID at *
  unfold page_id_t at *
  constructor
  · rintro ⟨h1, h2, h3, h4, h5⟩
    refine ⟨⟨by omega, by omega, h3, h4, fun _ => Nat.zero_le _⟩, ?_⟩
    by_cases hx : x.page_id_ = rid.page_id_
    · right
      have := h5 hx
      exact ⟨hx.symm, by omega⟩
    · left
      unfold page_id_t at hx
      omega
  · rintro ⟨⟨h1, h2, h3, h4, _⟩, h6⟩
    refine ⟨by omega, by omega, h3, h4, ?_⟩
    intro hx
    omega

/-- When every data page of the table is resident, the pool serves a scan. -/
theorem scanPool_lookup (fid : file_id_t) :
    ∀ (ps : List page_id_t) (b : BufferPoolManager),
      (∀ x ∈ ps, (b.GetFrame fid x).isSome = true) →
      (scanPool b fid ps).page_frame_lookup_ = b.page_frame_lookup_ := by
  intro ps
  induction ps with
  | nil => intro b _; rfl
  | cons p ps ih =>
    intro b h
    obtain ⟨f, hf⟩ := Option.isSome_iff_exists.mp (h p (List.mem_cons_self _ _))
    have hstep : ((b.FetchPage fid p).2.UnpinPage fid p false).2.page_frame_lookup_ =
        b.page_frame_lookup_ := by
      rw [FetchPage_hit b fid p f hf]
      rcases UnpinPage_cases
        ({ b with frames_ := b.frames_.set f (b.frame f).Pin,
                  replacer_ := b.replacer_.Pin f } : BufferPoolManager) fid p false with
        ⟨_, h1⟩ | ⟨g, _, _, h1⟩
      · rw [h1]
      · rw [h1]
    simp only [scanPool]
    rw [ih _ (by
      intro x hx
      unfold BufferPoolManager.GetFrame
      rw [hstep]
      exact h x (List.mem_cons_of_mem _ hx)), hstep]

theorem TableHandle.Served_of_resident (t : TableHandle)
    (h : ∀ x, FILE_HEADER_PAGE_ID < x → x < to_page_id_t t.tab_hdr_.page_num_ →
      (t.buffer_pool_manager_.GetFrame t.table_id_ x).isSome = true) : t.Served := by
  intro ps p hv
  obtain ⟨f, hf⟩ := Option.isSome_iff_exists.mp
    (h p (hv p (List.mem_cons_self _ _)).1 (hv p (List.mem_cons_self _ _)).2)
  refine ⟨f, FetchPage_resident_ok _ _ _ f ?_⟩
  unfold BufferPoolManager.GetFrame
  rw [scanPool_lookup t.table_id_ ps _ (fun x hx =>
    h x (hv x (List.mem_cons_of_mem _ hx)).1 (hv x (List.mem_cons_of_mem _ hx)).2)]
  exact hf

/-- C33: let the pool be consistent with every resident page written through, the bitmap
size of the header be the one the layout asks for, the number of slots of a page fit a slot
id, and the pool serve the fetches of a scan. The sequence `GetFirstRID()`,
`GetNextRID(r1)`, `GetNextRID(r2)`, ... returns normally at every call, is finite and
consists of `occupiedRIDs` followed by the invalid RID. The members of `occupiedRIDs` are
the occupied slots of the data pages, the pages from the first after the file header up to
`page_num_ - 1`, and the list is in strictly ascending order of page id and slot id, so
each occupied slot is listed exactly once. And `GetNextRID(rid)`, for a RID after the file
header page whose slot is in range, returns the first of those occupied slots that come
after `rid`, the invalid RID when there is none. -/
theorem scan_lists_occupied_slots_in_order (t : TableHandle)
    (hwf : t.buffer_pool_manager_.WF) (hwt : t.buffer_pool_manager_.WrittenThrough)
    (hbm : BITMAP_SIZE t.tab_hdr_.rec_per_page_ = t.tab_hdr_.bitmap_size_)
    (hrpp : t.tab_hdr_.rec_per_page_ < 2 ^ 31) (hserved : t.Served) :
    t.scan (t.occupiedRIDs.length + 1) = some (t.occupiedRIDs ++ [INVALID_RID]) ∧
    (∀ r : RID, r ∈ t.occupiedRIDs ↔
      FILE_HEADER_PAGE_ID < r.PageID ∧ r.PageID < to_page_id_t t.tab_hdr_.page_num_ ∧
        r.SlotID < t.tab_hdr_.rec_per_page_ ∧ t.slotOccupied r = true) ∧
    t.occupiedRIDs.Pairwise RID.lt ∧
    ∀ rid : RID, FILE_HEADER_PAGE_ID < rid.PageID → rid.SlotID < t.tab_hdr_.rec_per_page_ →
      ∃ t', t.GetNextRID rid =
        some (.ok (((t.occupiedRIDs.filter (fun x => decide (rid.lt x))).head?).getD
          INVALID_RID), t') := by
  have hready : t.ScanReady t.buffer_pool_manager_.disk_manager_.blocks :=
    ⟨hwf, fun key => WrittenThrough_coherent _ hwt key, hbm, hserved, hrpp⟩
  have hpg : (fun p => (t.page p).data_) =
      fun p => t.buffer_pool_manager_.disk_manager_.blocks ⟨t.table_id_, p⟩ := by
    funext p
    rw [TableHandle.page_data]
    exact coherent_pageData _ _ _ _ (WrittenThrough_coherent _ hwt _)
  refine ⟨?_, ?_, pairwise_occupiedIn _ _ _ _ _ _, ?_⟩
  · obtain ⟨t', g1, g2, g3, g4, g5⟩ := TableHandle.GetFirstRID_loop_eq _ _ t
      (FILE_HEADER_PAGE_ID + 1) hready (by decide) rfl
    rw [← hpg] at g1
    unfold TableHandle.scan TableHandle.GetFirstRID
    rw [g1]
    simp only
    cases hocc : t.occupiedRIDs with
    | nil =>
      unfold TableHandle.occupiedRIDs at hocc
      rw [hocc]
      simp only [List.head?_nil, Option.getD_none, List.length_nil, List.nil_append]
      rw [TableHandle.scanFrom_succ, if_pos rfl]
    | cons r L =>
      unfold TableHandle.occupiedRIDs at hocc
      rw [hocc]
      simp only [List.head?_cons, Option.getD_some, List.length_cons]
      obtain ⟨a1, a2, a3, a4⟩ := occupiedIn_cons _ _ _ _ _ _ r L hocc
      have hsum : FILE_HEADER_PAGE_ID + 1 +
          ((to_page_id_t t.tab_hdr_.page_num_ - (FILE_HEADER_PAGE_ID + 1)).toNat : Int) =
          to_page_id_t t.tab_hdr_.page_num_ := by
        unfold page_id_t at *
        omega
      rw [hsum] at a2 a4
      rw [hpg] at a4
      exact TableHandle.scanFrom_eq _ L.length t' r L rfl g2
        (by unfold page_id_t at *; omega) (by rw [g3]; exact a2) (by rw [g3]; exact a3)
        (by rw [g3, g4, g5]; exact a4)
  · intro r
    unfold TableHandle.occupiedRIDs TableHandle.slotOccupied RID.PageID RID.SlotID
    rw [mem_occupiedIn]
    unfold page_id_t at *
    constructor
    · rintro ⟨h1, h2, h3, h4, _⟩
      exact ⟨by omega, by omega, h3, h4⟩
    · rintro ⟨h1, h2, h3, h4⟩
      exact ⟨by omega, by omega, h3, h4, fun _ => Nat.zero_le _⟩
  · intro rid hp hs
    obtain ⟨t', g1, _⟩ := TableHandle.GetNextRID_eq _ t rid hready hp hs
    refine ⟨t', ?_⟩
    rw [g1, occupiedIn_after _ _ _ _ rid hp]
    unfold TableHandle.occupiedRIDs
    rw [hpg]

/-- An instance of C33: the scan of `twoPageTable`, whose two data pages are resident,
lists the three records of page 1 and the record of page 2, then the invalid RID; and
`GetNextRID` after the last slot of page 1 returns the record of page 2. -/
theorem scan_lists_occupied_slots_in_order_witness :
    twoPageTable.occupiedRIDs = [⟨1, 0⟩, ⟨1, 1⟩, ⟨1, 2⟩, ⟨2, 0⟩] ∧
    twoPageTable.scan 5 = some [⟨1, 0⟩, ⟨1, 1⟩, ⟨1, 2⟩, ⟨2, 0⟩, INVALID_RID] ∧
    ∃ t', twoPageTable.GetNextRID ⟨1, 3⟩ = some (.ok ⟨2, 0⟩, t') :=
  have h := scan_lists_occupied_slots_in_order twoPageTable (by decide) (by decide)
    (by decide) (by decide) (TableHandle.Served_of_resident twoPageTable (by
      intro x h1 h2
      have hx : x = 1 ∨ x = 2 := by
        have h3 : to_page_id_t twoPageTable.tab_hdr_.page_num_ = 3 := by decide
        rw [h3] at h2
        unfold FILE_HEADER_PAGE_ID page_id_t at *
        omega
      rcases hx with rfl | rfl <;> decide))
  ⟨by decide, h.1, h.2.2.2 ⟨1, 3⟩ (by decide) (by decide)⟩

theorem filter_eraseP_tail {α : Type} (p : α → Bool) (l : List α) :
    (l.eraseP p).filter p = (l.filter p).tail := by
  induction l with
  | nil => rfl
  | cons a l ih =>
    cases hp : p a
    · simp [List.eraseP_cons, hp, ih]
    · simp [List.eraseP_cons, hp]

theorem head?_filter_find {α : Type} (p : α → Bool) (l : List α) :
    (l.filter p).head? = l.find? p := by
  induction l with
  | nil => rfl
  | cons a l ih =>
    cases hp : p a
    · simp [List.filter_cons, List.find?_cons, hp, ih]
    · simp [List.filter_cons, List.find?_cons, hp]

theorem map_fst_eraseP (l : List (frame_id_t × Bool)) (g : frame_id_t) :
    (l.eraseP (fun e => decide (e.1 = g))).map Prod.fst = (l.map Prod.fst).erase g := by
  induction l with
  | nil => rfl
  | cons a l ih =>
    by_cases ha : a.1 = g
    · simp [List.eraseP_cons, ha]
    · have hne : (a.1 == g) = false := by simpa using ha
      simp [List.eraseP_cons, ha, List.erase_cons, hne, ih]

/-- `Victim` of the LRU replacer either returns no frame and leaves the replacer as it is,
or returns the first frame whose evictable flag is set and removes its entry. -/
theorem LRUReplacer.Victim_first (r : LRUReplacer) :
    r.Victim = (none, r) ∨
    ∃ f, r.Victim.1 = some f ∧ r.evictableFrames.head? = some f ∧
      r.Victim.2.evictableFrames = r.evictableFrames.tail := by
  unfold LRUReplacer.Victim
  by_cases h0 : r.cur_size_ = 0 ∨ r.lru_list_ = []
  · left
    rw [if_pos h0]
  · rw [if_neg h0]
    cases hf : r.lru_list_.find? (fun e => e.2) with
    | none => left; rfl
    | some e =>
      right
      refine ⟨e.1, rfl, ?_, ?_⟩
      · unfold LRUReplacer.evictableFrames
        rw [List.head?_map, head?_filter_find, hf]
        rfl
      · simp only [LRUReplacer.evictableFrames]
        rw [filter_eraseP_tail, List.map_tail]

theorem LRUReplacer.victims_none (r : LRUReplacer) (h : r.Victim = (none, r)) :
    ∀ n, r.victims n = List.replicate n none := by
  intro n
  induction n with
  | zero => rfl
  | succ n ih =>
    simp only [LRUReplacer.victims, h, ih, List.replicate_succ]

/-- The frame that the call number `i` of a run of successive `Victim` calls returns is
frame number `i` of the evictable frames in the order of the list. -/
theorem LRUReplacer.victims_get :
    ∀ (n : Nat) (r : LRUReplacer) (i : Nat) (X : frame_id_t),
      (r.victims n)[i]? = some (some X) → r.evictableFrames[i]? = some X := by
  intro n
  induction n with
  | zero => intro r i X h; simp [LRUReplacer.victims] at h
  | succ n ih =>
    intro r i X h
    rcases LRUReplacer.Victim_first r with hn | ⟨f, h1, h2, h3⟩
    · rw [LRUReplacer.victims_none r hn] at h
      rw [List.getElem?_replicate] at h
      split at h <;> simp at h
    · simp only [LRUReplacer.victims] at h
      cases i with
      | zero =>
        simp only [List.getElem?_cons_zero, h1, Option.some.injEq] at h
        rw [← List.head?_eq_getElem?, h2, h]
      | succ i =>
        simp only [List.getElem?_cons_succ] at h
        have := ih _ i X h
        rw [h3] at this
        rw [← this]
        cases r.evictableFrames <;> simp

theorem LRUReplacer.frames_Pin (r : LRUReplacer) (g : frame_id_t) :
    (r.Pin g).frames = r.frames.erase g ++ [g] := by
  unfold LRUReplacer.Pin LRUReplacer.frames
  split
  · simp [map_fst_eraseP]
  · rename_i h
    have hg : g ∉ r.lru_list_.map Prod.fst := by
      intro hm
      apply h
      obtain ⟨e, he, heg⟩ := List.mem_map.mp hm
      rw [List.find?_isSome]
      exact ⟨e, he, by simpa using heg⟩
    simp [List.erase_of_not_mem hg]

theorem LRUReplacer.frames_Unpin (r : LRUReplacer) (g : frame_id_t) :
    (r.Unpin g).frames = if g ∈ r.frames then r.frames else r.frames ++ [g] := by
  unfold LRUReplacer.Unpin LRUReplacer.frames
  cases hf : r.lru_list_.find? (fun e => decide (e.1 = g)) with
  | some entry =>
    have hm : g ∈ r.lru_list_.map Prod.fst := by
      have h1 := List.mem_of_find?_eq_some hf
      have h2 := List.find?_some hf
      exact List.mem_map.mpr ⟨entry, h1, by simpa using h2⟩
    rw [if_pos hm]
    simp only
    split
    · simp only [List.map_map]
      apply List.map_congr_left
      intro e _
      simp only [Function.comp]
      split <;> rfl
    · rfl
  | none =>
    have hm : g ∉ r.lru_list_.map Prod.fst := by
      intro hm
      obtain ⟨e, he, heg⟩ := List.mem_map.mp hm
      have := List.find?_eq_none.mp hf e he
      simp [heg] at this
    rw [if_neg hm]
    simp

/-- A call other than `Victim` and `Pin(X)` keeps the entry of `X` in the list. -/
theorem LRUReplacer.mem_frames_step (r : LRUReplacer) (op : ReplacerOp) (X : frame_id_t)
    (hX : X ∈ r.frames) (h1 : op ≠ .Victim) (h2 : op ≠ .Pin X) : X ∈ (r.step op).frames := by
  cases op with
  | Pin g =>
    have hg : X ≠ g := fun h => h2 (by rw [h])
    simp only [LRUReplacer.step, LRUReplacer.frames_Pin]
    exact List.mem_append_left _ ((List.mem_erase_of_ne hg).mpr hX)
  | Unpin g =>
    simp only [LRUReplacer.step, LRUReplacer.frames_Unpin]
    split
    · exact hX
    · exact List.mem_append_left _ hX
  | Victim => exact absurd rfl h1

/-- A call other than `Victim`, `Pin(X)` and `Pin(Y)` keeps the entry of `X` in the list
and moves no entry of `Y` before it. -/
theorem LRUReplacer.order_step (r : LRUReplacer) (op : ReplacerOp) (X Y : frame_id_t)
    (hX : X ∈ r.frames) (hord : r.frames.Pairwise (fun a b => ¬ (a = Y ∧ b = X)))
    (h1 : op ≠ .Victim) (h2 : op ≠ .Pin X) (h3 : op ≠ .Pin Y) :
    (r.step op).frames.Pairwise (fun a b => ¬ (a = Y ∧ b = X)) := by
  cases op with
  | Pin g =>
    have hg : g ≠ X := fun h => h2 (by rw [h])
    simp only [LRUReplacer.step, LRUReplacer.frames_Pin]
    rw [List.pairwise_append]
    refine ⟨hord.sublist (List.erase_sublist _ _), List.pairwise_singleton _ _, ?_⟩
    intro a _ b hb
    rw [List.mem_singleton] at hb
    intro hc
    exact hg (hb ▸ hc.2)
  | Unpin g =>
    simp only [LRUReplacer.step, LRUReplacer.frames_Unpin]
    split
    · exact hord
    · rename_i hg
      rw [List.pairwise_append]
      refine ⟨hord, List.pairwise_singleton _ _, ?_⟩
      intro a _ b hb
      rw [List.mem_singleton] at hb
      intro hc
      exact hg (hb ▸ hc.2 ▸ hX)
  | Victim => exact absurd rfl h1

/-- After `Pin(Y)` on a list with distinct frames that has an entry of `X`, the entry of
`X` is still there and no entry of `Y` comes before it. -/
theorem LRUReplacer.order_Pin (r : LRUReplacer) (X Y : frame_id_t) (hne : X ≠ Y)
    (hnd : r.frames.Nodup) (hX : X ∈ r.frames) :
    X ∈ (r.Pin Y).frames ∧ (r.Pin Y).frames.Pairwise (fun a b => ¬ (a = Y ∧ b = X)) := by
  rw [LRUReplacer.frames_Pin]
  refine ⟨List.mem_append_left _ ((List.mem_erase_of_ne hne).mpr hX), ?_⟩
  rw [List.pairwise_append]
  refine ⟨?_, List.pairwise_singleton _ _, ?_⟩
  · have hnd' : (r.frames.erase Y).Nodup := hnd.erase Y
    refine List.Pairwise.imp_of_mem ?_ hnd'
    intro a b ha _ _ hc
    exact ((List.Nodup.mem_erase_iff hnd).mp ha).1 hc.1
  · intro a _ b hb
    rw [List.mem_singleton] at hb
    intro hc
    exact hne (hc.2.symm.trans hb)

theorem LRUReplacer.runOps_cons (r : LRUReplacer) (op : ReplacerOp) (ops : List ReplacerOp) :
    r.runOps (op :: ops) = (r.step op).runOps ops := rfl

theorem LRUReplacer.runOps_app (r : LRUReplacer) (ops1 ops2 : List ReplacerOp) :
    r.runOps (ops1 ++ ops2) = (r.runOps ops1).runOps ops2 := by
  simp [LRUReplacer.runOps, List.foldl_append]

theorem LRUReplacer.frames_nodup_runOps (r : LRUReplacer) (ops : List ReplacerOp)
    (hnd : r.frames.Nodup) : (r.runOps ops).frames.Nodup :=
  (LRU_runOps_inv ops r (fun _ => false) hnd (by simp)).1

theorem LRUReplacer.mem_frames_runOps (X : frame_id_t) :
    ∀ (ops : List ReplacerOp) (r : LRUReplacer), X ∈ r.frames →
      (∀ op ∈ ops, op ≠ .Victim ∧ op ≠ .Pin X) → X ∈ (r.runOps ops).frames := by
  intro ops
  induction ops with
  | nil => intro r h _; exact h
  | cons op rest ih =>
    intro r h hops
    rw [LRUReplacer.runOps_cons]
    have h0 := hops op (List.mem_cons_self _ _)
    exact ih _ (LRUReplacer.mem_frames_step r op X h h0.1 h0.2)
      (fun o ho => hops o (List.mem_cons_of_mem _ ho))

theorem LRUReplacer.order_runOps (X Y : frame_id_t) :
    ∀ (ops : List ReplacerOp) (r : LRUReplacer), X ∈ r.frames →
      r.frames.Pairwise (fun a b => ¬ (a = Y ∧ b = X)) →
      (∀ op ∈ ops, op ≠ .Victim ∧ op ≠ .Pin X ∧ op ≠ .Pin Y) →
      (r.runOps ops).frames.Pairwise (fun a b => ¬ (a = Y ∧ b = X)) := by
  intro ops
  induction ops with
  | nil => intro r _ h _; exact h
  | cons op rest ih =>
    intro r hX h hops
    rw [LRUReplacer.runOps_cons]
    have h0 := hops op (List.mem_cons_self _ _)
    exact ih _ (LRUReplacer.mem_frames_step r op X hX h0.1 h0.2.1)
      (LRUReplacer.order_step r op X Y hX h h0.1 h0.2.1 h0.2.2)
      (fun o ho => hops o (List.mem_cons_of_mem _ ho))

/-- In a call sequence on a fresh LRU replacer whose last `Pin(X)` comes before its last
`Pin(Y)`, with no `Victim` call after the last `Pin(X)`: when successive `Victim` calls
return `X` at call `i` and `Y` at call `j`, then `i < j`. -/
theorem LRUReplacer.victims_in_Pin_order (N : Nat) (pre mid post : List ReplacerOp)
    (X Y : frame_id_t) (hne : X ≠ Y)
    (hmid : ∀ op ∈ mid, op ≠ .Victim ∧ op ≠ .Pin X)
    (hpost : ∀ op ∈ post, op ≠ .Victim ∧ op ≠ .Pin X ∧ op ≠ .Pin Y)
    (n i j : Nat)
    (hi : (((LRUReplacer.new N).runOps
      (pre ++ .Pin X :: (mid ++ .Pin Y :: post))).victims n)[i]? = some (some X))
    (hj : (((LRUReplacer.new N).runOps
      (pre ++ .Pin X :: (mid ++ .Pin Y :: post))).victims n)[j]? = some (some Y)) :
    i < j := by
  rw [LRUReplacer.runOps_app, LRUReplacer.runOps_cons, LRUReplacer.runOps_app,
    LRUReplacer.runOps_cons] at hi hj
  have hnd0 : ((LRUReplacer.new N).runOps pre).frames.Nodup :=
    LRUReplacer.frames_nodup_runOps _ _ (by simp [LRUReplacer.new, LRUReplacer.frames])
  have hX1 : X ∈ (((LRUReplacer.new N).runOps pre).Pin X).frames := by
    simp [LRUReplacer.frames_Pin]
  have hnd1 : (((LRUReplacer.new N).runOps pre).Pin X).frames.Nodup :=
    LRUReplacer.frames_nodup_runOps _ [.Pin X] hnd0
  have hX2 := LRUReplacer.mem_frames_runOps X mid _ hX1 hmid
  have hnd2 := LRUReplacer.frames_nodup_runOps _ mid hnd1
  obtain ⟨hX3, hord3⟩ := LRUReplacer.order_Pin _ X Y hne hnd2 hX2
  have hord := LRUReplacer.order_runOps X Y post _ hX3 hord3 hpost
  have hi' := LRUReplacer.victims_get _ _ _ _ hi
  have hj' := LRUReplacer.victims_get _ _ _ _ hj
  obtain ⟨r, hr⟩ : ∃ r, r = ((((LRUReplacer.new N).runOps pre).Pin X).runOps mid).Pin Y :=
    ⟨_, rfl⟩
  have hord0 : ((r.runOps post).frames).Pairwise (fun a b => ¬ (a = Y ∧ b = X)) := by
    rw [hr]
    exact hord
  have hi0 : (r.runOps post).evictableFrames[i]? = some X := by
    rw [hr]
    exact hi'
  have hj0 : (r.runOps post).evictableFrames[j]? = some Y := by
    rw [hr]
    exact hj'
  have hsub : (r.runOps post).evictableFrames.Sublist (r.runOps post).frames :=
    (List.filter_sublist _).map _
  have hord' := hord0.sublist hsub
  by_contra hlt
  have hle : j ≤ i := Nat.le_of_not_lt hlt
  rcases Nat.eq_or_lt_of_le hle with heq | hlt'
  · rw [heq, hi0] at hj0
    exact hne (Option.some.inj hj0)
  · obtain ⟨hjl, hjv⟩ := List.getElem?_eq_some_iff.mp hj0
    obtain ⟨hil, hiv⟩ := List.getElem?_eq_some_iff.mp hi0
    have := (List.pairwise_iff_getElem.mp hord') j i hjl hil hlt'
    exact this ⟨hjv, hiv⟩

/-- Three successive `Victim` calls are a run of `Victim` calls of length 3. -/
theorem LRUReplacer.threeVictims_eq (r : LRUReplacer) : r.threeVictims = r.victims 3 := rfl

/-- C12 (amended): for the LRU replacer, evictable frames are returned by Victim in the
order of their last Pin calls, not in the order of their Unpin calls. After any sequence of
calls on a fresh replacer in which the last Pin(X) comes before the last Pin(Y), for
distinct frames X and Y, and no Victim call follows the last Pin(X), successive Victim
calls that return both X and Y return X before Y. On a fresh replacer, after Pin(A),
Pin(B), Pin(C), Unpin(B), Unpin(A), Unpin(C) for distinct frames A, B, C, the list holds
A, B, C in this order, all evictable, and three successive Victim calls return A, then B,
then C. -/
theorem LRU_victim_order (N : Nat) (A B C : frame_id_t) (hAB : A ≠ B) (hAC : A ≠ C)
    (hBC : B ≠ C) :
    (∀ (pre mid post : List ReplacerOp) (X Y : frame_id_t), X ≠ Y →
      (∀ op ∈ mid, op ≠ .Victim ∧ op ≠ .Pin X) →
      (∀ op ∈ post, op ≠ .Victim ∧ op ≠ .Pin X ∧ op ≠ .Pin Y) →
      ∀ n i j : Nat,
        (((LRUReplacer.new N).runOps
          (pre ++ .Pin X :: (mid ++ .Pin Y :: post))).victims n)[i]? = some (some X) →
        (((LRUReplacer.new N).runOps
          (pre ++ .Pin X :: (mid ++ .Pin Y :: post))).victims n)[j]? = some (some Y) →
        i < j) ∧
    ((LRUReplacer.new N).runOps
        [.Pin A, .Pin B, .Pin C, .Unpin B, .Unpin A, .Unpin C]).lru_list_ =
      [(A, true), (B, true), (C, true)] ∧
    ((LRUReplacer.new N).runOps
        [.Pin A, .Pin B, .Pin C, .Unpin B, .Unpin A, .Unpin C]).threeVictims =
      [some A, some B, some C] := by
  have hBA : B ≠ A := fun h => hAB h.symm
  have hCA : C ≠ A := fun h => hAC h.symm
  have hCB : C ≠ B := fun h => hBC h.symm
  have hrun : (LRUReplacer.new N).runOps
      [.Pin A, .Pin B, .Pin C, .Unpin B, .Unpin A, .Unpin C] =
      { lru_list_ := [(A, true), (B, true), (C, true)], cur_size_ := 3, max_size_ := N } := by
    simp [LRUReplacer.runOps, LRUReplacer.step, LRUReplacer.new, LRUReplacer.Pin,
      LRUReplacer.Unpin, List.find?, hAB, hAC, hBC, hBA, hCA, hCB]
  refine ⟨?_, by rw [hrun], ?_⟩
  · intro pre mid post X Y hne hmid hpost n i j hi hj
    exact LRUReplacer.victims_in_Pin_order N pre mid post X Y hne hmid hpost n i j hi hj
  · rw [hrun]
    simp [LRUReplacer.threeVictims, LRUReplacer.Victim, List.find?, List.eraseP]

/-- An instance of C12 (amended): frames 0, 1, 2. Three successive Victim calls after
Pin(0), Pin(1), Pin(2), Unpin(1), Unpin(0), Unpin(2) return 0, 1, 2; and after Unpin(5),
Pin(1), Unpin(1), Pin(0), Pin(1), Unpin(1), Unpin(0), where the last Pin(0) comes before
the last Pin(1), the four Victim calls return 5, 0, 1 and nothing: frame 0 before
frame 1. -/
theorem LRU_victim_order_witness :
    ((LRUReplacer.new 3).runOps
        [.Pin 0, .Pin 1, .Pin 2, .Unpin 1, .Unpin 0, .Unpin 2]).threeVictims =
      [some 0, some 1, some 2] ∧
    ((LRUReplacer.new 3).runOps
        ([.Unpin 5, .Pin 1, .Unpin 1] ++ .Pin 0 :: ([] ++ .Pin 1 :: [.Unpin 1, .Unpin 0]))).victims
          4 = [some 5, some 0, some 1, none] ∧
    1 < 2 :=
  ⟨(LRU_victim_order 3 0 1 2 (by decide) (by decide) (by decide)).2.2, by decide,
    (LRU_victim_order 3 0 1 2 (by decide) (by decide) (by decide)).1
      [.Unpin 5, .Pin 1, .Unpin 1] [] [.Unpin 1, .Unpin 0] 0 1 (by decide) (by decide)
      (by decide) 4 1 2 (by decide) (by decide)⟩

theorem holdsP_set (key : fid_pid_t) (P : List Nat → Prop) (blocks : fid_pid_t → List Nat)
    (frames : List Frame) (lookup : List (fid_pid_t × frame_id_t)) (i : frame_id_t)
    (fr : Frame) (h : holdsP key P blocks frames lookup)
    (hd : umap_find lookup key = some i → P fr.page_.data_) :
    holdsP key P blocks (frames.set i fr) lookup := by
  refine ⟨h.1, ?_⟩
  intro f hf
  rcases getD_set_cases frames i f fr with h1 | ⟨h1, _, h3⟩
  · rw [h1]; exact h.2 f hf
  · rw [h3]; exact hd (h1 ▸ hf)

theorem holdsP_write (key : fid_pid_t) (P : List Nat → Prop) (d : DiskManager)
    (frames : List Frame) (lookup : List (fid_pid_t × frame_id_t)) (fid : file_id_t)
    (pid : page_id_t) (data : List Nat) (h : holdsP key P d.blocks frames lookup)
    (hd : key = ⟨fid, pid⟩ → P data) :
    holdsP key P (d.WritePage fid pid data).blocks frames lookup := by
  refine ⟨?_, h.2⟩
  rw [WritePage_blocks]
  by_cases hk : key = ⟨fid, pid⟩
  · rw [if_pos hk]; exact hd hk
  · rw [if_neg hk]; exact h.1

theorem holdsP_erase (key : fid_pid_t) (P : List Nat → Prop) (blocks : fid_pid_t → List Nat)
    (frames : List Frame) (lookup : List (fid_pid_t × frame_id_t)) (k : fid_pid_t)
    (h : holdsP key P blocks frames lookup) :
    holdsP key P blocks frames (umap_erase lookup k) :=
  ⟨h.1, fun f hf => h.2 f (umap_find_erase_some _ _ _ _ hf).2⟩

/-- The method `UpdateFrame` keeps a property of the bytes of a page: a dirty frame is
written back under its own identity, and the frame is refilled from disk. -/
theorem holds_UpdateFrame (b : BufferPoolManager) (key : fid_pid_t) (P : List Nat → Prop)
    (f : frame_id_t) (fid : file_id_t) (pid : page_id_t) (hwf : b.WF)
    (h : b.holds key P) (hf : f < b.frames_.length)
    (hdirty : (b.frame f).is_dirty_ = true → (b.frame f).ident = key →
      P (b.frame f).page_.data_)
    (hmiss : umap_find b.page_frame_lookup_ ⟨fid, pid⟩ = none) :
    (b.UpdateFrame f fid pid).holds key P := by
  have hmiss' : umap_find (umap_erase b.page_frame_lookup_ (b.frame f).ident) ⟨fid, pid⟩
      = none := by
    rw [umap_find_eq_none] at hmiss ⊢
    intro e he
    exact hmiss e ((mem_umap_erase _ _ _).1 he).1
  have hblocks : P ((if (b.frame f).IsDirty then
        b.disk_manager_.WritePage (b.frame f).page_.fid_ (b.frame f).page_.pid_
          (b.frame f).page_.data_
      else b.disk_manager_).blocks key) := by
    cases hd : (b.frame f).is_dirty_
    · simp only [Frame.IsDirty, hd, Bool.false_eq_true, if_false]
      exact h.1
    · simp only [Frame.IsDirty, hd, if_true, WritePage_blocks]
      by_cases hk : key = ⟨(b.frame f).page_.fid_, (b.frame f).page_.pid_⟩
      · rw [if_pos hk]
        exact hdirty hd hk.symm
      · rw [if_neg hk]
        exact h.1
  simp only [BufferPoolManager.holds, BufferPoolManager.UpdateFrame, holdsP,
    DiskManager.ReadPage]
  refine ⟨hblocks, ?_⟩
  intro g hg
  by_cases hk : key = ⟨fid, pid⟩
  · subst hk
    have hassign : umap_find (umap_assign (umap_erase b.page_frame_lookup_ (b.frame f).ident)
        ⟨fid, pid⟩ f) ⟨fid, pid⟩ = some f := umap_find_assign_self _ _ _ hmiss'
    have hg' : umap_find (umap_assign (umap_erase b.page_frame_lookup_ (b.frame f).ident)
        ⟨fid, pid⟩ f) ⟨fid, pid⟩ = some g := hg
    rw [hassign] at hg'
    cases hg'
    rw [getD_set_self _ _ _ hf]
    exact hblocks
  · have hg' : umap_find (umap_assign (umap_erase b.page_frame_lookup_ (b.frame f).ident)
        ⟨fid, pid⟩ f) key = some g := hg
    rw [umap_find_assign_ne _ _ _ _ hk hmiss'] at hg'
    obtain ⟨hne, hfind⟩ := umap_find_erase_some _ _ _ _ hg'
    have hmem := umap_find_mem _ _ _ hfind
    have hgf : f ≠ g := by
      intro hfg
      apply hne
      have := (hwf.1 _ hmem).2
      simp only at this
      rw [← this, ← hfg]
      rfl
    rw [getD_set_ne _ _ _ _ hgf]
    exact h.2 g hfind

theorem holds_FetchPage (b : BufferPoolManager) (key : fid_pid_t) (P : List Nat → Prop)
    (fid : file_id_t) (pid : page_id_t) (hwf : b.WF) (h : b.holds key P) :
    (b.FetchPage fid pid).2.holds key P := by
  cases hfind : umap_find b.page_frame_lookup_ ⟨fid, pid⟩ with
  | some f =>
    rw [FetchPage_hit b fid pid f hfind]
    exact holdsP_set _ _ _ _ _ f _ h (fun hk => h.2 f hk)
  | none =>
    rw [FetchPage_miss b fid pid hfind]
    rcases GetAvailableFrame_cases b with ⟨f, rest, hfl, hg⟩ | ⟨hfl, v, r, entry, hmem, hev, _, hg⟩ |
        ⟨_, e, r, hg⟩
    · rw [hg]
      have hwf' : poolWF b.frames_ (f :: rest) b.page_frame_lookup_ := hfl ▸ hwf
      have hfree := hwf'.2.1 f (List.mem_cons_self _ _)
      refine holds_UpdateFrame _ key P f fid pid (poolWF_pop _ _ _ _ hwf') h hfree.1 ?_ hfind
      intro hd
      have h0 : (b.frames_.getD f default).is_dirty_ = false := hfree.2.2.1
      have h1 : (b.frames_.getD f default).is_dirty_ = true := hd
      rw [h0] at h1
      cases h1
    · rw [hg]
      have hident : (b.frame v).ident = entry.1 := hev ▸ (hwf.1 entry hmem).2
      have hdata : entry.1 = key → P (b.frame v).page_.data_ := by
        intro hk
        have : umap_find b.page_frame_lookup_ key = some v := by
          apply umap_find_of_mem _ _ _ hwf.2.2.2
          rw [← hk, ← hev]
          exact hmem
        exact h.2 v this
      refine holds_UpdateFrame _ key P v fid pid (poolWF_erase _ _ _ _ hwf) ?_ ?_ ?_ ?_
      · refine holdsP_erase _ _ _ _ _ _ ?_
        cases hd : (b.frame v).IsDirty
        · simpa using h
        · simp only [if_true]
          refine holdsP_write _ _ _ _ _ _ _ _ h ?_
          intro hk
          exact hdata hk.symm
      · exact hev ▸ (hwf.1 entry hmem).1
      · intro _ hk
        exact hdata (hident.symm.trans hk)
      · simp only
        rw [umap_find_eq_none] at hfind ⊢
        intro e he
        exact hfind e ((mem_umap_erase _ _ _).1 he).1
    · rw [hg]; exact h

theorem holds_UnpinPage (b : BufferPoolManager) (key : fid_pid_t) (P : List Nat → Prop)
    (fid : file_id_t) (pid : page_id_t) (is_dirty : Bool) (h : b.holds key P) :
    (b.UnpinPage fid pid is_dirty).2.holds key P := by
  rcases UnpinPage_cases b fid pid is_dirty with ⟨_, h1⟩ | ⟨f, hfind, _, h1⟩
  · rw [h1]; exact h
  · rw [h1]
    refine holdsP_set _ _ _ _ _ f _ ?_ (fun hk => h.2 f hk)
    cases is_dirty
    · exact h
    · refine holdsP_write _ _ _ _ _ _ _ _ h ?_
      intro hk
      exact h.2 f (hk ▸ hfind)

/-- A store into a frame keeps a property of the bytes of a page when the stored bytes
have the property in case the frame is that of the page. -/
theorem holds_writePageData (b : BufferPoolManager) (key : fid_pid_t) (P : List Nat → Prop)
    (f : frame_id_t) (data : List Nat) (h : b.holds key P)
    (hd : umap_find b.page_frame_lookup_ key = some f → P data) :
    (b.writePageData f data).holds key P :=
  holdsP_set _ _ _ _ _ f _ h hd

/-- A `memcpy` to an offset at or after `sm` keeps the bytes before `sm` and does not
shorten the buffer. -/
theorem memWrite_low (mem : List Nat) (off : Nat) (src : List Nat) (sm : Nat)
    (h1 : sm ≤ off) (h2 : sm ≤ mem.length) :
    mem.length ≤ (memWrite mem off src).length ∧
    ∀ i, i < sm → (memWrite mem off src)[i]? = mem[i]? := by
  unfold memWrite
  constructor
  · simp only [List.length_append, List.length_take, List.length_drop]
    omega
  · intro i hi
    have hl : i < (mem.take off).length := by
      rw [List.length_take]
      omega
    rw [List.append_assoc, List.getElem?_append_left hl, List.getElem?_take_of_lt (by omega)]

theorem PAXPageHandle.writeFields_low (data : List Nat) (sm : Nat) :
    ∀ (ptrs : List Nat) (fs : List RTField) (total : Nat) (mem : List Nat),
      (∀ p ∈ ptrs, sm ≤ p) → sm ≤ mem.length →
      mem.length ≤ (PAXPageHandle.writeFields data ptrs fs total mem).length ∧
      ∀ i, i < sm → (PAXPageHandle.writeFields data ptrs fs total mem)[i]? = mem[i]? := by
  intro ptrs
  induction ptrs with
  | nil =>
    intro fs total mem _ _
    cases fs <;> exact ⟨le_refl _, fun _ _ => rfl⟩
  | cons p ptrs ih =>
    intro fs total mem hp hlen
    cases fs with
    | nil => exact ⟨le_refl _, fun _ _ => rfl⟩
    | cons fld rest =>
      simp only [PAXPageHandle.writeFields]
      obtain ⟨w1, w2⟩ := memWrite_low mem p (memRead data total fld.field_size_) sm
        (hp p (List.mem_cons_self _ _)) hlen
      obtain ⟨v1, v2⟩ := ih rest (total + fld.field_size_)
        (memWrite mem p (memRead data total fld.field_size_))
        (fun q hq => hp q (List.mem_cons_of_mem _ hq)) (by omega)
      exact ⟨by omega, fun i hi => (v2 i hi).trans (w2 i hi)⟩

/-- Whatever its outcome, `WriteSlot` keeps the bytes of the page before the slots, does not
shorten the page, and keeps the pointers of the handle. -/
theorem PageHandleUptr.WriteSlot_low (u : PageHandleUptr) (slot_id : Nat)
    (null_map data : List Nat) (update : Bool)
    (hsm : u.base.slots_mem_ ≤ u.GetPage.data_.length) :
    u.GetPage.data_.length ≤ (u.WriteSlot slot_id null_map data update).2.GetPage.data_.length ∧
    (∀ i, i < u.base.slots_mem_ →
      (u.WriteSlot slot_id null_map data update).2.GetPage.data_[i]? = u.GetPage.data_[i]?) ∧
    (u.WriteSlot slot_id null_map data update).2.base.bitmap_ = u.base.bitmap_ ∧
    (u.WriteSlot slot_id null_map data update).2.GetPage.fid_ = u.GetPage.fid_ ∧
    (u.WriteSlot slot_id null_map data update).2.GetPage.pid_ = u.GetPage.pid_ := by
  cases u with
  | nary h =>
    simp only [PageHandleUptr.WriteSlot, PageHandleUptr.GetPage, PageHandleUptr.base] at hsm ⊢
    unfold NAryPageHandle.WriteSlot
    split
    · exact ⟨le_refl _, fun _ _ => rfl, rfl, rfl, rfl⟩
    · split
      · exact ⟨le_refl _, fun _ _ => rfl, rfl, rfl, rfl⟩
      · dsimp only
        obtain ⟨w1, w2⟩ := memWrite_low h.page_.data_
          (h.slots_mem_ + slot_id * (h.tab_hdr_.nullmap_size_ + h.tab_hdr_.rec_size_))
          (memRead null_map 0 h.tab_hdr_.nullmap_size_) h.slots_mem_ (by omega) hsm
        obtain ⟨v1, v2⟩ := memWrite_low
          (memWrite h.page_.data_
            (h.slots_mem_ + slot_id * (h.tab_hdr_.nullmap_size_ + h.tab_hdr_.rec_size_))
            (memRead null_map 0 h.tab_hdr_.nullmap_size_))
          (h.slots_mem_ + slot_id * (h.tab_hdr_.nullmap_size_ + h.tab_hdr_.rec_size_) +
            h.tab_hdr_.nullmap_size_)
          (memRead data 0 h.tab_hdr_.rec_size_) h.slots_mem_ (by omega) (by omega)
        exact ⟨by omega, fun i hi => (v2 i hi).trans (w2 i hi), rfl, rfl, rfl⟩
  | pax h =>
    simp only [PageHandleUptr.WriteSlot, PageHandleUptr.GetPage, PageHandleUptr.base] at hsm ⊢
    unfold PAXPageHandle.WriteSlot
    split
    · exact ⟨le_refl _, fun _ _ => rfl, rfl, rfl, rfl⟩
    · split
      · exact ⟨le_refl _, fun _ _ => rfl, rfl, rfl, rfl⟩
      · dsimp only
        obtain ⟨w1, w2⟩ := memWrite_low h.page_.data_
          (h.slots_mem_ + slot_id * h.tab_hdr_.nullmap_size_)
          (memRead null_map 0 h.tab_hdr_.nullmap_size_) h.slots_mem_ (by omega) hsm
        obtain ⟨v1, v2⟩ := PAXPageHandle.writeFields_low data h.slots_mem_
          (PAXPageHandle.fieldPtrs h.slots_mem_ h.offsets_ slot_id 0 h.schema_) h.schema_ 0
          (memWrite h.page_.data_ (h.slots_mem_ + slot_id * h.tab_hdr_.nullmap_size_)
            (memRead null_map 0 h.tab_hdr_.nullmap_size_))
          (PAXPageHandle.fieldPtrs_ge _ _ _ _ _) (by omega)
        exact ⟨by omega, fun i hi => (v2 i hi).trans (w2 i hi), rfl, rfl, rfl⟩

theorem SlotBitClear_low (bm bs slot : Nat) (hbyte : bm + slot / 8 < bm + bs)
    (m1 m2 : List Nat) (hlen : m1.length ≤ m2.length)
    (hlow : ∀ i, i < bm + bs → m2[i]? = m1[i]?) (h : SlotBitClear bm bs slot m1) :
    SlotBitClear bm bs slot m2 := by
  refine ⟨by have := h.1; omega, ?_⟩
  rw [← h.2]
  exact BitMap.GetBit_congr _ _ _ _ (hlow _ hbyte)

theorem SlotBitClear_SetBit (bm bs slot s : Nat) (v : Bool) (hs : s ≠ slot) (m : List Nat)
    (h : SlotBitClear bm bs slot m) : SlotBitClear bm bs slot (BitMap.SetBit m bm s v) := by
  refine ⟨by rw [BitMap.SetBit_length]; exact h.1, ?_⟩
  rw [BitMap.GetBit_SetBit_ne _ _ _ _ _ (fun e => hs e.symm)]
  exact h.2

theorem SlotBitClear_SetRecordNum (bm bs slot : Nat) (h16 : 16 ≤ bm) (p : Page) (n : Nat)
    (h : SlotBitClear bm bs slot p.data_) : SlotBitClear bm bs slot (p.SetRecordNum n).data_ := by
  obtain ⟨e1, e2⟩ := Page.SetRecordNum_frame p n (by have := h.1; omega)
  refine ⟨by rw [e1]; exact h.1, ?_⟩
  rw [← h.2]
  exact BitMap.GetBit_congr _ _ _ _ (e2 _ (by omega))

theorem SlotBitClear_SetNextFreePageId (bm bs slot : Nat) (h16 : 16 ≤ bm) (p : Page)
    (x : page_id_t) (h : SlotBitClear bm bs slot p.data_) :
    SlotBitClear bm bs slot (p.SetNextFreePageId x).data_ := by
  obtain ⟨e1, e2⟩ := Page.SetNextFreePageId_frame p x (by have := h.1; omega)
  refine ⟨by rw [e1]; exact h.1, ?_⟩
  rw [← h.2]
  exact BitMap.GetBit_congr _ _ _ _ (e2 _ (by omega))

theorem TableHandle.SlotClear_of (t t1 : TableHandle) (rid : RID) (h : t.SlotClear rid)
    (e1 : t1.table_id_ = t.table_id_) (e2 : t1.PAGE_HEADER_SIZE = t.PAGE_HEADER_SIZE)
    (e3 : t1.tab_hdr_.bitmap_size_ = t.tab_hdr_.bitmap_size_)
    (e4 : t1.tab_hdr_.rec_per_page_ = t.tab_hdr_.rec_per_page_)
    (hwf : t1.buffer_pool_manager_.WF)
    (hh : t1.buffer_pool_manager_.holds ⟨t.table_id_, rid.PageID⟩
      (SlotBitClear t.PAGE_HEADER_SIZE t.tab_hdr_.bitmap_size_ rid.SlotID)) :
    t1.SlotClear rid := by
  unfold TableHandle.SlotClear
  rw [e1, e2, e3, e4]
  exact ⟨hwf, hh, h.2.2⟩

theorem TableHandle.SlotClear_fetch (t : TableHandle) (rid : RID) (p : page_id_t)
    (h : t.SlotClear rid) :
    ({ t with buffer_pool_manager_ :=
        (t.buffer_pool_manager_.FetchPage t.table_id_ p).2 } : TableHandle).SlotClear rid :=
  TableHandle.SlotClear_of t _ rid h rfl rfl rfl rfl (WF_FetchPage _ _ _ h.1)
    (holds_FetchPage _ _ _ _ _ h.1 h.2.1)

theorem TableHandle.SlotClear_unpin (t : TableHandle) (rid : RID) (p : page_id_t)
    (is_dirty : Bool) (h : t.SlotClear rid) : (t.unpin p is_dirty).SlotClear rid :=
  TableHandle.SlotClear_of t _ rid h rfl rfl rfl rfl (WF_UnpinPage _ _ _ _ h.1)
    (holds_UnpinPage _ _ _ _ _ _ h.2.1)

theorem TableHandle.SlotClear_hdr (t : TableHandle) (rid : RID) (hdr : TableHeader)
    (h : t.SlotClear rid) (e3 : hdr.bitmap_size_ = t.tab_hdr_.bitmap_size_)
    (e4 : hdr.rec_per_page_ = t.tab_hdr_.rec_per_page_) :
    ({ t with tab_hdr_ := hdr } : TableHandle).SlotClear rid :=
  TableHandle.SlotClear_of t _ rid h rfl rfl e3 e4 h.1 h.2.1

/-- A store into the frame of the fetched page `p` keeps the slot of `rid` empty when the
stored bytes have the bit clear in case `p` is the page of `rid`. -/
theorem TableHandle.SlotClear_store (t : TableHandle) (rid : RID) (p : page_id_t)
    (f : frame_id_t) (page : Page) (h : t.SlotClear rid)
    (hres : t.buffer_pool_manager_.GetFrame t.table_id_ p = some f)
    (hP : p = rid.PageID →
      SlotBitClear t.PAGE_HEADER_SIZE t.tab_hdr_.bitmap_size_ rid.SlotID page.data_) :
    (t.storePage f page).SlotClear rid := by
  refine TableHandle.SlotClear_of t _ rid h rfl rfl rfl rfl (WF_writePageData _ _ _ h.1)
    (holds_writePageData _ _ _ _ _ h.2.1 ?_)
  intro hk
  have hkey := poolWF_frame_inj _ _ _ h.1 (⟨t.table_id_, rid.PageID⟩, f) (⟨t.table_id_, p⟩, f)
    (umap_find_mem _ _ _ hk) (umap_find_mem _ _ _ hres) rfl
  exact hP (congrArg fid_pid_t.pid hkey).symm

/-- The outcomes of `FetchPageHandle` when the bitmap size of the header is the one the
layout asks for: the exception of the pool, or the frame of the fetched page with a handle
over its page. -/
theorem TableHandle.FetchPageHandle_cases (t : TableHandle) (p : page_id_t)
    (hbm : BITMAP_SIZE t.tab_hdr_.rec_per_page_ = t.tab_hdr_.bitmap_size_) :
    (∃ e, t.FetchPageHandle p =
      (.error (.pool e),
        { t with buffer_pool_manager_ :=
            (t.buffer_pool_manager_.FetchPage t.table_id_ p).2 })) ∨
    (∃ f ph, (t.buffer_pool_manager_.FetchPage t.table_id_ p).1 = .ok f ∧
      t.FetchPageHandle p =
        (.ok (f, ph),
          { t with buffer_pool_manager_ :=
              (t.buffer_pool_manager_.FetchPage t.table_id_ p).2 }) ∧
      ph.base = { tab_hdr_ := t.tab_hdr_,
                  page_ := ((t.buffer_pool_manager_.FetchPage t.table_id_ p).2.frame f).page_,
                  bitmap_ := t.PAGE_HEADER_SIZE,
                  slots_mem_ := t.PAGE_HEADER_SIZE + t.tab_hdr_.bitmap_size_ }) := by
  rcases hfp : t.buffer_pool_manager_.FetchPage t.table_id_ p with ⟨res, b1⟩
  cases res with
  | error e =>
    left
    refine ⟨e, ?_⟩
    unfold TableHandle.FetchPageHandle
    rw [hfp]
  | ok f =>
    right
    obtain ⟨ph, hph, hbase⟩ := TableHandle.FetchPageHandle_ok t p f b1 hbm hfp
    exact ⟨f, ph, rfl, hph, hbase⟩

/-- After a successful fetch of the page `p` of a table in which the slot of `rid` is
empty: the table is in such a state, the page is resident in the returned frame, the frame
holds the page `p`, and when `p` is the page of `rid` the bytes of the frame have the bit
clear. -/
theorem TableHandle.SlotClear_fetched (t : TableHandle) (rid : RID) (p : page_id_t)
    (f : frame_id_t) (h : t.SlotClear rid)
    (hf : (t.buffer_pool_manager_.FetchPage t.table_id_ p).1 = .ok f) :
    (t.buffer_pool_manager_.FetchPage t.table_id_ p).2.GetFrame t.table_id_ p = some f ∧
    ((t.buffer_pool_manager_.FetchPage t.table_id_ p).2.frame f).page_.pid_ = p ∧
    (p = rid.PageID →
      SlotBitClear t.PAGE_HEADER_SIZE t.tab_hdr_.bitmap_size_ rid.SlotID
        ((t.buffer_pool_manager_.FetchPage t.table_id_ p).2.frame f).page_.data_) := by
  obtain ⟨hwf1, r1, _, _, _⟩ := FetchPage_ok_page _ _ _ f _ h.1 (Prod.ext hf rfl)
  refine ⟨r1, ?_, ?_⟩
  · have := (hwf1.1 _ (umap_find_mem _ _ _ r1)).2
    exact congrArg fid_pid_t.pid this
  · intro hp
    subst hp
    exact (TableHandle.SlotClear_fetch t rid _ h).2.1.2 f r1

theorem TableHandle.SlotClear_GetRecord (t : TableHandle) (rid rid1 : RID)
    (h : t.SlotClear rid) : (t.GetRecord rid1).2.SlotClear rid := by
  have h1 := TableHandle.SlotClear_fetch t rid rid1.PageID h
  unfold TableHandle.GetRecord
  rcases TableHandle.FetchPageHandle_cases t rid1.PageID h.2.2.1 with
    ⟨e, he⟩ | ⟨f, ph, hf, he, hb⟩
  · rw [he]
    exact h1
  · rw [he]
    dsimp only
    split
    · exact TableHandle.SlotClear_unpin _ _ _ _ h1
    · split
      · exact h1
      · exact TableHandle.SlotClear_unpin _ _ _ _ h1

theorem TableHandle.SlotClear_GetChunk (t : TableHandle) (rid : RID) (pid : page_id_t)
    (chunk_schema : List RTField) (h : t.SlotClear rid) :
    (t.GetChunk pid chunk_schema).2.SlotClear rid := by
  have h1 := TableHandle.SlotClear_fetch t rid pid h
  unfold TableHandle.GetChunk
  rcases TableHandle.FetchPageHandle_cases t pid h.2.2.1 with
    ⟨e, he⟩ | ⟨f, ph, hf, he, hb⟩
  · rw [he]
    exact h1
  · rw [he]
    dsimp only
    split
    · exact h1
    · exact TableHandle.SlotClear_unpin _ _ _ _ h1

/-- The bit that a handle over the page of a fetched frame reads. -/
theorem PageHandleUptr.GetBit_base (ph : PageHandleUptr) (hdr : TableHeader) (page : Page)
    (bm sm : Nat)
    (hb : ph.base = { tab_hdr_ := hdr, page_ := page, bitmap_ := bm, slots_mem_ := sm })
    (s : Nat) : ph.GetBit s = BitMap.GetBit page.data_ bm s := by
  unfold PageHandleUptr.GetBit PageHandle.GetBit
  rw [hb]

theorem TableHandle.SlotClear_DeleteRecord (t : TableHandle) (rid rid1 : RID)
    (h : t.SlotClear rid) : (t.DeleteRecord rid1).2.SlotClear rid := by
  have h1 := TableHandle.SlotClear_fetch t rid rid1.PageID h
  have h16 := h.2.2.2.1
  unfold TableHandle.DeleteRecord
  rcases TableHandle.FetchPageHandle_cases t rid1.PageID h.2.2.1 with
    ⟨e, he⟩ | ⟨f, ph, hf, he, hb⟩
  · rw [he]
    exact h1
  · obtain ⟨r1, _, rP⟩ := TableHandle.SlotClear_fetched t rid rid1.PageID f h hf
    have hbit := PageHandleUptr.GetBit_base ph _ _ _ _ hb rid1.SlotID
    rw [he]
    dsimp only
    split
    · exact TableHandle.SlotClear_unpin _ _ _ _ h1
    · rename_i hocc
      apply TableHandle.SlotClear_unpin
      apply TableHandle.SlotClear_store _ rid rid1.PageID f _ ?_ r1 ?_
      · apply TableHandle.SlotClear_hdr _ _ _ h1
        · split <;> rfl
        · split <;> rfl
      · intro hp
        have hP0 := rP hp
        have hne : rid1.SlotID ≠ rid.SlotID := by
          intro hs
          rw [hbit, hs, hP0.2] at hocc
          exact hocc (by simp)
        have hP1 := SlotBitClear_SetBit _ _ _ rid1.SlotID false hne _ hP0
        simp only [PageHandleUptr.GetPage, hb]
        split
        · exact SlotBitClear_SetNextFreePageId _ _ _ h16 _ _
            (SlotBitClear_SetRecordNum _ _ _ h16 _ _ hP1)
        · exact SlotBitClear_SetRecordNum _ _ _ h16 _ _ hP1

/-- The page of a handle after `WriteSlot`, whatever its outcome, has the bit of an empty
slot still clear. -/
theorem PageHandleUptr.WriteSlot_keeps_clear (ph : PageHandleUptr) (hdr : TableHeader)
    (page : Page) (bm bs slot : Nat)
    (hb : ph.base = { tab_hdr_ := hdr, page_ := page, bitmap_ := bm, slots_mem_ := bm + bs })
    (hbyte : bm + slot / 8 < bm + bs) (s : Nat) (null_map data : List Nat) (update : Bool)
    (h : SlotBitClear bm bs slot page.data_) :
    SlotBitClear bm bs slot (ph.WriteSlot s null_map data update).2.GetPage.data_ ∧
    (ph.WriteSlot s null_map data update).2.base.bitmap_ = bm ∧
    (ph.WriteSlot s null_map data update).2.GetPage.pid_ = page.pid_ := by
  have hpg : ph.GetPage = page := by
    unfold PageHandleUptr.GetPage
    rw [hb]
  have hsm : ph.base.slots_mem_ = bm + bs := by rw [hb]
  have hbmp : ph.base.bitmap_ = bm := by rw [hb]
  obtain ⟨w1, w2, w3, _, w5⟩ := PageHandleUptr.WriteSlot_low ph s null_map data update
    (by rw [hsm, hpg]; exact h.1)
  rw [hsm, hpg] at w2
  rw [hpg] at w1 w5
  exact ⟨SlotBitClear_low bm bs slot hbyte _ _ w1 w2 h, w3.trans hbmp, w5⟩

theorem TableHandle.SlotClear_UpdateRecord (t : TableHandle) (rid rid1 : RID)
    (record : Record) (h : t.SlotClear rid) :
    (t.UpdateRecord rid1 record).2.SlotClear rid := by
  have h1 := TableHandle.SlotClear_fetch t rid rid1.PageID h
  have hbyte := BITMAP_SIZE_bit _ _ t.PAGE_HEADER_SIZE rid.SlotID h.2.2.1 h.2.2.2.2
  unfold TableHandle.UpdateRecord
  rcases TableHandle.FetchPageHandle_cases t rid1.PageID h.2.2.1 with
    ⟨e, he⟩ | ⟨f, ph, hf, he, hb⟩
  · rw [he]
    exact h1
  · obtain ⟨r1, _, rP⟩ := TableHandle.SlotClear_fetched t rid rid1.PageID f h hf
    rw [he]
    dsimp only
    split
    · exact TableHandle.SlotClear_unpin _ _ _ _ h1
    · split
      · exact h1
      · rename_i u1 hw
        apply TableHandle.SlotClear_unpin
        apply TableHandle.SlotClear_store _ rid rid1.PageID f _ h1 r1
        intro hp
        have := (PageHandleUptr.WriteSlot_keeps_clear ph _ _ _ _ rid.SlotID hb hbyte
          rid1.SlotID record.GetNullMap record.GetData true (rP hp)).1
        rw [hw] at this
        exact this

theorem TableHandle.SlotClear_InsertRecordAt (t : TableHandle) (rid rid1 : RID)
    (record : Record) (h : t.SlotClear rid)
    (hno : (t.InsertRecordAt rid1 record).1 = .ok () → rid1 ≠ rid) :
    (t.InsertRecordAt rid1 record).2.SlotClear rid := by
  have h1 := TableHandle.SlotClear_fetch t rid rid1.PageID h
  have h16 := h.2.2.2.1
  have hbyte := BITMAP_SIZE_bit _ _ t.PAGE_HEADER_SIZE rid.SlotID h.2.2.1 h.2.2.2.2
  revert hno
  unfold TableHandle.InsertRecordAt
  split
  · intro _
    exact h
  · rcases TableHandle.FetchPageHandle_cases t rid1.PageID h.2.2.1 with
      ⟨e, he⟩ | ⟨f, ph, hf, he, hb⟩
    · rw [he]
      intro _
      exact h1
    · obtain ⟨r1, rpid, rP⟩ := TableHandle.SlotClear_fetched t rid rid1.PageID f h hf
      rw [he]
      dsimp only
      split
      · intro _
        exact TableHandle.SlotClear_unpin _ _ _ _ h1
      · split
        · intro _
          exact h1
        · rename_i u1 hw
          intro hno
          have hne := hno rfl
          apply TableHandle.SlotClear_unpin
          apply TableHandle.SlotClear_store _ rid rid1.PageID f _ ?_ r1 ?_
          · apply TableHandle.SlotClear_hdr _ _ _ h1
            · split <;> rfl
            · split <;> rfl
          · intro hp
            have hs : rid1.SlotID ≠ rid.SlotID := by
              intro hs
              apply hne
              cases rid; cases rid1
              simp only [RID.PageID, RID.SlotID] at hp hs
              rw [hp, hs]
            obtain ⟨k1, k2, _⟩ := PageHandleUptr.WriteSlot_keeps_clear ph _ _ _ _ rid.SlotID
              hb hbyte rid1.SlotID record.GetNullMap record.GetData false (rP hp)
            rw [hw] at k1 k2
            dsimp only at k1 k2
            have hP1 := SlotBitClear_SetBit _ _ _ rid1.SlotID true hs _ k1
            rw [k2]
            split
            · exact SlotBitClear_SetNextFreePageId _ _ _ h16 _ _
                (SlotBitClear_SetRecordNum _ _ _ h16 _ _ hP1)
            · exact SlotBitClear_SetRecordNum _ _ _ h16 _ _ hP1

/-- The outcomes of `CreateNewPageHandle` when the bitmap size of the header is the one
the layout asks for. -/
theorem TableHandle.CreateNewPageHandle_cases (t : TableHandle)
    (hbm : BITMAP_SIZE t.tab_hdr_.rec_per_page_ = t.tab_hdr_.bitmap_size_) :
    ∃ t1 : TableHandle, (t.CreateNewPageHandle).2 = t1 ∧
      t1.table_id_ = t.table_id_ ∧ t1.PAGE_HEADER_SIZE = t.PAGE_HEADER_SIZE ∧
      t1.tab_hdr_.bitmap_size_ = t.tab_hdr_.bitmap_size_ ∧
      t1.tab_hdr_.rec_per_page_ = t.tab_hdr_.rec_per_page_ ∧
      ((∃ e, (t.CreateNewPageHandle).1 = .error (.pool e) ∧
        t1.buffer_pool_manager_ =
          (t.buffer_pool_manager_.FetchPage t.table_id_
            (to_page_id_t t.tab_hdr_.page_num_)).2) ∨
      (∃ f nph hdr,
        (t.buffer_pool_manager_.FetchPage t.table_id_
          (to_page_id_t t.tab_hdr_.page_num_)).1 = .ok f ∧
        (t.CreateNewPageHandle).1 = .ok (f, nph) ∧
        nph.base =
          { tab_hdr_ := hdr,
            page_ := ((t.buffer_pool_manager_.FetchPage t.table_id_
              (to_page_id_t t.tab_hdr_.page_num_)).2.frame f).page_.SetNextFreePageId
                t.tab_hdr_.first_free_page_,
            bitmap_ := t.PAGE_HEADER_SIZE,
            slots_mem_ := t.PAGE_HEADER_SIZE + t.tab_hdr_.bitmap_size_ } ∧
        t1.buffer_pool_manager_ =
          (t.buffer_pool_manager_.FetchPage t.table_id_
            (to_page_id_t t.tab_hdr_.page_num_)).2.writePageData f
            (((t.buffer_pool_manager_.FetchPage t.table_id_
              (to_page_id_t t.tab_hdr_.page_num_)).2.frame f).page_.SetNextFreePageId
                t.tab_hdr_.first_free_page_).data_)) := by
  unfold TableHandle.CreateNewPageHandle
  dsimp only
  rcases hfp : t.buffer_pool_manager_.FetchPage t.table_id_
      (to_page_id_t t.tab_hdr_.page_num_) with ⟨res, b1⟩
  cases res with
  | error e =>
    dsimp only
    exact ⟨_, rfl, rfl, rfl, rfl, rfl, Or.inl ⟨e, rfl, rfl⟩⟩
  | ok f =>
    dsimp only
    rw [TableHandle.WrapPageHandle_eq _ _ (by exact hbm)]
    cases hsm : t.storage_model_ with
    | NARY_MODEL =>
      dsimp only
      exact ⟨_, rfl, rfl, rfl, rfl, rfl, Or.inr ⟨f, _, _, rfl, rfl, rfl, rfl⟩⟩
    | PAX_MODEL =>
      dsimp only
      exact ⟨_, rfl, rfl, rfl, rfl, rfl, Or.inr ⟨f, _, _, rfl, rfl, rfl, rfl⟩⟩

/-- A call of `CreateNewPageHandle` keeps the slot of `rid` empty; when it returns a
handle, the page of the handle is resident in the returned frame, and its bytes have the
bit clear when it is the page of `rid`. -/
theorem TableHandle.SlotClear_CreateNewPageHandle (t : TableHandle) (rid : RID)
    (h : t.SlotClear rid) :
    (t.CreateNewPageHandle).2.SlotClear rid ∧
    ∀ f nph, (t.CreateNewPageHandle).1 = .ok (f, nph) →
      ∃ hdr page,
        nph.base = { tab_hdr_ := hdr, page_ := page, bitmap_ := t.PAGE_HEADER_SIZE,
                     slots_mem_ := t.PAGE_HEADER_SIZE + t.tab_hdr_.bitmap_size_ } ∧
        page.pid_ = to_page_id_t t.tab_hdr_.page_num_ ∧
        (t.CreateNewPageHandle).2.buffer_pool_manager_.GetFrame t.table_id_
          (to_page_id_t t.tab_hdr_.page_num_) = some f ∧
        (to_page_id_t t.tab_hdr_.page_num_ = rid.PageID →
          SlotBitClear t.PAGE_HEADER_SIZE t.tab_hdr_.bitmap_size_ rid.SlotID page.data_) := by
  have h1 := TableHandle.SlotClear_fetch t rid (to_page_id_t t.tab_hdr_.page_num_) h
  have h16 := h.2.2.2.1
  obtain ⟨t1, ht1, e1, e2, e3, e4, hcase⟩ := TableHandle.CreateNewPageHandle_cases t h.2.2.1
  rw [ht1]
  rcases hcase with ⟨e, he, hb⟩ | ⟨f, nph, hdr, hf, hok, hbase, hb⟩
  · refine ⟨TableHandle.SlotClear_of t t1 rid h e1 e2 e3 e4 (by rw [hb]; exact h1.1)
      (by rw [hb]; exact h1.2.1), ?_⟩
    intro f nph hc
    rw [he] at hc
    cases hc
  · obtain ⟨r1, rpid, rP⟩ := TableHandle.SlotClear_fetched t rid _ f h hf
    have hs := TableHandle.SlotClear_store _ rid (to_page_id_t t.tab_hdr_.page_num_) f
      (((t.buffer_pool_manager_.FetchPage t.table_id_
        (to_page_id_t t.tab_hdr_.page_num_)).2.frame f).page_.SetNextFreePageId
          t.tab_hdr_.first_free_page_) h1 r1
      (fun hp => SlotBitClear_SetNextFreePageId _ _ _ h16 _ _ (rP hp))
    refine ⟨TableHandle.SlotClear_of t t1 rid h e1 e2 e3 e4 (by rw [hb]; exact hs.1)
      (by rw [hb]; exact hs.2.1), ?_⟩
    intro f' nph' hc
    rw [hok] at hc
    cases hc
    refine ⟨hdr, _, hbase, rpid, ?_, ?_⟩
    · rw [hb]
      exact r1
    · intro hp
      exact SlotBitClear_SetNextFreePageId _ _ _ h16 _ _ (rP hp)

theorem TableHandle.SlotClear_InsertRecord (t : TableHandle) (rid : RID) (record : Record)
    (h : t.SlotClear rid) (hno : (t.InsertRecord record).1 ≠ .ok rid) :
    (t.InsertRecord record).2.SlotClear rid := by
  obtain ⟨hc1, hc2⟩ := TableHandle.SlotClear_CreateNewPageHandle t rid h
  obtain ⟨t1, ht1, e1, e2, e3, e4, _⟩ := TableHandle.CreateNewPageHandle_cases t h.2.2.1
  have hbyte := BITMAP_SIZE_bit _ _ t.PAGE_HEADER_SIZE rid.SlotID h.2.2.1 h.2.2.2.2
  have h16 := h.2.2.2.1
  revert hno
  unfold TableHandle.InsertRecord
  rcases hc : t.CreateNewPageHandle with ⟨res, t1'⟩
  rw [hc] at hc1 hc2 ht1
  dsimp only at hc1 hc2 ht1
  subst ht1
  cases res with
  | error e =>
    intro _
    exact hc1
  | ok fp =>
    obtain ⟨f, nph⟩ := fp
    obtain ⟨hdr, page, hbase, hpid, hres, hP⟩ := hc2 f nph rfl
    dsimp only
    split
    · intro _
      exact hc1
    · rename_i u1 hh hw
      intro hno
      apply TableHandle.SlotClear_unpin
      apply TableHandle.SlotClear_store _ rid (to_page_id_t t.tab_hdr_.page_num_) f _ ?_ ?_ ?_
      · apply TableHandle.SlotClear_hdr _ _ _ hc1
        · split <;> rfl
        · split <;> rfl
      · show t1'.buffer_pool_manager_.GetFrame t1'.table_id_ _ = some f
        rw [e1]
        exact hres
      · intro hp
        obtain ⟨k1, k2, k3⟩ := PageHandleUptr.WriteSlot_keeps_clear nph _ _ _ _ rid.SlotID
          hbase hbyte
          (BitMap.FindFirst nph.GetPage.data_ nph.base.bitmap_ t1'.tab_hdr_.rec_per_page_ 0
            false)
          record.GetNullMap record.GetData false (hP hp)
        rw [hw] at k1 k2 k3
        dsimp only at k1 k2 k3
        have hs : BitMap.FindFirst nph.GetPage.data_ nph.base.bitmap_
            t1'.tab_hdr_.rec_per_page_ 0 false ≠ rid.SlotID := by
          intro hs
          apply hno
          have hpg : hh.GetPage.pid_ = rid.PageID := by rw [k3, hpid, hp]
          cases rid
          simp only [RID.PageID, RID.SlotID] at hpg hs
          rw [hs]
          split <;> simp only [Page.GetPageId, Page.SetNextFreePageId, Page.SetRecordNum, hpg]
        have hP1 := SlotBitClear_SetBit _ _ _ _ true hs _ k1
        rw [k2]
        split
        · show SlotBitClear t1'.PAGE_HEADER_SIZE t1'.tab_hdr_.bitmap_size_ rid.SlotID _
          rw [e2, e3]
          exact SlotBitClear_SetNextFreePageId _ _ _ h16 _ _
            (SlotBitClear_SetRecordNum _ _ _ h16 _ _ hP1)
        · show SlotBitClear t1'.PAGE_HEADER_SIZE t1'.tab_hdr_.bitmap_size_ rid.SlotID _
          rw [e2, e3]
          exact SlotBitClear_SetRecordNum _ _ _ h16 _ _ hP1

theorem TableHandle.SlotClear_GetFirstRID_loop (rid : RID) :
    ∀ (n : Nat) (p : page_id_t) (t : TableHandle), t.SlotClear rid →
      ∀ res, TableHandle.GetFirstRID_loop n p t = some res → res.2.SlotClear rid := by
  intro n
  induction n with
  | zero =>
    intro p t h res hr
    unfold TableHandle.GetFirstRID_loop at hr
    split at hr
    · cases hr
    · cases hr
      exact h
  | succ n ih =>
    intro p t h res hr
    have h1 := TableHandle.SlotClear_fetch t rid p h
    unfold TableHandle.GetFirstRID_loop at hr
    split at hr
    · rcases TableHandle.FetchPageHandle_cases t p h.2.2.1 with
        ⟨e, he⟩ | ⟨f, ph, hf, he, hb⟩
      · rw [he] at hr
        cases hr
        exact h1
      · rw [he] at hr
        dsimp only at hr
        split at hr
        · cases hr
          exact TableHandle.SlotClear_unpin _ _ _ _ h1
        · exact ih _ _ (TableHandle.SlotClear_unpin _ _ _ _ h1) res hr
    · cases hr
      exact h

theorem TableHandle.SlotClear_GetNextRID_loop (rid : RID) :
    ∀ (n : Nat) (p : page_id_t) (s : Int) (t : TableHandle), t.SlotClear rid →
      ∀ res, TableHandle.GetNextRID_loop n p s t = some res → res.2.SlotClear rid := by
  intro n
  induction n with
  | zero =>
    intro p s t h res hr
    unfold TableHandle.GetNextRID_loop at hr
    split at hr
    · cases hr
    · cases hr
      exact h
  | succ n ih =>
    intro p s t h res hr
    have h1 := TableHandle.SlotClear_fetch t rid p h
    unfold TableHandle.GetNextRID_loop at hr
    split at hr
    · rcases TableHandle.FetchPageHandle_cases t p h.2.2.1 with
        ⟨e, he⟩ | ⟨f, ph, hf, he, hb⟩
      · rw [he] at hr
        cases hr
        exact h1
      · rw [he] at hr
        dsimp only at hr
        split at hr
        · exact ih _ _ _ (TableHandle.SlotClear_unpin _ _ _ _ h1) res hr
        · cases hr
          exact TableHandle.SlotClear_unpin _ _ _ _ h1
    · cases hr
      exact h

theorem TableHandle.SlotClear_FetchPageHandle (t : TableHandle) (rid : RID) (p : page_id_t)
    (h : t.SlotClear rid) : (t.FetchPageHandle p).2.SlotClear rid := by
  have h1 := TableHandle.SlotClear_fetch t rid p h
  rcases TableHandle.FetchPageHandle_cases t p h.2.2.1 with ⟨e, he⟩ | ⟨f, ph, hf, he, hb⟩
  · rw [he]
    exact h1
  · rw [he]
    exact h1

/-- A call that does not insert a record at `rid` keeps the slot of `rid` empty. -/
theorem TableHandle.SlotClear_run (t : TableHandle) (rid : RID) (op : TableOp)
    (h : t.SlotClear rid) (hno : op.insertsAt t rid = false) : (op.run t).SlotClear rid := by
  cases op with
  | GetRecord rid1 => exact TableHandle.SlotClear_GetRecord t rid rid1 h
  | GetChunk pid chunk_schema => exact TableHandle.SlotClear_GetChunk t rid pid chunk_schema h
  | InsertRecord record =>
    apply TableHandle.SlotClear_InsertRecord t rid record h
    simpa [TableOp.insertsAt] using hno
  | InsertRecordAt rid1 record =>
    apply TableHandle.SlotClear_InsertRecordAt t rid rid1 record h
    intro hok hrid
    subst hrid
    simp [TableOp.insertsAt, hok] at hno
  | DeleteRecord rid1 => exact TableHandle.SlotClear_DeleteRecord t rid rid1 h
  | UpdateRecord rid1 record => exact TableHandle.SlotClear_UpdateRecord t rid rid1 record h
  | GetFirstRID =>
    show (match t.GetFirstRID with
      | some res => res.2
      | none => t).SlotClear rid
    cases hr : t.GetFirstRID with
    | none => exact h
    | some res => exact TableHandle.SlotClear_GetFirstRID_loop rid _ _ t h res hr
  | GetNextRID rid1 =>
    show (match t.GetNextRID rid1 with
      | some res => res.2
      | none => t).SlotClear rid
    cases hr : t.GetNextRID rid1 with
    | none => exact h
    | some res => exact TableHandle.SlotClear_GetNextRID_loop rid _ _ _ t h res hr
  | FetchPageHandle page_id => exact TableHandle.SlotClear_FetchPageHandle t rid page_id h
  | CreatePageHandle =>
    show (t.CreatePageHandle).2.SlotClear rid
    unfold TableHandle.CreatePageHandle
    split
    · exact (TableHandle.SlotClear_CreateNewPageHandle t rid h).1
    · exact TableHandle.SlotClear_FetchPageHandle t rid _ h
  | CreateNewPageHandle => exact (TableHandle.SlotClear_CreateNewPageHandle t rid h).1

/-- A sequence of calls none of which inserts a record at `rid` keeps the slot of `rid`
empty. -/
theorem TableHandle.SlotClear_runOps (rid : RID) :
    ∀ (ops : List TableOp) (t : TableHandle), t.SlotClear rid →
      TableHandle.insertFree rid t ops = true → (t.runOps ops).SlotClear rid := by
  intro ops
  induction ops with
  | nil =>
    intro t h _
    exact h
  | cons op rest ih =>
    intro t h hfree
    unfold TableHandle.insertFree at hfree
    rw [Bool.and_eq_true, Bool.not_eq_true'] at hfree
    exact ih (op.run t) (TableHandle.SlotClear_run t rid op h hfree.1) hfree.2

/-- While the slot of `rid` is empty its bit is clear in the page, `GetRecord(rid)` returns
no record, and it raises `WSDB_PAGE_MISS` when the fetch of the page succeeds. -/
theorem TableHandle.SlotClear_GetRecord_fails (t : TableHandle) (rid : RID)
    (h : t.SlotClear rid) :
    t.slotOccupied rid = false ∧
    (∀ r, (t.GetRecord rid).1 ≠ .ok r) ∧
    (∀ f, (t.buffer_pool_manager_.FetchPage t.table_id_ rid.PageID).1 = .ok f →
      (t.GetRecord rid).1 = .error TableExn.WSDB_PAGE_MISS) := by
  have hmiss : ∀ f, (t.buffer_pool_manager_.FetchPage t.table_id_ rid.PageID).1 = .ok f →
      (t.GetRecord rid).1 = .error TableExn.WSDB_PAGE_MISS := by
    intro f hf
    rcases TableHandle.FetchPageHandle_cases t rid.PageID h.2.2.1 with
      ⟨e, he⟩ | ⟨f', ph, hf', he, hb⟩
    · have : (t.FetchPageHandle rid.PageID).1 = .error (.pool e) := by rw [he]
      unfold TableHandle.FetchPageHandle at this
      rcases hfp : t.buffer_pool_manager_.FetchPage t.table_id_ rid.PageID with ⟨r, b1⟩
      rw [hfp] at this hf
      cases hf
      dsimp only at this
      split at this <;> cases this
    · obtain ⟨_, _, rP⟩ := TableHandle.SlotClear_fetched t rid rid.PageID f' h hf'
      have hbit := PageHandleUptr.GetBit_base ph _ _ _ _ hb rid.SlotID
      rw [(rP rfl).2] at hbit
      unfold TableHandle.GetRecord
      rw [he]
      simp only [hbit, Bool.false_eq_true, not_false_eq_true, if_true]
  refine ⟨?_, ?_, hmiss⟩
  · unfold TableHandle.slotOccupied TableHandle.page
    cases hg : t.buffer_pool_manager_.GetFrame t.table_id_ rid.PageID with
    | none => exact h.2.1.1.2
    | some f => exact (h.2.1.2 f hg).2
  · intro r hr
    rcases TableHandle.FetchPageHandle_cases t rid.PageID h.2.2.1 with
      ⟨e, he⟩ | ⟨f', ph, hf', he, hb⟩
    · unfold TableHandle.GetRecord at hr
      rw [he] at hr
      cases hr
    · rw [hmiss f' hf'] at hr
      cases hr

/-- A page that has the bytes `B` on disk and in its frame satisfies every property of
`B`. -/
theorem holds_of_coherent (b : BufferPoolManager) (key : fid_pid_t) (B : List Nat)
    (P : List Nat → Prop) (h : b.coherent key B) (hP : P B) : b.holds key P :=
  ⟨h.1.symm ▸ hP, fun f hf => (h.2 f hf).symm ▸ hP⟩

/-- After `DeleteRecord` of an occupied slot, the slot of `rid` is empty in the table, on
disk and in the pool. -/
theorem TableHandle.DeleteRecord_SlotClear (t : TableHandle)
    (hwf : t.buffer_pool_manager_.WF)
    (hbm : BITMAP_SIZE t.tab_hdr_.rec_per_page_ = t.tab_hdr_.bitmap_size_)
    (h16 : 16 ≤ t.PAGE_HEADER_SIZE) (rid : RID) (f : frame_id_t)
    (hfetch : (t.buffer_pool_manager_.FetchPage t.table_id_ rid.PageID).1 = .ok f)
    (hslot : rid.SlotID < t.tab_hdr_.rec_per_page_)
    (hlen : t.PAGE_HEADER_SIZE + t.tab_hdr_.bitmap_size_ ≤ (t.page rid.PageID).data_.length)
    (hocc : t.slotOccupied rid = true) :
    (t.DeleteRecord rid).2.SlotClear rid := by
  obtain ⟨b1, hb1⟩ : ∃ b1, t.buffer_pool_manager_.FetchPage t.table_id_ rid.PageID =
      (.ok f, b1) := ⟨_, Prod.ext hfetch rfl⟩
  obtain ⟨ph, hph, hbase⟩ := TableHandle.FetchPageHandle_ok t rid.PageID f b1 hbm hb1
  have hbit := TableHandle.handle_bit t rid f b1 ph hwf hb1 hbase
  obtain ⟨hwf1, r1, r2, r3, r4⟩ := FetchPage_ok_page _ _ _ _ _ hwf hb1
  have hD : (t.page rid.PageID).data_ = (b1.frame f).page_.data_ := by
    rw [TableHandle.page_data, r3]
  have hP1 : SlotBitClear t.PAGE_HEADER_SIZE t.tab_hdr_.bitmap_size_ rid.SlotID
      (BitMap.SetBit (b1.frame f).page_.data_ t.PAGE_HEADER_SIZE rid.SlotID false) := by
    refine ⟨?_, BitMap.GetBit_SetBit_false _ _ _⟩
    rw [BitMap.SetBit_length, ← hD]
    exact hlen
  have key : ∀ (hdr : TableHeader) (page : Page),
      hdr.bitmap_size_ = t.tab_hdr_.bitmap_size_ →
      hdr.rec_per_page_ = t.tab_hdr_.rec_per_page_ →
      SlotBitClear t.PAGE_HEADER_SIZE t.tab_hdr_.bitmap_size_ rid.SlotID page.data_ →
      ((({ t with buffer_pool_manager_ := b1, tab_hdr_ := hdr } : TableHandle).storePage f
        page).unpin rid.PageID true).SlotClear rid := by
    intro hdr page e3 e4 hP
    obtain ⟨w1, w2, w3, w4⟩ := writePageData_frame b1 f page.data_ r2
    have hc := coherent_UnpinPage_dirty_self (b1.writePageData f page.data_) t.table_id_
      rid.PageID f (by unfold BufferPoolManager.GetFrame at r1 ⊢; rw [w3]; exact r1)
      (by rw [w4]; exact r2) (by rw [w2, r4]; exact Nat.succ_pos _)
    rw [w1] at hc
    unfold TableHandle.SlotClear
    rw [TableHandle.store_unpin_pool]
    refine ⟨WF_UnpinPage _ _ _ _ (WF_writePageData _ _ _ hwf1), ?_, ?_, h16, ?_⟩
    · show BufferPoolManager.holds _ ⟨t.table_id_, rid.PageID⟩
        (SlotBitClear t.PAGE_HEADER_SIZE hdr.bitmap_size_ rid.SlotID)
      rw [e3]
      exact holds_of_coherent _ _ _ _ hc hP
    · show BITMAP_SIZE hdr.rec_per_page_ = hdr.bitmap_size_
      rw [e3, e4]
      exact hbm
    · show rid.SlotID < hdr.rec_per_page_
      rw [e4]
      exact hslot
  unfold TableHandle.DeleteRecord
  simp only [hph, hbit, hocc, not_true_eq_false, if_false, PageHandleUptr.GetPage, hbase]
  by_cases hc : size_t_dec
      (Page.GetRecordNum { (b1.frame f).page_ with
        data_ := BitMap.SetBit (b1.frame f).page_.data_ t.PAGE_HEADER_SIZE rid.SlotID false })
      < t.tab_hdr_.rec_per_page_
  · simp only [hc, if_true]
    exact key _ _ rfl rfl (SlotBitClear_SetNextFreePageId _ _ _ h16 _ _
      (SlotBitClear_SetRecordNum _ _ _ h16 _ _ hP1))
  · simp only [hc, if_false]
    exact key _ _ rfl rfl (SlotBitClear_SetRecordNum _ _ _ h16 _ _ hP1)

/-- The page header of a table and its identity are not changed by a fetch. -/
theorem TableHandle.FetchPageHandle_hdr (t : TableHandle) (p : page_id_t) :
    (t.FetchPageHandle p).2.tab_hdr_ = t.tab_hdr_ := by
  unfold TableHandle.FetchPageHandle
  split
  · rfl
  · split <;> rfl

/-- The loop of `GetFirstRID` ends within the iterations that are left up to
`page_num_`. -/
theorem TableHandle.GetFirstRID_loop_isSome :
    ∀ (n : Nat) (p : page_id_t) (t : TableHandle),
      (to_page_id_t t.tab_hdr_.page_num_ - p).toNat ≤ n →
      (TableHandle.GetFirstRID_loop n p t).isSome = true := by
  intro n
  induction n with
  | zero =>
    intro p t hn
    unfold TableHandle.GetFirstRID_loop
    unfold page_id_t at *
    rw [if_neg (by omega)]
    rfl
  | succ n ih =>
    intro p t hn
    unfold TableHandle.GetFirstRID_loop
    split
    · have hh := TableHandle.FetchPageHandle_hdr t p
      rcases hfp : t.FetchPageHandle p with ⟨res, t1⟩
      rw [hfp] at hh
      cases res with
      | error e => rfl
      | ok fp =>
        dsimp only
        split
        · rfl
        · apply ih
          show (to_page_id_t t1.tab_hdr_.page_num_ - (p + 1)).toNat ≤ n
          dsimp only at hh
          rw [hh]
          unfold page_id_t at *
          omega
    · rfl

/-- The loop of `GetNextRID` ends within the iterations that are left up to
`page_num_`. -/
theorem TableHandle.GetNextRID_loop_isSome :
    ∀ (n : Nat) (p : page_id_t) (s : Int) (t : TableHandle),
      (to_page_id_t t.tab_hdr_.page_num_ - p).toNat ≤ n →
      (TableHandle.GetNextRID_loop n p s t).isSome = true := by
  intro n
  induction n with
  | zero =>
    intro p s t hn
    unfold TableHandle.GetNextRID_loop
    unfold page_id_t at *
    rw [if_neg (by omega)]
    rfl
  | succ n ih =>
    intro p s t hn
    unfold TableHandle.GetNextRID_loop
    split
    · have hh := TableHandle.FetchPageHandle_hdr t p
      rcases hfp : t.FetchPageHandle p with ⟨res, t1⟩
      rw [hfp] at hh
      cases res with
      | error e => rfl
      | ok fp =>
        dsimp only
        split
        · apply ih
          show (to_page_id_t t1.tab_hdr_.page_num_ - (p + 1)).toNat ≤ n
          dsimp only at hh
          rw [hh]
          unfold page_id_t at *
          omega
        · rfl
    · rfl

/-- The methods `GetFirstRID` and `GetNextRID` return: the iterations given to their loops
are enough. -/
theorem TableHandle.scan_calls_return (t : TableHandle) (rid : RID) :
    t.GetFirstRID.isSome = true ∧ (t.GetNextRID rid).isSome = true :=
  ⟨TableHandle.GetFirstRID_loop_isSome _ _ t (le_refl _),
    TableHandle.GetNextRID_loop_isSome _ _ _ t (le_refl _)⟩

/-- C30: let the pool be consistent, the bitmap size of the header the one the layout asks
for, the page header at least 16 bytes inside the page, and `FetchPage` of the page of
`rid` succeed. When the bit of the slot of `rid` is clear, `GetRecord(rid)` raises
`WSDB_PAGE_MISS` and leaves the page as it was; `GetRecord(rid)` returns a record only when
the bit is set. When the bit is set, `DeleteRecord(rid)` returns normally, the bit is clear
afterwards, and every `GetRecord(rid)` of a run of such calls that follows raises
`WSDB_PAGE_MISS`. When moreover the slot id is in range and the bitmap lies inside the
page, then after `DeleteRecord(rid)` and any sequence of calls of the methods of the table
(`GetRecord`, `GetChunk`, both `InsertRecord`, `DeleteRecord`, `UpdateRecord`,
`GetFirstRID`, `GetNextRID` and the three helpers that return a page handle, on any
arguments) in which no call inserts a record at `rid`,
the bit of the slot is still clear, `GetRecord(rid)` returns no record, and it raises
`WSDB_PAGE_MISS` whenever the fetch of the page succeeds. The storage model of the table is
arbitrary. -/
theorem GetRecord_fails_on_empty_slot (t : TableHandle) (hwf : t.buffer_pool_manager_.WF)
    (hbm : BITMAP_SIZE t.tab_hdr_.rec_per_page_ = t.tab_hdr_.bitmap_size_)
    (h16 : 16 ≤ t.PAGE_HEADER_SIZE) (rid : RID) (f : frame_id_t)
    (hfetch : (t.buffer_pool_manager_.FetchPage t.table_id_ rid.PageID).1 = .ok f)
    (hlen : t.PAGE_HEADER_SIZE ≤ (t.page rid.PageID).data_.length) :
    (t.slotOccupied rid = false →
      (t.GetRecord rid).1 = .error TableExn.WSDB_PAGE_MISS ∧
      t.sameAt (t.GetRecord rid).2 rid.PageID) ∧
    (∀ r, (t.GetRecord rid).1 = .ok r → t.slotOccupied rid = true) ∧
    (t.slotOccupied rid = true →
      (t.DeleteRecord rid).1 = .ok () ∧
      (t.DeleteRecord rid).2.slotOccupied rid = false ∧
      ∀ n, ((TableHandle.getRecordTimes (t.DeleteRecord rid).2 rid n).GetRecord rid).1 =
        .error TableExn.WSDB_PAGE_MISS) ∧
    (t.slotOccupied rid = true → rid.SlotID < t.tab_hdr_.rec_per_page_ →
      t.PAGE_HEADER_SIZE + t.tab_hdr_.bitmap_size_ ≤ (t.page rid.PageID).data_.length →
      ∀ ops : List TableOp, TableHandle.insertFree rid (t.DeleteRecord rid).2 ops = true →
        ((t.DeleteRecord rid).2.runOps ops).slotOccupied rid = false ∧
        (∀ r, (((t.DeleteRecord rid).2.runOps ops).GetRecord rid).1 ≠ .ok r) ∧
        (∀ g, (((t.DeleteRecord rid).2.runOps ops).buffer_pool_manager_.FetchPage
            ((t.DeleteRecord rid).2.runOps ops).table_id_ rid.PageID).1 = .ok g →
          (((t.DeleteRecord rid).2.runOps ops).GetRecord rid).1 =
            .error TableExn.WSDB_PAGE_MISS)) := by
  obtain ⟨b1, hb1⟩ : ∃ b1, t.buffer_pool_manager_.FetchPage t.table_id_ rid.PageID =
      (.ok f, b1) := ⟨_, Prod.ext hfetch rfl⟩
  refine ⟨?_, ?_, ?_, ?_⟩
  · intro hocc
    exact TableHandle.GetRecord_miss t hwf hbm rid f b1 hb1 hocc
  · intro r hr
    cases hocc : t.slotOccupied rid
    · rw [(TableHandle.GetRecord_miss t hwf hbm rid f b1 hb1 hocc).1] at hr
      cases hr
    · rfl
  · intro hocc
    obtain ⟨page1, page3, _, _, hok, _, hhdr, hwf', hres, htid, _⟩ :=
      TableHandle.DeleteRecord_ok_view t hwf hbm rid f b1 hb1 hocc
    have hclr := TableHandle.DeleteRecord_clears_bit t hwf hbm h16 rid f b1 hb1 hlen hocc
    have hbm' : BITMAP_SIZE (t.DeleteRecord rid).2.tab_hdr_.rec_per_page_ =
        (t.DeleteRecord rid).2.tab_hdr_.bitmap_size_ := by
      rw [hhdr]
      by_cases hc : size_t_dec page1.GetRecordNum < t.tab_hdr_.rec_per_page_
      · rw [if_pos hc]; exact hbm
      · rw [if_neg hc]; exact hbm
    rw [← htid] at hres
    exact ⟨hok, hclr, fun n =>
      TableHandle.getRecordTimes_miss (t.DeleteRecord rid).2 rid f n hwf' hbm' hres hclr⟩
  · intro hocc hslot hlen2 ops hfree
    exact TableHandle.SlotClear_GetRecord_fails _ rid
      (TableHandle.SlotClear_runOps rid ops _
        (TableHandle.DeleteRecord_SlotClear t hwf hbm h16 rid f hfetch hslot hlen2 hocc) hfree)

/-- An instance of C30: in `fullTable` slot 2 of page 1 is occupied; it is deleted and the
`GetRecord` calls that follow raise `WSDB_PAGE_MISS`, also after the calls of `laterCalls`
on other slots and pages. In `demoTable` slot 0 of page 1 is empty and `GetRecord` raises
`WSDB_PAGE_MISS`. -/
theorem GetRecord_fails_on_empty_slot_witness :
    ((fullTable.DeleteRecord ⟨1, 2⟩).1 = .ok () ∧
      (fullTable.DeleteRecord ⟨1, 2⟩).2.slotOccupied ⟨1, 2⟩ = false ∧
      ∀ n, ((TableHandle.getRecordTimes (fullTable.DeleteRecord ⟨1, 2⟩).2 ⟨1, 2⟩ n).GetRecord
        ⟨1, 2⟩).1 = .error TableExn.WSDB_PAGE_MISS) ∧
    (demoTable.GetRecord ⟨1, 0⟩).1 = .error TableExn.WSDB_PAGE_MISS ∧
    (((fullTable.DeleteRecord ⟨1, 2⟩).2.runOps laterCalls).slotOccupied ⟨1, 2⟩ = false ∧
      ∀ r, (((fullTable.DeleteRecord ⟨1, 2⟩).2.runOps laterCalls).GetRecord ⟨1, 2⟩).1 ≠
        .ok r) :=
  ⟨(GetRecord_fails_on_empty_slot fullTable (WF_new _ _ _ _ _) (by decide) (by decide) ⟨1, 2⟩
      0 (by decide) (by decide)).2.2.1 (by decide),
    ((GetRecord_fails_on_empty_slot demoTable (WF_new _ _ _ _ _) (by decide) (by decide)
      ⟨1, 0⟩ 0 (by decide) (by decide)).1 (by decide)).1,
    ((GetRecord_fails_on_empty_slot fullTable (WF_new _ _ _ _ _) (by decide) (by decide) ⟨1, 2⟩
      0 (by decide) (by decide)).2.2.2 (by decide) (by decide) (by decide) laterCalls
      (by decide)).1,
    ((GetRecord_fails_on_empty_slot fullTable (WF_new _ _ _ _ _) (by decide) (by decide) ⟨1, 2⟩
      0 (by decide) (by decide)).2.2.2 (by decide) (by decide) (by decide) laterCalls
      (by decide)).2.1⟩

end wsdb
